import Mathlib

/-!
# Chat backend: crypto codec, event subjects, streaming session, room repositories,
chat service

A shallow embedding of the parts of the chat backend that its specification
makes claims about, followed by the theorems that settle those claims.

* `utils/generateKeyEncript.go`: the crypto codec (`EncryptMessage`,
  `DecryptMessage`, PKCS7, the hex / base64 envelopes).
* `handlers/chat/v1/events.go`, `init_stream.go`: event subjects.
* `handlers/chat/v1/handler.go`: `StreamMessages`, `handleJetStreamMessage`,
  `subscribeAndConsume`.
* `repository/rooms/*`: `CreateRoom` and `GetRoom` of the relational and the
  wide-column repository; their message methods (`SaveMessage`, `GetMessage`,
  `MarkMessagesAsRead`, `ReactToMessage`, `DeleteMessage`, message history,
  `UpdateParticipantRoom`).
* `repository/rooms/room_cache.go`: the room cache (`GetCachedRoom`,
  `SetCachedRoom`, `UpdateRoomCacheWithNewMessage`, `DeleteRoomCacheByRoomID`).
* `repository/rooms/*`: `LeaveRoom`, `GetUsersByID`, `MuteRoom`,
  `IsPartnerMuted`, `CreateMessageMetaForParticipants`, and the wide-column
  `GetRoomList` and `GetRoomListDeleted`.
* `handlers/chat/v1/handler.go`, `helpers.go`: the unary handlers `CreateRoom`,
  `SendMessage` with its fan-out, `DeleteMessage`, `MarkMessagesAsRead`,
  `UpdateParticipantRoom`, `LeaveRoom`, `InitialSync`, and `publishChatEvent`,
  over any `RoomsRepository`.
-/

set_option autoImplicit false

namespace Chat

/-! ## Bytes, Go strings and call outcomes -/

/-- A byte (`byte` / `uint8`). -/
abbrev Byte := Fin 256

/-- A Go `string` or `[]byte`: a finite sequence of bytes. -/
abbrev GoString := List Byte

/-- The bytes of a text literal (one byte per character, ASCII). -/
def ascii (s : String) : GoString := s.toList.map (fun c => Fin.ofNat c.toNat)

/-- Result of a Go call that returns `(value, error)` or panics:
`ok v` is `(v, nil)`, `error e` is a non-nil error, `panic` a run-time panic. -/
inductive Outcome (α : Type) where
  | ok (v : α)
  | error (e : String)
  | panic
  deriving DecidableEq, Repr

namespace Outcome

/-- Sequencing: an error or a panic of the first call ends the function. -/
def bind {α β : Type} (x : Outcome α) (f : α → Outcome β) : Outcome β :=
  match x with
  | ok v => f v
  | error e => error e
  | panic => panic

/-- The call returned a non-nil error. -/
def isError {α : Type} : Outcome α → Bool
  | error _ => true
  | _ => false

/-- The call returned with a nil error. -/
def isOk {α : Type} : Outcome α → Bool
  | ok _ => true
  | _ => false

end Outcome

/-- Lift a library call that either yields a value or fails with error `e`. -/
def orError {α : Type} (e : String) : Option α → Outcome α
  | some v => .ok v
  | none => .error e

/-! ## `encoding/hex` -/

/-- The lower-case hex digit of a nibble (`hextable = "0123456789abcdef"`). -/
def hexDigit (n : Nat) : Byte :=
  if n < 10 then Fin.ofNat (48 + n) else Fin.ofNat (87 + n)

/-- The nibble of a hex digit; `hex.DecodeString` accepts both cases. -/
def fromHexChar (c : Byte) : Option Nat :=
  if 48 ≤ c.val ∧ c.val ≤ 57 then some (c.val - 48)
  else if 97 ≤ c.val ∧ c.val ≤ 102 then some (c.val - 87)
  else if 65 ≤ c.val ∧ c.val ≤ 70 then some (c.val - 55)
  else none

/-- The function `hex.EncodeToString`. -/
def hexEncode : List Byte → GoString
  | [] => []
  | b :: bs => hexDigit (b.val / 16) :: hexDigit (b.val % 16) :: hexEncode bs

/-- The function `hex.DecodeString`; `none` is `ErrLength` or `InvalidByteError`. -/
def hexDecode : GoString → Option (List Byte)
  | [] => some []
  | [_] => none
  | a :: b :: rest =>
    match fromHexChar a, fromHexChar b, hexDecode rest with
    | some hi, some lo, some bs => some (Fin.ofNat (hi * 16 + lo) :: bs)
    | _, _, _ => none

/-! ## `encoding/base64`, `StdEncoding` -/

/-- The alphabet of `base64.StdEncoding`: `A-Z a-z 0-9 + /`. -/
def b64Char (n : Nat) : Byte :=
  if n < 26 then Fin.ofNat (65 + n)
  else if n < 52 then Fin.ofNat (71 + n)
  else if n < 62 then Fin.ofNat (n - 4)
  else if n = 62 then 43
  else 47

/-- The decode map of `base64.StdEncoding`. -/
def b64Value (c : Byte) : Option Nat :=
  if 65 ≤ c.val ∧ c.val ≤ 90 then some (c.val - 65)
  else if 97 ≤ c.val ∧ c.val ≤ 122 then some (c.val - 71)
  else if 48 ≤ c.val ∧ c.val ≤ 57 then some (c.val + 4)
  else if c.val = 43 then some 62
  else if c.val = 47 then some 63
  else none

/-- The padding character `=`. -/
def b64Pad : Byte := 61

/-- The function `base64.StdEncoding.EncodeToString`. -/
def base64Encode : List Byte → GoString
  | [] => []
  | [a] => [b64Char (a.val / 4), b64Char (a.val % 4 * 16), b64Pad, b64Pad]
  | [a, b] =>
    [b64Char (a.val / 4), b64Char (a.val % 4 * 16 + b.val / 16),
     b64Char (b.val % 16 * 4), b64Pad]
  | a :: b :: c :: rest =>
    b64Char (a.val / 4) :: b64Char (a.val % 4 * 16 + b.val / 16) ::
      b64Char (b.val % 16 * 4 + c.val / 64) :: b64Char (c.val % 64) :: base64Encode rest

/-- The three bytes of the 24-bit value `s0<<18 | s1<<12 | s2<<6 | s3`. -/
def quantumBytes (s0 s1 s2 s3 : Nat) : List Byte :=
  let val := s0 * 262144 + s1 * 4096 + s2 * 64 + s3
  [Fin.ofNat (val / 65536), Fin.ofNat (val / 256), Fin.ofNat val]

/-- Decoding of the quanta of four characters once `\r` and `\n` are dropped:
padding is accepted in the last quantum only (`xx==` or `xxx=`), an incomplete
quantum is corrupt input, trailing bits are not checked (non-strict). -/
def decodeQuanta : GoString → Option (List Byte)
  | [] => some []
  | [a, b, c, d] =>
    match b64Value a, b64Value b with
    | some s0, some s1 =>
      if c = b64Pad then
        if d = b64Pad then some ((quantumBytes s0 s1 0 0).take 1) else none
      else
        match b64Value c with
        | none => none
        | some s2 =>
          if d = b64Pad then some ((quantumBytes s0 s1 s2 0).take 2)
          else
            match b64Value d with
            | none => none
            | some s3 => some (quantumBytes s0 s1 s2 s3)
    | _, _ => none
  | a :: b :: c :: d :: e :: rest =>
    match b64Value a, b64Value b, b64Value c, b64Value d, decodeQuanta (e :: rest) with
    | some s0, some s1, some s2, some s3, some bs => some (quantumBytes s0 s1 s2 s3 ++ bs)
    | _, _, _, _, _ => none
  | _ => none

/-- The function `base64.StdEncoding.DecodeString`: new-line characters are
ignored; `none` is `CorruptInputError`. -/
def base64Decode (s : GoString) : Option (List Byte) :=
  decodeQuanta (s.filter (fun c => c ≠ 10 ∧ c ≠ 13))

/-! ## The crypto codec (`utils/generateKeyEncript.go`) -/

/-- The function `toBase64`: hex-decode the message, base64-encode the bytes. -/
def toBase64 (message : GoString) : Outcome GoString :=
  match hexDecode message with
  | none => .error "encoding/hex: invalid input"
  | some decodedBytes => .ok (base64Encode decodedBytes)

/-- The function `fromBase64`: base64-decode the message, hex-encode the bytes. -/
def fromBase64 (message : GoString) : Outcome GoString :=
  match base64Decode message with
  | none => .error "illegal base64 data"
  | some decodedBytes => .ok (hexEncode decodedBytes)

/-- The function `pkcs7Padding`: append `padding` bytes of value `byte(padding)`,
where `padding = blockSize - len(data) % blockSize`. -/
def pkcs7Padding (data : List Byte) (blockSize : Nat) : List Byte :=
  let padding := blockSize - data.length % blockSize
  data ++ List.replicate padding (Fin.ofNat padding)

/-- The function `pkcs7Unpadding`: `data[:len(data)-int(data[len(data)-1])]`.
Indexing an empty slice panics, and so does a slice bound below zero; the
padding bytes themselves are not inspected. -/
def pkcs7Unpadding (data : List Byte) : Outcome (List Byte) :=
  match data.getLast? with
  | none => .panic
  | some last =>
    if last.val ≤ data.length then .ok (data.take (data.length - last.val))
    else .panic

/-- What the codec takes from outside the repository: the configured master key
and IV (`chat.key`, `chat.iv`, hex text), the AES block function of `crypto/aes`
under a key, and `json.Unmarshal` into a `map[string]string` read at `"key"` and
`"iv"` (`none` when unmarshalling fails). -/
structure CryptoEnv where
  masterKey : GoString
  masterIv : GoString
  encryptBlock : List Byte → List Byte → List Byte
  decryptBlock : List Byte → List Byte → List Byte
  jsonUnmarshal : List Byte → Option (GoString × GoString)

/-- The block function is a length-preserving permutation of the 16-byte
blocks, and decryption under a key inverts encryption under that key. -/
structure CryptoEnv.Lawful (env : CryptoEnv) : Prop where
  encrypt_length : ∀ key block, block.length = 16 → (env.encryptBlock key block).length = 16
  decrypt_encrypt : ∀ key block, block.length = 16 →
    env.decryptBlock key (env.encryptBlock key block) = block

/-- The call `aes.NewCipher` accepts keys of 16, 24 or 32 bytes. -/
def validKeySize (n : Nat) : Bool := n = 16 || n = 24 || n = 32

/-- Byte-wise exclusive or of two blocks. -/
def xorBytes (a b : List Byte) : List Byte :=
  List.zipWith (fun x y => Fin.ofNat (x.val ^^^ y.val)) a b

/-- The first `n` blocks of 16 bytes of `src`. -/
def splitBlocks : Nat → List Byte → List (List Byte)
  | 0, _ => []
  | n + 1, src => src.take 16 :: splitBlocks n (src.drop 16)

/-- CBC encryption of successive blocks, `prev` being the chaining value. -/
def cbcEncryptBlocks (E : List Byte → List Byte) : List Byte → List (List Byte) → List Byte
  | _, [] => []
  | prev, p :: ps =>
    let c := E (xorBytes p prev)
    c ++ cbcEncryptBlocks E c ps

/-- CBC decryption of successive blocks, `prev` being the chaining value. -/
def cbcDecryptBlocks (D : List Byte → List Byte) : List Byte → List (List Byte) → List Byte
  | _, [] => []
  | prev, c :: cs => xorBytes (D c) prev ++ cbcDecryptBlocks D c cs

/-- The calls `aes.NewCipher`, `cipher.NewCBCEncrypter` and `CryptBlocks` in a
row: a key of the wrong size is an error, an IV that is not one block long
panics, and so does input that is not a whole number of blocks. -/
def cbcEncrypt (env : CryptoEnv) (keyBytes ivBytes src : List Byte) : Outcome (List Byte) :=
  if validKeySize keyBytes.length then
    if ivBytes.length = 16 then
      if src.length % 16 = 0 then
        .ok (cbcEncryptBlocks (env.encryptBlock keyBytes) ivBytes
          (splitBlocks (src.length / 16) src))
      else .panic
    else .panic
  else .error "crypto/aes: invalid key size"

/-- The calls `aes.NewCipher`, `cipher.NewCBCDecrypter` and `CryptBlocks`. -/
def cbcDecrypt (env : CryptoEnv) (keyBytes ivBytes src : List Byte) : Outcome (List Byte) :=
  if validKeySize keyBytes.length then
    if ivBytes.length = 16 then
      if src.length % 16 = 0 then
        .ok (cbcDecryptBlocks (env.decryptBlock keyBytes) ivBytes
          (splitBlocks (src.length / 16) src))
      else .panic
    else .panic
  else .error "crypto/aes: invalid key size"

/-- The function `makePublicDecryptUtil`: unwrap a room's key material. The hex
text is decoded, decrypted under the master key and IV, unpadded and read as
JSON; the result is the pair at `"key"` and `"iv"`. -/
def makePublicDecryptUtil (env : CryptoEnv) (data : GoString) : Outcome (GoString × GoString) :=
  (orError "encoding/hex: invalid input" (hexDecode data)).bind fun paddedData =>
  (orError "encoding/hex: invalid input" (hexDecode env.masterKey)).bind fun keyBytes =>
  (orError "encoding/hex: invalid input" (hexDecode env.masterIv)).bind fun ivBytes =>
  (cbcDecrypt env keyBytes ivBytes paddedData).bind fun decrypted =>
  (pkcs7Unpadding decrypted).bind fun unpaddedData =>
  orError "json: cannot unmarshal" (env.jsonUnmarshal unpaddedData)

/-- The function `EncryptMessage`. -/
def EncryptMessage (env : CryptoEnv) (message encriptionData : GoString) : Outcome GoString :=
  (fromBase64 encriptionData).bind fun encriptionData =>
  (makePublicDecryptUtil env encriptionData).bind fun (key, iv) =>
  if message = [] then .error "message is empty"
  else
    let paddedData := pkcs7Padding message 16
    (orError "encoding/hex: invalid input" (hexDecode key)).bind fun keyBytes =>
    (orError "encoding/hex: invalid input" (hexDecode iv)).bind fun ivBytes =>
    (cbcEncrypt env keyBytes ivBytes paddedData).bind fun encrypted =>
    toBase64 (hexEncode encrypted)

/-- The function `DecryptMessage`. The two length checks return `"", err` with
the `err` of the preceding successful `hex.DecodeString`, which is nil: they
return the empty string and no error. -/
def DecryptMessage (env : CryptoEnv) (message encriptionData : GoString) : Outcome GoString :=
  (fromBase64 encriptionData).bind fun encriptionData =>
  (makePublicDecryptUtil env encriptionData).bind fun (key, iv) =>
  if message = [] then .error "message is empty"
  else
    (fromBase64 message).bind fun messageBase64 =>
    (orError "encoding/hex: invalid input" (hexDecode messageBase64)).bind fun encryptedBuffer =>
    if encryptedBuffer.length = 0 then .ok []
    else if encryptedBuffer.length % 16 ≠ 0 then .ok []
    else
      (orError "encoding/hex: invalid input" (hexDecode key)).bind fun keyBytes =>
      (orError "encoding/hex: invalid input" (hexDecode iv)).bind fun ivBytes =>
      (cbcDecrypt env keyBytes ivBytes encryptedBuffer).bind fun decrypted =>
      (pkcs7Unpadding decrypted).bind fun unpaddedData =>
      .ok unpaddedData

/-- The key and IV bytes a room's `encriptionData` unwraps to, when `fromBase64`
and `makePublicDecryptUtil` succeed on it and the key and IV they yield are hex
text of an AES key (16, 24 or 32 bytes) and of one block (16 bytes). -/
def roomKeyBytes (env : CryptoEnv) (encriptionData : GoString) : Option (List Byte × List Byte) :=
  match (fromBase64 encriptionData).bind (makePublicDecryptUtil env) with
  | .ok (key, iv) =>
    match hexDecode key, hexDecode iv with
    | some keyBytes, some ivBytes =>
      if validKeySize keyBytes.length && ivBytes.length = 16 then some (keyBytes, ivBytes)
      else none
    | _, _ => none
  | _ => none

/-- The room's `encriptionData` unwraps to a valid (key, iv) pair. -/
def unwrapsToValidPair (env : CryptoEnv) (encriptionData : GoString) : Bool :=
  (roomKeyBytes env encriptionData).isSome

/-! ### A concrete environment, used to evaluate the codec on inputs -/

/-- A stand-in block function for evaluation (the AES rounds are library code):
add the first key byte to every byte of the block. -/
def demoEncryptBlock (key block : List Byte) : List Byte := block.map (fun x => x + key.headD 0)

/-- Inverse of `demoEncryptBlock`. -/
def demoDecryptBlock (key block : List Byte) : List Byte := block.map (fun x => x - key.headD 0)

/-- Reader of the JSON object that `json.Marshal` writes for the key material,
`\x7b"iv":"<iv>","key":"<key>"\x7d`; yields the pair (key, iv). -/
def demoUnmarshal (bs : List Byte) : Option (GoString × GoString) :=
  let quote : Byte := 34
  if (123 :: ascii "\"iv\":\"").isPrefixOf bs then
    let r := bs.drop 7
    let iv := r.takeWhile (fun c => c ≠ quote)
    let r := r.dropWhile (fun c => c ≠ quote)
    if (ascii "\",\"key\":\"").isPrefixOf r then
      let r := r.drop 9
      let key := r.takeWhile (fun c => c ≠ quote)
      if r.dropWhile (fun c => c ≠ quote) = [quote, 125] then some (key, iv) else none
    else none
  else none

/-- An environment with a 16-byte master key and IV. -/
def demoEnv : CryptoEnv where
  masterKey := ascii "0f0e0d0c0b0a09080706050403020100"
  masterIv := ascii "f0e0d0c0b0a090807060504030201000"
  encryptBlock := demoEncryptBlock
  decryptBlock := demoDecryptBlock
  jsonUnmarshal := demoUnmarshal

/-- The key material of a room: a 16-byte key and a 16-byte IV, as hex text
inside the JSON object. -/
def demoKeyJson : List Byte :=
  123 :: ascii "\"iv\":\"0f0e0d0c0b0a09080706050403020100\",\"key\":\"ffeeddccbbaa99887766554433221100\"" ++ [125]

/-- The `encriptionData` of a room under `demoEnv`: the key material padded,
CBC-encrypted under the master key and IV, and base64-encoded, the way
`GenerateKeyEncript` stores it. -/
def demoEncriptionData : GoString :=
  base64Encode (cbcEncryptBlocks
    (demoEnv.encryptBlock ((hexDecode demoEnv.masterKey).getD []))
    ((hexDecode demoEnv.masterIv).getD []) (splitBlocks 6 (pkcs7Padding demoKeyJson 16)))

/-- The key bytes inside `demoEncriptionData`. -/
def demoRoomKey : List Byte :=
  [255, 238, 221, 204, 187, 170, 153, 136, 119, 102, 85, 68, 51, 34, 17, 0]

/-- The IV bytes inside `demoEncriptionData`. -/
def demoRoomIv : List Byte := [15, 14, 13, 12, 11, 10, 9, 8, 7, 6, 5, 4, 3, 2, 1, 0]

/-! ## Rooms and chat events (the fields of the generated `chatv1` messages in use) -/

/-- A `chatv1.RoomParticipant`. -/
structure RoomParticipant where
  id : Int
  name : String := ""
  phone : String := ""
  avatar : String := ""
  role : String := ""
  isPartnerBlocked : Bool := false
  isPartnerMuted : Bool := false
  deriving DecidableEq, Repr

/-- The enum `chatv1.MessageStatus`. -/
inductive MessageStatus where
  | UNSPECIFIED
  | SENT
  | DELIVERED
  | READ
  deriving DecidableEq, Repr

/-- A `chatv1.MessageData`, with the fields in use. Times are carried as text,
as in the generated message. -/
structure MessageData where
  id : String := ""
  roomId : String := ""
  senderId : Int := 0
  senderName : String := ""
  senderAvatar : String := ""
  content : String := ""
  type : String := ""
  status : MessageStatus := .UNSPECIFIED
  createdAt : String := ""
  updatedAt : String := ""
  edited : Bool := false
  isDeleted : Bool := false
  event : Option String := none
  deriving DecidableEq, Repr

/-- A `chatv1.Room`, the caller's view of a room (the unread counter is left
out). -/
structure Room where
  id : String
  type : String := ""
  name : String := ""
  description : String := ""
  photoUrl : String := ""
  encryptionData : String := ""
  joinAllUser : Bool := false
  sendMessage : Bool := false
  addMember : Bool := false
  editGroup : Bool := false
  role : String := ""
  isMuted : Bool := false
  isPinned : Bool := false
  isPartnerBlocked : Bool := false
  partner : Option RoomParticipant := none
  participants : List RoomParticipant := []
  lastMessage : Option MessageData := none
  lastMessageAt : String := ""
  deriving DecidableEq, Repr

/-- The `Event` oneof of a `chatv1.MessageEvent`; `unset` is the nil oneof.
User ids carried by events are `int32`. -/
inductive EventDetail where
  | RoomJoin (userId : Int) (joinedAt : String) (ownerUserId : Int)
  | RoomLeave (usersId : List Int)
  | IsRoomUpdated (value : Bool)
  | Message (messageId : String)
  | UpdateMessage (messageId : String)
  | DeleteMessage (messageId : String)
  | StatusUpdate (status : MessageStatus) (messageId : String) (userId : Int) (senderId : Int)
  | Connected (value : Bool)
  | unset
  deriving DecidableEq, Repr

/-- A `chatv1.MessageEvent`. -/
structure MessageEvent where
  eventId : String := ""
  roomId : String := ""
  room : Option Room := none
  event : EventDetail := .unset
  deriving DecidableEq, Repr

/-! ## Event subjects (`handlers/chat/v1/init_stream.go`, `events.go`) -/

/-- The constant `StreamChatEventsName`. -/
def StreamChatEventsName : String := "CHAT_EVENTS"

/-- The constant `StreamChatDirectEventsSubjectPrefix`. -/
def StreamChatDirectEventsSubjectPrefix : String := "CHAT_DIRECT_EVENTS"

/-- The function `strconv.Itoa`: the decimal text of an `int`. -/
def Itoa (n : Int) : String :=
  match n with
  | .ofNat m => Nat.repr m
  | .negSucc m => "-" ++ Nat.repr (m + 1)

/-- The function `chatRoomEventSubject`. -/
def chatRoomEventSubject (roomId : String) : String :=
  ".".intercalate [StreamChatEventsName, roomId]

/-- The function `chatDirectEventSubject`. -/
def chatDirectEventSubject (userId : Int) : String :=
  ".".intercalate [StreamChatDirectEventsSubjectPrefix, Itoa userId]

/-- The struct `ChatEvent`. -/
structure ChatEvent where
  roomID : String
  userID : Int
  event : MessageEvent
  deriving DecidableEq, Repr

/-- The method `ChatEvent.Subject`. -/
def ChatEvent.Subject (e : ChatEvent) : String :=
  match e.event.event with
  | .RoomJoin userId _ _ => chatDirectEventSubject userId
  | _ => chatRoomEventSubject e.roomID

/-! ## The streaming session (`handlers/chat/v1/handler.go`) -/

/-- The conversion `int32(x)` of an `int`: wrap-around into the 32-bit range. -/
def toInt32 (x : Int) : Int := (x + 2147483648) % 4294967296 - 2147483648

/-- The value fits an `int32`. -/
def isInt32 (x : Int) : Prop := -2147483648 ≤ x ∧ x < 2147483648

instance (x : Int) : Decidable (isInt32 x) := by unfold isInt32; infer_instance

/-- The `jetstream.ConsumerConfig` that `subscribeAndConsume` builds; the ack
policy (explicit) and the deliver policy (new) are the same for every consumer. -/
structure ConsumerConfig where
  stream : String
  durable : String
  filterSubject : String
  deriving DecidableEq, Repr

/-- A `jetstream.ConsumeContext`: the running consumption started by one call of
`Consume`; `serial` numbers the calls of the session. -/
structure ConsumeContext where
  serial : Nat
  config : ConsumerConfig
  deriving DecidableEq, Repr

/-- What the broker answers to one `subscribeAndConsume`. -/
inductive BrokerAnswer where
  | createFails
  | consumeFails
  | ok
  deriving DecidableEq, Repr

/-- The session's client: `generalParams.ClientId` and the session's `UserID`. -/
structure Client where
  clientId : String
  userId : Int
  deriving DecidableEq, Repr

/-- The collaborators of a session. `getRoomList` and `getRoom` are the
repository (`getRoom n` answers the `n`-th fetch of the session), `broker n`
answers the `n`-th `subscribeAndConsume` of the session. -/
structure SessionEnv where
  getRoomList : Int → Except String (List Room)
  getRoom : Nat → Int → String → Except String (Option Room)
  broker : Nat → ConsumerConfig → BrokerAnswer

/-- The map `roomsConsumers`, as an association list without repeated keys. -/
abbrev ConsumerMap := List (String × ConsumeContext)

/-- The index expression `m[key]` with its `ok` flag. -/
def ConsumerMap.get (m : ConsumerMap) (key : String) : Option ConsumeContext :=
  List.lookup key m

/-- The statement `delete(m, key)`. -/
def ConsumerMap.delete (m : ConsumerMap) (key : String) : ConsumerMap :=
  m.filter (fun kv => kv.1 ≠ key)

/-- The assignment `m[key] = value`. -/
def ConsumerMap.set (m : ConsumerMap) (key : String) (value : ConsumeContext) : ConsumerMap :=
  (key, value) :: m.delete key

/-- The consume contexts held by the map. -/
def ConsumerMap.values (m : ConsumerMap) : List ConsumeContext := m.map (fun kv => kv.2)

/-- What a session has done so far. -/
structure SessionState where
  /-- the local map `roomsConsumers` of `StreamMessages` -/
  roomsConsumers : ConsumerMap := []
  /-- consumers created on the broker by `CreateOrUpdateConsumer`, in order -/
  created : List ConsumerConfig := []
  /-- consume contexts started by `Consume`, in order -/
  started : List ConsumeContext := []
  /-- consume contexts on which `Stop` was called, in order -/
  stopped : List ConsumeContext := []
  /-- events passed to `sm.Send`, in order -/
  sent : List MessageEvent := []
  /-- how many `subscribeAndConsume` calls were made -/
  subscribeCalls : Nat := 0
  /-- how many `GetRoom` calls were made -/
  fetches : Nat := 0
  /-- whether the stream is registered with the stream manager -/
  registered : Bool := false
  deriving DecidableEq, Repr

/-- The envelope `eventPayload` after `json.Unmarshal`; `event` is the result of
`proto.Unmarshal` on its payload (`none` when that fails). -/
structure EventPayload where
  userId : Int
  event : Option MessageEvent
  deriving DecidableEq, Repr

/-- A `jetstream.Msg`: its subject and what `json.Unmarshal` makes of its data
(`none` when that fails). -/
structure Msg where
  subject : String
  data : Option EventPayload
  deriving DecidableEq, Repr

/-- The durable name `fmt.Sprintf("client-%s-room-%s", clientID, roomID)`. -/
def roomDurableName (clientID roomID : String) : String :=
  "client-" ++ clientID ++ "-room-" ++ roomID

/-- The key `fmt.Sprintf("client-%s-direct", clientID)`. -/
def directConsumerKey (clientID : String) : String := "client-" ++ clientID ++ "-direct"

/-- The method `subscribeAndConsume`: create or update the durable consumer,
then start consuming; either step can fail, and then no consume context is
returned. -/
def subscribeAndConsume (env : SessionEnv) (s : SessionState)
    (streamName filterSubject durableName : String) : SessionState × Option ConsumeContext :=
  let consumerConfig : ConsumerConfig :=
    { stream := streamName, durable := durableName, filterSubject := filterSubject }
  let n := s.subscribeCalls
  let s := { s with subscribeCalls := n + 1 }
  match env.broker n consumerConfig with
  | .createFails => (s, none)
  | .consumeFails => ({ s with created := s.created ++ [consumerConfig] }, none)
  | .ok =>
    let consumeCtx : ConsumeContext := { serial := n, config := consumerConfig }
    ({ s with created := s.created ++ [consumerConfig], started := s.started ++ [consumeCtx] },
      some consumeCtx)

/-- The closure `sendEvent`: hand the event to the stream manager. -/
def sendEvent (s : SessionState) (event : MessageEvent) : SessionState :=
  { s with sent := s.sent ++ [event] }

/-- The method `handleJetStreamMessage`. -/
def handleJetStreamMessage (env : SessionEnv) (client : Client) (s : SessionState)
    (msg : Msg) : SessionState :=
  match msg.data with
  | none => s
  | some data =>
    match data.event with
    | none => s
    | some event =>
      let dispatchUserId := data.userId
      let roomID := event.roomId
      let natsSubject := chatRoomEventSubject roomID
      if roomID = "" then s
      else
        match event.event with
        | .RoomJoin joiner _ _ =>
          let fetched := env.getRoom s.fetches client.userId roomID
          let s := { s with fetches := s.fetches + 1 }
          match fetched with
          | .error _ => s
          | .ok room =>
            let event := { event with room := room }
            let s :=
              if joiner = toInt32 client.userId ∨ data.userId = client.userId then
                let durableName := roomDurableName client.clientId roomID
                match s.roomsConsumers.get roomID with
                | some _ => s
                | none =>
                  match subscribeAndConsume env s StreamChatEventsName natsSubject durableName with
                  | (s, none) => s
                  | (s, some roomConsumer) =>
                    { s with roomsConsumers := s.roomsConsumers.set roomID roomConsumer }
              else s
            sendEvent s event
        | .IsRoomUpdated _ =>
          let fetched := env.getRoom s.fetches client.userId roomID
          let s := { s with fetches := s.fetches + 1 }
          match fetched with
          | .error _ => s
          | .ok room => sendEvent s { event with room := room }
        | .StatusUpdate status _ _ _ =>
          if status = .SENT then
            if dispatchUserId = client.userId then sendEvent s event else s
          else sendEvent s event
        | .RoomLeave usersId =>
          let s := sendEvent s event
          if toInt32 client.userId ∈ usersId then
            match s.roomsConsumers.get roomID with
            | some consumer =>
              { s with stopped := s.stopped ++ [consumer],
                       roomsConsumers := s.roomsConsumers.delete roomID }
            | none => s
          else s
        | _ => sendEvent s event

/-- A `chatv1.StreamMessagesRequest` with what the request resolves to:
`client` is `none` when the general parameters or the session cannot be read. -/
structure StreamMessagesRequest where
  client : Option Client
  roomId : String
  deriving DecidableEq, Repr

/-- The loop of `StreamMessages` over `allowedRoomsIds`: one consumer per room,
stopping at the first subscription that fails. The flag tells whether every
subscription succeeded. -/
def subscribeRooms (env : SessionEnv) (client : Client) :
    SessionState → List String → SessionState × Bool
  | s, [] => (s, true)
  | s, roomID :: rest =>
    let subject := chatRoomEventSubject roomID
    match subscribeAndConsume env s StreamChatEventsName subject
        (roomDurableName client.clientId roomID) with
    | (s, none) => (s, false)
    | (s, some roomConsumer) =>
      subscribeRooms env client { s with roomsConsumers := s.roomsConsumers.set roomID roomConsumer }
        rest

/-- The deferred closure of `StreamMessages`: stop every consumer of the map. -/
def stopAll (s : SessionState) : SessionState :=
  { s with stopped := s.stopped ++ s.roomsConsumers.values }

/-- The deferred `h.sm.Unregister`. -/
def unregister (s : SessionState) : SessionState := { s with registered := false }

/-- The event `Connected` that opens the stream and serves as heartbeat. -/
def connectedEvent : MessageEvent := { event := .Connected true }

/-- The part of `StreamMessages` that runs before the stream is active: the
session is registered, the allowed rooms are loaded, the direct consumer and the
room consumers are created, and the first `Connected` is sent. The result is
the state reached and the error, if one ends the call here. The deferred calls
are not run yet. -/
def streamSetup (env : SessionEnv) (req : StreamMessagesRequest) :
    SessionState × Option String :=
  let s : SessionState := {}
  match req.client with
  | none => (s, some "unauthorized")
  | some client =>
    let clientID := client.clientId
    if clientID = "" then (s, some "client_id_needed")
    else
      let s := { s with registered := true }
      let specificRoomID := req.roomId
      match env.getRoomList client.userId with
      | .error _ => (s, some "no se pudieron obtener las salas del usuario")
      | .ok allowedRooms =>
        let allowedRoomsIds := allowedRooms.map (fun room => room.id)
        match subscribeAndConsume env s StreamChatEventsName
            (chatDirectEventSubject client.userId) (directConsumerKey clientID) with
        | (s, none) => (s, some "failed to subscribe to direct events")
        | (s, some directConsumer) =>
          let s := { s with
            roomsConsumers := s.roomsConsumers.set (directConsumerKey clientID) directConsumer }
          if specificRoomID ≠ "" ∧ specificRoomID ∈ allowedRoomsIds then
            let subject := chatRoomEventSubject specificRoomID
            match subscribeAndConsume env s StreamChatEventsName subject
                (roomDurableName clientID specificRoomID) with
            | (s, none) => (s, some "failed to subscribe to room events")
            | (s, some roomConsumer) =>
              let s :=
                { s with roomsConsumers := s.roomsConsumers.set specificRoomID roomConsumer }
              (sendEvent s connectedEvent, none)
          else
            match subscribeRooms env client s allowedRoomsIds with
            | (s, false) => (s, some "failed to subscribe to room events")
            | (s, true) => (sendEvent s connectedEvent, none)

/-- What reaches an active session until its context is cancelled: a broker
message for one of its consumers, or a tick of the 15-second heartbeat. -/
inductive SessionInput where
  | message (msg : Msg)
  | tick
  deriving DecidableEq, Repr

/-- One step of an active session. -/
def sessionStep (env : SessionEnv) (client : Client) (s : SessionState) :
    SessionInput → SessionState
  | .message msg => handleJetStreamMessage env client s msg
  | .tick => sendEvent s connectedEvent

/-- The method `StreamMessages`, from the request to its return: set-up, the
inputs that arrive until the context is cancelled, then the deferred calls (stop
every consumer of the map, unregister). A set-up error returns at once and the
deferred calls run; they are registered once the session is registered (before
that nothing is deferred), and stopping the consumers of a still empty map
changes nothing. -/
def StreamMessages (env : SessionEnv) (req : StreamMessagesRequest)
    (inputs : List SessionInput) : SessionState × Option String :=
  match req.client with
  | none => streamSetup env req
  | some client =>
    if client.clientId = "" then streamSetup env req
    else
      match streamSetup env req with
      | (s, some err) => (unregister (stopAll s), some err)
      | (s, none) => (unregister (stopAll (inputs.foldl (sessionStep env client) s)), none)

/-- The consumer configuration of the per-room consumer of `roomID`. -/
def roomConsumerConfig (clientID roomID : String) : ConsumerConfig :=
  { stream := "CHAT_EVENTS",
    durable := "client-" ++ clientID ++ "-room-" ++ roomID,
    filterSubject := "CHAT_EVENTS." ++ roomID }

/-- The consumer configuration of the direct consumer of a client. -/
def directConsumerConfig (client : Client) : ConsumerConfig :=
  { stream := "CHAT_EVENTS",
    durable := "client-" ++ client.clientId ++ "-direct",
    filterSubject := "CHAT_DIRECT_EVENTS." ++ Itoa client.userId }

/-- Every consume context the session started is stopped or still recorded in
the consumer map, and the map has no repeated key. -/
def SessionState.Recorded (s : SessionState) : Prop :=
  (s.roomsConsumers.map (fun kv => kv.1)).Nodup ∧
  ∀ ctx ∈ s.started, ctx ∈ s.stopped ∨ ctx ∈ s.roomsConsumers.values

/-- The rooms a session subscribes to at its start: the requested room when it
is named and allowed, every allowed room otherwise. -/
def sessionTargets (roomId : String) (allowedRoomsIds : List String) : List String :=
  if roomId ≠ "" ∧ roomId ∈ allowedRoomsIds then [roomId] else allowedRoomsIds

/-- How set-up ends once the room subscriptions were attempted. -/
def setupRoomsResult (r : SessionState × Bool) : SessionState × Option String :=
  match r with
  | (s, false) => (s, some "failed to subscribe to room events")
  | (s, true) => (sendEvent s connectedEvent, none)

/-- How set-up goes on once the direct subscription was attempted, `targets`
being the rooms to subscribe to. -/
def setupAfterDirect (env : SessionEnv) (client : Client) (targets : List String)
    (r : SessionState × Option ConsumeContext) : SessionState × Option String :=
  match r with
  | (s, none) => (s, some "failed to subscribe to direct events")
  | (s, some directConsumer) =>
    setupRoomsResult (subscribeRooms env client
      { s with roomsConsumers :=
          s.roomsConsumers.set (directConsumerKey client.clientId) directConsumer } targets)

/-! ### Concrete collaborators, used to evaluate the session on inputs -/

/-- A repository that knows the rooms `r1` and `r2` for every user, and a broker
that accepts every subscription. -/
def demoSessionEnv : SessionEnv where
  getRoomList := fun _ => .ok [{ id := "r1" }, { id := "r2" }]
  getRoom := fun _ _ roomId => .ok (some { id := roomId })
  broker := fun _ _ => .ok

/-- Like `demoSessionEnv`, with a repository whose room fetch fails and a
broker that refuses every consumer. -/
def failingSessionEnv : SessionEnv where
  getRoomList := fun _ => .ok [{ id := "r1" }, { id := "r2" }]
  getRoom := fun _ _ _ => .error "connection refused"
  broker := fun _ _ => .createFails

/-- The client `c1` of user 7. -/
def demoClient : Client := { clientId := "c1", userId := 7 }

/-- A broker message on `subject` whose envelope decodes to the dispatcher's id
and whose payload decodes to `event`. -/
def decodedMsg (subject : String) (dispatchUserId : Int) (event : MessageEvent) : Msg :=
  { subject := subject, data := some { userId := dispatchUserId, event := some event } }

/-- A status update of message `m1` in room `r1`. -/
def demoStatusUpdate (status : MessageStatus) : MessageEvent :=
  { roomId := "r1", event := .StatusUpdate status "m1" 9 9 }

/-- A `RoomLeave` event of room `roomId` naming the users `usersId`. -/
def demoRoomLeave (roomId : String) (usersId : List Int) : MessageEvent :=
  { roomId := roomId, event := .RoomLeave usersId }

/-- A `RoomJoin` event of room `roomId` for the joining user `userId`. -/
def demoRoomJoin (roomId : String) (userId : Int) : MessageEvent :=
  { roomId := roomId, event := .RoomJoin userId "2025-01-01T00:00:00Z" 3 }

/-- Like `demoSessionEnv`, with a repository that lists the room `r1` twice. -/
def duplicateRoomsEnv : SessionEnv where
  getRoomList := fun _ => .ok [{ id := "r1" }, { id := "r1" }]
  getRoom := fun _ _ roomId => .ok (some { id := roomId })
  broker := fun _ _ => .ok

/-- The request of `demoClient` for all its rooms. -/
def demoRequest : StreamMessagesRequest := { client := some demoClient, roomId := "" }

/-- The request of `demoClient` for the room `r2` alone. -/
def demoRequestRoom : StreamMessagesRequest := { client := some demoClient, roomId := "r2" }

/-- A few inputs of an active session: the user joins `r3`, leaves `r1`, and the
heartbeat ticks. -/
def demoInputs : List SessionInput :=
  [.message (decodedMsg "CHAT_DIRECT_EVENTS.7" 3 (demoRoomJoin "r3" 7)),
   .message (decodedMsg "CHAT_EVENTS.r1" 7 (demoRoomLeave "r1" [7])),
   .tick]

/-- The state of `demoClient`'s session once it is active, all rooms subscribed. -/
def demoActiveState : SessionState := (streamSetup demoSessionEnv demoRequest).1

/-! ## The room repositories (`repository/rooms`)

The database is a store that executes every statement it is sent: driver and
network errors are outside the model. What a call draws from outside the
repository (the generated room id, the generated key material, the clock) is an
argument of the call. -/

/-- The struct `User` (`repository/rooms/room.go`), with the columns in use. -/
structure User where
  id : Int
  name : String := ""
  phone : String := ""
  avatar : Option String := none
  deriving DecidableEq, Repr

/-- A `chatv1.CreateRoomRequest`. Participants are `int32` user ids. -/
structure CreateRoomRequest where
  type : String
  participants : List Int
  name : Option String := none
  photoUrl : Option String := none
  description : Option String := none
  sendMessage : Option Bool := none
  addMember : Option Bool := none
  editGroup : Option Bool := none
  deriving DecidableEq, Repr

/-- A `chatv1.SendMessageRequest`, with the fields in use; a mention is a user
id and a tag. -/
structure SendMessageRequest where
  roomId : String
  content : String := ""
  type : String := ""
  senderMessageId : Option String := none
  mentions : List (Int × String) := []
  event : Option String := none
  deriving DecidableEq, Repr

/-- The function `sortUserIDs` (`repository/rooms/helpers.go`). -/
def sortUserIDs (id1 id2 : Int) : Int × Int :=
  if id1 < id2 then (id1, id2) else (id2, id1)

/-! ### The room cache (`room_cache.go`)

The package `cache` is a key-value store with string values and sets of
strings under one key space. A cached room is kept as the room it decodes to
(the JSON envelope is not modelled), and entries do not expire. -/

/-- What the cache holds under a key: the value written by `cache.Set`, here the
cached room, or the set built by `cache.SAdd`. -/
inductive CacheEntry where
  | room (data : Room)
  | members (keys : List String)
  deriving DecidableEq, Repr

/-- The cache: keys with their entries, a key at most once. -/
abbrev RoomCache := List (String × CacheEntry)

/-- The call `cache.Get`: the value under the key; a missing key and a key that
holds a set are errors. -/
def RoomCache.Get (cache : RoomCache) (key : String) : Option Room :=
  match List.lookup key cache with
  | some (.room data) => some data
  | _ => none

/-- The call `cache.Set`: the value replaces whatever the key holds. -/
def RoomCache.Set (cache : RoomCache) (key : String) (data : Room) : RoomCache :=
  (key, .room data) :: cache.filter (fun kv => kv.1 ≠ key)

/-- The call `cache.SMembers`: the members of the set under the key, none for a
missing key; a key that holds a value is an error (`none`). -/
def RoomCache.SMembers (cache : RoomCache) (key : String) : Option (List String) :=
  match List.lookup key cache with
  | some (.members keys) => some keys
  | some (.room _) => none
  | none => some []

/-- The call `cache.SAdd`: the member joins the set under the key, which is
created when the key is missing; on a key that holds a value the call fails and
the cache is as it was. -/
def RoomCache.SAdd (cache : RoomCache) (key : String) (member : String) : RoomCache :=
  match List.lookup key cache with
  | some (.members keys) =>
    if member ∈ keys then cache
    else (key, .members (keys ++ [member])) :: cache.filter (fun kv => kv.1 ≠ key)
  | some (.room _) => cache
  | none => (key, .members [member]) :: cache

/-- The call `cache.Del`: the listed keys are removed with what they hold. -/
def RoomCache.Del (cache : RoomCache) (keys : List String) : RoomCache :=
  cache.filter (fun kv => kv.1 ∉ keys)

/-- The key of the members set of a room,
`fmt.Sprintf("endpoint:chat:room:\x7b%s\x7d:members", roomId)`. -/
def roomMembersKey (roomId : String) : String :=
  "endpoint:chat:room:\x7b" ++ roomId ++ "\x7d:members"

/-- The function `GetCachedRoom`. -/
def GetCachedRoom (cache : RoomCache) (cacheKey : String) : Option Room :=
  RoomCache.Get cache cacheKey

/-- The function `SetCachedRoom`: the room is written under the key, and the key
is added to the members set of the room id (the result of `SAdd` is not
looked at). -/
def SetCachedRoom (cache : RoomCache) (roomId : String) (cacheKey : String) (data : Room) :
    RoomCache :=
  let cache := RoomCache.Set cache cacheKey data
  let setKey := roomMembersKey roomId
  RoomCache.SAdd cache setKey cacheKey

/-- The function `UpdateRoomCacheWithNewMessage`: every key of the members set of
the room of the message that still holds a cached room gets the message as its
last message and is written again. A nil message is `none`. -/
def UpdateRoomCacheWithNewMessage (cache : RoomCache) (message : Option MessageData) :
    RoomCache :=
  match message with
  | none => cache
  | some message =>
    if message.roomId = "" then cache
    else
      let setKey := roomMembersKey message.roomId
      match RoomCache.SMembers cache setKey with
      | none => cache
      | some cacheKeys =>
        cacheKeys.foldl (fun cache key =>
          match GetCachedRoom cache key with
          | some cachedRoom =>
            let cachedRoom :=
              { cachedRoom with lastMessage := some message, lastMessageAt := message.createdAt }
            SetCachedRoom cache message.roomId key cachedRoom
          | none => cache) cache

/-- The function `DeleteRoomCacheByRoomID`: the keys of the members set of the
room are deleted, then the set; when the set cannot be read nothing is
deleted. -/
def DeleteRoomCacheByRoomID (cache : RoomCache) (roomId : String) : RoomCache :=
  let setKey := roomMembersKey roomId
  match RoomCache.SMembers cache setKey with
  | none => cache
  | some keys =>
    let cache := if keys.length > 0 then RoomCache.Del cache keys else cache
    RoomCache.Del cache [setKey]

/-- The cache key of `GetRoom`. -/
def roomCacheKey (roomId : String) (userId : Int) (allData : Bool) : String :=
  if allData then "endpoint:chat:room:\x7b" ++ roomId ++ "\x7d:user:" ++ Itoa userId
  else "endpoint:chat:room:\x7b" ++ roomId ++ "\x7d:shim:user:" ++ Itoa userId

/-! ### The wide-column repository (`room_scylladb_impl.go`) -/

/-- A `gocql.UUID`, a 128-bit value. -/
abbrev UUID := Nat

/-- A row of `room_details` (primary key `room_id`). -/
structure RoomDetailsRow where
  roomId : UUID
  name : Option String
  description : Option String
  image : Option String
  type : String
  encryptionData : String
  joinAllUser : Bool
  sendMessage : Option Bool
  addMember : Option Bool
  editGroup : Option Bool
  deriving DecidableEq, Repr

/-- A row of `participants_by_room` (primary key `room_id`, `user_id`). -/
structure ParticipantRow where
  roomId : UUID
  userId : Int
  role : String
  joinedAt : Nat
  isMuted : Bool
  deriving DecidableEq, Repr

/-- A row of `rooms_by_user` (primary key `user_id`, `is_pinned`,
`last_message_at`, `room_id`), without the last-message snapshot. -/
structure RoomsByUserRow where
  userId : Int
  isPinned : Bool
  lastMessageAt : Nat
  roomId : UUID
  roomName : Option String
  roomImage : Option String
  roomType : String
  role : String
  isMuted : Bool := false
  deriving DecidableEq, Repr

/-- A row of `room_membership_lookup` (primary key `user_id`, `room_id`). -/
structure MembershipLookupRow where
  userId : Int
  roomId : UUID
  isPinned : Bool
  lastMessageAt : Nat
  deriving DecidableEq, Repr

/-- A row of `p2p_room_by_users` (primary key `user1_id`, `user2_id`). -/
structure P2PRoomRow where
  user1Id : Int
  user2Id : Int
  roomId : UUID
  deriving DecidableEq, Repr

/-- A row of `deleted_rooms_by_user`. -/
structure DeletedRoomRow where
  userId : Int
  deletedAt : Nat
  roomId : UUID
  reason : String
  deriving DecidableEq, Repr

/-- A row of `room_counters_by_user` (primary key `user_id`, `room_id`). -/
structure CounterRow where
  userId : Int
  roomId : UUID
  unreadCount : Int
  deriving DecidableEq, Repr

/-- A row of `messages_by_room` (primary key `room_id`, `message_id`); the id is
a time UUID, and ids are compared as the store compares them. -/
structure MessageRow where
  roomId : UUID
  messageId : UUID
  senderId : Int
  content : String
  contentDecrypted : String := ""
  type : String
  createdAt : Nat
  senderMessageId : Option String := none
  edited : Bool := false
  isDeleted : Bool := false
  deriving DecidableEq, Repr

/-- A row of `room_by_message` (primary key `message_id`). -/
structure RoomByMessageRow where
  messageId : UUID
  roomId : UUID
  deriving DecidableEq, Repr

/-- A row of `message_by_sender_message_id` (primary key `sender_message_id`). -/
structure SenderMessageRow where
  senderMessageId : String
  roomId : UUID
  messageId : UUID
  deriving DecidableEq, Repr

/-- A row of `message_status_by_user` (primary key `user_id`, `room_id`,
`message_id`). -/
structure MessageStatusRow where
  userId : Int
  roomId : UUID
  messageId : UUID
  status : MessageStatus
  deriving DecidableEq, Repr

/-- A row of `read_receipts_by_message` (primary key `message_id`, `user_id`). -/
structure ReadReceiptRow where
  messageId : UUID
  userId : Int
  readAt : Nat
  deriving DecidableEq, Repr

/-- A row of `reactions_by_message` (primary key `message_id`, `user_id`). -/
structure ReactionRow where
  messageId : UUID
  userId : Int
  reaction : String
  createdAt : Nat
  deriving DecidableEq, Repr

/-- The wide-column store with its room cache. -/
structure ScyllaDb where
  roomDetails : List RoomDetailsRow := []
  participantsByRoom : List ParticipantRow := []
  roomsByUser : List RoomsByUserRow := []
  roomMembershipLookup : List MembershipLookupRow := []
  p2pRoomByUsers : List P2PRoomRow := []
  roomCountersByUser : List CounterRow := []
  deletedRoomsByUser : List DeletedRoomRow := []
  messagesByRoom : List MessageRow := []
  roomByMessage : List RoomByMessageRow := []
  messageBySenderMessageId : List SenderMessageRow := []
  messageStatusByUser : List MessageStatusRow := []
  readReceiptsByMessage : List ReadReceiptRow := []
  reactionsByMessage : List ReactionRow := []
  cache : RoomCache := []
  deriving DecidableEq, Repr

/-- A counter update `SET unread_count = unread_count + delta` on the row of
(user, room): the row is created at `delta` when it does not exist. -/
def ScyllaDb.addUnreadCount (counters : List CounterRow) (userId : Int) (roomId : UUID)
    (delta : Int) : List CounterRow :=
  if counters.any (fun row => row.userId = userId ∧ row.roomId = roomId) then
    counters.map fun row =>
      if row.userId = userId ∧ row.roomId = roomId then
        { row with unreadCount := row.unreadCount + delta }
      else row
  else counters ++ [{ userId := userId, roomId := roomId, unreadCount := delta }]

/-- What the wide-column repository takes from outside: `gocql.ParseUUID`, the
method `UUID.String`, the user fetcher (the relational user table; `none` is the
nil user of `GetUserByID`), the text of a time in the layout `time.RFC3339`, the
parse of a text in the layout `time.RFC3339Nano`, `gocql.MaxTimeUUID`, and the
text functions of the room search: `strings.ToLower`, `removeAccents` (its
result, and whether it is without error) and `strings.Contains`. -/
structure ScyllaEnv where
  parseUUID : String → Option UUID
  uuidString : UUID → String
  getUsersByID : List Int → List User
  getUserByID : Int → Option User
  formatRFC3339 : Nat → String
  parseRFC3339Nano : String → Option Nat
  maxTimeUUID : Nat → UUID
  toLower : String → String
  removeAccents : String → String × Bool
  contains : String → String → Bool

/-- The method `ScyllaRoomRepository.GetRoomParticipants` (the participants; the
pagination meta is left out). `limit = 0` means no `LIMIT`. -/
def ScyllaRoomRepository.GetRoomParticipants (env : ScyllaEnv) (db : ScyllaDb)
    (id : String) (limit : Nat) : Outcome (List RoomParticipant) :=
  match env.parseUUID id with
  | none => .error "ID de sala inválido"
  | some roomUUID =>
    let rows := db.participantsByRoom.filter (fun row => row.roomId = roomUUID)
    let rows := if limit > 0 then rows.take limit else rows
    let userIDs := rows.map (fun row => row.userId)
    let users := env.getUsersByID userIDs
    .ok (userIDs.filterMap fun id =>
      -- `participantMap[id]` holds the last row scanned for the id
      match (rows.reverse.find? (fun row => row.userId = id)) with
      | none => none
      | some row =>
        -- `userMapFromService[u.ID] = u` keeps the last user listed for the id
        match users.reverse.find? (fun u => u.id = id) with
        | some user =>
          some { id := toInt32 id, role := row.role, name := user.name, phone := user.phone,
                 avatar := user.avatar.getD "" }
        | none => some { id := toInt32 id, role := row.role })

/-- The method `ScyllaRoomRepository.GetRoom`. A missing membership row is
tolerated (`err == gocql.ErrNotFound` skips the membership block), and the room
is returned all the same. -/
def ScyllaRoomRepository.GetRoom (env : ScyllaEnv) (db : ScyllaDb) (userId : Int)
    (roomId : String) (allData useCache : Bool) : ScyllaDb × Outcome (Option Room) :=
  let cacheKey := roomCacheKey roomId userId allData
  match (if useCache then GetCachedRoom db.cache cacheKey else none) with
  | some dataCached => (db, .ok (some dataCached))
  | none =>
    match env.parseUUID roomId with
    | none => (db, .error "ID de sala inválido")
    | some roomUUID =>
      match db.roomDetails.find? (fun row => row.roomId = roomUUID) with
      | none => (db, .ok none)
      | some details =>
        let room : Room :=
          { id := roomId, name := details.name.getD "", description := details.description.getD "",
            photoUrl := details.image.getD "", type := details.type,
            encryptionData := details.encryptionData, joinAllUser := details.joinAllUser,
            sendMessage := details.sendMessage.getD false,
            addMember := details.addMember.getD false,
            editGroup := details.editGroup.getD false }
        let room :=
          match db.roomMembershipLookup.find? (fun row =>
              row.userId = userId ∧ row.roomId = roomUUID) with
          | some lookup =>
            match db.roomsByUser.find? (fun row =>
                row.userId = userId ∧ row.isPinned = lookup.isPinned ∧
                row.lastMessageAt = lookup.lastMessageAt ∧ row.roomId = roomUUID) with
            | some row =>
              { room with role := row.role, isMuted := row.isMuted, isPinned := lookup.isPinned }
            | none => { room with isPinned := lookup.isPinned }
          | none => room
        let withParticipants : Outcome Room :=
          if allData then
            (ScyllaRoomRepository.GetRoomParticipants env db roomId 0).bind fun participants =>
              if room.type = "p2p" then
                match participants.find? (fun p => p.id ≠ userId) with
                | some p =>
                  let partnerMuted :=
                    match db.participantsByRoom.find? (fun row =>
                        row.roomId = roomUUID ∧ row.userId = p.id) with
                    | some row => row.isMuted
                    | none => false
                  .ok { room with partner := some { p with isPartnerMuted := partnerMuted } }
                | none => .ok room
              else .ok { room with participants := participants }
          else .ok room
        match withParticipants with
        | .ok room =>
          if useCache then
            ({ db with cache := SetCachedRoom db.cache roomId cacheKey room }, .ok (some room))
          else (db, .ok (some room))
        | .error e => (db, .error e)
        | .panic => (db, .panic)

/-- The writes of `ScyllaRoomRepository.CreateRoom`: the logged batch (room
details, one row per participant in `participants_by_room`, `rooms_by_user` and
`room_membership_lookup`, the pair's row of `p2p_room_by_users` for a p2p room)
and the counter initialisations. An `INSERT` replaces the row of the same key. -/
def ScyllaRoomRepository.createRoomWrites (db : ScyllaDb) (roomID : UUID) (now : Nat)
    (encryptionData : String) (userId : Int) (req : CreateRoomRequest)
    (participantsSet : List Int) (p2pRows : List P2PRoomRow) : ScyllaDb :=
  let sendMessage := if req.type = "p2p" then some true else req.sendMessage
  let addMember := if req.type = "p2p" then some false else req.addMember
  let editGroup := if req.type = "p2p" then some false else req.editGroup
  let joinAllUser := false
  let role := fun (participantID : Int) => if participantID = userId then "OWNER" else "MEMBER"
  { db with
    roomDetails :=
      { roomId := roomID, name := req.name, description := req.description,
        image := req.photoUrl, type := req.type, encryptionData := encryptionData,
        joinAllUser := joinAllUser, sendMessage := sendMessage, addMember := addMember,
        editGroup := editGroup } ::
        db.roomDetails.filter (fun row => row.roomId ≠ roomID),
    participantsByRoom :=
      participantsSet.map (fun p =>
        { roomId := roomID, userId := p, role := role p, joinedAt := now, isMuted := false })
      ++ db.participantsByRoom.filter (fun row =>
        ¬ (row.roomId = roomID ∧ row.userId ∈ participantsSet)),
    roomsByUser :=
      participantsSet.map (fun p =>
        { userId := p, isPinned := false, lastMessageAt := now, roomId := roomID,
          roomName := req.name, roomImage := req.photoUrl, roomType := req.type,
          role := role p })
      ++ db.roomsByUser.filter (fun row =>
        ¬ (row.userId ∈ participantsSet ∧ row.isPinned = false ∧
           row.lastMessageAt = now ∧ row.roomId = roomID)),
    roomMembershipLookup :=
      participantsSet.map (fun p =>
        { userId := p, roomId := roomID, isPinned := false, lastMessageAt := now })
      ++ db.roomMembershipLookup.filter (fun row =>
        ¬ (row.userId ∈ participantsSet ∧ row.roomId = roomID)),
    p2pRoomByUsers :=
      p2pRows ++ db.p2pRoomByUsers.filter (fun row =>
        ¬ p2pRows.any (fun new => row.user1Id = new.user1Id ∧ row.user2Id = new.user2Id)),
    roomCountersByUser :=
      participantsSet.foldl (fun counters p => ScyllaDb.addUnreadCount counters p roomID 0)
        db.roomCountersByUser }

/-- The method `ScyllaRoomRepository.CreateRoom`. `roomID` is the result of
`gocql.MustRandomUUID`, `now` the clock, `encryptionData` the result of
`utils.GenerateKeyEncript`. -/
def ScyllaRoomRepository.CreateRoom (env : ScyllaEnv) (db : ScyllaDb) (roomID : UUID)
    (now : Nat) (encryptionData : String) (userId : Int) (req : CreateRoomRequest) :
    ScyllaDb × Outcome (Option Room) :=
  let existing : Option P2PRoomRow :=
    match req.participants with
    | first :: _ =>
      if req.type = "p2p" then
        db.p2pRoomByUsers.find? (fun row =>
          row.user1Id = (sortUserIDs userId first).1 ∧ row.user2Id = (sortUserIDs userId first).2)
      else none
    | [] => none
  match existing with
  | some row => ScyllaRoomRepository.GetRoom env db userId (env.uuidString row.roomId) true false
  | none =>
    -- the participants set: the request's participants and the creator
    let participantsSet := (req.participants ++ [toInt32 userId]).eraseDups
    -- the row for `p2p_room_by_users`; indexing `req.Participants[0]` of an empty list panics
    let p2pRows : Option (List P2PRoomRow) :=
      if req.type = "p2p" then
        match req.participants with
        | [] => none
        | first :: _ =>
          some [{ user1Id := (sortUserIDs userId first).1, user2Id := (sortUserIDs userId first).2,
                  roomId := roomID }]
      else some []
    match p2pRows with
    | none => (db, .panic)
    | some p2pRows =>
      ScyllaRoomRepository.GetRoom env
        (ScyllaRoomRepository.createRoomWrites db roomID now encryptionData userId req
          participantsSet p2pRows)
        userId (env.uuidString roomID) true false

/-- The per-user part of `LeaveRoom` and of `DeleteRoom`: drop the user's inbox
row at the coordinates the lookup gives (when it has a row), the lookup row and
the counter, and note the room as lost by the user. -/
def ScyllaDb.dropMembership (db : ScyllaDb) (roomUUID : UUID) (now : Nat) (reason : String)
    (pID : Int) : ScyllaDb :=
  let lookup := db.roomMembershipLookup.find? (fun row => row.userId = pID ∧ row.roomId = roomUUID)
  { db with
    roomsByUser :=
      match lookup with
      | some l =>
        db.roomsByUser.filter (fun row =>
          ¬ (row.userId = pID ∧ row.isPinned = l.isPinned ∧
             row.lastMessageAt = l.lastMessageAt ∧ row.roomId = roomUUID))
      | none => db.roomsByUser,
    roomMembershipLookup :=
      db.roomMembershipLookup.filter (fun row => ¬ (row.userId = pID ∧ row.roomId = roomUUID)),
    deletedRoomsByUser :=
      { userId := pID, deletedAt := now, roomId := roomUUID, reason := reason } ::
        db.deletedRoomsByUser,
    roomCountersByUser :=
      db.roomCountersByUser.filter (fun row => ¬ (row.userId = pID ∧ row.roomId = roomUUID)) }

/-- The method `ScyllaRoomRepository.LeaveRoom`. The table `p2p_room_by_users`
is not touched. -/
def ScyllaRoomRepository.LeaveRoom (env : ScyllaEnv) (db : ScyllaDb) (now : Nat)
    (roomId : String) (participants : List Int) : ScyllaDb × Outcome (List User) :=
  match env.parseUUID roomId with
  | none => (db, .error "ID de sala inválido")
  | some roomUUID =>
    let users := env.getUsersByID participants
    let db := participants.foldl (fun db pID => db.dropMembership roomUUID now "removed" pID) db
    let db :=
      { db with
        participantsByRoom := db.participantsByRoom.filter (fun row =>
          ¬ (row.roomId = roomUUID ∧ row.userId ∈ participants)),
        cache := DeleteRoomCacheByRoomID db.cache roomId }
    (db, .ok users)

/-- The method `ScyllaRoomRepository.DeleteRoom` (the message history of the
room, which it also deletes, is not part of the model). The table
`p2p_room_by_users` is not touched. -/
def ScyllaRoomRepository.DeleteRoom (env : ScyllaEnv) (db : ScyllaDb) (now : Nat)
    (roomId : String) : ScyllaDb × Outcome Unit :=
  match env.parseUUID roomId with
  | none => (db, .error "invalid UUID")
  | some roomUUID =>
    match ScyllaRoomRepository.GetRoomParticipants env db roomId 0 with
    | .error e => (db, .error e)
    | .panic => (db, .panic)
    | .ok participants =>
      let db := participants.foldl
        (fun db p => db.dropMembership roomUUID now "deleted" p.id) db
      let db :=
        { db with
          participantsByRoom := db.participantsByRoom.filter (fun row => row.roomId ≠ roomUUID),
          roomDetails := db.roomDetails.filter (fun row => row.roomId ≠ roomUUID),
          cache := DeleteRoomCacheByRoomID db.cache roomId }
      (db, .ok ())

/-! ### The relational repository (`room_postgres_impl.go`) -/

/-- A row of `public."user"`; `removed` is `removed_at IS NOT NULL`, `deleted` is
`deleted_at IS NOT NULL`. -/
structure SqlUserRow where
  id : Int
  name : Option String := none
  phone : Option String := none
  avatar : Option String := none
  removed : Bool := false
  deleted : Bool := false
  deriving DecidableEq, Repr

/-- A row of `room`; `deleted` is `deleted_at IS NOT NULL`. -/
structure SqlRoomRow where
  id : String
  type : String
  name : Option String := none
  image : Option String := none
  description : Option String := none
  encriptionData : Option String := none
  joinAllUser : Option Bool := none
  sendMessage : Bool := false
  addMember : Bool := false
  editGroup : Bool := false
  deleted : Bool := false
  deriving DecidableEq, Repr

/-- A row of `room_member`; `removed` is `removed_at IS NOT NULL`, `deleted` is
`deleted_at IS NOT NULL`. -/
structure SqlRoomMemberRow where
  roomId : String
  userId : Int
  role : Option String := none
  isMuted : Option Bool := none
  isPinned : Option Bool := none
  isPartnerBlocked : Option Bool := none
  removed : Bool := false
  deleted : Bool := false
  deriving DecidableEq, Repr

/-- A row of `room_message`; `deleted` is `deleted_at IS NOT NULL`, `isDeleted`
the column `"isDeleted"`. -/
structure SqlMessageRow where
  id : String
  roomId : String
  senderId : Int
  content : String := ""
  status : MessageStatus := .SENT
  createdAt : Nat := 0
  updatedAt : Nat := 0
  type : String := ""
  edited : Bool := false
  isDeleted : Bool := false
  deleted : Bool := false
  senderMessageId : Option String := none
  event : Option String := none
  deriving DecidableEq, Repr

/-- A row of `room_message_meta`, the overlay of a user on a message; `readAt`
is the column `read_at`. -/
structure SqlMessageMetaRow where
  messageId : String
  userId : Int
  readAt : Option Nat := none
  isDeleted : Bool := false
  isSenderBlocked : Bool := false
  deriving DecidableEq, Repr

/-- A row of `room_message_reaction`; `deleted` is `deleted_at IS NOT NULL`. -/
structure SqlReactionRow where
  id : String
  messageId : String
  reactedById : Int
  reaction : String
  deleted : Bool := false
  deriving DecidableEq, Repr

/-- The relational store with its room cache and its cache of
`GetMessageSimple`. -/
structure SqlDb where
  user : List SqlUserRow := []
  room : List SqlRoomRow := []
  roomMember : List SqlRoomMemberRow := []
  roomMessage : List SqlMessageRow := []
  roomMessageMeta : List SqlMessageMetaRow := []
  roomMessageReaction : List SqlReactionRow := []
  cache : RoomCache := []
  messageSimpleCache : List (String × MessageData) := []
  deriving DecidableEq, Repr

/-- The function `utils.FormatRoom`. -/
def FormatRoom (room : Room) : Room :=
  let room :=
    match room.partner with
    | some partner =>
      if room.type = "p2p" then { room with photoUrl := partner.avatar, name := partner.name }
      else room
    | none => room
  match room.lastMessage with
  | some lastMessage => { room with lastMessageAt := lastMessage.createdAt }
  | none => room

/-- The membership row is active: `removed_at IS NULL AND deleted_at IS NULL`. -/
def SqlRoomMemberRow.active (m : SqlRoomMemberRow) : Bool := !m.removed && !m.deleted

/-- The rows of the probe of `SQLRoomRepository.CreateRoom` for an existing p2p
room: `room` joined with the active membership `pm` of the participant, its user
`partner`, the active membership `mm` of the caller and its user `me`, for rooms
of type p2p that are not deleted. -/
def SQLRoomRepository.p2pProbe (db : SqlDb) (userId participant : Int) :
    List (SqlRoomRow × SqlRoomMemberRow × SqlUserRow × SqlRoomMemberRow × SqlUserRow) :=
  db.room.flatMap fun room =>
  (db.roomMember.filter fun pm =>
    room.id = pm.roomId ∧ pm.userId = participant ∧ pm.active).flatMap fun pm =>
  (db.user.filter fun partner => pm.userId = partner.id).flatMap fun partner =>
  (db.roomMember.filter fun mm =>
    room.id = mm.roomId ∧ mm.userId = userId ∧ mm.active).flatMap fun mm =>
  (db.user.filter fun me => mm.userId = me.id).flatMap fun me =>
  if room.type = "p2p" ∧ room.deleted = false then [(room, pm, partner, mm, me)] else []

/-- The method `SQLRoomRepository.CreateRoom` (the participants preview of a new
group is left out). `newId` is the id the insert returns, `encryptionData` the
result of `utils.GenerateKeyEncript`. An insert of members without any row is
refused by the query builder, and the transaction is rolled back. -/
def SQLRoomRepository.CreateRoom (db : SqlDb) (newId : String) (encryptionData : String)
    (userId : Int) (room : CreateRoomRequest) : SqlDb × Outcome Room :=
  let probe : Outcome (Option Room) :=
    if room.type = "p2p" then
      match room.participants with
      | [] => .panic
      | first :: _ =>
        match SQLRoomRepository.p2pProbe db userId first with
        | (r, _, partner, mm, _) :: _ =>
          .ok (some (FormatRoom
            { id := r.id, type := r.type, photoUrl := r.image.getD "", name := r.name.getD "",
              description := r.description.getD "", encryptionData := r.encriptionData.getD "",
              joinAllUser := r.joinAllUser.getD false, sendMessage := r.sendMessage,
              addMember := r.addMember, editGroup := r.editGroup, role := mm.role.getD "",
              partner := some { id := partner.id, name := partner.name.getD "",
                                phone := partner.phone.getD "",
                                avatar := partner.avatar.getD "" } }))
        | [] => .ok none
    else .ok none
  match probe with
  | .panic => (db, .panic)
  | .error e => (db, .error e)
  | .ok (some item) => (db, .ok item)
  | .ok none =>
    let p2p := room.type = "p2p"
    let sendMessage := if p2p then true else room.sendMessage.getD true
    let addMember := if p2p then false else room.addMember.getD false
    let editGroup := if p2p then false else room.editGroup.getD false
    let name := room.name.getD ""
    let photoUrl := room.photoUrl.getD ""
    let description := room.description.getD ""
    let roomRow : SqlRoomRow :=
      { id := newId, type := room.type, name := some name, image := some photoUrl,
        description := some description, encriptionData := some encryptionData,
        joinAllUser := some false, sendMessage := sendMessage, addMember := addMember,
        editGroup := editGroup }
    let newRoom : Room :=
      { id := newId, name := name, photoUrl := photoUrl, description := description,
        joinAllUser := false, sendMessage := sendMessage, addMember := addMember,
        editGroup := editGroup, encryptionData := encryptionData, type := room.type,
        role := "OWNER" }
    let owner : SqlRoomMemberRow := { roomId := newId, userId := userId, role := some "OWNER" }
    let members : List SqlRoomMemberRow :=
      (room.participants.filter fun participant => participant ≠ toInt32 userId).map
        fun participant => { roomId := newId, userId := participant, role := some "MEMBER" }
    if members = [] then
      (db, .error "insert statements must have at least one set of values or select clause")
    else
      let db := { db with room := db.room ++ [roomRow],
                          roomMember := db.roomMember ++ [owner] ++ members }
      let newRoom :=
        if newRoom.type = "p2p" then
          match room.participants with
          | [] => .panic
          | first :: _ =>
            match db.user.find? (fun partner => partner.id = first) with
            | some partner =>
              .ok { newRoom with
                partner := some { id := partner.id, name := partner.name.getD "",
                                  phone := partner.phone.getD "",
                                  avatar := partner.avatar.getD "" } }
            | none => .ok newRoom
        else .ok newRoom
      (db, newRoom)

/-- The rows of the query of `SQLRoomRepository.GetRoom`: the caller's active
membership `mm` joined with its room and its user `me`, left-joined with the
active membership `pm` of another user when the room is p2p and with that
user, for the room asked for when it is not deleted. -/
def SQLRoomRepository.getRoomRows (db : SqlDb) (userId : Int) (roomId : String) :
    List (SqlRoomMemberRow × SqlRoomRow × Option (SqlRoomMemberRow × Option SqlUserRow)) :=
  db.roomMember.flatMap fun mm =>
  (db.room.filter fun room => room.id = mm.roomId ∧ mm.userId = userId ∧ mm.active).flatMap
    fun room =>
  (db.user.filter fun me => mm.userId = me.id).flatMap fun _ =>
  let pms := db.roomMember.filter fun pm =>
    room.id = pm.roomId ∧ pm.userId ≠ userId ∧ room.type = "p2p" ∧ pm.active
  let joined : List (Option (SqlRoomMemberRow × Option SqlUserRow)) :=
    if pms = [] then [none]
    else pms.flatMap fun pm =>
      let partners := db.user.filter fun partner => pm.userId = partner.id
      if partners = [] then [some (pm, none)]
      else partners.map fun partner => some (pm, some partner)
  joined.flatMap fun j =>
  if room.deleted = false ∧ room.id = roomId then [(mm, room, j)] else []

/-- The method `SQLRoomRepository.GetRoom` (the joins for the last message and
the unread count, and the participants preview of a group, are left out: the
view computed from the tables has no last message). The cache is consulted and
filled whatever the `cache` argument. -/
def SQLRoomRepository.GetRoom (db : SqlDb) (userId : Int) (roomId : String)
    (allData _cache : Bool) : SqlDb × Outcome (Option Room) :=
  let cacheKey := roomCacheKey roomId userId allData
  match GetCachedRoom db.cache cacheKey with
  | some dataCached => (db, .ok (some dataCached))
  | none =>
    match SQLRoomRepository.getRoomRows db userId roomId with
    | (mm, r, j) :: _ =>
      let item : Room :=
        { id := r.id, type := r.type, photoUrl := r.image.getD "", name := r.name.getD "",
          description := r.description.getD "", encryptionData := r.encriptionData.getD "",
          joinAllUser := r.joinAllUser.getD false, sendMessage := r.sendMessage,
          addMember := r.addMember, editGroup := r.editGroup, role := mm.role.getD "",
          isPinned := mm.isPinned.getD false, isMuted := mm.isMuted.getD false,
          isPartnerBlocked := mm.isPartnerBlocked.getD false,
          partner :=
            match j with
            | some (pm, some partner) =>
              some { id := partner.id, name := partner.name.getD "",
                     phone := partner.phone.getD "", avatar := partner.avatar.getD "",
                     isPartnerBlocked := pm.isPartnerBlocked.getD false,
                     isPartnerMuted := pm.isMuted.getD false }
            | _ => none }
      let item := FormatRoom item
      ({ db with cache := SetCachedRoom db.cache roomId cacheKey item }, .ok (some item))
    | [] => (db, .ok none)

/-- The method `SQLRoomRepository.DeleteRoom`: mark the room deleted when it is a
p2p room, and remove every member of it. -/
def SQLRoomRepository.DeleteRoom (db : SqlDb) (roomId : String) : SqlDb :=
  { db with
    room := db.room.map fun r =>
      if r.id = roomId ∧ r.type = "p2p" ∧ r.deleted = false then { r with deleted := true }
      else r,
    roomMember := db.roomMember.map fun m =>
      if m.roomId = roomId ∧ m.removed = false then { m with removed := true } else m,
    cache := DeleteRoomCacheByRoomID db.cache roomId }

/-- The user has an active membership in the room. -/
def SqlDb.activeMember (db : SqlDb) (userId : Int) (roomId : String) : Bool :=
  db.roomMember.any fun m => m.roomId = roomId ∧ m.userId = userId ∧ m.active

/-- The room exists and is not deleted. -/
def SqlDb.liveRoom (db : SqlDb) (roomId : String) : Bool :=
  db.room.any fun r => r.id = roomId ∧ r.deleted = false

/-- The user has a membership row for the room in the wide-column store. -/
def ScyllaDb.member (db : ScyllaDb) (userId : Int) (roomUUID : UUID) : Bool :=
  db.roomMembershipLookup.any fun row => row.userId = userId ∧ row.roomId = roomUUID

/-! ### Concrete stores, used to evaluate the repositories on inputs -/

/-- Room ids are written `room-<n>` (the UUIDs 0 to 9) and message ids `msg-<n>`
(the UUIDs 10 to 19); the users 3, 7 and 9 exist. Times are written `t<n>`, and
the message id that a time `n` bounds is `msg-<n>`. -/
def demoScyllaEnv : ScyllaEnv where
  parseUUID := fun s =>
    match s.data with
    | ['r', 'o', 'o', 'm', '-', d] => if d.isDigit then some (d.toNat - 48) else none
    | ['m', 's', 'g', '-', d] => if d.isDigit then some (d.toNat - 48 + 10) else none
    | _ => none
  uuidString := fun n => if n < 10 then "room-" ++ Nat.repr n else "msg-" ++ Nat.repr (n - 10)
  getUsersByID := fun ids =>
    ([{ id := 3, name := "Ana" }, { id := 7, name := "Bo" }, { id := 9, name := "Cy" }] :
      List User).filter (fun u => u.id ∈ ids)
  getUserByID := fun id =>
    ([{ id := 3, name := "Ana" }, { id := 7, name := "Bo" }, { id := 9, name := "Cy" }] :
      List User).find? (fun u => u.id = id)
  formatRFC3339 := fun t => "t" ++ Nat.repr t
  parseRFC3339Nano := fun s =>
    match s.data with
    | ['t', d] => if d.isDigit then some (d.toNat - 48) else none
    | _ => none
  maxTimeUUID := fun t => t + 10
  toLower := fun s => s.toLower
  removeAccents := fun s => (s, true)
  contains := fun s substr => s.data.tails.any fun t => substr.data.isPrefixOf t

/-- The request of a p2p room with user 7. -/
def demoP2PRequest : CreateRoomRequest := { type := "p2p", participants := [7] }

/-- The wide-column store after user 3 created a p2p room with user 7. -/
def scyllaAfterCreate : ScyllaDb :=
  (ScyllaRoomRepository.CreateRoom demoScyllaEnv {} 1 100 "key-1" 3 demoP2PRequest).1

/-- The wide-column store after both users then left the room and the room was
deleted, the way the `LeaveRoom` handler does for a p2p room. -/
def scyllaAfterDelete : ScyllaDb :=
  (ScyllaRoomRepository.DeleteRoom demoScyllaEnv
    (ScyllaRoomRepository.LeaveRoom demoScyllaEnv scyllaAfterCreate 200 "room-1" [3, 7]).1
    201 "room-1").1

/-- A relational store with the users 3, 7 and 9 and no room. -/
def demoSqlDb : SqlDb :=
  { user := [{ id := 3, name := some "Ana" }, { id := 7, name := some "Bo" },
             { id := 9, name := some "Cy" }] }

/-- The relational store after user 3 created a p2p room with user 7. -/
def sqlAfterCreate : SqlDb :=
  (SQLRoomRepository.CreateRoom demoSqlDb "room-1" "key-1" 3 demoP2PRequest).1

/-- The relational store after that room was deleted. -/
def sqlAfterDelete : SqlDb := SQLRoomRepository.DeleteRoom sqlAfterCreate "room-1"

/-! ### Messages in the wide-column repository -/

/-- The method `updateRoomForUser`: move the user's inbox row of the room to the
time of the new message (read the coordinates from the lookup, delete the row,
insert it at the new time, update the lookup). Without a lookup row or without
an inbox row at its coordinates nothing is written. A text column read as
`string` comes back as the empty text when it is null. The last-message
snapshot of the inbox row is not part of the model, so the sender is only
dereferenced: `none` stands for the panic on a nil sender. -/
def ScyllaRoomRepository.updateRoomForUser (db : ScyllaDb) (userId : Int) (roomUUID : UUID)
    (newTime : Nat) (sender : Option User) : Option ScyllaDb :=
  match db.roomMembershipLookup.find? (fun row => row.userId = userId ∧ row.roomId = roomUUID) with
  | none => some db
  | some lookup =>
    match db.roomsByUser.find? (fun row =>
        row.userId = userId ∧ row.isPinned = lookup.isPinned ∧
        row.lastMessageAt = lookup.lastMessageAt ∧ row.roomId = roomUUID) with
    | none => some db
    | some row =>
      match sender with
      | none => none
      | some _ =>
        let deleted := db.roomsByUser.filter (fun r =>
          ¬ (r.userId = userId ∧ r.isPinned = lookup.isPinned ∧
             r.lastMessageAt = lookup.lastMessageAt ∧ r.roomId = roomUUID))
        some { db with
          roomsByUser :=
            { userId := userId, isPinned := lookup.isPinned, lastMessageAt := newTime,
              roomId := roomUUID, roomName := some (row.roomName.getD ""),
              roomImage := some (row.roomImage.getD ""), roomType := row.roomType,
              role := row.role, isMuted := row.isMuted } ::
              deleted.filter (fun r =>
                ¬ (r.userId = userId ∧ r.isPinned = lookup.isPinned ∧
                   r.lastMessageAt = newTime ∧ r.roomId = roomUUID)),
          roomMembershipLookup := db.roomMembershipLookup.map fun l =>
            if l.userId = userId ∧ l.roomId = roomUUID then { l with lastMessageAt := newTime }
            else l }

/-- An `INSERT INTO message_status_by_user`: the row of the same key is replaced. -/
def ScyllaDb.setMessageStatus (rows : List MessageStatusRow) (userId : Int) (roomId : UUID)
    (messageId : UUID) (status : MessageStatus) : List MessageStatusRow :=
  { userId := userId, roomId := roomId, messageId := messageId, status := status } ::
    rows.filter (fun row =>
      ¬ (row.userId = userId ∧ row.roomId = roomId ∧ row.messageId = messageId))

/-- The second loop of `SaveMessage` for one participant: the counter of every
participant but the sender goes up by one and the message is DELIVERED for
them; for the sender it is SENT. -/
def ScyllaRoomRepository.countAndStatus (userId : Int) (roomUUID messageID : UUID)
    (db : ScyllaDb) (p : RoomParticipant) : ScyllaDb :=
  if p.id ≠ toInt32 userId then
    { db with
      roomCountersByUser := ScyllaDb.addUnreadCount db.roomCountersByUser p.id roomUUID 1,
      messageStatusByUser :=
        ScyllaDb.setMessageStatus db.messageStatusByUser p.id roomUUID messageID .DELIVERED }
  else
    { db with
      messageStatusByUser :=
        ScyllaDb.setMessageStatus db.messageStatusByUser p.id roomUUID messageID .SENT }

/-- The logged batch of `SaveMessage`: the message, its row of
`message_by_sender_message_id` when the request carries a non-empty sender
message id, and its row of `room_by_message`. An `INSERT` replaces the row of
the same key. -/
def ScyllaRoomRepository.saveMessageBatch (db : ScyllaDb) (roomUUID messageID : UUID)
    (now : Nat) (userId : Int) (req : SendMessageRequest) (contentDecrypted : String) :
    ScyllaDb :=
  { db with
    messagesByRoom :=
      { roomId := roomUUID, messageId := messageID, senderId := userId,
        content := req.content, contentDecrypted := contentDecrypted, type := req.type,
        createdAt := now, senderMessageId := req.senderMessageId } ::
        db.messagesByRoom.filter (fun row =>
          ¬ (row.roomId = roomUUID ∧ row.messageId = messageID)),
    messageBySenderMessageId :=
      match req.senderMessageId with
      | some senderMessageId =>
        if senderMessageId ≠ "" then
          { senderMessageId := senderMessageId, roomId := roomUUID, messageId := messageID } ::
            db.messageBySenderMessageId.filter (fun row =>
              row.senderMessageId ≠ senderMessageId)
        else db.messageBySenderMessageId
      | none => db.messageBySenderMessageId,
    roomByMessage :=
      { messageId := messageID, roomId := roomUUID } ::
        db.roomByMessage.filter (fun row => row.messageId ≠ messageID) }

/-- The first loop of `SaveMessage` for one participant: the inbox move, unless
an earlier participant already made the call panic (the flag is then false). -/
def ScyllaRoomRepository.fanoutStep (roomUUID : UUID) (now : Nat) (sender : Option User)
    (acc : ScyllaDb × Bool) (p : RoomParticipant) : ScyllaDb × Bool :=
  if acc.2 then
    match ScyllaRoomRepository.updateRoomForUser acc.1 p.id roomUUID now sender with
    | some db => (db, true)
    | none => (acc.1, false)
  else acc

/-- The method `ScyllaRoomRepository.SaveMessage`. `messageID` is the result of
`gocql.TimeUUID`, `now` the clock. A nil sender panics at its first use. -/
def ScyllaRoomRepository.SaveMessage (env : ScyllaEnv) (db : ScyllaDb) (messageID : UUID)
    (now : Nat) (userId : Int) (req : SendMessageRequest) (contentDecrypted : String) :
    ScyllaDb × Outcome MessageData :=
  match env.parseUUID req.roomId with
  | none => (db, .error "ID de sala inválido")
  | some roomUUID =>
    let db := ScyllaRoomRepository.saveMessageBatch db roomUUID messageID now userId req
      contentDecrypted
    match ScyllaRoomRepository.GetRoomParticipants env db req.roomId 0 with
    | .error e => (db, .error e)
    | .panic => (db, .panic)
    | .ok participants =>
      let sender := env.getUserByID userId
      let fanout := participants.foldl
        (ScyllaRoomRepository.fanoutStep roomUUID now sender) (db, true)
      if fanout.2 = false then (fanout.1, .panic)
      else
        let db := participants.foldl
          (ScyllaRoomRepository.countAndStatus userId roomUUID messageID) fanout.1
        match sender with
        | none => (db, .panic)
        | some sender =>
          let msg : MessageData :=
            { id := env.uuidString messageID, roomId := req.roomId,
              senderId := toInt32 userId, senderName := sender.name,
              content := req.content, status := .SENT,
              createdAt := env.formatRFC3339 now }
          ({ db with cache := UpdateRoomCacheWithNewMessage db.cache (some msg) }, .ok msg)

/-- The statement `UPDATE room_counters_by_user SET unread_count = value` on the
row of (user, room). The column `unread_count` is a counter (the other
statements of the repository on it are `SET unread_count = unread_count + n`,
which the store takes on a counter only), and the store refuses to assign a
counter: it can only be incremented or decremented. The statement fails and
writes nothing. -/
def ScyllaDb.setUnreadCount (_counters : List CounterRow) (_userId : Int) (_roomId : UUID)
    (_value : Int) : Outcome (List CounterRow) :=
  .error "Cannot set the value of counter column unread_count (counters can only be incremented/decremented, not set)"

/-- The writes of `MarkMessagesAsRead` for one id: the read receipt and the
status READ of the user; an id that is no UUID is skipped. -/
def ScyllaRoomRepository.markRead (env : ScyllaEnv) (now : Nat) (userId : Int)
    (roomUUID : UUID) (db : ScyllaDb) (msgIdStr : String) : ScyllaDb :=
  match env.parseUUID msgIdStr with
  | none => db
  | some msgUUID =>
    { db with
      readReceiptsByMessage :=
        { messageId := msgUUID, userId := userId, readAt := now } ::
          db.readReceiptsByMessage.filter (fun row =>
            ¬ (row.messageId = msgUUID ∧ row.userId = userId)),
      messageStatusByUser :=
        ScyllaDb.setMessageStatus db.messageStatusByUser userId roomUUID msgUUID .READ }

/-- The method `ScyllaRoomRepository.MarkMessagesAsRead`. The rows found through
`since` come in the order of the store. The batch of receipts and statuses is
executed before the reset of the counter, so its writes stay when the reset
fails. The returned count is the `int32` of the length of the de-duplicated id
list. -/
def ScyllaRoomRepository.MarkMessagesAsRead (env : ScyllaEnv) (db : ScyllaDb) (now : Nat)
    (userId : Int) (roomId : String) (messageIds : List String) (since : String) :
    ScyllaDb × Outcome Int :=
  match env.parseUUID roomId with
  | none => (db, .error "invalid UUID")
  | some roomUUID =>
    let expanded : Outcome (List String) :=
      if since ≠ "" then
        match env.parseRFC3339Nano since with
        | none => .error "formato de fecha 'since' inválido"
        | some sinceTime =>
          let sinceUUID := env.maxTimeUUID sinceTime
          .ok (messageIds ++
            (db.messagesByRoom.filter (fun row =>
              row.roomId = roomUUID ∧ row.messageId < sinceUUID)).map
              (fun row => env.uuidString row.messageId))
      else .ok messageIds
    match expanded with
    | .error e => (db, .error e)
    | .panic => (db, .panic)
    | .ok messageIds =>
      if messageIds.length = 0 then (db, .ok 0)
      else
        let finalMessageIds := messageIds.eraseDups
        let db := finalMessageIds.foldl (ScyllaRoomRepository.markRead env now userId roomUUID) db
        match ScyllaDb.setUnreadCount db.roomCountersByUser userId roomUUID 0 with
        | .error e => (db, .error ("error al resetear contador de no leídos: " ++ e))
        | .panic => (db, .panic)
        | .ok counters =>
          ({ db with
              roomCountersByUser := counters,
              cache := DeleteRoomCacheByRoomID db.cache roomId },
            .ok (toInt32 finalMessageIds.length))

/-- The value of the counter `unread_count` of (user, room); a missing row reads
as 0. -/
def ScyllaDb.unreadCount (db : ScyllaDb) (userId : Int) (roomUUID : UUID) : Int :=
  ((db.roomCountersByUser.find? fun row => row.userId = userId ∧ row.roomId = roomUUID).map
    fun row => row.unreadCount).getD 0

/-- The user has a read receipt for the message. -/
def ScyllaDb.hasReadReceipt (db : ScyllaDb) (userId : Int) (messageId : UUID) : Bool :=
  db.readReceiptsByMessage.any fun row => row.messageId = messageId ∧ row.userId = userId

/-- The number of messages of the room whose sender is not the user and for
which the user has no read receipt. -/
def ScyllaDb.unreadMessages (db : ScyllaDb) (userId : Int) (roomUUID : UUID) : Nat :=
  (db.messagesByRoom.filter fun row =>
    row.roomId = roomUUID ∧ row.senderId ≠ userId ∧
      db.hasReadReceipt userId row.messageId = false).length

/-- The method `ScyllaRoomRepository.ReactToMessage`: the empty reaction deletes
the user's row for the message, any other value writes it (an `INSERT` replaces
the row of the same key). -/
def ScyllaRoomRepository.ReactToMessage (env : ScyllaEnv) (db : ScyllaDb) (now : Nat)
    (userId : Int) (messageId : String) (reaction : String) : ScyllaDb × Outcome Unit :=
  match env.parseUUID messageId with
  | none => (db, .error "invalid UUID")
  | some messageUUID =>
    let others := db.reactionsByMessage.filter (fun row =>
      ¬ (row.messageId = messageUUID ∧ row.userId = userId))
    if reaction = "" then ({ db with reactionsByMessage := others }, .ok ())
    else
      ({ db with
          reactionsByMessage :=
            { messageId := messageUUID, userId := userId, reaction := reaction,
              createdAt := now } :: others }, .ok ())

/-- The reactions of the user on the message in the wide-column store. -/
def ScyllaDb.reactionsOf (db : ScyllaDb) (userId : Int) (messageUUID : UUID) :
    List ReactionRow :=
  db.reactionsByMessage.filter fun row => row.messageId = messageUUID ∧ row.userId = userId

/-- The method `ScyllaRoomRepository.DeleteMessage`: each id that is a UUID and
has a row in `room_by_message` gets `is_deleted = true` on its message row; the
other ids are skipped. -/
def ScyllaRoomRepository.DeleteMessage (env : ScyllaEnv) (db : ScyllaDb)
    (messageIds : List String) : ScyllaDb × Outcome Unit :=
  let batch : List (UUID × UUID) := messageIds.filterMap fun msgIdStr =>
    match env.parseUUID msgIdStr with
    | none => none
    | some messageUUID =>
      match db.roomByMessage.find? (fun row => row.messageId = messageUUID) with
      | none => none
      | some row => some (row.roomId, messageUUID)
  ({ db with
      messagesByRoom := db.messagesByRoom.map fun row =>
        if (row.roomId, row.messageId) ∈ batch then { row with isDeleted := true } else row },
    .ok ())

/-- The method `ScyllaRoomRepository.GetMessage`. The query reads the sender, the
content, the type, the creation time and the edited flag of the message: the
column `is_deleted` is not read, and the field `IsDeleted` keeps its zero value.
A nil sender panics. -/
def ScyllaRoomRepository.GetMessage (env : ScyllaEnv) (db : ScyllaDb) (userId : Int)
    (messageId : String) : Outcome (Option MessageData) :=
  match env.parseUUID messageId with
  | none => .error "invalid UUID"
  | some messageUUID =>
    match db.roomByMessage.find? (fun row => row.messageId = messageUUID) with
    | none => .ok none
    | some roomRow =>
      match db.messagesByRoom.find? (fun row =>
          row.roomId = roomRow.roomId ∧ row.messageId = messageUUID) with
      | none => .ok none
      | some row =>
        match env.getUserByID (toInt32 row.senderId) with
        | none => .panic
        | some user =>
          let status :=
            match db.messageStatusByUser.find? (fun s =>
                s.userId = userId ∧ s.roomId = roomRow.roomId ∧ s.messageId = messageUUID) with
            | some s => s.status
            | none => .UNSPECIFIED
          .ok (some { id := messageId, roomId := env.uuidString roomRow.roomId,
                      senderId := toInt32 row.senderId, senderName := user.name,
                      senderAvatar := user.avatar.getD "", content := row.content,
                      type := row.type, status := status,
                      createdAt := env.formatRFC3339 row.createdAt, edited := row.edited })

/-- The method `ScyllaRoomRepository.GetMessageSimple`. -/
def ScyllaRoomRepository.GetMessageSimple (env : ScyllaEnv) (db : ScyllaDb) (userId : Int)
    (messageId : String) : Outcome (Option MessageData) :=
  ScyllaRoomRepository.GetMessage env db userId messageId

/-- A `chatv1.GetMessageHistoryRequest`; `page`, `limit` and `messagesPerRoom`
are `uint32`. -/
structure GetMessageHistoryRequest where
  id : String := ""
  page : Nat := 0
  limit : Nat := 0
  beforeMessageId : Option String := none
  afterMessageId : Option String := none
  beforeDate : Option String := none
  afterDate : Option String := none
  messagesPerRoom : Nat := 0
  deriving DecidableEq, Repr

/-- The method `enrichMessagesWithUserDetails`. -/
def ScyllaRoomRepository.enrichMessagesWithUserDetails (env : ScyllaEnv)
    (messages : List MessageData) : List MessageData :=
  let userIDs := (messages.map fun msg => msg.senderId).eraseDups
  if userIDs.length = 0 then messages
  else
    let users := env.getUsersByID userIDs
    messages.map fun msg =>
      -- `userMap[int32(u.ID)] = u` keeps the last user listed for the id
      match users.reverse.find? (fun u => toInt32 u.id = msg.senderId) with
      | some user => { msg with senderName := user.name,
                                senderAvatar := user.avatar.getD msg.senderAvatar }
      | none => msg

/-- The method `enrichMessagesWithStatus`: the status the user has for each
message, where a status row exists. -/
def ScyllaRoomRepository.enrichMessagesWithStatus (env : ScyllaEnv) (db : ScyllaDb)
    (messages : List MessageData) (userId : Int) (roomUUID : UUID) : List MessageData :=
  let messageIDs := messages.map fun msg => (env.parseUUID msg.id).getD 0
  let rows := db.messageStatusByUser.filter fun row =>
    row.userId = userId ∧ row.roomId = roomUUID ∧ row.messageId ∈ messageIDs
  messages.map fun msg =>
    match rows.reverse.find? (fun row => env.uuidString row.messageId = msg.id) with
    | some row => { msg with status := row.status }
    | none => msg

/-- The method `getMessagesFromSingleRoom`, which `GetMessagesFromRoom` calls for
a request with a room id. The query reads the id, the sender, the content, the
type, the creation time and the edited flag of each message of the room: the
column `is_deleted` is neither read nor filtered on. Rows come in the order of
the store. -/
def ScyllaRoomRepository.getMessagesFromSingleRoom (env : ScyllaEnv) (db : ScyllaDb)
    (userId : Int) (req : GetMessageHistoryRequest) : Outcome (List MessageData) :=
  match env.parseUUID req.id with
  | none => .error "ID de sala inválido"
  | some roomUUID =>
    let before : Outcome (Option UUID) :=
      match req.beforeMessageId with
      | some id =>
        if id ≠ "" then
          match env.parseUUID id with
          | some uuid => .ok (some uuid)
          | none => .error "before_message_id inválido"
        else .ok none
      | none => .ok none
    let after : Outcome (Option UUID) :=
      match req.afterMessageId with
      | some id =>
        if id ≠ "" then
          match env.parseUUID id with
          | some uuid => .ok (some uuid)
          | none => .error "after_message_id inválido"
        else .ok none
      | none => .ok none
    before.bind fun before =>
    after.bind fun after =>
      let rows := db.messagesByRoom.filter fun row =>
        decide (row.roomId = roomUUID) &&
        (match before with
          | some uuid => decide (row.messageId < uuid)
          | none => true) &&
        (match after with
          | some uuid => decide (row.messageId > uuid)
          | none => true)
      let rows := if req.limit > 0 then rows.take req.limit else rows
      let messages : List MessageData := rows.map fun row =>
        { id := env.uuidString row.messageId, senderId := toInt32 row.senderId,
          content := row.content, type := row.type,
          createdAt := env.formatRFC3339 row.createdAt, edited := row.edited }
      let messages := ScyllaRoomRepository.enrichMessagesWithUserDetails env messages
      .ok (ScyllaRoomRepository.enrichMessagesWithStatus env db messages userId roomUUID)

/-- The method `ScyllaRoomRepository.CreateMessageMetaForParticipants`, which
does nothing. -/
def ScyllaRoomRepository.CreateMessageMetaForParticipants (db : ScyllaDb) (_roomID : String)
    (_messageID : String) (_senderID : Int) : ScyllaDb × Outcome Unit :=
  (db, .ok ())

/-! ### Messages in the relational repository -/

/-- What the relational repository takes from outside: the text the driver gives
for a timestamp column that is scanned into a `string`, and the timestamp the
store reads from a text parameter (`none`: the store rejects the text). -/
structure SqlEnv where
  timestampText : Nat → String
  parseTimestamp : String → Option Nat

/-- The cache key of `GetMessageSimple`. -/
def messageSimpleCacheKey (messageId : String) : String :=
  "endpoint:chat:messagesimple:messageId:\x7b" ++ messageId ++ "\x7d"

/-- The method `SQLRoomRepository.GetMessageSimple`: the cached message when
there is one, else the first message of that id that is not deleted, which is
then cached. -/
def SQLRoomRepository.GetMessageSimple (env : SqlEnv) (db : SqlDb) (messageId : String) :
    SqlDb × Outcome (Option MessageData) :=
  let cacheKey := messageSimpleCacheKey messageId
  match List.lookup cacheKey db.messageSimpleCache with
  | some dataCached => (db, .ok (some dataCached))
  | none =>
    match db.roomMessage.find? (fun m => m.id = messageId ∧ m.deleted = false) with
    | some m =>
      let message : MessageData :=
        { id := m.id, createdAt := env.timestampText m.createdAt, roomId := m.roomId,
          senderId := m.senderId, content := m.content, type := m.type }
      ({ db with
          messageSimpleCache :=
            (cacheKey, message) :: db.messageSimpleCache.filter (fun kv => kv.1 ≠ cacheKey) },
        .ok (some message))
    | none => (db, .ok none)

/-- The method `SQLRoomRepository.GetMessage` (mentions, reactions, reply and
forward are left out of the message view): the first row of the message joined
with its sender, deleted or not. A null name or avatar of the sender cannot be
scanned into a `string`. -/
def SQLRoomRepository.GetMessage (env : SqlEnv) (db : SqlDb) (messageId : String) :
    Outcome (Option MessageData) :=
  let rows := db.roomMessage.flatMap fun m =>
    (db.user.filter fun sender => m.senderId = sender.id).flatMap fun sender =>
    if m.id = messageId then [(m, sender)] else []
  match rows with
  | (m, sender) :: _ =>
    match sender.name, sender.phone, sender.avatar with
    | some name, some _, some avatar =>
      .ok (some { id := m.id, roomId := m.roomId, senderId := m.senderId, senderName := name,
                  senderAvatar := avatar, content := m.content, status := m.status,
                  createdAt := env.timestampText m.createdAt,
                  updatedAt := env.timestampText m.updatedAt, type := m.type,
                  edited := m.edited, isDeleted := m.isDeleted, event := m.event })
    | _, _, _ => .error "converting NULL to string is unsupported"
  | [] => .ok none

/-- The transaction of `SQLRoomRepository.SaveMessage` (contact, forward and
mentions are left out): the message, inserted with the status SENT, and the meta
of the sender, already read. -/
def SQLRoomRepository.saveMessageWrites (db : SqlDb) (newId : String) (now : Nat)
    (userId : Int) (req : SendMessageRequest) : SqlDb :=
  { db with
    roomMessage := db.roomMessage ++
      [{ id := newId, roomId := req.roomId, senderId := userId, content := req.content,
         status := .SENT, createdAt := now, updatedAt := now,
         type := if req.type = "" then "message" else req.type,
         senderMessageId := req.senderMessageId, event := req.event }],
    roomMessageMeta := db.roomMessageMeta ++
      [{ messageId := newId, userId := userId, readAt := some now }] }

/-- The method `SQLRoomRepository.SaveMessage`: the transaction, then what
`GetMessage` gives for the new id, which may be nil, and the cached rooms get it
as their last message. `newId` is the id the insert returns, `now` the clock of
the store. -/
def SQLRoomRepository.SaveMessage (env : SqlEnv) (db : SqlDb) (newId : String) (now : Nat)
    (userId : Int) (req : SendMessageRequest) : SqlDb × Outcome (Option MessageData) :=
  let db := SQLRoomRepository.saveMessageWrites db newId now userId req
  match SQLRoomRepository.GetMessage env db newId with
  | .ok message =>
    ({ db with cache := UpdateRoomCacheWithNewMessage db.cache message }, .ok message)
  | .error _ => (db, .error "failed to get message after saving")
  | .panic => (db, .panic)

/-- The method `SQLRoomRepository.DeleteMessage`: every message whose id is
listed is marked deleted, whatever its room and whoever the caller. -/
def SQLRoomRepository.DeleteMessage (db : SqlDb) (now : Nat) (messageId : List String) :
    SqlDb × Outcome Unit :=
  ({ db with
      roomMessage := db.roomMessage.map fun m =>
        if m.id ∈ messageId then { m with deleted := true, updatedAt := now, isDeleted := true }
        else m },
    .ok ())

/-- The rows of the query of `SQLRoomRepository.GetMessagesFromRoom`: a message
joined with its sender, with the caller's membership of its room, and
left-joined with the caller's meta that is not deleted; kept when the meta does
not say the sender is blocked, the message is not deleted and the membership is
not removed. -/
def SQLRoomRepository.messageRows (db : SqlDb) (userId : Int) :
    List (SqlMessageRow × SqlUserRow × Option SqlMessageMetaRow) :=
  db.roomMessage.flatMap fun msg =>
  (db.user.filter fun sender => msg.senderId = sender.id).flatMap fun sender =>
  (db.roomMember.filter fun member =>
    member.userId = userId ∧ member.roomId = msg.roomId).flatMap fun member =>
  let metas := db.roomMessageMeta.filter fun meta =>
    msg.id = meta.messageId ∧ meta.userId = userId ∧ meta.isDeleted = false
  let joined : List (Option SqlMessageMetaRow) :=
    if metas = [] then [none] else metas.map some
  joined.flatMap fun meta =>
  if (match meta with
      | some meta => meta.isSenderBlocked = false
      | none => true) = true ∧ msg.deleted = false ∧ member.removed = false
  then [(msg, sender, meta)] else []

/-- The filter `rn <= n` on
`ROW_NUMBER() OVER (PARTITION BY msg.room_id ORDER BY msg.created_at DESC)`, on
rows that come newest first: a row is kept when fewer than `n` rows of its room
come before it (`seen` holds the rows that came before). -/
def SQLRoomRepository.firstPerRoom (n : Nat) :
    List (SqlMessageRow × SqlUserRow × Option SqlMessageMetaRow) →
    List (SqlMessageRow × SqlUserRow × Option SqlMessageMetaRow) →
    List (SqlMessageRow × SqlUserRow × Option SqlMessageMetaRow)
  | _, [] => []
  | seen, row :: rest =>
    if (seen.filter fun s => s.1.roomId = row.1.roomId).length + 1 ≤ n then
      row :: SQLRoomRepository.firstPerRoom n (row :: seen) rest
    else SQLRoomRepository.firstPerRoom n (row :: seen) rest

/-- The method `SQLRoomRepository.GetMessagesFromRoom` (mentions, reactions,
reply, forward and the pagination meta are left out): the rows of `messageRows`
that pass the filters of the request, newest first, cut to the page asked for
or, with `messagesPerRoom`, to that many rows of each room. A date of the
request that the store cannot read fails the query. -/
def SQLRoomRepository.GetMessagesFromRoom (env : SqlEnv) (db : SqlDb) (userId : Int)
    (req : GetMessageHistoryRequest) : Outcome (List MessageData) :=
  let createdAtOf : Option String → Option Nat := fun id =>
    match id with
    | some id => (db.roomMessage.find? fun m => m.id = id).map fun m => m.createdAt
    | none => none
  let beforeCreatedAt := createdAtOf req.beforeMessageId
  let afterCreatedAt := createdAtOf req.afterMessageId
  let date : Option String → Outcome (Option Nat) := fun d =>
    match d with
    | some d =>
      if d ≠ "" then
        match env.parseTimestamp d with
        | some t => .ok (some t)
        | none => .error "invalid input syntax for type timestamp"
      else .ok none
    | none => .ok none
  (date req.beforeDate).bind fun beforeDate =>
  (date req.afterDate).bind fun afterDate =>
    let rows := (SQLRoomRepository.messageRows db userId).filter fun row =>
      decide (req.id = "" ∨ row.1.roomId = req.id) &&
      (match beforeDate with
        | some t => decide (row.1.updatedAt < t)
        | none => true) &&
      (match req.beforeMessageId, beforeCreatedAt with
        | some id, some t => decide (id = "" ∨ row.1.createdAt < t)
        | _, _ => true) &&
      (match afterDate with
        | some t => decide (row.1.updatedAt > t)
        | none => true) &&
      (match req.afterMessageId, afterCreatedAt with
        | some id, some t => decide (id = "" ∨ row.1.createdAt > t)
        | _, _ => true)
    let rows := rows.insertionSort fun a b => a.1.createdAt ≥ b.1.createdAt
    let rows :=
      if req.page > 0 ∧ req.limit > 0 ∧ req.messagesPerRoom = 0 then
        (rows.drop (((req.page - 1) * req.limit) % 4294967296)).take req.limit
      else rows
    let rows :=
      if req.messagesPerRoom > 0 then SQLRoomRepository.firstPerRoom req.messagesPerRoom [] rows
      else rows
    .ok (rows.map fun row =>
      let msg := row.1
      let sender := row.2.1
      { id := msg.id, roomId := msg.roomId, senderId := msg.senderId,
        senderName := sender.name.getD "", senderAvatar := sender.avatar.getD "",
        content := msg.content,
        status :=
          if msg.senderId ≠ toInt32 userId then
            match row.2.2 with
            | some meta => if meta.readAt.isSome then .READ else .SENT
            | none => .SENT
          else msg.status,
        createdAt := env.timestampText msg.createdAt,
        updatedAt := env.timestampText msg.updatedAt, type := msg.type, edited := msg.edited,
        isDeleted := msg.isDeleted, event := msg.event })

/-- The method `SQLRoomRepository.ReactToMessage`. With a reaction of the user
on the message that is not deleted: the empty reaction soft-deletes it, any
other value is written over it. Without one, a row is inserted. The message is
touched in both cases. `newId` is the id of an inserted row, `now` the clock of
the store. -/
def SQLRoomRepository.ReactToMessage (db : SqlDb) (newId : String) (now : Nat) (userId : Int)
    (messageId : String) (reaction : String) : SqlDb × Outcome Unit :=
  let reactions :=
    match db.roomMessageReaction.find? (fun r =>
        r.messageId = messageId ∧ r.reactedById = userId ∧ r.deleted = false) with
    | some existing =>
      if reaction = "" then
        db.roomMessageReaction.map fun r =>
          if r.id = existing.id then { r with deleted := true } else r
      else
        db.roomMessageReaction.map fun r =>
          if r.id = existing.id then { r with reaction := reaction } else r
    | none =>
      db.roomMessageReaction ++
        [{ id := newId, messageId := messageId, reactedById := userId, reaction := reaction }]
  ({ db with
      roomMessageReaction := reactions,
      roomMessage := db.roomMessage.map fun m =>
        if m.id = messageId then { m with updatedAt := now } else m },
    .ok ())

/-- The reactions of the user on the message that are not deleted, in the
relational store. -/
def SqlDb.reactionsOf (db : SqlDb) (userId : Int) (messageId : String) : List SqlReactionRow :=
  db.roomMessageReaction.filter fun r =>
    r.messageId = messageId ∧ r.reactedById = userId ∧ r.deleted = false

/-- The message ids that the `since` query of `MarkMessagesAsRead` adds: one for
each message of the room created before `since` and each meta of the user on it
without `read_at`, or one when the user has no meta on it. -/
def SQLRoomRepository.sinceRows (db : SqlDb) (userId : Int) (roomId : String) (since : Nat) :
    List String :=
  db.roomMessage.flatMap fun m =>
  let metas := db.roomMessageMeta.filter fun meta =>
    m.id = meta.messageId ∧ meta.userId = userId
  let joined : List (Option SqlMessageMetaRow) :=
    if metas = [] then [none] else metas.map some
  joined.flatMap fun meta =>
  if m.createdAt < since ∧ m.roomId = roomId ∧
      (match meta with
        | some meta => meta.readAt.isNone
        | none => true) = true
  then [m.id] else []

/-- The writes of `MarkMessagesAsRead` on `room_message_meta` for the expanded id
list, with the number it returns: the metas of the user on a listed message
that have no `read_at` get one (`messagesToUpdate`, one entry for each such
meta), and a read meta is inserted for each listed id on which the user has no
meta (`messagesToCreate`, one entry for each time the id is listed). -/
def SQLRoomRepository.markWrites (metas : List SqlMessageMetaRow) (now : Nat) (userId : Int)
    (messageIds : List String) : List SqlMessageMetaRow × Nat :=
  let existing := metas.filter fun meta => meta.userId = userId ∧ meta.messageId ∈ messageIds
  let messagesToUpdate :=
    (existing.filter fun meta => meta.readAt = none).map fun meta => meta.messageId
  let messagesToCreate := messageIds.filter fun messageId =>
    ¬ existing.any fun meta => meta.messageId = messageId
  let updated :=
    if messagesToUpdate.length > 0 then
      metas.map fun meta =>
        if meta.userId = userId ∧ meta.messageId ∈ messagesToUpdate ∧ meta.readAt = none then
          { meta with readAt := some now }
        else meta
    else metas
  let created : List SqlMessageMetaRow := messagesToCreate.map fun messageId =>
    { messageId := messageId, userId := userId, readAt := some now }
  (updated ++ created, messagesToCreate.length + messagesToUpdate.length)

/-- The method `SQLRoomRepository.MarkMessagesAsRead`. The returned count is the
`int32` of the number of metas inserted plus the number of metas updated. -/
def SQLRoomRepository.MarkMessagesAsRead (env : SqlEnv) (db : SqlDb) (now : Nat) (userId : Int)
    (roomId : String) (messageIds : List String) (since : String) : SqlDb × Outcome Int :=
  if messageIds.length = 0 then (db, .ok 0)
  else
    let expanded : Outcome (List String) :=
      if since ≠ "" then
        match env.parseTimestamp since with
        | none => .error "error executing select query"
        | some t => .ok (messageIds ++ SQLRoomRepository.sinceRows db userId roomId t)
      else .ok messageIds
    match expanded with
    | .error e => (db, .error e)
    | .panic => (db, .panic)
    | .ok messageIds =>
      let writes := SQLRoomRepository.markWrites db.roomMessageMeta now userId messageIds
      ({ db with
          roomMessageMeta := writes.1,
          roomMessage := db.roomMessage.map fun m =>
            if m.id ∈ messageIds then { m with status := .READ } else m,
          cache := DeleteRoomCacheByRoomID db.cache roomId },
        .ok (toInt32 (writes.2 : Int)))

/-- The user has read the message: a meta of the user on it carries `read_at`. -/
def SqlDb.readBy (db : SqlDb) (userId : Int) (messageId : String) : Bool :=
  db.roomMessageMeta.any fun meta =>
    meta.messageId = messageId ∧ meta.userId = userId ∧ meta.readAt.isSome

/-- The method `SQLRoomRepository.UpdateParticipantRoom`: the role asked for is
written on the membership rows of the participant in the room. -/
def SQLRoomRepository.UpdateParticipantRoom (db : SqlDb) (roomId : String) (participant : Int)
    (role : String) : SqlDb × Outcome Unit :=
  ({ db with
      roomMember := db.roomMember.map fun m =>
        if m.roomId = roomId ∧ m.userId = participant then { m with role := some role } else m,
      cache := DeleteRoomCacheByRoomID db.cache roomId },
    .ok ())

/-- The method `SQLRoomRepository.IsPartnerMuted`. -/
def SQLRoomRepository.IsPartnerMuted (db : SqlDb) (userId : Int) (roomId : String) :
    Outcome Bool :=
  match db.roomMember.find? (fun m =>
      m.roomId = roomId ∧ m.userId = userId ∧ m.deleted = false) with
  | some m => .ok (m.isMuted.getD false)
  | none => .ok false

/-- The rows of the query of `SQLRoomRepository.GetRoomParticipants` for a
request with the room id only (no search, no page): the memberships of the room
that are not removed, each joined with the users of its id that are not
removed. The order by name is not modelled: rows come in the order of the
store. -/
def SQLRoomRepository.participantRows (db : SqlDb) (id : String) :
    List (SqlRoomMemberRow × SqlUserRow) :=
  db.roomMember.flatMap fun m =>
  (db.user.filter fun uu => m.userId = uu.id).flatMap fun uu =>
  if m.roomId = id ∧ m.removed = false ∧ uu.removed = false then [(m, uu)] else []

/-- The scan of one row of `GetRoomParticipants`: the role is scanned into a
`string`, which fails on NULL; name, phone and avatar go through
`sql.NullString`. -/
def SQLRoomRepository.scanParticipant (row : SqlRoomMemberRow × SqlUserRow) :
    Outcome RoomParticipant :=
  match row.1.role with
  | some role =>
    .ok { id := row.1.userId, role := role, name := row.2.name.getD "",
          phone := row.2.phone.getD "", avatar := row.2.avatar.getD "" }
  | none => .error "converting NULL to string is unsupported"

/-- The method `SQLRoomRepository.GetRoomParticipants` for a request with the
room id only (the participants; the pagination meta is left out): the rows of
the query, scanned one after the other; the first row that cannot be scanned
ends the call with its error. -/
def SQLRoomRepository.GetRoomParticipants (db : SqlDb) (id : String) :
    Outcome (List RoomParticipant) :=
  (SQLRoomRepository.participantRows db id).foldl (fun acc row =>
    acc.bind fun data =>
      (SQLRoomRepository.scanParticipant row).bind fun item => .ok (data ++ [item])) (.ok [])

/-- The struct `metaValue` of `CreateMessageMetaForParticipants`. -/
structure MetaValue where
  messageID : String
  userID : Int
  isBlocked : Bool := false
  deriving DecidableEq, Repr

/-- The batch loop of `CreateMessageMetaForParticipants`,
`for i := 0; i < len(valuesToInsert); i += batchSize`, from the index `i` on: the
slices `valuesToInsert[i:end]` in order. `fuel` bounds the number of rounds. -/
def SQLRoomRepository.metaBatchesFrom (fuel : Nat) (valuesToInsert : List MetaValue) (i : Nat) :
    List (List MetaValue) :=
  match fuel with
  | 0 => []
  | fuel + 1 =>
    if i < valuesToInsert.length then
      let batchEnd := min (i + 100) valuesToInsert.length
      ((valuesToInsert.drop i).take (batchEnd - i)) ::
        SQLRoomRepository.metaBatchesFrom fuel valuesToInsert (i + 100)
    else []

/-- The batches of `CreateMessageMetaForParticipants`: the loop from index 0; it
makes at most one round per value. -/
def SQLRoomRepository.metaBatches (valuesToInsert : List MetaValue) : List (List MetaValue) :=
  SQLRoomRepository.metaBatchesFrom valuesToInsert.length valuesToInsert 0

/-- The values of `CreateMessageMetaForParticipants`: one for every participant
but the sender. -/
def SQLRoomRepository.metaValues (participants : List RoomParticipant) (messageID : String)
    (senderID : Int) : List MetaValue :=
  (participants.filter fun p => p.id ≠ senderID).map fun p =>
    { messageID := messageID, userID := p.id, isBlocked := false }

/-- The insert of one batch: a meta without `read_at` for each value. -/
def SQLRoomRepository.insertMetaBatch (db : SqlDb) (batch : List MetaValue) : SqlDb :=
  { db with
    roomMessageMeta := db.roomMessageMeta ++
      batch.map fun v =>
        { messageId := v.messageID, userId := v.userID, readAt := none, isDeleted := false,
          isSenderBlocked := v.isBlocked } }

/-- The method `SQLRoomRepository.CreateMessageMetaForParticipants`: a meta
without `read_at` for every participant of the room but the sender, inserted in
batches of 100. -/
def SQLRoomRepository.CreateMessageMetaForParticipants (db : SqlDb) (roomID : String)
    (messageID : String) (senderID : Int) : SqlDb × Outcome Unit :=
  match SQLRoomRepository.GetRoomParticipants db roomID with
  | .error e => (db, .error ("failed to get room participants for fan-out: " ++ e))
  | .panic => (db, .panic)
  | .ok participants =>
    if participants.length = 0 then (db, .ok ())
    else
      let valuesToInsert := SQLRoomRepository.metaValues participants messageID senderID
      if valuesToInsert.length = 0 then (db, .ok ())
      else
        ((SQLRoomRepository.metaBatches valuesToInsert).foldl SQLRoomRepository.insertMetaBatch
            db,
          .ok ())

/-! ### Leaving, muting and listing rooms -/

/-- The function `slices.Compact` on user ids: each run of consecutive equal
elements is replaced by one element. -/
def slices.Compact : List Int → List Int
  | [] => []
  | [a] => [a]
  | a :: b :: rest =>
    if a = b then slices.Compact (b :: rest) else a :: slices.Compact (b :: rest)

/-- The method `SQLRoomRepository.GetUsersByID`: the users of the listed ids that
are not deleted, cut by the `LIMIT 1` of the query. A null name or phone cannot
be scanned into a `string`. -/
def SQLRoomRepository.GetUsersByID (db : SqlDb) (ids : List Int) : Outcome (List User) :=
  let rows := (db.user.filter fun u => u.id ∈ ids ∧ u.deleted = false).take 1
  rows.foldl (fun acc u =>
    acc.bind fun users =>
      match u.name, u.phone with
      | some name, some phone =>
        .ok (users ++ [{ id := u.id, name := name, phone := phone, avatar := u.avatar }])
      | _, _ => .error "converting NULL to string is unsupported") (.ok [])

/-- The method `SQLRoomRepository.LeaveRoom`: with `leaveAll` the members of the
room that are not removed are added to the list, by ascending user id; the
memberships of the listed users that are not removed are marked removed, the
cache of the room is dropped, and what `GetUsersByID` finds for the list is
returned. -/
def SQLRoomRepository.LeaveRoom (db : SqlDb) (roomId : String) (participants : List Int)
    (leaveAll : Bool) : SqlDb × Outcome (List User) :=
  let participants :=
    if leaveAll then
      participants ++
        ((db.roomMember.filter fun m => m.roomId = roomId ∧ m.removed = false).map
          fun m => m.userId).insertionSort (fun a b => a ≤ b)
    else participants
  let participants := slices.Compact participants
  let db :=
    { db with
      roomMember := db.roomMember.map fun m =>
        if m.roomId = roomId ∧ m.userId ∈ participants ∧ m.removed = false then
          { m with removed := true }
        else m,
      cache := DeleteRoomCacheByRoomID db.cache roomId }
  (db, SQLRoomRepository.GetUsersByID db participants)

/-- The method `SQLRoomRepository.MuteRoom`: the flag is written on the
memberships of the user in the room, and the cache of the room is dropped. -/
def SQLRoomRepository.MuteRoom (db : SqlDb) (userId : Int) (roomId : String) (mute : Bool) :
    SqlDb × Outcome Unit :=
  ({ db with
      roomMember := db.roomMember.map fun m =>
        if m.roomId = roomId ∧ m.userId = userId then { m with isMuted := some mute } else m,
      cache := DeleteRoomCacheByRoomID db.cache roomId },
    .ok ())

/-- The method `ScyllaRoomRepository.MuteRoom`: the flag is written on the
user's row of `rooms_by_user` (found through `room_membership_lookup`) and on
the user's row of `participants_by_room`. An `UPDATE` creates the row of the key
when it does not exist. -/
def ScyllaRoomRepository.MuteRoom (env : ScyllaEnv) (db : ScyllaDb) (userId : Int)
    (roomId : String) (mute : Bool) : ScyllaDb × Outcome Unit :=
  match env.parseUUID roomId with
  | none => (db, .error "invalid UUID")
  | some roomUUID =>
    match db.roomMembershipLookup.find? (fun row =>
        row.userId = userId ∧ row.roomId = roomUUID) with
    | none => (db, .error "no se encontró la sala para mutear")
    | some lookup =>
      ({ db with
          roomsByUser :=
            if db.roomsByUser.any (fun row =>
                row.userId = userId ∧ row.isPinned = lookup.isPinned ∧
                row.lastMessageAt = lookup.lastMessageAt ∧ row.roomId = roomUUID) then
              db.roomsByUser.map fun row =>
                if row.userId = userId ∧ row.isPinned = lookup.isPinned ∧
                    row.lastMessageAt = lookup.lastMessageAt ∧ row.roomId = roomUUID then
                  { row with isMuted := mute }
                else row
            else
              db.roomsByUser ++
                [{ userId := userId, isPinned := lookup.isPinned,
                   lastMessageAt := lookup.lastMessageAt, roomId := roomUUID, roomName := none,
                   roomImage := none, roomType := "", role := "", isMuted := mute }],
          participantsByRoom :=
            if db.participantsByRoom.any (fun row =>
                row.roomId = roomUUID ∧ row.userId = userId) then
              db.participantsByRoom.map fun row =>
                if row.roomId = roomUUID ∧ row.userId = userId then { row with isMuted := mute }
                else row
            else
              db.participantsByRoom ++
                [{ roomId := roomUUID, userId := userId, role := "", joinedAt := 0,
                   isMuted := mute }],
          cache := DeleteRoomCacheByRoomID db.cache roomId },
        .ok ())

/-- The method `ScyllaRoomRepository.IsPartnerMuted`: the flag `is_muted` of the
first participant of the room who is not the user given. -/
def ScyllaRoomRepository.IsPartnerMuted (env : ScyllaEnv) (db : ScyllaDb) (userId : Int)
    (roomId : String) : Outcome Bool :=
  match env.parseUUID roomId with
  | none => .error "invalid UUID"
  | some roomUUID =>
    match ScyllaRoomRepository.GetRoomParticipants env db roomId 0 with
    | .error e => .error e
    | .panic => .panic
    | .ok participants =>
      let partnerID : Int :=
        ((participants.find? fun p => p.id ≠ toInt32 userId).map fun p => p.id).getD 0
      if partnerID = 0 then .error "no se encontró un compañero en esta sala P2P"
      else
        match db.participantsByRoom.find? (fun row =>
            row.roomId = roomUUID ∧ row.userId = partnerID) with
        | some row => .ok row.isMuted
        | none => .ok false

/-- A `chatv1.GetRoomsRequest`; `page` and `limit` are `uint32`. -/
structure GetRoomsRequest where
  page : Nat := 0
  limit : Nat := 0
  search : String := ""
  since : String := ""
  deriving DecidableEq, Repr

/-- A `chatv1.PaginationMeta`, with the fields that the wide-column `GetRoomList`
sets. -/
structure PaginationMeta where
  totalItems : Nat := 0
  itemCount : Nat := 0
  deriving DecidableEq, Repr

/-- The participants step of `GetRoomList`: the room that `roomMap` holds for an
id (the last one listed with it) gets the first five participants when the id
is one of a group room and they can be fetched. -/
def ScyllaRoomRepository.GetRoomList.withParticipants (env : ScyllaEnv) (db : ScyllaDb)
    (groupRoomIDs : List String) : List Room → List Room
  | [] => []
  | room :: rest =>
    let room :=
      if room.id ∈ groupRoomIDs ∧ (rest.any fun r => r.id = room.id) = false then
        match ScyllaRoomRepository.GetRoomParticipants env db room.id 5 with
        | .ok parts => { room with participants := parts }
        | _ => room
      else room
    room :: ScyllaRoomRepository.GetRoomList.withParticipants env db groupRoomIDs rest

/-- The pagination of `GetRoomList`, in `uint32` arithmetic: the slice
`filteredRooms[start:end]`, which panics when `start` is above `end`. -/
def ScyllaRoomRepository.GetRoomList.paginate (filteredRooms : List Room) (page limit : Nat) :
    Outcome (List Room) :=
  if page > 0 ∧ limit > 0 then
    let start := ((page - 1) * limit) % 4294967296
    let stop := (start + limit) % 4294967296
    if start > filteredRooms.length % 4294967296 then .ok []
    else
      let stop :=
        if stop > filteredRooms.length % 4294967296 then filteredRooms.length % 4294967296
        else stop
      if start ≤ stop then .ok ((filteredRooms.drop start).take (stop - start)) else .panic
  else .ok filteredRooms

/-- The method `ScyllaRoomRepository.GetRoomList` (the last-message snapshot and
the unread counter are left out of the room view): the user's rows of
`rooms_by_user` in the order of the store, the participants of group rooms, the
search on the name, then the page. The field `since` of the request is not
read. -/
def ScyllaRoomRepository.GetRoomList (env : ScyllaEnv) (db : ScyllaDb) (userId : Int)
    (pagination : GetRoomsRequest) : Outcome (List Room × PaginationMeta) :=
  let rows := db.roomsByUser.filter fun row => row.userId = userId
  let allRooms : List Room := rows.map fun row =>
    { id := env.uuidString row.roomId, name := row.roomName.getD "",
      photoUrl := row.roomImage.getD "", type := row.roomType,
      lastMessageAt := env.formatRFC3339 row.lastMessageAt, isMuted := row.isMuted,
      isPinned := row.isPinned, role := row.role }
  let groupRoomIDs := (allRooms.filter fun room => room.type = "group").map fun room => room.id
  let allRooms := ScyllaRoomRepository.GetRoomList.withParticipants env db groupRoomIDs allRooms
  let filteredRooms : Outcome (List Room) :=
    if pagination.search ≠ "" then
      let searchTerm := env.removeAccents (env.toLower pagination.search)
      if searchTerm.2 = false then .error "error al normalizar el término de búsqueda"
      else
        .ok (allRooms.filter fun room =>
          env.contains (env.removeAccents (env.toLower room.name)).1 searchTerm.1)
    else .ok allRooms
  filteredRooms.bind fun filteredRooms =>
  (ScyllaRoomRepository.GetRoomList.paginate filteredRooms pagination.page
      pagination.limit).bind fun filteredRooms =>
    .ok (filteredRooms,
      { totalItems := allRooms.length % 4294967296,
        itemCount := filteredRooms.length % 4294967296 })

/-- The method `getMessagesFromAllRooms`, which `GetMessagesFromRoom` calls for a
request without room id: the first messages of every room of the user, as many
per room as `messagesPerRoom` says (10 when it is 0), newest first by the text
of the creation time, cut to `limit`. The dates of the request are not read.
The rooms are read one after the other, in the order of the room list. -/
def ScyllaRoomRepository.getMessagesFromAllRooms (env : ScyllaEnv) (db : ScyllaDb)
    (userId : Int) (req : GetMessageHistoryRequest) : Outcome (List MessageData) :=
  (ScyllaRoomRepository.GetRoomList env db userId {}).bind fun userRooms =>
    let limit := if req.messagesPerRoom > 0 then req.messagesPerRoom else 10
    let perRoom : Outcome (List MessageData) :=
      userRooms.1.foldl (fun acc room =>
        acc.bind fun allMessages =>
          (ScyllaRoomRepository.getMessagesFromSingleRoom env db userId
            { id := room.id, limit := limit }).bind fun messages =>
              .ok (allMessages ++ messages)) (.ok [])
    perRoom.bind fun allMessages =>
      let allMessages := allMessages.insertionSort fun a b => decide (¬ a.createdAt < b.createdAt)
      let allMessages :=
        if req.limit > 0 ∧ allMessages.length > req.limit then allMessages.take req.limit
        else allMessages
      .ok allMessages

/-- The method `ScyllaRoomRepository.GetMessagesFromRoom`. -/
def ScyllaRoomRepository.GetMessagesFromRoom (env : ScyllaEnv) (db : ScyllaDb) (userId : Int)
    (req : GetMessageHistoryRequest) : Outcome (List MessageData) :=
  if req.id ≠ "" then ScyllaRoomRepository.getMessagesFromSingleRoom env db userId req
  else ScyllaRoomRepository.getMessagesFromAllRooms env db userId req

/-! ## The chat service (`handlers/chat/v1/handler.go`, `helpers.go`) -/

/-- The interface `RoomsRepository` (`repository/rooms/room.go`), with the
methods that the handlers below call (those of `InitialSync` apart), over a
store `σ`. A method takes the store and gives the store back with its result; a
nil pointer, as result or as argument, is `none`. `GetRoomParticipants` is
called with the room id only. -/
structure RoomsRepository (σ : Type) where
  CreateRoom : σ → Int → CreateRoomRequest → σ × Outcome (Option Room)
  GetRoom : σ → Int → String → Bool → Bool → σ × Outcome (Option Room)
  UpdateParticipantRoom : σ → Int → String → Int → String → σ × Outcome Unit
  SaveMessage : σ → Int → SendMessageRequest → Option Room → Option String →
    σ × Outcome (Option MessageData)
  GetRoomParticipants : σ → String → σ × Outcome (List RoomParticipant)
  LeaveRoom : σ → Int → String → List Int → Bool → σ × Outcome (List User)
  DeleteRoom : σ → Int → String → σ × Outcome Unit
  GetMessageSimple : σ → Int → String → σ × Outcome (Option MessageData)
  DeleteMessage : σ → Int → List String → σ × Outcome Unit
  MarkMessagesAsRead : σ → Int → String → List String → String → σ × Outcome Int
  CreateMessageMetaForParticipants : σ → String → String → Int → σ × Outcome Unit
  IsPartnerMuted : σ → Int → String → σ × Outcome Bool

/-- The codes given to `api.UpdateResponseInfoErrorMessageFromCode`. -/
inductive ApiCode where
  | InvalidRequestData
  | NotFound
  | Unauthorized
  | InternalServerError
  deriving DecidableEq, Repr

/-- The error of a handler: the `invalid_token` error of `ValidateAuthToken`,
an error built from a code, an internal error built by the handler, or an error
passed on as it was received. -/
inductive ApiError where
  | invalidToken
  | code (c : ApiCode)
  | internal (e : String)
  | passed (e : String)
  deriving DecidableEq, Repr

/-- What a handler answers: a response, an error, or a panic. -/
inductive Reply (α : Type) where
  | ok (v : α)
  | error (e : ApiError)
  | panic
  deriving DecidableEq, Repr

/-- The `api.GeneralParams` of a request: the user of the session and the client
id. -/
structure GeneralParams where
  sessionUserID : Int := 0
  clientId : String := ""
  deriving DecidableEq, Repr

/-- A `connect.Request`: the message, the user id that
`api.CheckSessionFromConnectRequest` finds (`none`: no valid session) and the
result of `api.GeneralParamsFromConnectRequest` (`none`: an error). A handler
that drops that error goes on with the zero value of the parameters. -/
structure Request (α : Type) where
  msg : α
  session : Option Int
  generalParams : Option GeneralParams

/-- The function `utils.ValidateAuthToken`. -/
def ValidateAuthToken {α : Type} (req : Request α) : Except ApiError Int :=
  match req.session with
  | some userID => .ok userID
  | none => .error .invalidToken

/-- What the closure of a `events.FanoutEvent` of `SendMessage` captures. -/
structure FanoutEvent where
  generalParams : GeneralParams
  userID : Int
  room : Room
  msg : Option MessageData
  contentDecrypted : String
  deriving DecidableEq, Repr

/-- What is handed to `h.dispatcher.Dispatch`. -/
inductive Dispatched where
  | chat (e : ChatEvent)
  | fanout (e : FanoutEvent)
  deriving DecidableEq, Repr

/-- A call of the notifications client. -/
inductive NotificationCall where
  | SubscribeToTopic (topic : String) (userIds : List Int)
  | UnsubscribeFromTopic (topic : String) (userIds : List Int)
  | SendPushNotificationEvent (recipientsUserId : List Int) (senderId : Int)
      (senderDisplayName roomName roomId roomType messageContent : String)
  deriving DecidableEq, Repr

/-- What a handler acts on: the store of the repository, what it has handed to
the dispatcher and what it has asked of the notifications client, in order. -/
structure HandlerState (σ : Type) where
  repo : σ
  dispatched : List Dispatched := []
  notifications : List NotificationCall := []

/-- The chat events among what was handed to the dispatcher, in order. -/
def chatEvents (dispatched : List Dispatched) : List ChatEvent :=
  dispatched.filterMap fun d =>
    match d with
    | .chat e => some e
    | .fanout _ => none

/-- The `ChatEvent` that `publishChatEvent` builds: a copy of the event for the
room, with the room id filled in when the event has none. The fresh `EventId`
of the copy is left empty. -/
def handlerImpl.publishedEvent (generalParams : GeneralParams) (roomID : String)
    (event : MessageEvent) : ChatEvent :=
  let roomId :=
    match event.room with
    | some room => if event.roomId = "" then room.id else event.roomId
    | none => event.roomId
  let roomId := if roomId = "" then roomID else roomId
  { roomID := roomID, userID := generalParams.sessionUserID,
    event := { roomId := roomId, room := event.room, event := event.event } }

/-- The method `publishChatEvent`: the event is handed to the dispatcher as a
`ChatEvent` of the room. -/
def handlerImpl.publishChatEvent {σ : Type} (st : HandlerState σ) (generalParams : GeneralParams)
    (roomID : String) (event : MessageEvent) : HandlerState σ :=
  { st with
    dispatched := st.dispatched ++
      [.chat (handlerImpl.publishedEvent generalParams roomID event)] }

/-- The method `handlerImpl.CreateRoom`. `joinedAt` is the text of the clock. A
nil room from the repository panics in `FormatRoom`. -/
def handlerImpl.CreateRoom {σ : Type} (repo : RoomsRepository σ) (joinedAt : String)
    (st : HandlerState σ) (req : Request CreateRoomRequest) : HandlerState σ × Reply Room :=
  match ValidateAuthToken req with
  | .error e => (st, .error e)
  | .ok userID =>
    if req.msg.participants.length < 1 then (st, .error (.code .InvalidRequestData))
    else if req.msg.participants.length > 1 ∧ req.msg.type = "p2p" then
      (st, .error (.code .InvalidRequestData))
    else if req.msg.type = "group" ∧ req.msg.name = none then
      (st, .error (.code .InvalidRequestData))
    else
      let created := repo.CreateRoom st.repo userID req.msg
      let st := { st with repo := created.1 }
      match created.2 with
      | .error e => (st, .error (.passed e))
      | .panic => (st, .panic)
      | .ok none => (st, .panic)
      | .ok (some room) =>
        let room := FormatRoom room
        let generalParams := req.generalParams.getD {}
        let participants := req.msg.participants ++ [toInt32 userID]
        let st := participants.foldl (fun st id =>
          handlerImpl.publishChatEvent st generalParams room.id
            { roomId := room.id, event := .RoomJoin id joinedAt (toInt32 userID) }) st
        let room := { room with role := "OWNER" }
        let st :=
          if room.type = "group" then
            { st with
              notifications := st.notifications ++
                [.SubscribeToTopic ("room-" ++ room.id) (participants ++ [toInt32 userID])] }
          else st
        (st, .ok room)

/-- What the handlers take from outside the repository: `utils.DecryptMessage`
on texts (embedded over bytes as `DecryptMessage`). -/
structure HandlerEnv where
  DecryptMessage : String → String → Outcome String

/-- The method `handlerImpl.SendMessage` up to the hand-over of the fan-out to
the dispatcher. A failed decryption is logged and the content goes on as the
empty text. -/
def handlerImpl.SendMessage {σ : Type} (env : HandlerEnv) (repo : RoomsRepository σ)
    (st : HandlerState σ) (req : Request SendMessageRequest) :
    HandlerState σ × Reply (Option MessageData) :=
  match req.generalParams with
  | none => (st, .error (.passed "general params"))
  | some generalParams =>
    match ValidateAuthToken req with
    | .error e => (st, .error e)
    | .ok userID =>
      if req.msg.roomId = "" then (st, .error (.code .InvalidRequestData))
      else
        let got := repo.GetRoom st.repo userID req.msg.roomId false true
        let st := { st with repo := got.1 }
        match got.2 with
        | .error e => (st, .error (.passed e))
        | .panic => (st, .panic)
        | .ok none => (st, .error (.code .NotFound))
        | .ok (some room) =>
          let room := FormatRoom room
          if room.type = "group" ∧ room.role = "MEMBER" ∧ room.sendMessage = false then
            (st, .error (.code .InvalidRequestData))
          else if req.msg.mentions.length > 0 ∧ room.type = "p2p" then
            (st, .error (.code .InvalidRequestData))
          else if room.type = "p2p" ∧ room.isPartnerBlocked = true then
            (st, .error (.code .InvalidRequestData))
          else
            let decrypted : Outcome String :=
              if req.msg.content ≠ "" then
                match env.DecryptMessage req.msg.content room.encryptionData with
                | .ok contentDecrypted => .ok contentDecrypted
                | .error _ => .ok ""
                | .panic => .panic
              else .ok ""
            match decrypted with
            | .panic => (st, .panic)
            | .error e => (st, .error (.passed e))
            | .ok contentDecrypted =>
              let saved := repo.SaveMessage st.repo userID
                { req.msg with type := "user_message" } (some room) (some contentDecrypted)
              let st := { st with repo := saved.1 }
              match saved.2 with
              | .error e => (st, .error (.passed e))
              | .panic => (st, .panic)
              | .ok msg =>
                ({ st with
                    dispatched := st.dispatched ++
                      [.fanout { generalParams := generalParams, userID := userID, room := room,
                                 msg := msg, contentDecrypted := contentDecrypted }] },
                  .ok msg)

/-- The closure `OnFanount` of `handlerImpl.SendMessage`, which the dispatcher
runs: the metas of the participants, the status update of the sender, the
message event, then the push notification. A nil message, and a p2p room
without partner, panic at the first dereference. -/
def handlerImpl.SendMessage.OnFanount {σ : Type} (repo : RoomsRepository σ)
    (st : HandlerState σ) (e : FanoutEvent) : HandlerState σ × Outcome Unit :=
  match e.msg with
  | none => (st, .panic)
  | some msg =>
    let metas := repo.CreateMessageMetaForParticipants st.repo e.room.id msg.id msg.senderId
    let st := { st with repo := metas.1 }
    match metas.2 with
    | .panic => (st, .panic)
    | _ =>
      let senderEvent : MessageEvent :=
        { roomId := e.room.id,
          event := .StatusUpdate msg.status msg.id (toInt32 e.userID) (toInt32 e.userID) }
      let remitentsEvent : MessageEvent := { roomId := e.room.id, event := .Message msg.id }
      let st := handlerImpl.publishChatEvent st e.generalParams msg.roomId senderEvent
      let st := handlerImpl.publishChatEvent st e.generalParams msg.roomId remitentsEvent
      let push : List Int → NotificationCall := fun participantsIds =>
        .SendPushNotificationEvent participantsIds (toInt32 e.userID) msg.senderName e.room.name
          e.room.id e.room.type e.contentDecrypted
      if e.room.type = "p2p" then
        match e.room.partner with
        | none => (st, .panic)
        | some partner =>
          let muted := repo.IsPartnerMuted st.repo partner.id e.room.id
          let st := { st with repo := muted.1 }
          match muted.2 with
          | .panic => (st, .panic)
          | .ok true => (st, .ok ())
          | _ => ({ st with notifications := st.notifications ++ [push [partner.id]] }, .ok ())
      else ({ st with notifications := st.notifications ++ [push []] }, .ok ())

/-- A `chatv1.DeleteMessageRequest`. -/
structure DeleteMessageRequest where
  roomId : String
  messageIds : List String
  deriving DecidableEq, Repr

/-- The method `handlerImpl.DeleteMessage`: the caller's view of the room named
in the request is the only check before the listed messages are deleted. -/
def handlerImpl.DeleteMessage {σ : Type} (repo : RoomsRepository σ) (st : HandlerState σ)
    (req : Request DeleteMessageRequest) : HandlerState σ × Reply Unit :=
  match req.generalParams with
  | none => (st, .error (.passed "general params"))
  | some generalParams =>
    match ValidateAuthToken req with
    | .error _ => (st, .error (.code .Unauthorized))
    | .ok userID =>
      let got := repo.GetRoom st.repo userID req.msg.roomId false true
      let st := { st with repo := got.1 }
      match got.2 with
      | .error _ => (st, .error (.code .InternalServerError))
      | .panic => (st, .panic)
      | .ok none => (st, .error (.code .NotFound))
      | .ok (some _) =>
        let deleted := repo.DeleteMessage st.repo userID req.msg.messageIds
        let st := { st with repo := deleted.1 }
        match deleted.2 with
        | .error e => (st, .error (.internal e))
        | .panic => (st, .panic)
        | .ok _ =>
          let st := req.msg.messageIds.foldl (fun st id =>
            handlerImpl.publishChatEvent st generalParams req.msg.roomId
              { event := .DeleteMessage id }) st
          (st, .ok ())

/-- A `chatv1.MarkMessagesAsReadRequest`. -/
structure MarkMessagesAsReadRequest where
  roomId : String
  messageIds : List String
  deriving DecidableEq, Repr

/-- The loop of `handlerImpl.MarkMessagesAsRead` that publishes the status
update READ of each listed message; a message that is not found ends the
handler with the events published so far. -/
def handlerImpl.MarkMessagesAsRead.publish {σ : Type} (repo : RoomsRepository σ)
    (generalParams : GeneralParams) (userID : Int) (roomId : String) :
    List String → HandlerState σ → HandlerState σ × Option (Reply Int)
  | [], st => (st, none)
  | msgId :: rest, st =>
    let got := repo.GetMessageSimple st.repo userID msgId
    let st := { st with repo := got.1 }
    match got.2 with
    | .error e => (st, some (.error (.passed e)))
    | .panic => (st, some .panic)
    | .ok none => (st, some (.error (.code .NotFound)))
    | .ok (some msg) =>
      handlerImpl.MarkMessagesAsRead.publish repo generalParams userID roomId rest
        (handlerImpl.publishChatEvent st generalParams roomId
          { event := .StatusUpdate .READ msgId (toInt32 userID) msg.senderId })

/-- The method `handlerImpl.MarkMessagesAsRead`: the `since` given to the
repository is the creation time of the first listed message. -/
def handlerImpl.MarkMessagesAsRead {σ : Type} (repo : RoomsRepository σ)
    (st : HandlerState σ) (req : Request MarkMessagesAsReadRequest) :
    HandlerState σ × Reply Int :=
  match ValidateAuthToken req with
  | .error e => (st, .error e)
  | .ok userID =>
    let got := repo.GetRoom st.repo userID req.msg.roomId false true
    let st := { st with repo := got.1 }
    match got.2 with
    | .error e => (st, .error (.passed e))
    | .panic => (st, .panic)
    | .ok none => (st, .error (.code .NotFound))
    | .ok (some room) =>
      let first : HandlerState σ × Except (Reply Int) String :=
        match req.msg.messageIds with
        | [] => (st, .ok "")
        | id :: _ =>
          let message := repo.GetMessageSimple st.repo userID id
          let st := { st with repo := message.1 }
          match message.2 with
          | .error e => (st, .error (.error (.passed e)))
          | .panic => (st, .error .panic)
          | .ok none => (st, .error (.error (.code .NotFound)))
          | .ok (some message) => (st, .ok message.createdAt)
      match first.2 with
      | .error reply => (first.1, reply)
      | .ok since =>
        let st := first.1
        let marked := repo.MarkMessagesAsRead st.repo userID req.msg.roomId req.msg.messageIds
          since
        let st := { st with repo := marked.1 }
        match marked.2 with
        | .error e => (st, .error (.passed e))
        | .panic => (st, .panic)
        | .ok markedCount =>
          let generalParams := req.generalParams.getD {}
          let published := handlerImpl.MarkMessagesAsRead.publish repo generalParams userID
            room.id req.msg.messageIds st
          match published.2 with
          | some reply => (published.1, reply)
          | none => (published.1, .ok markedCount)

/-- A `chatv1.UpdateParticipantRoomRequest`. -/
structure UpdateParticipantRoomRequest where
  id : String
  participant : Int
  role : String
  deriving DecidableEq, Repr

/-- The method `handlerImpl.UpdateParticipantRoom`: a caller whose role in the
room is not MEMBER may write any role on any participant. -/
def handlerImpl.UpdateParticipantRoom {σ : Type} (repo : RoomsRepository σ)
    (st : HandlerState σ) (req : Request UpdateParticipantRoomRequest) :
    HandlerState σ × Reply Unit :=
  match ValidateAuthToken req with
  | .error e => (st, .error e)
  | .ok userID =>
    let got := repo.GetRoom st.repo userID req.msg.id false true
    let st := { st with repo := got.1 }
    match got.2 with
    | .error e => (st, .error (.passed e))
    | .panic => (st, .panic)
    | .ok none => (st, .error (.code .NotFound))
    | .ok (some room) =>
      if room.role = "MEMBER" then (st, .error (.code .NotFound))
      else
        let updated := repo.UpdateParticipantRoom st.repo userID req.msg.id req.msg.participant
          req.msg.role
        let st := { st with repo := updated.1 }
        match updated.2 with
        | .error e => (st, .error (.passed e))
        | .panic => (st, .panic)
        | .ok _ =>
          let generalParams := req.generalParams.getD {}
          (handlerImpl.publishChatEvent st generalParams room.id
            { roomId := room.id, event := .IsRoomUpdated true }, .ok ())

/-! ### Leaving a room and the initial sync -/

/-- A `chatv1.LeaveRoomRequest`. Participants are `int32` user ids. -/
structure LeaveRoomRequest where
  id : String
  participants : List Int := []
  leaveAll : Bool := false
  deriving DecidableEq, Repr

/-- One round of the loop of `handlerImpl.LeaveRoom` over the users that the
repository returned: the system message `remove_member` with the phone of the
user is saved and published as a message event (with the empty id when the
repository returns a nil message). A failed save ends the handler: the rounds
after it do nothing. -/
def handlerImpl.LeaveRoom.notice {σ : Type} (repo : RoomsRepository σ)
    (generalParams : GeneralParams) (userID : Int) (room : Room)
    (acc : HandlerState σ × Outcome Unit) (user : User) : HandlerState σ × Outcome Unit :=
  match acc.2 with
  | .ok _ =>
    let saved := repo.SaveMessage acc.1.repo userID
      { roomId := room.id, content := user.phone, type := "system_message",
        event := some "remove_member" } none none
    let st := { acc.1 with repo := saved.1 }
    match saved.2 with
    | .error e => (st, .error e)
    | .panic => (st, .panic)
    | .ok msg =>
      (handlerImpl.publishChatEvent st generalParams room.id
        { event := .Message ((msg.map fun m => m.id).getD "") }, .ok ())
  | _ => acc

/-- The method `handlerImpl.LeaveRoom` after its checks, for the participants and
the `leaveAll` flag that the checks leave: with `leaveAll` every participant of
the room is added; the list is compacted and handed to the repository; without
`leaveAll` a system message is saved and published for every user that the
repository returns; the users are unsubscribed from the topic of the room; with
`leaveAll` the room is deleted; the `RoomLeave` event of the list is
published. -/
def handlerImpl.LeaveRoom.remove {σ : Type} (repo : RoomsRepository σ) (st : HandlerState σ)
    (generalParams : GeneralParams) (userID : Int) (room : Room) (id : String)
    (participants : List Int) (leaveAll : Bool) : HandlerState σ × Reply Unit :=
  let listed : HandlerState σ × Outcome (List Int) :=
    if leaveAll then
      let got := repo.GetRoomParticipants st.repo id
      ({ st with repo := got.1 },
        got.2.bind fun users => .ok (participants ++ users.map fun user => user.id))
    else (st, .ok participants)
  match listed.2 with
  | .error e => (listed.1, .error (.passed e))
  | .panic => (listed.1, .panic)
  | .ok participants =>
    let participants := slices.Compact participants
    let left := repo.LeaveRoom listed.1.repo userID id participants leaveAll
    let st := { listed.1 with repo := left.1 }
    match left.2 with
    | .error e => (st, .error (.passed e))
    | .panic => (st, .panic)
    | .ok users =>
      let noticed : HandlerState σ × Outcome Unit :=
        if leaveAll = false then
          users.foldl (handlerImpl.LeaveRoom.notice repo generalParams userID room) (st, .ok ())
        else (st, .ok ())
      match noticed.2 with
      | .error e => (noticed.1, .error (.passed e))
      | .panic => (noticed.1, .panic)
      | .ok _ =>
        let st :=
          { noticed.1 with
            notifications := noticed.1.notifications ++
              [.UnsubscribeFromTopic ("room-" ++ room.id) participants] }
        let deleted : HandlerState σ × Outcome Unit :=
          if leaveAll then
            let deleted := repo.DeleteRoom st.repo userID id
            ({ st with repo := deleted.1 }, deleted.2)
          else (st, .ok ())
        match deleted.2 with
        | .error e => (deleted.1, .error (.passed e))
        | .panic => (deleted.1, .panic)
        | .ok _ =>
          (handlerImpl.publishChatEvent deleted.1 generalParams room.id
            { event := .RoomLeave participants }, .ok ())

/-- The method `handlerImpl.LeaveRoom`: the caller's view of the room, then the
`switch` on its type (a p2p room is always left by all; in a group a MEMBER may
name no participant and may not ask for `leaveAll`, and an empty list stands
for the caller; no other type is checked), then the removal. -/
def handlerImpl.LeaveRoom {σ : Type} (repo : RoomsRepository σ) (st : HandlerState σ)
    (req : Request LeaveRoomRequest) : HandlerState σ × Reply Unit :=
  match ValidateAuthToken req with
  | .error e => (st, .error e)
  | .ok userID =>
    let generalParams := req.generalParams.getD {}
    let got := repo.GetRoom st.repo userID req.msg.id true true
    let st := { st with repo := got.1 }
    match got.2 with
    | .error e => (st, .error (.passed e))
    | .panic => (st, .panic)
    | .ok none => (st, .error (.code .NotFound))
    | .ok (some room) =>
      if room.type = "p2p" then
        handlerImpl.LeaveRoom.remove repo st generalParams userID room req.msg.id
          req.msg.participants true
      else if room.type = "group" then
        if room.role = "MEMBER" ∧ req.msg.participants.length > 0 then
          (st, .error (.code .InvalidRequestData))
        else if req.msg.leaveAll = true ∧ room.role = "MEMBER" then
          (st, .error (.code .InvalidRequestData))
        else
          handlerImpl.LeaveRoom.remove repo st generalParams userID room req.msg.id
            (if req.msg.participants.length = 0 then [toInt32 userID]
              else req.msg.participants)
            req.msg.leaveAll
      else
        handlerImpl.LeaveRoom.remove repo st generalParams userID room req.msg.id
          req.msg.participants req.msg.leaveAll

/-- A `chatv1.InitialSyncRequest`; `messagesPerRoom` is an `int32`. -/
structure InitialSyncRequest where
  lastSyncTimestamp : String := ""
  messagesPerRoom : Int := 0
  deriving DecidableEq, Repr

/-- A `chatv1.SyncSummary` (the duration is left out); the counts are `int32`. -/
structure SyncSummary where
  roomsSynced : Int
  roomsDeleted : Int
  messagesSynced : Int
  deriving DecidableEq, Repr

/-- A `chatv1.InitialSyncResponse`. -/
structure InitialSyncResponse where
  rooms : List Room
  roomsDeleted : List String
  messages : List MessageData
  syncTimestamp : String
  summary : SyncSummary
  deriving DecidableEq, Repr

/-- The methods of the interface `RoomsRepository` that `InitialSync` calls, over
a store `σ`. -/
structure SyncRepository (σ : Type) where
  GetRoomList : σ → Int → GetRoomsRequest → σ × Outcome (List Room)
  GetRoomListDeleted : σ → Int → String → σ × Outcome (List String)
  GetMessagesFromRoom : σ → Int → GetMessageHistoryRequest → σ × Outcome (List MessageData)

/-- The conversion `uint32(x)` of an `int32`. -/
def toUint32 (x : Int) : Nat := (x % 4294967296).toNat

/-- The method `handlerImpl.InitialSync`. `nowString` is the text of the clock at
the start of the call. Every error of the repository is answered as an internal
server error. -/
def handlerImpl.InitialSync {σ : Type} (repo : SyncRepository σ) (nowString : String)
    (st : HandlerState σ) (req : Request InitialSyncRequest) :
    HandlerState σ × Reply InitialSyncResponse :=
  match ValidateAuthToken req with
  | .error _ => (st, .error (.code .Unauthorized))
  | .ok userID =>
    let listed := repo.GetRoomList st.repo userID { since := req.msg.lastSyncTimestamp }
    let st := { st with repo := listed.1 }
    match listed.2 with
    | .error _ => (st, .error (.code .InternalServerError))
    | .panic => (st, .panic)
    | .ok rooms =>
      let gone := repo.GetRoomListDeleted st.repo userID req.msg.lastSyncTimestamp
      let st := { st with repo := gone.1 }
      match gone.2 with
      | .error _ => (st, .error (.code .InternalServerError))
      | .panic => (st, .panic)
      | .ok roomsDeleted =>
        let got := repo.GetMessagesFromRoom st.repo userID
          { afterDate := some req.msg.lastSyncTimestamp,
            messagesPerRoom := toUint32 req.msg.messagesPerRoom }
        let st := { st with repo := got.1 }
        match got.2 with
        | .error _ => (st, .error (.code .InternalServerError))
        | .panic => (st, .panic)
        | .ok messages =>
          (st, .ok
            { rooms := rooms, roomsDeleted := roomsDeleted, messages := messages,
              syncTimestamp := nowString,
              summary :=
                { roomsSynced := toInt32 rooms.length,
                  roomsDeleted := toInt32 roomsDeleted.length,
                  messagesSynced := toInt32 messages.length } })

/-- What the relational repository draws from outside during the calls of one
handler: the id of a new room, its key material, the id of a new message, the
clock of the store. -/
structure SqlSupply where
  newRoomId : String := ""
  encryptionData : String := ""
  newMessageId : String := ""
  now : Nat := 0

/-- The relational repository as a `RoomsRepository`. -/
def sqlRoomsRepository (env : SqlEnv) (supply : SqlSupply) : RoomsRepository SqlDb where
  CreateRoom := fun db userId req =>
    let created := SQLRoomRepository.CreateRoom db supply.newRoomId supply.encryptionData userId req
    (created.1, created.2.bind fun room => .ok (some room))
  GetRoom := SQLRoomRepository.GetRoom
  UpdateParticipantRoom := fun db _ id participant role =>
    SQLRoomRepository.UpdateParticipantRoom db id participant role
  SaveMessage := fun db userId req _ _ =>
    SQLRoomRepository.SaveMessage env db supply.newMessageId supply.now userId req
  GetRoomParticipants := fun db id => (db, SQLRoomRepository.GetRoomParticipants db id)
  LeaveRoom := fun db _ roomId participants leaveAll =>
    SQLRoomRepository.LeaveRoom db roomId participants leaveAll
  DeleteRoom := fun db _ roomId => (SQLRoomRepository.DeleteRoom db roomId, .ok ())
  GetMessageSimple := fun db _ messageId => SQLRoomRepository.GetMessageSimple env db messageId
  DeleteMessage := fun db _ messageId => SQLRoomRepository.DeleteMessage db supply.now messageId
  MarkMessagesAsRead := fun db userId roomId messageIds since =>
    SQLRoomRepository.MarkMessagesAsRead env db supply.now userId roomId messageIds since
  CreateMessageMetaForParticipants := SQLRoomRepository.CreateMessageMetaForParticipants
  IsPartnerMuted := fun db userId roomId => (db, SQLRoomRepository.IsPartnerMuted db userId roomId)

/-! ### Concrete stores and requests for messages -/

/-- A first message of user 7 in the room. -/
def demoSendRequest : SendMessageRequest :=
  { roomId := "room-1", content := "c1", type := "user_message" }

/-- The wide-column store after user 7 sent two messages, `msg-1` at time 1 and
`msg-2` at time 2, to the p2p room of users 3 and 7. -/
def scyllaTwoMessages : ScyllaDb :=
  (ScyllaRoomRepository.SaveMessage demoScyllaEnv
    (ScyllaRoomRepository.SaveMessage demoScyllaEnv scyllaAfterCreate 11 1 7 demoSendRequest
      "hello").1
    12 2 7 { roomId := "room-1", content := "c2", type := "user_message" } "again").1

/-- Times are written `t<n>` in the relational store. -/
def demoSqlEnv : SqlEnv where
  timestampText := fun t => "t" ++ Nat.repr t
  parseTimestamp := fun s =>
    match s.data with
    | ['t', d] => if d.isDigit then some (d.toNat - 48) else none
    | _ => none

/-- The users 3, 7 and 9 with names, phones and avatars, and no room. -/
def demoSqlUsers : SqlDb :=
  { user := [{ id := 3, name := some "Ana", phone := some "03", avatar := some "a.png" },
             { id := 7, name := some "Bo", phone := some "07", avatar := some "b.png" },
             { id := 9, name := some "Cy", phone := some "09", avatar := some "c.png" }] }

/-- The relational store after user 3 created the p2p room `room-1` with user 7
and user 7 sent the messages `m1`, `m2` and `m3` to it, at the times 1, 2 and 3. -/
def sqlThreeMessages : SqlDb :=
  let db := (SQLRoomRepository.CreateRoom demoSqlUsers "room-1" "key-1" 3 demoP2PRequest).1
  let db := (SQLRoomRepository.SaveMessage demoSqlEnv db "m1" 1 7 demoSendRequest).1
  let db := (SQLRoomRepository.SaveMessage demoSqlEnv db "m2" 2 7
    { roomId := "room-1", content := "c2", type := "user_message" }).1
  (SQLRoomRepository.SaveMessage demoSqlEnv db "m3" 3 7
    { roomId := "room-1", content := "c3", type := "user_message" }).1

/-- A request of the session user with its general parameters. -/
def demoRequestOf {α : Type} (userID : Int) (msg : α) : Request α :=
  { msg := msg, session := some userID, generalParams := some { sessionUserID := userID } }

/-- The messages that the user had not read in the store `before` and has read
in the store `after`, each once. -/
def SqlDb.newlyRead (before after : SqlDb) (userId : Int) : List String :=
  ((after.roomMessageMeta.map fun meta => meta.messageId).eraseDups).filter fun id =>
    !before.readBy userId id && after.readBy userId id

/-- A decryption that always succeeds. -/
def demoHandlerEnv : HandlerEnv where
  DecryptMessage := fun _ _ => .ok "plain"

/-- The relational store after user 3 created the group `room-2`, named G, with
the users 7 and 9, in which members may not send. -/
def sqlGroupRoom : SqlDb :=
  (SQLRoomRepository.CreateRoom demoSqlUsers "room-2" "key-2" 3
    { type := "group", participants := [7, 9], name := some "G", sendMessage := some false }).1

/-- The relational store with the p2p room `room-1` of users 3 and 7, holding
`m1`, `m2` and `m3`, after user 9 created the p2p room `room-2` with user 7. -/
def sqlTwoRooms : SqlDb :=
  (SQLRoomRepository.CreateRoom sqlThreeMessages "room-2" "key-2" 9 demoP2PRequest).1

/-- The fan-out of the message `m9` that user 3 sends to the p2p room with
user 7. -/
def demoFanout : FanoutEvent :=
  { generalParams := { sessionUserID := 3 }, userID := 3,
    room := { id := "room-1", type := "p2p", name := "Bo", photoUrl := "b.png",
              encryptionData := "key-1", sendMessage := true, role := "OWNER",
              partner := some { id := 7, name := "Bo", phone := "07", avatar := "b.png" } },
    msg := some { id := "m9", roomId := "room-1", senderId := 3, senderName := "Ana",
                  senderAvatar := "a.png", content := "x", type := "user_message",
                  status := .SENT, createdAt := "t5", updatedAt := "t5" },
    contentDecrypted := "plain" }

/-- The users who have an active membership with the role OWNER in the room. -/
def SqlDb.owners (db : SqlDb) (roomId : String) : List Int :=
  (db.roomMember.filter fun m =>
    m.roomId = roomId ∧ m.active = true ∧ m.role = some "OWNER").map fun m => m.userId

/-! ### Concrete stores for leaving, muting and syncing -/

/-- The relational store after user 3 created the channel `room-4`, named C, with
the users 7 and 9. -/
def sqlChannelRoom : SqlDb :=
  (SQLRoomRepository.CreateRoom demoSqlUsers "room-4" "key-4" 3
    { type := "channel", participants := [7, 9], name := some "C" }).1

/-- The users who have an active membership in the room, in the order of the
store. -/
def SqlDb.activeMembers (db : SqlDb) (roomId : String) : List Int :=
  (db.roomMember.filter fun m => m.roomId = roomId ∧ m.active = true).map fun m => m.userId

/-- The system messages `remove_member` of the room, with their contents. -/
def SqlDb.removeNotices (db : SqlDb) (roomId : String) : List String :=
  (db.roomMessage.filter fun m =>
    m.roomId = roomId ∧ m.type = "system_message" ∧ m.event = some "remove_member").map
      fun m => m.content

/-! ### Sequences of cache calls, the sync repository and further stores -/

/-- A call that writes to the room cache: `SetCachedRoom` or
`UpdateRoomCacheWithNewMessage`. -/
inductive CacheOp where
  | SetCachedRoom (roomId : String) (cacheKey : String) (data : Room)
  | UpdateRoomCacheWithNewMessage (message : Option MessageData)
  deriving DecidableEq, Repr

/-- The cache after the call. -/
def CacheOp.apply (cache : RoomCache) : CacheOp → RoomCache
  | .SetCachedRoom roomId cacheKey data => Chat.SetCachedRoom cache roomId cacheKey data
  | .UpdateRoomCacheWithNewMessage message => Chat.UpdateRoomCacheWithNewMessage cache message

/-- The cache after a sequence of calls, made one after the other. -/
def runCacheOps (ops : List CacheOp) (cache : RoomCache) : RoomCache :=
  ops.foldl CacheOp.apply cache

/-- A cached view of the p2p room `room-1` for its user 3, and one of the group
`room-2`. -/
def demoCacheOps : List CacheOp :=
  [.SetCachedRoom "room-1" (roomCacheKey "room-1" 3 true) { id := "room-1", type := "p2p" },
   .SetCachedRoom "room-2" (roomCacheKey "room-2" 3 true) { id := "room-2", type := "group" },
   .SetCachedRoom "room-1" (roomCacheKey "room-1" 7 false) { id := "room-1", type := "p2p" },
   .UpdateRoomCacheWithNewMessage (some { id := "m1", roomId := "room-1", createdAt := "t1" })]

/-- The key is listed in the members set of the room, unless the name of the set
holds a value. -/
def RoomCache.Listed (cache : RoomCache) (roomId key : String) : Prop :=
  (∃ data, List.lookup (roomMembersKey roomId) cache = some (.room data)) ∨
  (∃ keys, List.lookup (roomMembersKey roomId) cache = some (.members keys) ∧ key ∈ keys)

/-- Every key listed in the members set of a room satisfies `P` for the room. -/
def RoomCache.MembersIn (cache : RoomCache) (P : String → String → Prop) : Prop :=
  ∀ roomId keys, List.lookup (roomMembersKey roomId) cache = some (.members keys) →
    ∀ key ∈ keys, P roomId key

/-- The wide-column store after user 3 created a p2p room with user 7 and then
one with user 9. -/
def scyllaTwoRooms : ScyllaDb :=
  (ScyllaRoomRepository.CreateRoom demoScyllaEnv scyllaAfterCreate 2 101 "key-2" 3
    { type := "p2p", participants := [9] }).1

/-- The relational store after user 3 read the p2p room `room-1` with user 7
through the cache, and user 7 was then renamed Bob in the user table. -/
def sqlCachedThenRenamed : SqlDb :=
  let db := (SQLRoomRepository.GetRoom sqlAfterCreate 3 "room-1" true true).1
  { db with user := db.user.map fun u => if u.id = 7 then { u with name := some "Bob" } else u }

/-- The method `ScyllaRoomRepository.GetRoomListDeleted`: the ids of the user's
rows of `deleted_rooms_by_user`, those deleted after `since` when it is given.
`parseSince` is `time.Parse` with the layout `2006-01-02T15:04:05.000` and, when
that fails, with `time.RFC3339`. -/
def ScyllaRoomRepository.GetRoomListDeleted (env : ScyllaEnv)
    (parseSince : String → Option Nat) (db : ScyllaDb) (userId : Int) (since : String) :
    Outcome (List String) :=
  let rows := db.deletedRoomsByUser.filter fun row => row.userId = userId
  if since ≠ "" then
    match parseSince since with
    | none => .error "formato de fecha 'since' inválido"
    | some sinceTime =>
      .ok ((rows.filter fun row => row.deletedAt > sinceTime).map fun row =>
        env.uuidString row.roomId)
  else .ok (rows.map fun row => env.uuidString row.roomId)

/-- The wide-column repository as a `SyncRepository`. -/
def scyllaSyncRepository (env : ScyllaEnv) (parseSince : String → Option Nat) :
    SyncRepository ScyllaDb where
  GetRoomList := fun db userId req =>
    (db, (ScyllaRoomRepository.GetRoomList env db userId req).bind fun listed => .ok listed.1)
  GetRoomListDeleted := fun db userId since =>
    (db, ScyllaRoomRepository.GetRoomListDeleted env parseSince db userId since)
  GetMessagesFromRoom := fun db userId req =>
    (db, ScyllaRoomRepository.GetMessagesFromRoom env db userId req)

/-- The wide-column store after user 7 sent the message `msg-1` at time 1 to the
p2p room of users 3 and 7. -/
def scyllaOneMessage : ScyllaDb :=
  (ScyllaRoomRepository.SaveMessage demoScyllaEnv scyllaAfterCreate 11 1 7 demoSendRequest
    "hello").1

/-- The participants of a room as the tables give them: the user of every
membership of the room that is not removed and whose user exists and is not
removed, in the order of the memberships. -/
def SqlDb.participantIds (db : SqlDb) (roomId : String) : List Int :=
  (db.roomMember.filter fun m =>
    m.roomId = roomId ∧ m.removed = false ∧
      db.user.any (fun uu => uu.id = m.userId ∧ uu.removed = false)).map fun m => m.userId

/-- A relational store with the users 0 to 101, all members of the room
`room-9`. -/
def sqlBigRoom : SqlDb :=
  { user := (List.range 102).map fun n => { id := (n : Int), name := some "u" },
    roomMember := (List.range 102).map fun n =>
      { roomId := "room-9", userId := (n : Int), role := some "MEMBER" } }

/-! # Theorems -/

/-! ## Crypto codec -/

theorem fromHexChar_hexDigit (n : Nat) (h : n < 16) : fromHexChar (hexDigit n) = some n := by
  interval_cases n <;> decide

theorem hexDecode_hexEncode (bs : List Byte) : hexDecode (hexEncode bs) = some bs := by
  induction bs with
  | nil => rfl
  | cons b bs ih =>
    have h1 : b.val / 16 < 16 := by omega
    have h2 : b.val % 16 < 16 := by omega
    simp only [hexEncode, hexDecode, fromHexChar_hexDigit _ h1, fromHexChar_hexDigit _ h2, ih]
    congr 2
    apply Fin.ext
    simp [Fin.ofNat]
    omega

theorem b64Value_b64Char (n : Nat) (h : n < 64) : b64Value (b64Char n) = some n := by
  interval_cases n <;> decide

theorem b64Char_ne_pad (n : Nat) (h : n < 64) : b64Char n ≠ b64Pad := by
  interval_cases n <;> decide

theorem b64Char_keep (n : Nat) (h : n < 64) : (b64Char n ≠ 10 ∧ b64Char n ≠ 13) := by
  interval_cases n <;> decide


theorem quantumBytes_three (a b c : Byte) :
    quantumBytes (a.val / 4) (a.val % 4 * 16 + b.val / 16) (b.val % 16 * 4 + c.val / 64)
      (c.val % 64) = [a, b, c] := by
  have ha := a.isLt
  have hb := b.isLt
  have hc := c.isLt
  simp only [quantumBytes, List.cons.injEq, and_true]
  refine ⟨?_, ?_, ?_⟩ <;> apply Fin.ext <;> simp [Fin.ofNat] <;> omega

theorem quantumBytes_two (a b : Byte) :
    (quantumBytes (a.val / 4) (a.val % 4 * 16 + b.val / 16) (b.val % 16 * 4) 0).take 2
      = [a, b] := by
  have ha := a.isLt
  have hb := b.isLt
  simp only [quantumBytes, List.take, List.cons.injEq, and_true]
  refine ⟨?_, ?_⟩ <;> apply Fin.ext <;> simp [Fin.ofNat] <;> omega

theorem quantumBytes_one (a : Byte) :
    (quantumBytes (a.val / 4) (a.val % 4 * 16) 0 0).take 1 = [a] := by
  have ha := a.isLt
  simp only [quantumBytes, List.take, List.cons.injEq, and_true]
  apply Fin.ext; simp [Fin.ofNat]; omega

theorem base64Encode_ne_nil (a : Byte) (rest : List Byte) :
    ∃ e tl, base64Encode (a :: rest) = e :: tl := by
  match rest with
  | [] => exact ⟨_, _, rfl⟩
  | [b] => exact ⟨_, _, rfl⟩
  | b :: c :: rest => exact ⟨_, _, rfl⟩

theorem decodeQuanta_base64Encode (bs : List Byte) : decodeQuanta (base64Encode bs) = some bs := by
  induction bs using base64Encode.induct with
  | case1 => rfl
  | case2 a =>
    have ha := a.isLt
    have h0 : a.val / 4 < 64 := by omega
    have h1 : a.val % 4 * 16 < 64 := by omega
    simp only [base64Encode, decodeQuanta, b64Value_b64Char _ h0, b64Value_b64Char _ h1,
      if_true, quantumBytes_one]
  | case3 a b =>
    have ha := a.isLt
    have hb := b.isLt
    have h0 : a.val / 4 < 64 := by omega
    have h1 : a.val % 4 * 16 + b.val / 16 < 64 := by omega
    have h2 : b.val % 16 * 4 < 64 := by omega
    simp only [base64Encode, decodeQuanta, b64Value_b64Char _ h0, b64Value_b64Char _ h1,
      b64Value_b64Char _ h2, if_true, if_neg (b64Char_ne_pad _ h2), quantumBytes_two]
  | case4 a b c rest ih =>
    have ha := a.isLt
    have hb := b.isLt
    have hc := c.isLt
    have h0 : a.val / 4 < 64 := by omega
    have h1 : a.val % 4 * 16 + b.val / 16 < 64 := by omega
    have h2 : b.val % 16 * 4 + c.val / 64 < 64 := by omega
    have h3 : c.val % 64 < 64 := by omega
    cases rest with
    | nil =>
      simp only [base64Encode, decodeQuanta, b64Value_b64Char _ h0, b64Value_b64Char _ h1,
        b64Value_b64Char _ h2, b64Value_b64Char _ h3, if_neg (b64Char_ne_pad _ h2),
        if_neg (b64Char_ne_pad _ h3), quantumBytes_three]
    | cons d rest =>
      obtain ⟨e, tl, he⟩ := base64Encode_ne_nil d rest
      rw [base64Encode, he, decodeQuanta, ← he, ih]
      simp only [b64Value_b64Char _ h0, b64Value_b64Char _ h1,
        b64Value_b64Char _ h2, b64Value_b64Char _ h3, quantumBytes_three]
      rfl

theorem base64Encode_filter (bs : List Byte) :
    (base64Encode bs).filter (fun c => c ≠ 10 ∧ c ≠ 13) = base64Encode bs := by
  rw [List.filter_eq_self]
  induction bs using base64Encode.induct with
  | case1 => simp [base64Encode]
  | case2 a =>
    have ha := a.isLt
    have h0 : a.val / 4 < 64 := by omega
    have h1 : a.val % 4 * 16 < 64 := by omega
    intro x hx
    simp only [base64Encode, List.mem_cons, List.mem_singleton, List.not_mem_nil, or_false] at hx
    rcases hx with rfl | rfl | rfl | rfl
    · simpa using b64Char_keep _ h0
    · simpa using b64Char_keep _ h1
    · decide
    · decide
  | case3 a b =>
    have ha := a.isLt
    have hb := b.isLt
    have h0 : a.val / 4 < 64 := by omega
    have h1 : a.val % 4 * 16 + b.val / 16 < 64 := by omega
    have h2 : b.val % 16 * 4 < 64 := by omega
    intro x hx
    simp only [base64Encode, List.mem_cons, List.mem_singleton, List.not_mem_nil, or_false] at hx
    rcases hx with rfl | rfl | rfl | rfl
    · simpa using b64Char_keep _ h0
    · simpa using b64Char_keep _ h1
    · simpa using b64Char_keep _ h2
    · decide
  | case4 a b c rest ih =>
    have ha := a.isLt
    have hb := b.isLt
    have hc := c.isLt
    have h0 : a.val / 4 < 64 := by omega
    have h1 : a.val % 4 * 16 + b.val / 16 < 64 := by omega
    have h2 : b.val % 16 * 4 + c.val / 64 < 64 := by omega
    have h3 : c.val % 64 < 64 := by omega
    intro x hx
    simp only [base64Encode, List.mem_cons] at hx
    rcases hx with rfl | rfl | rfl | rfl | hx
    · simpa using b64Char_keep _ h0
    · simpa using b64Char_keep _ h1
    · simpa using b64Char_keep _ h2
    · simpa using b64Char_keep _ h3
    · exact ih x hx

theorem base64Decode_base64Encode (bs : List Byte) : base64Decode (base64Encode bs) = some bs := by
  rw [base64Decode, base64Encode_filter, decodeQuanta_base64Encode]

theorem base64Encode_eq_nil (bs : List Byte) : base64Encode bs = [] ↔ bs = [] := by
  cases bs with
  | nil => simp [base64Encode]
  | cons a rest =>
    obtain ⟨e, tl, he⟩ := base64Encode_ne_nil a rest
    simp [he]

theorem xorBytes_length (a b : List Byte) (h : a.length = b.length) :
    (xorBytes a b).length = a.length := by
  simp [xorBytes, h]

theorem xorBytes_cancel (p prev : List Byte) (h : p.length = prev.length) :
    xorBytes (xorBytes p prev) prev = p := by
  induction p generalizing prev with
  | nil => cases prev <;> simp [xorBytes]
  | cons x xs ih =>
    cases prev with
    | nil => simp at h
    | cons y ys =>
      simp only [List.length_cons, Nat.add_right_cancel_iff] at h
      have := ih ys h
      simp only [xorBytes, List.zipWith_cons_cons, List.cons.injEq] at this ⊢
      refine ⟨?_, this⟩
      apply Fin.ext
      have hx := x.isLt
      have hy := y.isLt
      have hxy : x.val ^^^ y.val < 256 := Nat.xor_lt_two_pow (n := 8) hx hy
      simp only [Fin.ofNat, Nat.mod_eq_of_lt hxy]
      rw [Nat.xor_assoc, Nat.xor_self, Nat.xor_zero, Nat.mod_eq_of_lt hx]

theorem splitBlocks_flatten (n : Nat) (src : List Byte) (h : src.length = 16 * n) :
    (splitBlocks n src).flatten = src ∧ ∀ b ∈ splitBlocks n src, b.length = 16 := by
  induction n generalizing src with
  | zero =>
    have : src = [] := List.length_eq_zero.mp (by simpa using h)
    subst this
    simp [splitBlocks]
  | succ n ih =>
    have hd : (src.drop 16).length = 16 * n := by simp [List.length_drop]; omega
    obtain ⟨h1, h2⟩ := ih (src.drop 16) hd
    refine ⟨?_, ?_⟩
    · simp only [splitBlocks, List.flatten_cons, h1, List.take_append_drop]
    · intro b hb
      simp only [splitBlocks, List.mem_cons] at hb
      rcases hb with rfl | hb
      · simp [List.length_take]; omega
      · exact h2 b hb

theorem cbcEncryptBlocks_length (E : List Byte → List Byte)
    (hE : ∀ b, b.length = 16 → (E b).length = 16)
    (blocks : List (List Byte)) (hb : ∀ b ∈ blocks, b.length = 16)
    (prev : List Byte) (hp : prev.length = 16) :
    (cbcEncryptBlocks E prev blocks).length = 16 * blocks.length := by
  induction blocks generalizing prev with
  | nil => simp [cbcEncryptBlocks]
  | cons p ps ih =>
    have hpl : p.length = 16 := hb p (List.mem_cons_self _ _)
    have hx : (xorBytes p prev).length = 16 := by
      rw [xorBytes_length _ _ (by omega)]; exact hpl
    have hc := hE _ hx
    simp only [cbcEncryptBlocks, List.length_append, hc, List.length_cons,
      ih (fun b hb' => hb b (List.mem_cons_of_mem _ hb')) _ hc]
    omega

theorem cbc_roundtrip (E D : List Byte → List Byte)
    (hE : ∀ b, b.length = 16 → (E b).length = 16)
    (hD : ∀ b, b.length = 16 → D (E b) = b)
    (blocks : List (List Byte)) (hb : ∀ b ∈ blocks, b.length = 16)
    (prev : List Byte) (hp : prev.length = 16) :
    cbcDecryptBlocks D prev (splitBlocks blocks.length (cbcEncryptBlocks E prev blocks))
      = blocks.flatten := by
  induction blocks generalizing prev with
  | nil => simp [cbcEncryptBlocks, splitBlocks, cbcDecryptBlocks]
  | cons p ps ih =>
    have hpl : p.length = 16 := hb p (List.mem_cons_self _ _)
    have hx : (xorBytes p prev).length = 16 := by
      rw [xorBytes_length _ _ (by omega)]; exact hpl
    have hc := hE _ hx
    have ih' := ih (fun b hb' => hb b (List.mem_cons_of_mem _ hb')) _ hc
    simp only [cbcEncryptBlocks, List.length_cons, splitBlocks, cbcDecryptBlocks, List.flatten_cons]
    rw [List.take_left' hc, List.drop_left' hc, ih', hD _ hx, xorBytes_cancel _ _ (by omega)]

theorem pkcs7Padding_length (data : List Byte) :
    (pkcs7Padding data 16).length = 16 * (data.length / 16 + 1) := by
  simp only [pkcs7Padding, List.length_append, List.length_replicate]
  omega

theorem pkcs7Unpadding_pkcs7Padding (data : List Byte) :
    pkcs7Unpadding (pkcs7Padding data 16) = .ok data := by
  have hp : 0 < 16 - data.length % 16 := by omega
  have hp16 : 16 - data.length % 16 ≤ 16 := by omega
  have hlast : (pkcs7Padding data 16).getLast? = some (Fin.ofNat (16 - data.length % 16)) := by
    simp only [pkcs7Padding]
    obtain ⟨k, hk⟩ : ∃ k, 16 - data.length % 16 = k + 1 := ⟨16 - data.length % 16 - 1, by omega⟩
    rw [hk, List.replicate_succ', ← List.append_assoc, List.getLast?_append]
    simp
  have hval : (Fin.ofNat (16 - data.length % 16) : Byte).val = 16 - data.length % 16 := by
    simp [Fin.ofNat]; omega
  simp only [pkcs7Unpadding, hlast, hval]
  have hlen : (pkcs7Padding data 16).length = data.length + (16 - data.length % 16) := by
    simp [pkcs7Padding]
  rw [if_pos (by omega), hlen]
  simp [pkcs7Padding]

theorem roomKeyBytes_spec (env : CryptoEnv) (e : GoString) (keyBytes ivBytes : List Byte)
    (hv : roomKeyBytes env e = some (keyBytes, ivBytes)) :
    ∃ encHex key iv, fromBase64 e = .ok encHex ∧
      makePublicDecryptUtil env encHex = .ok (key, iv) ∧
      hexDecode key = some keyBytes ∧ hexDecode iv = some ivBytes ∧
      validKeySize keyBytes.length = true ∧ ivBytes.length = 16 := by
  unfold roomKeyBytes at hv
  cases h1 : fromBase64 e with
  | error x => simp [h1, Outcome.bind] at hv
  | panic => simp [h1, Outcome.bind] at hv
  | ok encHex =>
    cases h2 : makePublicDecryptUtil env encHex with
    | error x => simp [h1, h2, Outcome.bind] at hv
    | panic => simp [h1, h2, Outcome.bind] at hv
    | ok kv =>
      obtain ⟨key, iv⟩ := kv
      simp only [h1, h2, Outcome.bind] at hv
      cases h3 : hexDecode key with
      | none => simp [h3] at hv
      | some kb =>
        cases h4 : hexDecode iv with
        | none => simp [h3, h4] at hv
        | some ib =>
          simp only [h3, h4] at hv
          split at hv
          · rename_i hc
            simp only [Bool.and_eq_true, decide_eq_true_eq] at hc
            simp only [Option.some.injEq, Prod.mk.injEq] at hv
            obtain ⟨rfl, rfl⟩ := hv
            exact ⟨encHex, key, iv, rfl, h2, h3, h4, hc.1, hc.2⟩
          · simp at hv

theorem unwrapsToValidPair_spec (env : CryptoEnv) (e : GoString)
    (hv : unwrapsToValidPair env e = true) :
    ∃ encHex key iv keyBytes ivBytes, fromBase64 e = .ok encHex ∧
      makePublicDecryptUtil env encHex = .ok (key, iv) ∧
      hexDecode key = some keyBytes ∧ hexDecode iv = some ivBytes ∧
      validKeySize keyBytes.length = true ∧ ivBytes.length = 16 := by
  unfold unwrapsToValidPair at hv
  cases hk : roomKeyBytes env e with
  | none => simp [hk] at hv
  | some p =>
    obtain ⟨kb, ib⟩ := p
    obtain ⟨encHex, key, iv, h⟩ := roomKeyBytes_spec env e kb ib hk
    exact ⟨encHex, key, iv, kb, ib, h⟩

theorem splitBlocks_length (n : Nat) (src : List Byte) : (splitBlocks n src).length = n := by
  induction n generalizing src with
  | zero => rfl
  | succ n ih => simp [splitBlocks, ih]

theorem fromBase64_base64Encode (bs : List Byte) :
    fromBase64 (base64Encode bs) = .ok (hexEncode bs) := by
  simp only [fromBase64, base64Decode_base64Encode]

/-- C1 (amended): for every non-empty plaintext and every `encriptionData` that
unwraps to a valid (key, iv) pair, `EncryptMessage` succeeds and `DecryptMessage`
of its result under the same `encriptionData` succeeds and returns exactly the
plaintext, whatever the block cipher, as long as decryption inverts encryption. -/
theorem EncryptMessage_DecryptMessage_roundtrip (env : CryptoEnv) (hlaw : env.Lawful)
    (message encriptionData : GoString)
    (hvalid : unwrapsToValidPair env encriptionData = true) (hne : message ≠ []) :
    ∃ c, EncryptMessage env message encriptionData = .ok c ∧
      DecryptMessage env c encriptionData = .ok message := by
  obtain ⟨encHex, key, iv, kb, ib, h1, h2, h3, h4, h5, h6⟩ :=
    unwrapsToValidPair_spec env encriptionData hvalid
  have hpl := pkcs7Padding_length message
  obtain ⟨hflat, hblocks⟩ := splitBlocks_flatten _ _ hpl
  have hnb := splitBlocks_length (message.length / 16 + 1) (pkcs7Padding message 16)
  have hel := cbcEncryptBlocks_length _ (hlaw.encrypt_length kb) _ hblocks _ h6
  have hrt := cbc_roundtrip _ _ (hlaw.encrypt_length kb) (hlaw.decrypt_encrypt kb) _
    hblocks ib h6
  rw [hnb] at hel hrt
  rw [hflat] at hrt
  have hdiv : (pkcs7Padding message 16).length / 16 = message.length / 16 + 1 := by omega
  have hmodp : (pkcs7Padding message 16).length % 16 = 0 := by omega
  generalize hencdef : cbcEncryptBlocks (env.encryptBlock kb) ib
    (splitBlocks (message.length / 16 + 1) (pkcs7Padding message 16)) = enc at hel hrt
  have hE : EncryptMessage env message encriptionData = .ok (base64Encode enc) := by
    simp only [EncryptMessage, h1, h2, Outcome.bind, if_neg hne, h3, h4, orError, cbcEncrypt,
      h5, h6, if_true, hmodp, hdiv, toBase64, hexDecode_hexEncode, hencdef]
  refine ⟨_, hE, ?_⟩
  have hne' : base64Encode enc ≠ [] := by
    rw [Ne, base64Encode_eq_nil]
    intro h0
    rw [h0] at hel
    simp at hel
  have hdiv2 : enc.length / 16 = message.length / 16 + 1 := by omega
  have hel0 : ¬ enc.length = 0 := by omega
  have hmod : enc.length % 16 = 0 := by omega
  simp only [DecryptMessage, h1, h2, Outcome.bind, if_neg hne', fromBase64_base64Encode,
    hexDecode_hexEncode, orError, if_neg hel0, hmod, h3, h4,
    cbcDecrypt, h5, h6, if_true, hdiv2, hrt, pkcs7Unpadding_pkcs7Padding,
    ne_eq, not_true_eq_false, if_false]

theorem demoEnv_lawful : demoEnv.Lawful where
  encrypt_length := by
    intro key block h
    simp [demoEnv, demoEncryptBlock, h]
  decrypt_encrypt := by
    intro key block _
    simp only [demoEnv, demoEncryptBlock, demoDecryptBlock, List.map_map]
    conv_rhs => rw [← List.map_id block]
    apply List.map_congr_left
    intro x _
    simp

/-- The empty plaintext is never encrypted, whatever the environment. -/
theorem EncryptMessage_empty (env : CryptoEnv) (e : GoString) :
    (EncryptMessage env [] e).isOk = false := by
  unfold EncryptMessage
  cases fromBase64 e with
  | error x => rfl
  | panic => rfl
  | ok encHex =>
    simp only [Outcome.bind]
    cases makePublicDecryptUtil env encHex with
    | error x => rfl
    | panic => rfl
    | ok kv => rfl

/-- C1, witness: the round trip of `"hi"` under the concrete environment. -/
theorem roundtrip_witness :
    demoEnv.Lawful ∧ unwrapsToValidPair demoEnv demoEncriptionData = true ∧ ascii "hi" ≠ [] ∧
    ∃ c, EncryptMessage demoEnv (ascii "hi") demoEncriptionData = .ok c ∧
      DecryptMessage demoEnv c demoEncriptionData = .ok (ascii "hi") :=
  ⟨demoEnv_lawful, by decide, by decide,
    EncryptMessage_DecryptMessage_roundtrip demoEnv demoEnv_lawful (ascii "hi")
      demoEncriptionData (by decide) (by decide)⟩

/-- C1, counterexample: the empty plaintext is rejected by `EncryptMessage`
(`message is empty`), so the round trip does not return it. -/
theorem roundtrip_empty_counterexample :
    unwrapsToValidPair demoEnv demoEncriptionData = true ∧
    EncryptMessage demoEnv [] demoEncriptionData = .error "message is empty" ∧
    (EncryptMessage demoEnv [] demoEncriptionData).bind
      (fun c => DecryptMessage demoEnv c demoEncriptionData) ≠ .ok [] := by
  decide

/-- C2 (amended): under `encriptionData` that unwraps to a valid pair,
`DecryptMessage` returns a non-nil error for a message that is empty or not valid
base64; for a decoded ciphertext that is a positive whole number of blocks the
PKCS7 padding of the decrypted buffer is not validated: with `last` its final
byte, the call succeeds with the buffer minus its last `last` bytes when `last`
does not exceed the buffer length, and panics otherwise. -/
theorem DecryptMessage_malformed (env : CryptoEnv) (encriptionData : GoString)
    (keyBytes ivBytes : List Byte)
    (hkey : roomKeyBytes env encriptionData = some (keyBytes, ivBytes)) (message : GoString) :
    ((message = [] ∨ base64Decode message = none) →
      (DecryptMessage env message encriptionData).isError = true) ∧
    (∀ buf last, base64Decode message = some buf → buf ≠ [] → buf.length % 16 = 0 →
      (cbcDecryptBlocks (env.decryptBlock keyBytes) ivBytes
        (splitBlocks (buf.length / 16) buf)).getLast? = some last →
      DecryptMessage env message encriptionData =
        if last.val ≤ (cbcDecryptBlocks (env.decryptBlock keyBytes) ivBytes
            (splitBlocks (buf.length / 16) buf)).length then
          .ok ((cbcDecryptBlocks (env.decryptBlock keyBytes) ivBytes
            (splitBlocks (buf.length / 16) buf)).take
              ((cbcDecryptBlocks (env.decryptBlock keyBytes) ivBytes
                (splitBlocks (buf.length / 16) buf)).length - last.val))
        else .panic) := by
  obtain ⟨encHex, key, iv, h1, h2, h3, h4, h5, h6⟩ :=
    roomKeyBytes_spec env encriptionData keyBytes ivBytes hkey
  refine ⟨?_, ?_⟩
  · rintro (rfl | hb)
    · simp [DecryptMessage, h1, h2, Outcome.bind, Outcome.isError]
    · by_cases hm : message = []
      · subst hm
        simp [DecryptMessage, h1, h2, Outcome.bind, Outcome.isError]
      · have hfm : fromBase64 message = .error "illegal base64 data" := by
          simp only [fromBase64, hb]
        simp [DecryptMessage, h1, h2, Outcome.bind, Outcome.isError, hm, hfm]
  · intro buf last hb hne hmod hlast
    have hm : message ≠ [] := by
      rintro rfl
      have : base64Decode [] = some [] := rfl
      rw [this] at hb
      exact hne (Option.some.inj hb).symm
    have hl0 : ¬ buf.length = 0 := fun h => hne (List.length_eq_zero.mp h)
    have hfm : fromBase64 message = .ok (hexEncode buf) := by
      simp only [fromBase64, hb]
    simp only [DecryptMessage, h1, h2, Outcome.bind, if_neg hm, hfm,
      hexDecode_hexEncode, orError, if_neg hl0, hmod, ne_eq, not_true_eq_false, if_false,
      h3, h4, cbcDecrypt, h5, h6, if_true, pkcs7Unpadding, hlast]
    split <;> rename_i heq <;> exact heq.symm

theorem demoEncriptionData_key :
    roomKeyBytes demoEnv demoEncriptionData = some (demoRoomKey, demoRoomIv) := by
  decide

/-- C2, witness: `"!!"` is not base64 and is answered with an error. -/
theorem DecryptMessage_malformed_witness :
    roomKeyBytes demoEnv demoEncriptionData = some (demoRoomKey, demoRoomIv) ∧
    (DecryptMessage demoEnv (ascii "!!") demoEncriptionData).isError = true :=
  ⟨demoEncriptionData_key,
    (DecryptMessage_malformed demoEnv demoEncriptionData demoRoomKey demoRoomIv
      demoEncriptionData_key (ascii "!!")).1 (Or.inr (by decide))⟩

/-- C2, counterexample: a one-block ciphertext whose decrypted buffer ends in the
byte 0 (not a PKCS7 padding) is returned whole with a nil error, and one whose
decrypted buffer ends in the byte 32 makes `pkcs7Unpadding` slice out of range. -/
theorem DecryptMessage_invalid_padding_counterexample :
    unwrapsToValidPair demoEnv demoEncriptionData = true ∧
    base64Decode (ascii "/////////////////////w==") = some (List.replicate 16 255) ∧
    DecryptMessage demoEnv (ascii "/////////////////////w==") demoEncriptionData =
      .ok [15, 14, 13, 12, 11, 10, 9, 8, 7, 6, 5, 4, 3, 2, 1, 0] ∧
    base64Decode (ascii "Hx8fHx8fHx8fHx8fHx8fHw==") = some (List.replicate 16 31) ∧
    DecryptMessage demoEnv (ascii "Hx8fHx8fHx8fHx8fHx8fHw==") demoEncriptionData = .panic := by
  decide

/-- The two length checks of `DecryptMessage` return the nil `err` of the
preceding `hex.DecodeString`: an empty decoded ciphertext, or one that is not a
whole number of blocks, yields the empty string and no error. -/
theorem DecryptMessage_short_buffer (env : CryptoEnv) (encriptionData : GoString)
    (hvalid : unwrapsToValidPair env encriptionData = true) (message buf : GoString)
    (hm : message ≠ []) (hb : base64Decode message = some buf)
    (hlen : buf.length = 0 ∨ buf.length % 16 ≠ 0) :
    DecryptMessage env message encriptionData = .ok [] := by
  obtain ⟨encHex, key, iv, kb, ib, h1, h2, -⟩ := unwrapsToValidPair_spec env encriptionData hvalid
  have hfm : fromBase64 message = .ok (hexEncode buf) := by
    simp only [fromBase64, hb]
  simp only [DecryptMessage, h1, h2, Outcome.bind, if_neg hm, hfm, hexDecode_hexEncode, orError]
  rcases hlen with h0 | h16
  · rw [if_pos h0]
  · rw [if_pos h16]
    split <;> rfl

/-- The length checks at `"AA=="` (one byte) and at a lone new-line (no byte). -/
theorem DecryptMessage_short_buffer_demo :
    DecryptMessage demoEnv (ascii "AA==") demoEncriptionData = .ok [] ∧
    DecryptMessage demoEnv (ascii "\n") demoEncriptionData = .ok [] := by
  decide

/-! ## Event subjects -/

theorem string_append_ne (p q a b : String) (n : Nat)
    (h : p.data[n]? ≠ q.data[n]?) (hp : n < p.length) (hq : n < q.length) :
    p ++ a ≠ q ++ b := by
  intro heq
  apply h
  have h1 := congrArg (fun s => s.data[n]?) heq
  simp only [String.data_append] at h1
  rw [List.getElem?_append_left hp, List.getElem?_append_left hq] at h1
  exact h1

/-- C3: the subject of a `ChatEvent` is `CHAT_DIRECT_EVENTS.` followed by the
decimal id of the joining user for a `RoomJoin` and `CHAT_EVENTS.` followed by
the event's `roomID` for every other kind of event, and no subject of the first
shape equals one of the second. -/
theorem ChatEvent_Subject_shape (e : ChatEvent) :
    (e.Subject =
      match e.event.event with
      | .RoomJoin userId _ _ => "CHAT_DIRECT_EVENTS." ++ Itoa userId
      | _ => "CHAT_EVENTS." ++ e.roomID) ∧
    (∀ (userId : Int) (roomId : String),
      "CHAT_DIRECT_EVENTS." ++ Itoa userId ≠ "CHAT_EVENTS." ++ roomId) ∧
    (∀ (userId : Int) (roomId : String),
      chatDirectEventSubject userId ≠ chatRoomEventSubject roomId) := by
  have hne : ∀ (userId : Int) (roomId : String),
      "CHAT_DIRECT_EVENTS." ++ Itoa userId ≠ "CHAT_EVENTS." ++ roomId := by
    intro userId roomId
    exact string_append_ne _ _ _ _ 5 (by decide) (by decide) (by decide)
  have hd : ∀ userId : Int, chatDirectEventSubject userId = "CHAT_DIRECT_EVENTS." ++ Itoa userId := by
    intro userId
    simp [chatDirectEventSubject, String.intercalate, String.intercalate.go,
      StreamChatDirectEventsSubjectPrefix, String.append_assoc]
  have hr : ∀ roomId : String, chatRoomEventSubject roomId = "CHAT_EVENTS." ++ roomId := by
    intro roomId
    simp [chatRoomEventSubject, String.intercalate, String.intercalate.go,
      StreamChatEventsName, String.append_assoc]
  refine ⟨?_, hne, ?_⟩
  · unfold ChatEvent.Subject
    split <;> simp [hd, hr]
  · intro userId roomId
    rw [hd, hr]
    exact hne userId roomId

/-! ## Streaming session -/

theorem toInt32_of_isInt32 (x : Int) (h : isInt32 x) : toInt32 x = x := by
  unfold isInt32 at h
  unfold toInt32
  omega

/-- C4: for a decoded `StatusUpdate` event with a non-empty room id, the handler
forwards the event to the client exactly once, except when the status is `SENT`
and the envelope's `user_id` differs from the session's user id, in which case
nothing is forwarded; nothing else of the session changes. -/
theorem handleJetStreamMessage_StatusUpdate (env : SessionEnv) (client : Client)
    (s : SessionState) (subject : String) (dispatchUserId : Int) (event : MessageEvent)
    (status : MessageStatus) (messageId : String) (userId senderId : Int)
    (hroom : event.roomId ≠ "")
    (hevent : event.event = .StatusUpdate status messageId userId senderId) :
    handleJetStreamMessage env client s (decodedMsg subject dispatchUserId event) =
      { s with sent := s.sent ++
          (if status = .SENT then (if dispatchUserId = client.userId then [event] else [])
           else [event]) } := by
  simp only [handleJetStreamMessage, decodedMsg, hroom, if_false, hevent, sendEvent]
  by_cases hs : status = .SENT
  · by_cases hd : dispatchUserId = client.userId
    · simp [hs, hd]
    · simp [hs, hd]
  · simp [hs]

/-- C4, witness: for the session of user 7, a `SENT` update dispatched by user 9
is not forwarded, one dispatched by user 7 is, and a `READ` update is. -/
theorem handleJetStreamMessage_StatusUpdate_witness :
    handleJetStreamMessage demoSessionEnv demoClient {}
      (decodedMsg "CHAT_EVENTS.r1" 9 (demoStatusUpdate .SENT)) = {} ∧
    handleJetStreamMessage demoSessionEnv demoClient {}
      (decodedMsg "CHAT_EVENTS.r1" 7 (demoStatusUpdate .SENT)) =
        { sent := [demoStatusUpdate .SENT] } ∧
    handleJetStreamMessage demoSessionEnv demoClient {}
      (decodedMsg "CHAT_EVENTS.r1" 9 (demoStatusUpdate .READ)) =
        { sent := [demoStatusUpdate .READ] } :=
  ⟨handleJetStreamMessage_StatusUpdate demoSessionEnv demoClient {} "CHAT_EVENTS.r1" 9
      (demoStatusUpdate .SENT) .SENT "m1" 9 9 (by decide) rfl,
   handleJetStreamMessage_StatusUpdate demoSessionEnv demoClient {} "CHAT_EVENTS.r1" 7
      (demoStatusUpdate .SENT) .SENT "m1" 9 9 (by decide) rfl,
   handleJetStreamMessage_StatusUpdate demoSessionEnv demoClient {} "CHAT_EVENTS.r1" 9
      (demoStatusUpdate .READ) .READ "m1" 9 9 (by decide) rfl⟩


theorem chatRoomEventSubject_eq (roomId : String) :
    chatRoomEventSubject roomId = "CHAT_EVENTS." ++ roomId := by
  simp [chatRoomEventSubject, String.intercalate, String.intercalate.go,
    StreamChatEventsName, String.append_assoc]

theorem chatDirectEventSubject_eq (userId : Int) :
    chatDirectEventSubject userId = "CHAT_DIRECT_EVENTS." ++ Itoa userId := by
  simp [chatDirectEventSubject, String.intercalate, String.intercalate.go,
    StreamChatDirectEventsSubjectPrefix, String.append_assoc]

theorem ConsumerMap.get_delete_self (m : ConsumerMap) (key : String) :
    (m.delete key).get key = none := by
  induction m with
  | nil => rfl
  | cons kv m ih =>
    obtain ⟨k, v⟩ := kv
    by_cases h : k = key
    · simpa [ConsumerMap.delete, ConsumerMap.get, List.filter_cons, h] using ih
    · have h' : (key == k) = false := by simpa using fun h'' => h h''.symm
      simpa [ConsumerMap.delete, ConsumerMap.get, List.filter_cons, h, List.lookup, h'] using ih

theorem ConsumerMap.get_delete_ne (m : ConsumerMap) (key other : String) (hne : other ≠ key) :
    (m.delete key).get other = m.get other := by
  induction m with
  | nil => rfl
  | cons kv m ih =>
    obtain ⟨k, v⟩ := kv
    by_cases h : k = key
    · subst h
      have h' : (other == k) = false := by simpa using hne
      simpa [ConsumerMap.delete, ConsumerMap.get, List.filter_cons, List.lookup, h'] using ih
    · by_cases ho : other = k
      · subst ho
        simp [ConsumerMap.delete, ConsumerMap.get, List.filter_cons, h, List.lookup]
      · have h' : (other == k) = false := by simpa using ho
        simpa [ConsumerMap.delete, ConsumerMap.get, List.filter_cons, h, List.lookup, h'] using ih

/-- C5 (amended): a decoded `RoomLeave` event with a non-empty room id is
forwarded to the client; when the session's user id is in `usersId` the consumer
recorded for the event's room, if any, is stopped and the room is no longer in
the consumer map, otherwise the room's entry stays as it was; every other entry
of the map is unchanged and no consumer is started. -/
theorem handleJetStreamMessage_RoomLeave (env : SessionEnv) (client : Client)
    (s : SessionState) (subject : String) (dispatchUserId : Int) (event : MessageEvent)
    (usersId : List Int) (hroom : event.roomId ≠ "") (hevent : event.event = .RoomLeave usersId)
    (hid : isInt32 client.userId) :
    (handleJetStreamMessage env client s (decodedMsg subject dispatchUserId event)).sent
        = s.sent ++ [event] ∧
    (handleJetStreamMessage env client s
        (decodedMsg subject dispatchUserId event)).roomsConsumers.get event.roomId
        = (if client.userId ∈ usersId then none else s.roomsConsumers.get event.roomId) ∧
    (handleJetStreamMessage env client s (decodedMsg subject dispatchUserId event)).stopped
        = s.stopped ++
          (if client.userId ∈ usersId then (s.roomsConsumers.get event.roomId).toList else []) ∧
    (∀ key, key ≠ event.roomId →
      (handleJetStreamMessage env client s
        (decodedMsg subject dispatchUserId event)).roomsConsumers.get key
        = s.roomsConsumers.get key) ∧
    (handleJetStreamMessage env client s (decodedMsg subject dispatchUserId event)).started
        = s.started := by
  simp only [handleJetStreamMessage, decodedMsg, hroom, if_false, hevent, sendEvent,
    toInt32_of_isInt32 _ hid]
  by_cases hmem : client.userId ∈ usersId
  · simp only [hmem, if_true]
    cases hget : s.roomsConsumers.get event.roomId with
    | none => simp [hget]
    | some consumer =>
      simp only [hget, Option.toList, true_and, and_true]
      exact ⟨ConsumerMap.get_delete_self _ _, fun key hk => ConsumerMap.get_delete_ne _ _ _ hk⟩
  · simp [hmem]

/-- C5, witness: in the active session of `demoClient` (user 7) a `RoomLeave` of
room `r1` naming user 7 is forwarded and the consumer of `r1` leaves the map. -/
theorem handleJetStreamMessage_RoomLeave_witness :
    demoActiveState.roomsConsumers.get "r1"
      = some { serial := 1, config := roomConsumerConfig "c1" "r1" } ∧
    (handleJetStreamMessage demoSessionEnv demoClient demoActiveState
      (decodedMsg "CHAT_EVENTS.r1" 9 (demoRoomLeave "r1" [7]))).roomsConsumers.get "r1" = none ∧
    (handleJetStreamMessage demoSessionEnv demoClient demoActiveState
      (decodedMsg "CHAT_EVENTS.r1" 9 (demoRoomLeave "r1" [7]))).sent
        = [connectedEvent, demoRoomLeave "r1" [7]] :=
  have h := handleJetStreamMessage_RoomLeave demoSessionEnv demoClient demoActiveState
    "CHAT_EVENTS.r1" 9 (demoRoomLeave "r1" [7]) [7] (by decide) rfl (by decide)
  ⟨by decide, h.2.1, h.1⟩

/-- C5, counterexample: a `RoomLeave` event whose room id is empty is dropped by
the empty-room-id guard and never forwarded. -/
theorem handleJetStreamMessage_RoomLeave_counterexample :
    handleJetStreamMessage demoSessionEnv demoClient {}
      (decodedMsg "CHAT_EVENTS." 9 (demoRoomLeave "" [7])) = {} := by
  decide


theorem subscribeAndConsume_room (env : SessionEnv) (s : SessionState) (clientID roomID : String) :
    subscribeAndConsume env s StreamChatEventsName (chatRoomEventSubject roomID)
        (roomDurableName clientID roomID) =
      match env.broker s.subscribeCalls (roomConsumerConfig clientID roomID) with
      | .createFails => ({ s with subscribeCalls := s.subscribeCalls + 1 }, none)
      | .consumeFails =>
        ({ s with subscribeCalls := s.subscribeCalls + 1,
                  created := s.created ++ [roomConsumerConfig clientID roomID] }, none)
      | .ok =>
        ({ s with subscribeCalls := s.subscribeCalls + 1,
                  created := s.created ++ [roomConsumerConfig clientID roomID],
                  started := s.started ++
                    [{ serial := s.subscribeCalls, config := roomConsumerConfig clientID roomID }] },
          some { serial := s.subscribeCalls, config := roomConsumerConfig clientID roomID }) := by
  have hcfg : ConsumerConfig.mk StreamChatEventsName (roomDurableName clientID roomID)
      (chatRoomEventSubject roomID) = roomConsumerConfig clientID roomID := by
    simp [roomConsumerConfig, chatRoomEventSubject_eq, roomDurableName, StreamChatEventsName]
  simp only [subscribeAndConsume, hcfg]

/-- C6 (amended): a decoded `RoomJoin` event with a non-empty room id whose room
fetch succeeds is forwarded to the client with the fetched room attached.
Exactly when the joiner or the dispatcher is the session user and no consumer is
recorded for the room, one subscription is requested; the consumer
`client-<clientId>-room-<roomId>` on `CHAT_EVENTS.<roomId>` is created unless the
broker refuses it, and it is recorded for the room when consumption starts;
otherwise the consumer map is unchanged. -/
theorem handleJetStreamMessage_RoomJoin (env : SessionEnv) (client : Client)
    (s : SessionState) (subject : String) (dispatchUserId : Int) (event : MessageEvent)
    (joiner : Int) (joinedAt : String) (owner : Int) (room : Option Room)
    (hroom : event.roomId ≠ "") (hevent : event.event = .RoomJoin joiner joinedAt owner)
    (hid : isInt32 client.userId)
    (hfetch : env.getRoom s.fetches client.userId event.roomId = .ok room) :
    (handleJetStreamMessage env client s (decodedMsg subject dispatchUserId event)).sent
        = s.sent ++ [{ event with room := room }] ∧
    (handleJetStreamMessage env client s (decodedMsg subject dispatchUserId event)).subscribeCalls
        = s.subscribeCalls +
          (if (joiner = client.userId ∨ dispatchUserId = client.userId) ∧
              s.roomsConsumers.get event.roomId = none then 1 else 0) ∧
    (handleJetStreamMessage env client s (decodedMsg subject dispatchUserId event)).created
        = s.created ++
          (if (joiner = client.userId ∨ dispatchUserId = client.userId) ∧
              s.roomsConsumers.get event.roomId = none ∧
              env.broker s.subscribeCalls (roomConsumerConfig client.clientId event.roomId)
                ≠ .createFails
           then [roomConsumerConfig client.clientId event.roomId] else []) ∧
    (handleJetStreamMessage env client s (decodedMsg subject dispatchUserId event)).roomsConsumers
        = (if (joiner = client.userId ∨ dispatchUserId = client.userId) ∧
              s.roomsConsumers.get event.roomId = none ∧
              env.broker s.subscribeCalls (roomConsumerConfig client.clientId event.roomId) = .ok
           then s.roomsConsumers.set event.roomId
             { serial := s.subscribeCalls,
               config := roomConsumerConfig client.clientId event.roomId }
           else s.roomsConsumers) := by
  simp only [handleJetStreamMessage, decodedMsg, hroom, if_false, hevent, sendEvent,
    toInt32_of_isInt32 _ hid, hfetch]
  by_cases hself : joiner = client.userId ∨ dispatchUserId = client.userId
  · simp only [hself, if_true, true_and]
    cases hget : s.roomsConsumers.get event.roomId with
    | some c => simp
    | none =>
      have hsub := subscribeAndConsume_room env { s with fetches := s.fetches + 1 }
        client.clientId event.roomId
      simp only [] at hsub
      cases hb : env.broker s.subscribeCalls (roomConsumerConfig client.clientId event.roomId)
      all_goals simp only [hb] at hsub
      all_goals simp [hsub]
  · simp [hself]


theorem subscribeRooms_created (env : SessionEnv) (client : Client) (ids : List String)
    (s : SessionState) :
    ∃ done, done <+: ids.map (roomConsumerConfig client.clientId) ∧
      (subscribeRooms env client s ids).1.created = s.created ++ done ∧
      ((subscribeRooms env client s ids).2 = true →
        done = ids.map (roomConsumerConfig client.clientId)) ∧
      ((∀ n cfg, env.broker n cfg = .ok) → (subscribeRooms env client s ids).2 = true) := by
  induction ids generalizing s with
  | nil => exact ⟨[], List.prefix_refl _, by simp [subscribeRooms], fun _ => rfl, fun _ => rfl⟩
  | cons roomID rest ih =>
    have hsub := subscribeAndConsume_room env s client.clientId roomID
    cases hb : env.broker s.subscribeCalls (roomConsumerConfig client.clientId roomID) with
    | createFails =>
      simp only [hb] at hsub
      refine ⟨[], List.nil_prefix, by simp [subscribeRooms, hsub], ?_, ?_⟩
      · simp [subscribeRooms, hsub]
      · intro hall
        rw [hall] at hb
        cases hb
    | consumeFails =>
      simp only [hb] at hsub
      refine ⟨[roomConsumerConfig client.clientId roomID], ?_, by simp [subscribeRooms, hsub], ?_, ?_⟩
      · simp [List.map_cons, List.prefix_cons_inj, List.nil_prefix]
      · simp [subscribeRooms, hsub]
      · intro hall
        rw [hall] at hb
        cases hb
    | ok =>
      simp only [hb] at hsub
      obtain ⟨done, hpre, hcreated, hfull, hok⟩ := ih
        { s with subscribeCalls := s.subscribeCalls + 1,
                 created := s.created ++ [roomConsumerConfig client.clientId roomID],
                 started := s.started ++
                   [{ serial := s.subscribeCalls,
                      config := roomConsumerConfig client.clientId roomID }],
                 roomsConsumers := s.roomsConsumers.set roomID
                   { serial := s.subscribeCalls,
                     config := roomConsumerConfig client.clientId roomID } }
      refine ⟨roomConsumerConfig client.clientId roomID :: done, ?_, ?_, ?_, ?_⟩
      · simpa [List.map_cons, List.prefix_cons_inj] using hpre
      · simpa [subscribeRooms, hsub] using hcreated
      · intro h
        have h' := hfull (by simpa [subscribeRooms, hsub] using h)
        simp [h']
      · intro hall
        simpa [subscribeRooms, hsub] using hok hall

theorem subscribeAndConsume_direct (env : SessionEnv) (s : SessionState) (client : Client) :
    subscribeAndConsume env s StreamChatEventsName (chatDirectEventSubject client.userId)
        (directConsumerKey client.clientId) =
      match env.broker s.subscribeCalls (directConsumerConfig client) with
      | .createFails => ({ s with subscribeCalls := s.subscribeCalls + 1 }, none)
      | .consumeFails =>
        ({ s with subscribeCalls := s.subscribeCalls + 1,
                  created := s.created ++ [directConsumerConfig client] }, none)
      | .ok =>
        ({ s with subscribeCalls := s.subscribeCalls + 1,
                  created := s.created ++ [directConsumerConfig client],
                  started := s.started ++
                    [{ serial := s.subscribeCalls, config := directConsumerConfig client }] },
          some { serial := s.subscribeCalls, config := directConsumerConfig client }) := by
  have hcfg : ConsumerConfig.mk StreamChatEventsName (directConsumerKey client.clientId)
      (chatDirectEventSubject client.userId) = directConsumerConfig client := by
    simp [directConsumerConfig, chatDirectEventSubject_eq, directConsumerKey, StreamChatEventsName]
  simp only [subscribeAndConsume, hcfg]

theorem streamSetup_eq (env : SessionEnv) (req : StreamMessagesRequest) (client : Client)
    (allowedRooms : List Room) (hclient : req.client = some client)
    (hcid : client.clientId ≠ "") (hlist : env.getRoomList client.userId = .ok allowedRooms) :
    streamSetup env req =
      setupAfterDirect env client (sessionTargets req.roomId (allowedRooms.map (fun room => room.id)))
        (subscribeAndConsume env { registered := true } StreamChatEventsName
          (chatDirectEventSubject client.userId) (directConsumerKey client.clientId)) := by
  simp only [streamSetup, hclient, hcid, if_false, hlist, setupAfterDirect]
  rcases subscribeAndConsume env { registered := true } StreamChatEventsName
      (chatDirectEventSubject client.userId) (directConsumerKey client.clientId)
    with ⟨s1, _ | directConsumer⟩
  · rfl
  · simp only []
    by_cases hspec : req.roomId ≠ "" ∧ req.roomId ∈ allowedRooms.map (fun room => room.id)
    · simp only [if_pos hspec, sessionTargets, subscribeRooms, setupRoomsResult]
      rcases subscribeAndConsume env _ StreamChatEventsName (chatRoomEventSubject req.roomId)
          (roomDurableName client.clientId req.roomId) with ⟨s2, _ | roomConsumer⟩
      · rfl
      · rfl
    · simp only [if_neg hspec, sessionTargets, setupRoomsResult]

theorem setupRoomsResult_created (env : SessionEnv) (client : Client) (targets : List String)
    (s : SessionState) :
    ∃ done, done <+: targets.map (roomConsumerConfig client.clientId) ∧
      (setupRoomsResult (subscribeRooms env client s targets)).1.created = s.created ++ done ∧
      ((setupRoomsResult (subscribeRooms env client s targets)).2 = none →
        done = targets.map (roomConsumerConfig client.clientId)) ∧
      ((∀ n cfg, env.broker n cfg = .ok) →
        (setupRoomsResult (subscribeRooms env client s targets)).2 = none) := by
  obtain ⟨done, hpre, hcreated, hfull, hok⟩ := subscribeRooms_created env client targets s
  rcases hr : subscribeRooms env client s targets with ⟨s1, ok⟩
  rw [hr] at hcreated hfull hok
  cases ok with
  | false =>
    refine ⟨done, hpre, by simpa [setupRoomsResult] using hcreated, by simp [setupRoomsResult], ?_⟩
    intro hall
    have := hok hall
    simp at this
  | true =>
    exact ⟨done, hpre, by simpa [setupRoomsResult, sendEvent] using hcreated,
      fun _ => hfull rfl, fun _ => rfl⟩

theorem streamSetup_created (env : SessionEnv) (req : StreamMessagesRequest) (client : Client)
    (allowedRooms : List Room) (hclient : req.client = some client)
    (hcid : client.clientId ≠ "") (hlist : env.getRoomList client.userId = .ok allowedRooms) :
    ∃ done, done <+: (sessionTargets req.roomId (allowedRooms.map (fun room => room.id))).map
          (roomConsumerConfig client.clientId) ∧
      ((streamSetup env req).1.created = [] ∨
        (streamSetup env req).1.created = directConsumerConfig client :: done) ∧
      ((streamSetup env req).2 = none →
        (streamSetup env req).1.created = directConsumerConfig client ::
          (sessionTargets req.roomId (allowedRooms.map (fun room => room.id))).map
            (roomConsumerConfig client.clientId)) ∧
      ((∀ n cfg, env.broker n cfg = .ok) → (streamSetup env req).2 = none) := by
  rw [streamSetup_eq env req client allowedRooms hclient hcid hlist]
  have hd := subscribeAndConsume_direct env { registered := true } client
  cases hb : env.broker 0 (directConsumerConfig client) with
  | createFails =>
    simp only [hb] at hd
    simp only [hd, setupAfterDirect]
    refine ⟨[], List.nil_prefix, Or.inl (by simp), by simp, ?_⟩
    intro hall; rw [hall] at hb; cases hb
  | consumeFails =>
    simp only [hb] at hd
    simp only [hd, setupAfterDirect]
    refine ⟨[], List.nil_prefix, Or.inr (by simp), by simp, ?_⟩
    intro hall; rw [hall] at hb; cases hb
  | ok =>
    simp only [hb] at hd
    simp only [hd, setupAfterDirect]
    obtain ⟨done, hpre, hcreated, hfull, hok⟩ := setupRoomsResult_created env client
      (sessionTargets req.roomId (allowedRooms.map (fun room => room.id)))
      { roomsConsumers := ConsumerMap.set [] (directConsumerKey client.clientId)
          { serial := 0, config := directConsumerConfig client },
        created := [] ++ [directConsumerConfig client],
        started := [] ++ [{ serial := 0, config := directConsumerConfig client }],
        subscribeCalls := 0 + 1, registered := true }
    refine ⟨done, hpre, Or.inr (by simpa using hcreated), ?_, hok⟩
    intro h
    have := hfull h
    rw [hcreated, this]
    simp

/-- C7 (amended): for a request that resolves to a client with a non-empty client
id and whose room list loads, the consumers created by the set-up of
`StreamMessages` are, in order, a prefix of: the direct consumer, then one
consumer per target room, named `client-<clientId>-room-<roomId>` and filtering
on `CHAT_EVENTS.<roomId>`, the targets being the requested room alone when it is
named and allowed and every allowed room otherwise. When set-up returns no error
they are exactly that list, which is the case when the broker accepts every
subscription; every target is an allowed room. -/
theorem streamSetup_consumers (env : SessionEnv) (req : StreamMessagesRequest) (client : Client)
    (allowedRooms : List Room) (hclient : req.client = some client)
    (hcid : client.clientId ≠ "") (hlist : env.getRoomList client.userId = .ok allowedRooms) :
    ((streamSetup env req).1.created <+: directConsumerConfig client ::
      (sessionTargets req.roomId (allowedRooms.map (fun room => room.id))).map
        (roomConsumerConfig client.clientId)) ∧
    ((streamSetup env req).2 = none →
      (streamSetup env req).1.created = directConsumerConfig client ::
        (sessionTargets req.roomId (allowedRooms.map (fun room => room.id))).map
          (roomConsumerConfig client.clientId)) ∧
    ((∀ n cfg, env.broker n cfg = .ok) → (streamSetup env req).2 = none) ∧
    (∀ roomID ∈ sessionTargets req.roomId (allowedRooms.map (fun room => room.id)),
      roomID ∈ allowedRooms.map (fun room => room.id)) := by
  have htargets : ∀ roomID ∈ sessionTargets req.roomId (allowedRooms.map (fun room => room.id)),
      roomID ∈ allowedRooms.map (fun room => room.id) := by
    intro roomID h
    unfold sessionTargets at h
    split at h
    · rename_i hc
      rw [List.mem_singleton] at h
      rw [h]
      exact hc.2
    · exact h
  obtain ⟨done, hpre, hcreated, hfull, hok⟩ :=
    streamSetup_created env req client allowedRooms hclient hcid hlist
  refine ⟨?_, hfull, hok, htargets⟩
  rcases hcreated with h | h
  · rw [h]; exact List.nil_prefix
  · rw [h, List.prefix_cons_inj]; exact hpre

theorem ConsumerMap.get_eq_none_iff (m : ConsumerMap) (key : String) :
    m.get key = none ↔ key ∉ m.map (fun kv => kv.1) := by
  induction m with
  | nil => simp [ConsumerMap.get]
  | cons kv m ih =>
    obtain ⟨k, v⟩ := kv
    by_cases h : key = k
    · subst h
      simp [ConsumerMap.get, List.lookup]
    · have h' : (key == k) = false := by simpa using h
      simp only [ConsumerMap.get, List.lookup, h', List.map_cons, List.mem_cons, h, false_or]
      exact ih

theorem ConsumerMap.delete_of_not_mem (m : ConsumerMap) (key : String)
    (h : key ∉ m.map (fun kv => kv.1)) : m.delete key = m := by
  unfold ConsumerMap.delete
  rw [List.filter_eq_self]
  intro kv hkv
  have : kv.1 ∈ m.map (fun kv => kv.1) := List.mem_map_of_mem _ hkv
  simp only [ne_eq, decide_not, Bool.not_eq_true', decide_eq_false_iff_not]
  intro heq
  exact h (heq ▸ this)

theorem ConsumerMap.get_of_mem (m : ConsumerMap) (key : String) (value : ConsumeContext)
    (hnodup : (m.map (fun kv => kv.1)).Nodup) (hmem : (key, value) ∈ m) :
    m.get key = some value := by
  induction m with
  | nil => simp at hmem
  | cons kv m ih =>
    obtain ⟨k, v⟩ := kv
    simp only [List.map_cons, List.nodup_cons] at hnodup
    rcases List.mem_cons.mp hmem with heq | hin
    · simp only [Prod.mk.injEq] at heq
      obtain ⟨rfl, rfl⟩ := heq
      simp [ConsumerMap.get, List.lookup]
    · have hk : key ≠ k := by
        rintro rfl
        exact hnodup.1 (List.mem_map_of_mem (fun kv => kv.1) hin)
      have h' : (key == k) = false := by simpa using hk
      simp only [ConsumerMap.get, List.lookup, h']
      exact ih hnodup.2 hin

theorem ConsumerMap.delete_keys_nodup (m : ConsumerMap) (key : String)
    (hnodup : (m.map (fun kv => kv.1)).Nodup) :
    ((m.delete key).map (fun kv => kv.1)).Nodup := by
  unfold ConsumerMap.delete
  exact (List.filter_sublist m).map _ |>.nodup hnodup

/-- Recording a freshly started consumer under a key the map lacks keeps the
session's consumers recorded. -/
theorem Recorded_set (s : SessionState) (key : String) (ctx : ConsumeContext)
    (created : List ConsumerConfig) (calls fetches : Nat)
    (h : s.Recorded) (hkey : key ∉ s.roomsConsumers.map (fun kv => kv.1)) :
    SessionState.Recorded
      { s with roomsConsumers := s.roomsConsumers.set key ctx, started := s.started ++ [ctx],
               created := created, subscribeCalls := calls, fetches := fetches } := by
  obtain ⟨hnodup, hrec⟩ := h
  simp only [SessionState.Recorded, ConsumerMap.set, ConsumerMap.delete_of_not_mem _ _ hkey,
    List.map_cons, List.nodup_cons, ConsumerMap.values, List.mem_append, List.mem_singleton,
    List.mem_cons]
  refine ⟨⟨hkey, hnodup⟩, ?_⟩
  intro c hc
  rcases hc with hc | hc
  · rcases hrec c hc with h1 | h2
    · exact Or.inl h1
    · exact Or.inr (Or.inr h2)
  · rcases hc with rfl | hc
    · exact Or.inr (Or.inl rfl)
    · simp at hc

theorem Recorded_of_eq (s s' : SessionState) (h : s.Recorded)
    (hm : s'.roomsConsumers = s.roomsConsumers) (hst : s'.started = s.started)
    (hsp : s'.stopped = s.stopped) : s'.Recorded := by
  unfold SessionState.Recorded at *
  rw [hm, hst, hsp]
  exact h


theorem subscribeAndConsume_effect (env : SessionEnv) (s : SessionState)
    (streamName filterSubject durableName : String) :
    (subscribeAndConsume env s streamName filterSubject durableName).1.roomsConsumers
        = s.roomsConsumers ∧
    (subscribeAndConsume env s streamName filterSubject durableName).1.stopped = s.stopped ∧
    ((subscribeAndConsume env s streamName filterSubject durableName).2 = none →
      (subscribeAndConsume env s streamName filterSubject durableName).1.started = s.started) ∧
    (∀ ctx, (subscribeAndConsume env s streamName filterSubject durableName).2 = some ctx →
      (subscribeAndConsume env s streamName filterSubject durableName).1.started
        = s.started ++ [ctx]) := by
  unfold subscribeAndConsume
  simp only []
  split <;> simp

/-- Recording the context returned by a subscription under a key the map lacks
keeps the session's consumers recorded. -/
theorem Recorded_subscribe_set (env : SessionEnv) (s s1 : SessionState)
    (streamName filterSubject durableName key : String) (ctx : ConsumeContext)
    (h : s.Recorded) (hkey : key ∉ s.roomsConsumers.map (fun kv => kv.1))
    (hsub : subscribeAndConsume env s streamName filterSubject durableName = (s1, some ctx)) :
    SessionState.Recorded { s1 with roomsConsumers := s1.roomsConsumers.set key ctx } ∧
    ({ s1 with roomsConsumers := s1.roomsConsumers.set key ctx } : SessionState).roomsConsumers.map
        (fun kv => kv.1) = key :: s.roomsConsumers.map (fun kv => kv.1) := by
  obtain ⟨hm, hsp, -, hst⟩ := subscribeAndConsume_effect env s streamName filterSubject durableName
  rw [hsub] at hm hsp hst
  have hst' := hst ctx rfl
  simp only [] at hm hsp hst'
  have hrec := Recorded_set s key ctx s1.created s1.subscribeCalls s1.fetches h hkey
  constructor
  · refine Recorded_of_eq _ _ hrec ?_ ?_ ?_
    · simp [hm]
    · simp [hst']
    · simp [hsp]
  · simp [hm, ConsumerMap.set, ConsumerMap.delete_of_not_mem _ _ hkey]

theorem Recorded_subscribe_none (env : SessionEnv) (s s1 : SessionState)
    (streamName filterSubject durableName : String) (h : s.Recorded)
    (hsub : subscribeAndConsume env s streamName filterSubject durableName = (s1, none)) :
    s1.Recorded ∧ s1.roomsConsumers = s.roomsConsumers := by
  obtain ⟨hm, hsp, hst, -⟩ := subscribeAndConsume_effect env s streamName filterSubject durableName
  rw [hsub] at hm hsp hst
  exact ⟨Recorded_of_eq _ _ h hm (hst rfl) hsp, hm⟩

theorem subscribeRooms_Recorded (env : SessionEnv) (client : Client) (ids : List String)
    (s : SessionState) (h : s.Recorded) (hnodup : ids.Nodup)
    (hfresh : ∀ roomID ∈ ids, roomID ∉ s.roomsConsumers.map (fun kv => kv.1)) :
    (subscribeRooms env client s ids).1.Recorded := by
  induction ids generalizing s with
  | nil => exact h
  | cons roomID rest ih =>
    simp only [List.nodup_cons] at hnodup
    simp only [subscribeRooms]
    rcases hsub : subscribeAndConsume env s StreamChatEventsName (chatRoomEventSubject roomID)
        (roomDurableName client.clientId roomID) with ⟨s1, _ | ctx⟩
    · exact (Recorded_subscribe_none env s s1 _ _ _ h hsub).1
    · obtain ⟨hrec, hkeys⟩ := Recorded_subscribe_set env s s1 _ _ _ roomID ctx h
        (hfresh roomID (List.mem_cons_self _ _)) hsub
      refine ih _ hrec hnodup.2 ?_
      intro r hr
      rw [hkeys, List.mem_cons, not_or]
      refine ⟨?_, hfresh r (List.mem_cons_of_mem _ hr)⟩
      rintro rfl
      exact hnodup.1 hr

theorem sendEvent_Recorded (s : SessionState) (event : MessageEvent) (h : s.Recorded) :
    (sendEvent s event).Recorded :=
  Recorded_of_eq _ _ h rfl rfl rfl

theorem handleJetStreamMessage_Recorded (env : SessionEnv) (client : Client) (s : SessionState)
    (msg : Msg) (h : s.Recorded) : (handleJetStreamMessage env client s msg).Recorded := by
  obtain ⟨subject, data⟩ := msg
  cases data with
  | none => exact h
  | some data =>
    obtain ⟨dispatchUserId, event⟩ := data
    cases event with
    | none => exact h
    | some event =>
      obtain ⟨eventId, roomId, room, detail⟩ := event
      by_cases hroom : roomId = ""
      · simp only [handleJetStreamMessage, hroom, if_true]; exact h
      · cases detail with
        | RoomJoin joiner joinedAt owner =>
          simp only [handleJetStreamMessage, hroom, if_false]
          cases env.getRoom s.fetches client.userId roomId with
          | error e => exact Recorded_of_eq _ _ h rfl rfl rfl
          | ok fetchedRoom =>
            simp only []
            apply sendEvent_Recorded
            have h0 : SessionState.Recorded { s with fetches := s.fetches + 1 } :=
              Recorded_of_eq _ _ h rfl rfl rfl
            split
            · cases hget : ConsumerMap.get s.roomsConsumers roomId with
              | some c => exact h0
              | none =>
                simp only []
                have hkey := (ConsumerMap.get_eq_none_iff _ _).mp hget
                rcases hsub : subscribeAndConsume env { s with fetches := s.fetches + 1 }
                    StreamChatEventsName (chatRoomEventSubject roomId)
                    (roomDurableName client.clientId roomId) with ⟨s1, _ | ctx⟩
                · exact (Recorded_subscribe_none env _ s1 _ _ _ h0 hsub).1
                · exact (Recorded_subscribe_set env _ s1 _ _ _ roomId ctx h0 hkey hsub).1
            · exact h0
        | RoomLeave usersId =>
          simp only [handleJetStreamMessage, hroom, if_false]
          split
          · cases hget : ConsumerMap.get (sendEvent s ⟨eventId, roomId, room,
                .RoomLeave usersId⟩).roomsConsumers roomId with
            | none => exact sendEvent_Recorded _ _ h
            | some consumer =>
              simp only []
              obtain ⟨hnodup, hrec⟩ := h
              refine ⟨ConsumerMap.delete_keys_nodup _ _ hnodup, ?_⟩
              intro c hc
              simp only [sendEvent, List.mem_append, List.mem_singleton] at hc ⊢
              rcases hrec c hc with h1 | h2
              · exact Or.inl (Or.inl h1)
              · simp only [ConsumerMap.values, List.mem_map] at h2
                obtain ⟨⟨k, v⟩, hkv, rfl⟩ := h2
                by_cases hk : k = roomId
                · subst hk
                  have := ConsumerMap.get_of_mem _ _ _ hnodup hkv
                  simp only [sendEvent] at hget
                  rw [hget] at this
                  exact Or.inl (Or.inr (Option.some.inj this).symm)
                · refine Or.inr ?_
                  simp only [ConsumerMap.values, List.mem_map, ConsumerMap.delete, List.mem_filter]
                  exact ⟨(k, v), ⟨hkv, by simpa using hk⟩, rfl⟩
          · exact sendEvent_Recorded _ _ h
        | IsRoomUpdated v =>
          simp only [handleJetStreamMessage, hroom, if_false]
          cases env.getRoom s.fetches client.userId roomId with
          | error e => exact Recorded_of_eq _ _ h rfl rfl rfl
          | ok fetchedRoom => exact Recorded_of_eq _ _ h rfl rfl rfl
        | StatusUpdate status mid uid sid =>
          simp only [handleJetStreamMessage, hroom, if_false]
          split
          · split
            · exact sendEvent_Recorded _ _ h
            · exact h
          · exact sendEvent_Recorded _ _ h
        | Message m =>
          simp only [handleJetStreamMessage, hroom, if_false]
          exact sendEvent_Recorded _ _ h
        | UpdateMessage m =>
          simp only [handleJetStreamMessage, hroom, if_false]
          exact sendEvent_Recorded _ _ h
        | DeleteMessage m =>
          simp only [handleJetStreamMessage, hroom, if_false]
          exact sendEvent_Recorded _ _ h
        | Connected v =>
          simp only [handleJetStreamMessage, hroom, if_false]
          exact sendEvent_Recorded _ _ h
        | unset =>
          simp only [handleJetStreamMessage, hroom, if_false]
          exact sendEvent_Recorded _ _ h


theorem Recorded_of_started_nil (s : SessionState) (hm : s.roomsConsumers = [])
    (hst : s.started = []) : s.Recorded := by
  simp [SessionState.Recorded, hm, hst]

theorem sessionTargets_nodup (roomId : String) (ids : List String) (h : ids.Nodup) :
    (sessionTargets roomId ids).Nodup := by
  unfold sessionTargets
  split
  · exact List.nodup_singleton _
  · exact h

theorem sessionTargets_subset (roomId : String) (ids : List String) :
    ∀ roomID ∈ sessionTargets roomId ids, roomID ∈ ids := by
  intro roomID h
  unfold sessionTargets at h
  split at h
  · rename_i hc
    rw [List.mem_singleton] at h
    rw [h]
    exact hc.2
  · exact h

theorem setupRoomsResult_Recorded (r : SessionState × Bool) (h : r.1.Recorded) :
    (setupRoomsResult r).1.Recorded := by
  obtain ⟨s, ok⟩ := r
  cases ok with
  | false => exact h
  | true => exact sendEvent_Recorded _ _ h

theorem streamSetup_Recorded (env : SessionEnv) (req : StreamMessagesRequest)
    (hrooms : ∀ client allowedRooms, req.client = some client →
      env.getRoomList client.userId = .ok allowedRooms →
      (allowedRooms.map (fun room => room.id)).Nodup ∧
        directConsumerKey client.clientId ∉ allowedRooms.map (fun room => room.id)) :
    (streamSetup env req).1.Recorded := by
  cases hclient : req.client with
  | none =>
    simp only [streamSetup, hclient]
    exact Recorded_of_started_nil _ rfl rfl
  | some client =>
    by_cases hcid : client.clientId = ""
    · simp only [streamSetup, hclient, hcid, if_true]
      exact Recorded_of_started_nil _ rfl rfl
    · cases hlist : env.getRoomList client.userId with
      | error e =>
        simp only [streamSetup, hclient, hcid, if_false, hlist]
        exact Recorded_of_started_nil _ rfl rfl
      | ok allowedRooms =>
        obtain ⟨hnodup, hdirect⟩ := hrooms client allowedRooms hclient hlist
        rw [streamSetup_eq env req client allowedRooms hclient hcid hlist]
        have h0 : SessionState.Recorded { registered := true } :=
          Recorded_of_started_nil _ rfl rfl
        rcases hsub : subscribeAndConsume env { registered := true } StreamChatEventsName
            (chatDirectEventSubject client.userId) (directConsumerKey client.clientId)
          with ⟨s1, _ | directConsumer⟩
        · exact (Recorded_subscribe_none env _ s1 _ _ _ h0 hsub).1
        · obtain ⟨hrec, hkeys⟩ := Recorded_subscribe_set env _ s1 _ _ _
            (directConsumerKey client.clientId) directConsumer h0 (by simp) hsub
          simp only [setupAfterDirect]
          apply setupRoomsResult_Recorded
          apply subscribeRooms_Recorded env client _ _ hrec
            (sessionTargets_nodup _ _ hnodup)
          intro roomID hr
          rw [hkeys]
          simp only [List.map_nil, List.mem_singleton]
          rintro rfl
          exact hdirect (sessionTargets_subset _ _ _ hr)

theorem sessionStep_Recorded (env : SessionEnv) (client : Client) (s : SessionState)
    (input : SessionInput) (h : s.Recorded) : (sessionStep env client s input).Recorded := by
  cases input with
  | message msg => exact handleJetStreamMessage_Recorded env client s msg h
  | tick => exact sendEvent_Recorded _ _ h

theorem foldl_sessionStep_Recorded (env : SessionEnv) (client : Client)
    (inputs : List SessionInput) (s : SessionState) (h : s.Recorded) :
    (inputs.foldl (sessionStep env client) s).Recorded := by
  induction inputs generalizing s with
  | nil => exact h
  | cons input rest ih => exact ih _ (sessionStep_Recorded env client s input h)

theorem stopAll_stops (s : SessionState) (h : s.Recorded) :
    ∀ ctx ∈ (unregister (stopAll s)).started, ctx ∈ (unregister (stopAll s)).stopped := by
  intro ctx hctx
  simp only [unregister, stopAll, List.mem_append] at hctx ⊢
  exact h.2 ctx hctx

/-- When the allowed room ids the repository returns are pairwise distinct and
none of them is the key `client-<clientId>-direct` of the direct consumer,
every consume context started by the session (the direct consumer, the
initial room consumers, those created on `RoomJoin`) is, after set-up and after
each input handled, either stopped or still recorded in the consumer map, and
when `StreamMessages` returns, on cancellation or on a set-up error, every
consume context it started has been stopped. -/
theorem StreamMessages_stops_every_consumer (env : SessionEnv) (req : StreamMessagesRequest)
    (inputs : List SessionInput)
    (hrooms : ∀ client allowedRooms, req.client = some client →
      env.getRoomList client.userId = .ok allowedRooms →
      (allowedRooms.map (fun room => room.id)).Nodup ∧
        directConsumerKey client.clientId ∉ allowedRooms.map (fun room => room.id)) :
    (∀ client, req.client = some client →
      (inputs.foldl (sessionStep env client) (streamSetup env req).1).Recorded) ∧
    (∀ ctx ∈ (StreamMessages env req inputs).1.started,
      ctx ∈ (StreamMessages env req inputs).1.stopped) := by
  have hsetup := streamSetup_Recorded env req hrooms
  refine ⟨fun client _ => foldl_sessionStep_Recorded env client inputs _ hsetup, ?_⟩
  unfold StreamMessages
  cases hclient : req.client with
  | none =>
    simp only []
    intro ctx hctx
    simp [streamSetup, hclient] at hctx
  | some client =>
    simp only []
    by_cases hcid : client.clientId = ""
    · simp only [hcid, if_true]
      intro ctx hctx
      simp [streamSetup, hclient, hcid] at hctx
    · simp only [hcid, if_false]
      rcases hs : streamSetup env req with ⟨s, _ | err⟩
      · rw [hs] at hsetup
        exact stopAll_stops _ (foldl_sessionStep_Recorded env client inputs _ hsetup)
      · rw [hs] at hsetup
        exact stopAll_stops _ hsetup

/-- C6, witness: the join of user 7 to room `r3`, seen by user 7's session: the
event is forwarded with the fetched room and the consumer of `r3` is recorded. -/
theorem handleJetStreamMessage_RoomJoin_witness :
    (handleJetStreamMessage demoSessionEnv demoClient {}
      (decodedMsg "CHAT_DIRECT_EVENTS.7" 3 (demoRoomJoin "r3" 7))).sent
        = [{ demoRoomJoin "r3" 7 with room := some { id := "r3" } }] ∧
    (handleJetStreamMessage demoSessionEnv demoClient {}
      (decodedMsg "CHAT_DIRECT_EVENTS.7" 3 (demoRoomJoin "r3" 7))).roomsConsumers
        = [("r3", { serial := 0, config := roomConsumerConfig "c1" "r3" })] :=
  have h := handleJetStreamMessage_RoomJoin demoSessionEnv demoClient {} "CHAT_DIRECT_EVENTS.7" 3
    (demoRoomJoin "r3" 7) 7 "2025-01-01T00:00:00Z" 3 (some { id := "r3" })
    (by decide) rfl (by decide) rfl
  ⟨h.1, h.2.2.2⟩

/-- C6, counterexample: when the room fetch fails the `RoomJoin` event is dropped
(nothing is forwarded, no consumer is created), and so is one with an empty room
id. -/
theorem handleJetStreamMessage_RoomJoin_counterexample :
    handleJetStreamMessage failingSessionEnv demoClient {}
      (decodedMsg "CHAT_DIRECT_EVENTS.7" 3 (demoRoomJoin "r3" 7)) = { fetches := 1 } ∧
    handleJetStreamMessage demoSessionEnv demoClient {}
      (decodedMsg "CHAT_DIRECT_EVENTS.7" 3 (demoRoomJoin "" 7)) = {} := by
  decide

/-- C7, witness: a session that asks for the allowed room `r2` creates the direct
consumer and the consumer of `r2`. -/
theorem streamSetup_consumers_witness :
    (streamSetup demoSessionEnv demoRequestRoom).1.created
      = [directConsumerConfig demoClient, roomConsumerConfig "c1" "r2"] :=
  (streamSetup_consumers demoSessionEnv demoRequestRoom demoClient [{ id := "r1" }, { id := "r2" }]
    rfl (by decide) rfl).2.1 (by decide)

/-- C7, counterexample: the user is allowed in `r1` and `r2`, the broker refuses the
direct consumer, and set-up ends with an error without any room consumer. -/
theorem streamSetup_consumers_counterexample :
    failingSessionEnv.getRoomList demoClient.userId = .ok [{ id := "r1" }, { id := "r2" }] ∧
    streamSetup failingSessionEnv demoRequest =
      ({ registered := true, subscribeCalls := 1 }, some "failed to subscribe to direct events") :=
  ⟨rfl, by decide⟩

/-- The room list of the demo repository has no repeated id and no id equal to the
direct consumer key. -/
theorem demoRequest_rooms (env : SessionEnv)
    (henv : env.getRoomList = fun _ => .ok [{ id := "r1" }, { id := "r2" }]) :
    ∀ client allowedRooms, demoRequest.client = some client →
      env.getRoomList client.userId = .ok allowedRooms →
      (allowedRooms.map (fun room => room.id)).Nodup ∧
        directConsumerKey client.clientId ∉ allowedRooms.map (fun room => room.id) := by
  intro client allowedRooms hclient hlist
  rw [henv] at hlist
  simp only [demoRequest, Option.some.injEq] at hclient
  simp only [Except.ok.injEq] at hlist
  subst hclient hlist
  decide

/-- In a session that joins `r3` and leaves `r1`, the consume context started for
`r3` on the `RoomJoin` has been stopped when `StreamMessages` returns. -/
theorem StreamMessages_stops_every_consumer_witness :
    ({ serial := 3, config := roomConsumerConfig "c1" "r3" } : ConsumeContext)
      ∈ (StreamMessages demoSessionEnv demoRequest demoInputs).1.started ∧
    ({ serial := 3, config := roomConsumerConfig "c1" "r3" } : ConsumeContext)
      ∈ (StreamMessages demoSessionEnv demoRequest demoInputs).1.stopped :=
  ⟨by decide,
    (StreamMessages_stops_every_consumer demoSessionEnv demoRequest demoInputs
      (demoRequest_rooms demoSessionEnv rfl)).2 _ (by decide)⟩

/-- C8: a consume context started by the set-up loop is left running when the
room list names a room twice. The repository lists `r1` twice and the stream is
cancelled without a delivery: the second consume context on `r1` replaces the
first in the consumer map; the first was started, is recorded nowhere, and is
not stopped when `StreamMessages` returns without error. -/
theorem StreamMessages_duplicate_room_counterexample :
    (StreamMessages duplicateRoomsEnv demoRequest []).2 = none ∧
    ({ serial := 1, config := roomConsumerConfig "c1" "r1" } : ConsumeContext)
      ∈ (StreamMessages duplicateRoomsEnv demoRequest []).1.started ∧
    ({ serial := 1, config := roomConsumerConfig "c1" "r1" } : ConsumeContext)
      ∉ (StreamMessages duplicateRoomsEnv demoRequest []).1.stopped := by
  decide

/-! ## Room repositories -/

/-- The pair returned by `sortUserIDs` is ordered and does not depend on the order
of the arguments. -/
theorem sortUserIDs_ordered_symmetric (a b : Int) :
    (sortUserIDs a b).1 ≤ (sortUserIDs a b).2 ∧ sortUserIDs a b = sortUserIDs b a := by
  unfold sortUserIDs
  by_cases h1 : a < b
  · have h2 : ¬ b < a := by omega
    simp only [h1, h2, if_true, if_false, and_true]
    omega
  · by_cases h2 : b < a
    · simp only [h1, h2, if_true, if_false, and_true]
      omega
    · have : a = b := by omega
      subst this
      simp

/-- With a well-formed room id `GetRoomParticipants` of the wide-column repository
returns a list. -/
theorem ScyllaRoomRepository.GetRoomParticipants_ok (env : ScyllaEnv) (db : ScyllaDb)
    (roomId : String) (roomUUID : UUID) (limit : Nat) (hparse : env.parseUUID roomId = some roomUUID) :
    ∃ participants,
      ScyllaRoomRepository.GetRoomParticipants env db roomId limit = .ok participants := by
  simp only [ScyllaRoomRepository.GetRoomParticipants, hparse]
  exact ⟨_, rfl⟩

/-- In the wide-column repository `GetRoom`, called without the cache, returns a
room for every user as soon as the room's details exist: the caller's membership
is not a condition. -/
theorem ScyllaRoomRepository.GetRoom_found (env : ScyllaEnv) (db : ScyllaDb) (userId : Int)
    (roomId : String) (roomUUID : UUID) (details : RoomDetailsRow) (allData : Bool)
    (hparse : env.parseUUID roomId = some roomUUID)
    (hdetails : db.roomDetails.find? (fun row => row.roomId = roomUUID) = some details) :
    ∃ room, ScyllaRoomRepository.GetRoom env db userId roomId allData false
        = (db, .ok (some room)) ∧
      room.id = roomId ∧ room.encryptionData = details.encryptionData := by
  obtain ⟨participants, hp⟩ :=
    ScyllaRoomRepository.GetRoomParticipants_ok env db roomId roomUUID 0 hparse
  simp only [ScyllaRoomRepository.GetRoom, hparse, hdetails, hp, Outcome.bind,
    Bool.false_eq_true, if_false]
  cases allData with
  | false =>
    simp only [Bool.false_eq_true, if_false]
    refine ⟨_, rfl, ?_, ?_⟩ <;> (repeat' split) <;> rfl
  | true =>
    simp only [if_true]
    split
    · rename_i room hroom
      refine ⟨room, rfl, ?_, ?_⟩
      all_goals
        revert hroom
        repeat' split
      all_goals
        intro hroom
        simp only [Outcome.ok.injEq] at hroom
        subst hroom
        rfl
    · rename_i e he
      exfalso
      revert he
      repeat' split
      all_goals simp
    · rename_i he
      exfalso
      revert he
      repeat' split
      all_goals simp

/-- While the pair's row of `p2p_room_by_users` points to a room whose details
exist, a p2p `CreateRoom` between the two users returns that room and writes
nothing, whoever of the two creates. -/
theorem ScyllaRoomRepository.CreateRoom_existing (env : ScyllaEnv) (db : ScyllaDb)
    (roomID : UUID) (now : Nat) (encryptionData : String) (userId other : Int)
    (row : P2PRoomRow) (details : RoomDetailsRow)
    (hrow : db.p2pRoomByUsers.find? (fun r =>
      r.user1Id = (sortUserIDs userId other).1 ∧ r.user2Id = (sortUserIDs userId other).2)
        = some row)
    (hparse : env.parseUUID (env.uuidString row.roomId) = some row.roomId)
    (hdetails : db.roomDetails.find? (fun d => d.roomId = row.roomId) = some details) :
    (∃ room, ScyllaRoomRepository.CreateRoom env db roomID now encryptionData userId
        { type := "p2p", participants := [other] } = (db, .ok (some room)) ∧
      room.id = env.uuidString row.roomId) ∧
    (∃ room, ScyllaRoomRepository.CreateRoom env db roomID now encryptionData other
        { type := "p2p", participants := [userId] } = (db, .ok (some room)) ∧
      room.id = env.uuidString row.roomId) := by
  have hsym := (sortUserIDs_ordered_symmetric userId other).2
  have hrow' : db.p2pRoomByUsers.find? (fun r =>
      r.user1Id = (sortUserIDs other userId).1 ∧ r.user2Id = (sortUserIDs other userId).2)
        = some row := by
    rw [← hsym]; exact hrow
  constructor
  · obtain ⟨room, hroom, hid, -⟩ := ScyllaRoomRepository.GetRoom_found env db userId
      (env.uuidString row.roomId) row.roomId details true hparse hdetails
    refine ⟨room, ?_, hid⟩
    simp only [ScyllaRoomRepository.CreateRoom, if_true, hrow, hroom]
  · obtain ⟨room, hroom, hid, -⟩ := ScyllaRoomRepository.GetRoom_found env db other
      (env.uuidString row.roomId) row.roomId details true hparse hdetails
    refine ⟨room, ?_, hid⟩
    simp only [ScyllaRoomRepository.CreateRoom, if_true, hrow', hroom]

/-- When the pair's row of `p2p_room_by_users` points to a room whose details are
gone, a p2p `CreateRoom` between the two users returns no room and no error, and
writes nothing, whoever of the two creates. -/
theorem ScyllaRoomRepository.CreateRoom_stale (env : ScyllaEnv) (db : ScyllaDb)
    (roomID : UUID) (now : Nat) (encryptionData : String) (userId other : Int)
    (row : P2PRoomRow)
    (hrow : db.p2pRoomByUsers.find? (fun r =>
      r.user1Id = (sortUserIDs userId other).1 ∧ r.user2Id = (sortUserIDs userId other).2)
        = some row)
    (hparse : env.parseUUID (env.uuidString row.roomId) = some row.roomId)
    (hdetails : db.roomDetails.find? (fun d => d.roomId = row.roomId) = none) :
    ScyllaRoomRepository.CreateRoom env db roomID now encryptionData userId
        { type := "p2p", participants := [other] } = (db, .ok none) ∧
    ScyllaRoomRepository.CreateRoom env db roomID now encryptionData other
        { type := "p2p", participants := [userId] } = (db, .ok none) := by
  have hsym := (sortUserIDs_ordered_symmetric userId other).2
  have hrow' : db.p2pRoomByUsers.find? (fun r =>
      r.user1Id = (sortUserIDs other userId).1 ∧ r.user2Id = (sortUserIDs other userId).2)
        = some row := by
    rw [← hsym]; exact hrow
  constructor
  · simp only [ScyllaRoomRepository.CreateRoom, if_true, hrow, ScyllaRoomRepository.GetRoom,
      Bool.false_eq_true, if_false, hparse, hdetails]
  · simp only [ScyllaRoomRepository.CreateRoom, if_true, hrow', ScyllaRoomRepository.GetRoom,
      Bool.false_eq_true, if_false, hparse, hdetails]

/-- The method `DeleteRoom` of the wide-column repository removes the room's
details and leaves `p2p_room_by_users` as it was. -/
theorem ScyllaRoomRepository.DeleteRoom_keeps_p2p_row (env : ScyllaEnv) (db : ScyllaDb)
    (now : Nat) (roomId : String) (roomUUID : UUID)
    (hparse : env.parseUUID roomId = some roomUUID) :
    (ScyllaRoomRepository.DeleteRoom env db now roomId).1.p2pRoomByUsers = db.p2pRoomByUsers ∧
    (ScyllaRoomRepository.DeleteRoom env db now roomId).1.roomDetails.find?
      (fun d => d.roomId = roomUUID) = none := by
  obtain ⟨participants, hp⟩ :=
    ScyllaRoomRepository.GetRoomParticipants_ok env db roomId roomUUID 0 hparse
  have hfold : ∀ (ps : List RoomParticipant) (d : ScyllaDb),
      (ps.foldl (fun db p => db.dropMembership roomUUID now "deleted" p.id) d).p2pRoomByUsers
        = d.p2pRoomByUsers ∧
      (ps.foldl (fun db p => db.dropMembership roomUUID now "deleted" p.id) d).roomDetails
        = d.roomDetails := by
    intro ps
    induction ps with
    | nil => intro d; exact ⟨rfl, rfl⟩
    | cons p ps ih =>
      intro d
      simp only [List.foldl_cons]
      obtain ⟨h1, h2⟩ := ih (d.dropMembership roomUUID now "deleted" p.id)
      exact ⟨h1, h2⟩
  simp only [ScyllaRoomRepository.DeleteRoom, hparse, hp]
  refine ⟨(hfold participants db).1, ?_⟩
  simp only [(hfold participants db).2]
  rw [List.find?_eq_none]
  intro d hd
  simp only [List.mem_filter, ne_eq, decide_not, Bool.not_eq_true', decide_eq_false_iff_not] at hd
  simpa using hd.2

/-- A `flatMap` over a non-empty list whose pieces are non-empty is non-empty. -/
theorem flatMap_ne_nil {α β : Type} (l : List α) (f : α → List β) (hl : l ≠ [])
    (hf : ∀ a ∈ l, f a ≠ []) : l.flatMap f ≠ [] := by
  cases l with
  | nil => exact absurd rfl hl
  | cons a t =>
    intro h
    simp only [List.flatMap_cons, List.append_eq_nil] at h
    exact hf a (List.mem_cons_self _ _) h.1

/-- The query of the relational `GetRoom` yields a row exactly when the caller has
an active membership in the room, the room is not deleted and the caller has a
user row. -/
theorem SQLRoomRepository.getRoomRows_ne_nil_iff (db : SqlDb) (userId : Int) (roomId : String) :
    SQLRoomRepository.getRoomRows db userId roomId ≠ [] ↔
      (db.activeMember userId roomId = true ∧ db.liveRoom roomId = true ∧
        ∃ me ∈ db.user, me.id = userId) := by
  constructor
  · intro h
    obtain ⟨⟨mm, room, j⟩, hx⟩ := List.exists_mem_of_ne_nil _ h
    simp only [SQLRoomRepository.getRoomRows, List.mem_flatMap, List.mem_filter,
      decide_eq_true_eq] at hx
    obtain ⟨mm', hmm, room', ⟨hroom, hid, huser, hactive⟩, me, ⟨hme, hmeid⟩, j', -, hrow⟩ := hx
    split at hrow
    · rename_i hc
      refine ⟨?_, ?_, me, hme, ?_⟩
      · simp only [SqlDb.activeMember, List.any_eq_true, decide_eq_true_eq]
        exact ⟨mm', hmm, by rw [← hid, hc.2], huser, hactive⟩
      · simp only [SqlDb.liveRoom, List.any_eq_true, decide_eq_true_eq, Bool.and_eq_true]
        exact ⟨room', hroom, hc.2, hc.1⟩
      · rw [← hmeid, huser]
    · simp at hrow
  · rintro ⟨hmember, hlive, me, hme, hmeid⟩
    simp only [SqlDb.activeMember, List.any_eq_true, decide_eq_true_eq] at hmember
    obtain ⟨mm, hmm, hmroom, hmuser, hmactive⟩ := hmember
    simp only [SqlDb.liveRoom, List.any_eq_true, decide_eq_true_eq, Bool.and_eq_true] at hlive
    obtain ⟨room, hroom, hrid, hrdel⟩ := hlive
    intro hnil
    have hmem : ∀ j, (mm, room, j) ∉ SQLRoomRepository.getRoomRows db userId roomId := by
      intro j; rw [hnil]; exact List.not_mem_nil _
    simp only [SQLRoomRepository.getRoomRows, List.mem_flatMap, List.mem_filter,
      decide_eq_true_eq, not_exists, not_and] at hmem
    -- the left joins always yield a row
    have hjoined : ∀ (pms : List SqlRoomMemberRow),
        (if pms = [] then [none]
          else pms.flatMap fun pm =>
            if (db.user.filter fun partner => pm.userId = partner.id) = [] then [some (pm, none)]
            else (db.user.filter fun partner => pm.userId = partner.id).map
              fun partner => some (pm, some partner)) ≠
          ([] : List (Option (SqlRoomMemberRow × Option SqlUserRow))) := by
      intro pms
      split
      · simp
      · rename_i hne
        apply flatMap_ne_nil _ _ hne
        intro pm _
        split
        · simp
        · rename_i hp
          simpa using hp
    obtain ⟨j, hj⟩ := List.exists_mem_of_ne_nil _ (hjoined (db.roomMember.filter fun pm =>
      room.id = pm.roomId ∧ pm.userId ≠ userId ∧ room.type = "p2p" ∧ pm.active))
    refine hmem j mm hmm room ⟨hroom, by rw [hrid, hmroom], hmuser, hmactive⟩ me
      ⟨hme, by rw [hmuser, hmeid]⟩ j ?_ ?_
    · simpa using hj
    · simp [hrid, hrdel]

/-- In the relational repository, on a cache miss, `GetRoom` returns a room
exactly when the caller has an active membership in the room, the room is not
deleted and the caller's user row exists; otherwise it returns no room and no
error. -/
theorem SQLRoomRepository.GetRoom_iff_member (db : SqlDb) (userId : Int) (roomId : String)
    (allData cache : Bool)
    (hmiss : GetCachedRoom db.cache (roomCacheKey roomId userId allData) = none) :
    ((∃ room, (SQLRoomRepository.GetRoom db userId roomId allData cache).2 = .ok (some room)) ↔
      (db.activeMember userId roomId = true ∧ db.liveRoom roomId = true ∧
        ∃ me ∈ db.user, me.id = userId)) ∧
    ((SQLRoomRepository.GetRoom db userId roomId allData cache).2 = .ok none ↔
      ¬ (db.activeMember userId roomId = true ∧ db.liveRoom roomId = true ∧
        ∃ me ∈ db.user, me.id = userId)) := by
  rw [← SQLRoomRepository.getRoomRows_ne_nil_iff]
  simp only [SQLRoomRepository.GetRoom, hmiss]
  cases hrows : SQLRoomRepository.getRoomRows db userId roomId with
  | nil => simp
  | cons row rest =>
    obtain ⟨mm, r, j⟩ := row
    simp

/-- When `p2p_room_by_users` has no row for the pair, a p2p `CreateRoom` writes
the pair's row and the details of the new room, and returns the new room. -/
theorem ScyllaRoomRepository.CreateRoom_new (env : ScyllaEnv) (db : ScyllaDb)
    (roomID : UUID) (now : Nat) (encryptionData : String) (userId other : Int)
    (hnone : db.p2pRoomByUsers.find? (fun r =>
      r.user1Id = (sortUserIDs userId other).1 ∧ r.user2Id = (sortUserIDs userId other).2)
        = none)
    (hparse : env.parseUUID (env.uuidString roomID) = some roomID) :
    (ScyllaRoomRepository.CreateRoom env db roomID now encryptionData userId
        { type := "p2p", participants := [other] }).1.p2pRoomByUsers.find? (fun r =>
      r.user1Id = (sortUserIDs userId other).1 ∧ r.user2Id = (sortUserIDs userId other).2)
        = some { user1Id := (sortUserIDs userId other).1, user2Id := (sortUserIDs userId other).2,
                 roomId := roomID } ∧
    (∃ details, (ScyllaRoomRepository.CreateRoom env db roomID now encryptionData userId
        { type := "p2p", participants := [other] }).1.roomDetails.find?
          (fun d => d.roomId = roomID) = some details) ∧
    (∃ room, (ScyllaRoomRepository.CreateRoom env db roomID now encryptionData userId
        { type := "p2p", participants := [other] }).2 = .ok (some room) ∧
      room.id = env.uuidString roomID) := by
  simp only [ScyllaRoomRepository.CreateRoom, if_true, hnone]
  have hdetails : (ScyllaRoomRepository.createRoomWrites db roomID now encryptionData userId
      { type := "p2p", participants := [other] } ([other] ++ [toInt32 userId]).eraseDups
      [{ user1Id := (sortUserIDs userId other).1, user2Id := (sortUserIDs userId other).2,
         roomId := roomID }]).roomDetails.find? (fun d => d.roomId = roomID)
      = some { roomId := roomID, name := none, description := none, image := none, type := "p2p",
               encryptionData := encryptionData, joinAllUser := false, sendMessage := some true,
               addMember := some false, editGroup := some false } := by
    simp [ScyllaRoomRepository.createRoomWrites]
  obtain ⟨room, hroom, hid, -⟩ := ScyllaRoomRepository.GetRoom_found env _ userId
    (env.uuidString roomID) roomID _ true hparse hdetails
  rw [hroom]
  refine ⟨?_, ⟨_, hdetails⟩, room, rfl, hid⟩
  simp [ScyllaRoomRepository.createRoomWrites]

/-- In the relational repository a p2p `CreateRoom` in the reverse direction returns
the room of the first creation, and after that room was deleted a p2p `CreateRoom`
creates and returns a new room. -/
theorem SQLRoomRepository_CreateRoom_after_delete :
    (SQLRoomRepository.CreateRoom demoSqlDb "room-1" "key-1" 3 demoP2PRequest).2
      = .ok { id := "room-1", type := "p2p", encryptionData := "key-1", sendMessage := true,
              role := "OWNER", partner := some { id := 7, name := "Bo" } } ∧
    ((SQLRoomRepository.CreateRoom sqlAfterCreate "room-2" "key-2" 7
        { type := "p2p", participants := [3] }).2.bind fun room => .ok room.id) = .ok "room-1" ∧
    ((SQLRoomRepository.CreateRoom sqlAfterDelete "room-2" "key-2" 3 demoP2PRequest).2.bind
        fun room => .ok room.id) = .ok "room-2" := by
  decide

/-- C9: the lookup key `sortUserIDs a b` of the wide-column repository is ordered
and equals `sortUserIDs b a`; but `DeleteRoom` of that repository leaves the pair's
row of `p2p_room_by_users` in place, so once users 3 and 7 have created their p2p
room (id `room-1`) and the room has been deleted, a p2p `CreateRoom` between them,
in either direction, finds the stale row, reads no room details, and returns no
room and no error without writing anything: no room id is returned and no
non-deleted p2p room exists for the pair. -/
theorem ScyllaRoomRepository_CreateRoom_after_delete :
    (∀ a b : Int, (sortUserIDs a b).1 ≤ (sortUserIDs a b).2 ∧ sortUserIDs a b = sortUserIDs b a) ∧
    (ScyllaRoomRepository.CreateRoom demoScyllaEnv {} 1 100 "key-1" 3 demoP2PRequest).2
      = .ok (some { id := "room-1", type := "p2p", encryptionData := "key-1", sendMessage := true,
                    role := "OWNER",
                    partner := some { id := 7, name := "Bo", role := "MEMBER" } }) ∧
    scyllaAfterDelete.roomDetails = [] ∧
    scyllaAfterDelete.p2pRoomByUsers = [{ user1Id := 3, user2Id := 7, roomId := 1 }] ∧
    ScyllaRoomRepository.CreateRoom demoScyllaEnv scyllaAfterDelete 2 300 "key-2" 3 demoP2PRequest
      = (scyllaAfterDelete, .ok none) ∧
    ScyllaRoomRepository.CreateRoom demoScyllaEnv scyllaAfterDelete 2 300 "key-2" 7
        { type := "p2p", participants := [3] }
      = (scyllaAfterDelete, .ok none) := by
  refine ⟨sortUserIDs_ordered_symmetric, ?_⟩
  decide

/-- C10: in the wide-column repository `GetRoom` returns the room to a user without
a membership: user 9 has no row in `room_membership_lookup` for the p2p room
`room-1` of users 3 and 7, and `GetRoom` for user 9 returns the room with its
encryption data, with all data and without; the relational repository returns no
room for the same non-member. -/
theorem ScyllaRoomRepository_GetRoom_non_member :
    scyllaAfterCreate.member 9 1 = false ∧
    (∃ room, (ScyllaRoomRepository.GetRoom demoScyllaEnv scyllaAfterCreate 9 "room-1" true false).2
        = .ok (some room) ∧ room.id = "room-1" ∧ room.encryptionData = "key-1") ∧
    (ScyllaRoomRepository.GetRoom demoScyllaEnv scyllaAfterCreate 9 "room-1" false true).2
      = .ok (some { id := "room-1", type := "p2p", encryptionData := "key-1",
                    sendMessage := true }) ∧
    sqlAfterCreate.activeMember 9 "room-1" = false ∧
    (SQLRoomRepository.GetRoom sqlAfterCreate 9 "room-1" true false).2 = .ok none := by
  refine ⟨by decide, ⟨_, rfl, by decide, by decide⟩, by decide, by decide, by decide⟩

/-! ## Unread counters and read receipts -/

/-- Looking a key up after an update of the rows that keeps their keys. -/
theorem find?_map_counter (counters : List CounterRow) (g : CounterRow → CounterRow)
    (hg : ∀ row, (g row).userId = row.userId ∧ (g row).roomId = row.roomId) (u : Int) (r : UUID) :
    (counters.map g).find? (fun row => row.userId = u ∧ row.roomId = r)
      = (counters.find? fun row => row.userId = u ∧ row.roomId = r).map g := by
  induction counters with
  | nil => rfl
  | cons row rest ih =>
    simp only [List.map_cons, List.find?_cons, (hg row).1, (hg row).2]
    split
    · rfl
    · exact ih

/-- A key that some row carries is found. -/
theorem find?_counter_isSome (counters : List CounterRow) (u : Int) (r : UUID)
    (hany : counters.any (fun row => row.userId = u ∧ row.roomId = r) = true) :
    ∃ row, counters.find? (fun row => row.userId = u ∧ row.roomId = r) = some row ∧
      row.userId = u ∧ row.roomId = r := by
  simp only [List.any_eq_true, decide_eq_true_eq] at hany
  obtain ⟨x, hx, hk⟩ := hany
  cases hf : counters.find? (fun row => row.userId = u ∧ row.roomId = r) with
  | none =>
    rw [List.find?_eq_none] at hf
    exact absurd (by simpa using hk) (hf x hx)
  | some row =>
    have := List.find?_some hf
    exact ⟨row, rfl, by simpa using this⟩

/-- A key that no row carries is not found. -/
theorem find?_counter_none (counters : List CounterRow) (u : Int) (r : UUID)
    (hany : ¬ counters.any (fun row => row.userId = u ∧ row.roomId = r) = true) :
    counters.find? (fun row => row.userId = u ∧ row.roomId = r) = none := by
  simp only [List.any_eq_true, decide_eq_true_eq, not_exists, not_and] at hany
  rw [List.find?_eq_none]
  intro x hx
  simpa using hany x hx

/-- The value read for a key after a counter update: the old value, raised by
the delta when the key is the one updated. -/
theorem find_addUnreadCount (counters : List CounterRow) (u u' : Int) (r r' : UUID) (d : Int) :
    (((ScyllaDb.addUnreadCount counters u r d).find?
        fun row => row.userId = u' ∧ row.roomId = r').map fun row => row.unreadCount).getD 0
      = ((counters.find? fun row => row.userId = u' ∧ row.roomId = r').map
          fun row => row.unreadCount).getD 0 + (if u = u' ∧ r = r' then d else 0) := by
  unfold ScyllaDb.addUnreadCount
  split
  · rename_i hany
    rw [find?_map_counter _ _ (by intro row; split <;> exact ⟨rfl, rfl⟩)]
    by_cases hk : u = u' ∧ r = r'
    · obtain ⟨rfl, rfl⟩ := hk
      obtain ⟨row, hrow, hu, hr⟩ := find?_counter_isSome counters u r hany
      rw [hrow]
      simp [hu, hr]
    · cases hf : counters.find? (fun row => row.userId = u' ∧ row.roomId = r') with
      | none => simp [hk]
      | some row =>
        have hrow := List.find?_some hf
        simp only [decide_eq_true_eq] at hrow
        have hne : ¬ (row.userId = u ∧ row.roomId = r) := by
          rintro ⟨h1, h2⟩; exact hk ⟨h1.symm.trans hrow.1, h2.symm.trans hrow.2⟩
        simp [hk, hne]
  · rename_i hany
    by_cases hk : u = u' ∧ r = r'
    · obtain ⟨rfl, rfl⟩ := hk
      rw [List.find?_append, find?_counter_none counters u r hany]
      simp
    · simp only [hk, if_false, add_zero]
      rw [List.find?_append]
      cases hf : counters.find? (fun row => row.userId = u' ∧ row.roomId = r') with
      | some x => simp
      | none =>
        have : ¬ (u = u' ∧ r = r') := hk
        simp [List.find?_cons, this]

/-- The participants read depend on `participants_by_room` only. -/
theorem ScyllaRoomRepository.GetRoomParticipants_congr (env : ScyllaEnv) (db db' : ScyllaDb)
    (id : String) (limit : Nat) (h : db'.participantsByRoom = db.participantsByRoom) :
    ScyllaRoomRepository.GetRoomParticipants env db' id limit
      = ScyllaRoomRepository.GetRoomParticipants env db id limit := by
  simp only [ScyllaRoomRepository.GetRoomParticipants, h]

/-- The inbox move leaves the counters alone. -/
theorem ScyllaRoomRepository.updateRoomForUser_counters (db db' : ScyllaDb) (userId : Int)
    (roomUUID : UUID) (newTime : Nat) (sender : Option User)
    (h : ScyllaRoomRepository.updateRoomForUser db userId roomUUID newTime sender = some db') :
    db'.roomCountersByUser = db.roomCountersByUser := by
  unfold ScyllaRoomRepository.updateRoomForUser at h
  split at h
  · cases h; rfl
  · split at h
    · cases h; rfl
    · split at h
      · cases h
      · cases h; rfl

/-- The first loop of `SaveMessage` leaves the counters alone. -/
theorem ScyllaRoomRepository.fanout_counters (roomUUID : UUID) (now : Nat) (sender : Option User)
    (participants : List RoomParticipant) (acc : ScyllaDb × Bool) :
    (participants.foldl (ScyllaRoomRepository.fanoutStep roomUUID now sender)
      acc).1.roomCountersByUser = acc.1.roomCountersByUser := by
  induction participants generalizing acc with
  | nil => rfl
  | cons p ps ih =>
    simp only [List.foldl_cons]
    rw [ih]
    unfold ScyllaRoomRepository.fanoutStep
    split
    · split
      · rename_i db' h
        exact ScyllaRoomRepository.updateRoomForUser_counters _ _ _ _ _ _ h
      · rfl
    · rfl

/-- The second loop of `SaveMessage` raises the counter of a user once for each
time the user is listed as a participant other than the sender. -/
theorem ScyllaRoomRepository.countAndStatus_counters (userId : Int) (roomUUID messageID : UUID)
    (participants : List RoomParticipant) (db : ScyllaDb) (user : Int) :
    (participants.foldl (ScyllaRoomRepository.countAndStatus userId roomUUID messageID)
        db).unreadCount user roomUUID
      = db.unreadCount user roomUUID
        + ((participants.filter fun p => p.id = user ∧ p.id ≠ toInt32 userId).length : Int) := by
  induction participants generalizing db with
  | nil => simp
  | cons p ps ih =>
    simp only [List.foldl_cons]
    rw [ih]
    have hstep : (ScyllaRoomRepository.countAndStatus userId roomUUID messageID db p).unreadCount
        user roomUUID = db.unreadCount user roomUUID
          + (if p.id = user ∧ p.id ≠ toInt32 userId then 1 else 0) := by
      unfold ScyllaRoomRepository.countAndStatus
      by_cases hp : p.id ≠ toInt32 userId
      · rw [if_pos hp]
        simp only [ScyllaDb.unreadCount]
        rw [find_addUnreadCount]
        simp [hp]
      · rw [if_neg hp]
        simp [ScyllaDb.unreadCount, hp]
    rw [hstep, List.filter_cons]
    by_cases hc : p.id = user ∧ p.id ≠ toInt32 userId
    · rw [if_pos hc, if_pos (by simpa using hc)]
      simp only [List.length_cons, Nat.cast_add, Nat.cast_one]
      ring
    · rw [if_neg hc, if_neg (by simpa using hc)]
      ring

/-- In the wide-column repository a successful `SaveMessage` in a room raises the
counter `unread_count` of a user for that room by the number of times the user
is listed among the room's participants under an id other than the sender's
(once for a participant who is not the sender, not at all for the sender or for
a user outside the room). -/
theorem ScyllaRoomRepository.SaveMessage_unreadCount (env : ScyllaEnv) (db : ScyllaDb)
    (roomId : String) (roomUUID : UUID) (hparse : env.parseUUID roomId = some roomUUID)
    (messageID : UUID) (now : Nat) (sender : Int) (req : SendMessageRequest)
    (contentDecrypted : String) (participants : List RoomParticipant) (msg : MessageData)
    (hreq : req.roomId = roomId)
    (hp : ScyllaRoomRepository.GetRoomParticipants env db roomId 0 = .ok participants)
    (hok : (ScyllaRoomRepository.SaveMessage env db messageID now sender req contentDecrypted).2
      = .ok msg) (user : Int) :
    (ScyllaRoomRepository.SaveMessage env db messageID now sender req
        contentDecrypted).1.unreadCount user roomUUID
      = db.unreadCount user roomUUID
        + ((participants.filter fun p => p.id = user ∧ p.id ≠ toInt32 sender).length : Int) := by
  subst hreq
  revert hok
  simp only [ScyllaRoomRepository.SaveMessage, hparse]
  rw [ScyllaRoomRepository.GetRoomParticipants_congr env db
    (ScyllaRoomRepository.saveMessageBatch db roomUUID messageID now sender req contentDecrypted)
    req.roomId 0 rfl, hp]
  simp only []
  split
  · intro hok; cases hok
  · cases hs : env.getUserByID sender with
    | none => intro hok; cases hok
    | some s =>
      intro _
      show (List.foldl (ScyllaRoomRepository.countAndStatus sender roomUUID messageID) _
        participants).unreadCount user roomUUID = _
      rw [ScyllaRoomRepository.countAndStatus_counters]
      congr 1
      simp only [ScyllaDb.unreadCount]
      rw [ScyllaRoomRepository.fanout_counters]
      rfl

/-- The writes of `markRead` leave the counters alone. -/
theorem ScyllaRoomRepository.markRead_foldl_counters (env : ScyllaEnv) (now : Nat)
    (userId : Int) (roomUUID : UUID) (ids : List String) (db : ScyllaDb) :
    (ids.foldl (ScyllaRoomRepository.markRead env now userId roomUUID) db).roomCountersByUser
      = db.roomCountersByUser := by
  induction ids generalizing db with
  | nil => rfl
  | cons id rest ih =>
    simp only [List.foldl_cons]
    rw [ih]
    unfold ScyllaRoomRepository.markRead
    cases env.parseUUID id <;> rfl

/-- In the wide-column repository `MarkMessagesAsRead` never changes a counter,
and it succeeds only when there is nothing to mark: it then answers 0 and
leaves the store as it is. With something to mark, the call ends with the error
of the refused reset of the counter. -/
theorem ScyllaRoomRepository.MarkMessagesAsRead_counters (env : ScyllaEnv) (db : ScyllaDb)
    (now : Nat) (userId : Int) (roomId : String) (messageIds : List String) (since : String) :
    (ScyllaRoomRepository.MarkMessagesAsRead env db now userId roomId messageIds
      since).1.roomCountersByUser = db.roomCountersByUser ∧
    (∀ n, (ScyllaRoomRepository.MarkMessagesAsRead env db now userId roomId messageIds
        since).2 = .ok n →
      n = 0 ∧
      ScyllaRoomRepository.MarkMessagesAsRead env db now userId roomId messageIds since
        = (db, .ok 0)) := by
  unfold ScyllaRoomRepository.MarkMessagesAsRead
  cases env.parseUUID roomId with
  | none => exact ⟨rfl, fun n h => by cases h⟩
  | some roomUUID =>
    simp only []
    split
    · exact ⟨rfl, fun n h => by cases h⟩
    · exact ⟨rfl, fun n h => by cases h⟩
    · split
      · exact ⟨rfl, fun n h => by simp only [Outcome.ok.injEq] at h; exact ⟨h.symm, rfl⟩⟩
      · simp only [ScyllaDb.setUnreadCount]
        exact ⟨ScyllaRoomRepository.markRead_foldl_counters _ _ _ _ _ _, fun n h => by cases h⟩

/-- C11: in the wide-column repository the counter does not follow the unread
messages. After user 7 sent two messages to the p2p room with user 3, user 3 has
a counter of 2 and two messages without receipt. User 3 then marks the first
message as read, with the `since` the handler passes (the creation time of that
message): the receipt of `msg-1` is written, the reset of the counter is
refused by the store and the call ends with its error; the counter is still 2
while one message is without a read receipt of user 3. -/
theorem ScyllaRoomRepository_MarkMessagesAsRead_counter_kept :
    scyllaTwoMessages.unreadCount 3 1 = 2 ∧
    scyllaTwoMessages.unreadMessages 3 1 = 2 ∧
    (ScyllaRoomRepository.MarkMessagesAsRead demoScyllaEnv scyllaTwoMessages 3 3 "room-1"
        ["msg-1"] "t1").2
      = .error ("error al resetear contador de no leídos: " ++
          "Cannot set the value of counter column unread_count " ++
          "(counters can only be incremented/decremented, not set)") ∧
    (ScyllaRoomRepository.MarkMessagesAsRead demoScyllaEnv scyllaTwoMessages 3 3 "room-1"
        ["msg-1"] "t1").1.hasReadReceipt 3 11 = true ∧
    (ScyllaRoomRepository.MarkMessagesAsRead demoScyllaEnv scyllaTwoMessages 3 3 "room-1"
        ["msg-1"] "t1").1.hasReadReceipt 3 12 = false ∧
    (ScyllaRoomRepository.MarkMessagesAsRead demoScyllaEnv scyllaTwoMessages 3 3 "room-1"
        ["msg-1"] "t1").1.unreadMessages 3 1 = 1 ∧
    (ScyllaRoomRepository.MarkMessagesAsRead demoScyllaEnv scyllaTwoMessages 3 3 "room-1"
        ["msg-1"] "t1").1.unreadCount 3 1 = 2 := by
  decide

/-- Membership in the accumulating loop of `List.eraseDups`. -/
theorem mem_eraseDups_loop {α : Type} [BEq α] [LawfulBEq α] (a : α) (as bs : List α) :
    a ∈ List.eraseDups.loop as bs ↔ a ∈ as ∨ a ∈ bs := by
  induction as generalizing bs with
  | nil => simp [List.eraseDups.loop]
  | cons x xs ih =>
    unfold List.eraseDups.loop
    cases hx : bs.elem x with
    | true =>
      simp only [List.elem_eq_mem, decide_eq_true_eq] at hx
      simp only []
      rw [ih]
      constructor
      · rintro (h | h)
        · exact Or.inl (List.mem_cons_of_mem _ h)
        · exact Or.inr h
      · rintro (h | h)
        · rcases List.mem_cons.mp h with rfl | h
          · exact Or.inr hx
          · exact Or.inl h
        · exact Or.inr h
    | false =>
      simp only []
      rw [ih]
      constructor
      · rintro (h | h)
        · exact Or.inl (List.mem_cons_of_mem _ h)
        · rcases List.mem_cons.mp h with rfl | h
          · exact Or.inl (List.mem_cons_self _ _)
          · exact Or.inr h
      · rintro (h | h)
        · rcases List.mem_cons.mp h with rfl | h
          · exact Or.inr (List.mem_cons_self _ _)
          · exact Or.inl h
        · exact Or.inr (List.mem_cons_of_mem _ h)

/-- The list without repetitions has the elements of the list. -/
theorem mem_eraseDups {α : Type} [BEq α] [LawfulBEq α] (a : α) (as : List α) :
    a ∈ as.eraseDups ↔ a ∈ as := by
  unfold List.eraseDups
  rw [mem_eraseDups_loop]
  simp

/-- The writes of `markRead` give the user a receipt for the id marked and keep
the receipts there are. -/
theorem ScyllaRoomRepository.markRead_receipt (env : ScyllaEnv) (now : Nat) (userId : Int)
    (roomUUID : UUID) (db : ScyllaDb) (msgIdStr : String) (messageUUID : UUID)
    (h : env.parseUUID msgIdStr = some messageUUID ∨ db.hasReadReceipt userId messageUUID = true) :
    (ScyllaRoomRepository.markRead env now userId roomUUID db msgIdStr).hasReadReceipt userId
      messageUUID = true := by
  unfold ScyllaRoomRepository.markRead
  cases hp : env.parseUUID msgIdStr with
  | none =>
    rcases h with h | h
    · rw [hp] at h; cases h
    · exact h
  | some u =>
    by_cases hu : u = messageUUID
    · simp [ScyllaDb.hasReadReceipt, hu]
    · rcases h with h | h
      · rw [hp] at h
        exact absurd (Option.some.inj h) hu
      · simp only [ScyllaDb.hasReadReceipt, List.any_eq_true, decide_eq_true_eq] at h ⊢
        obtain ⟨r, hr, hid, huser⟩ := h
        refine ⟨r, List.mem_cons_of_mem _ ?_, hid, huser⟩
        rw [List.mem_filter]
        refine ⟨hr, ?_⟩
        rw [decide_eq_true_eq]
        intro h1
        exact hu (h1.1.symm.trans hid)

/-- The loop of `MarkMessagesAsRead` gives the user a receipt for every listed id
that is a UUID and keeps the receipts there are. -/
theorem ScyllaRoomRepository.markRead_foldl (env : ScyllaEnv) (now : Nat) (userId : Int)
    (roomUUID : UUID) (ids : List String) (db : ScyllaDb) (messageUUID : UUID)
    (h : (∃ id ∈ ids, env.parseUUID id = some messageUUID) ∨
      db.hasReadReceipt userId messageUUID = true) :
    (ids.foldl (ScyllaRoomRepository.markRead env now userId roomUUID) db).hasReadReceipt userId
      messageUUID = true := by
  induction ids generalizing db with
  | nil =>
    rcases h with ⟨id, hid, -⟩ | h
    · cases hid
    · exact h
  | cons id rest ih =>
    simp only [List.foldl_cons]
    apply ih
    rcases h with ⟨id', hid', hp⟩ | h
    · rcases List.mem_cons.mp hid' with rfl | hmem
      · exact Or.inr (ScyllaRoomRepository.markRead_receipt env now userId roomUUID db _ _
          (Or.inl hp))
      · exact Or.inl ⟨id', hmem, hp⟩
    · exact Or.inr (ScyllaRoomRepository.markRead_receipt env now userId roomUUID db _ _
        (Or.inr h))

/-- In the wide-column repository, after `MarkMessagesAsRead` with a `since` that
parses to the time `t`, the user has a read receipt for every listed id that is
a UUID and for every message of the room whose id is below `MaxTimeUUID(t)`
(the text of a UUID is taken to parse back to it). -/
theorem ScyllaRoomRepository.MarkMessagesAsRead_receipts (env : ScyllaEnv) (db : ScyllaDb)
    (now : Nat) (userId : Int) (roomId : String) (roomUUID : UUID) (messageIds : List String)
    (since : String) (t : Nat)
    (hroundtrip : ∀ uuid, env.parseUUID (env.uuidString uuid) = some uuid)
    (hroom : env.parseUUID roomId = some roomUUID) (hsince : since ≠ "")
    (hparse : env.parseRFC3339Nano since = some t) :
    (∀ id ∈ messageIds, ∀ uuid, env.parseUUID id = some uuid →
      (ScyllaRoomRepository.MarkMessagesAsRead env db now userId roomId messageIds
        since).1.hasReadReceipt userId uuid = true) ∧
    (∀ row ∈ db.messagesByRoom, row.roomId = roomUUID → row.messageId < env.maxTimeUUID t →
      (ScyllaRoomRepository.MarkMessagesAsRead env db now userId roomId messageIds
        since).1.hasReadReceipt userId row.messageId = true) := by
  have key : ∀ uuid, (∃ id ∈ messageIds ++ List.map (fun row => env.uuidString row.messageId)
        (List.filter (fun row => decide (row.roomId = roomUUID ∧
          row.messageId < env.maxTimeUUID t)) db.messagesByRoom),
        env.parseUUID id = some uuid) →
      (ScyllaRoomRepository.MarkMessagesAsRead env db now userId roomId messageIds
        since).1.hasReadReceipt userId uuid = true := by
    intro uuid hex
    simp only [ScyllaRoomRepository.MarkMessagesAsRead, hroom, hsince, ne_eq, not_false_eq_true,
      if_true, hparse]
    obtain ⟨id, hid, hp⟩ := hex
    rw [if_neg (fun h => by rw [List.length_eq_zero.mp h] at hid; cases hid)]
    show ScyllaDb.hasReadReceipt (List.foldl (ScyllaRoomRepository.markRead env now userId
      roomUUID) db _) userId uuid = true
    exact ScyllaRoomRepository.markRead_foldl env now userId roomUUID _ db uuid
      (Or.inl ⟨id, (mem_eraseDups id _).mpr hid, hp⟩)
  constructor
  · intro id hid uuid hp
    exact key uuid ⟨id, List.mem_append_left _ hid, hp⟩
  · intro row hrow hr hlt
    refine key row.messageId ⟨env.uuidString row.messageId, List.mem_append_right _ ?_,
      hroundtrip _⟩
    exact List.mem_map.mpr ⟨row, List.mem_filter.mpr ⟨hrow, by simp [hr, hlt]⟩, rfl⟩

/-- A message of the room created before `since` either is listed by the `since`
query or is already read by the user. -/
theorem SQLRoomRepository.sinceRows_or_read (db : SqlDb) (userId : Int) (roomId : String)
    (since : Nat) (m : SqlMessageRow) (hm : m ∈ db.roomMessage) (hroom : m.roomId = roomId)
    (hbefore : m.createdAt < since) :
    m.id ∈ SQLRoomRepository.sinceRows db userId roomId since ∨
      ((db.roomMessageMeta.filter fun meta => m.id = meta.messageId ∧ meta.userId = userId) ≠ [] ∧
        ∀ meta ∈ db.roomMessageMeta, meta.messageId = m.id → meta.userId = userId →
          meta.readAt.isSome = true) := by
  by_cases hall : ∀ meta ∈ db.roomMessageMeta, meta.messageId = m.id → meta.userId = userId →
      meta.readAt.isSome = true
  · by_cases hnil : (db.roomMessageMeta.filter fun meta =>
        m.id = meta.messageId ∧ meta.userId = userId) = []
    · left
      simp only [SQLRoomRepository.sinceRows, List.mem_flatMap]
      refine ⟨m, hm, none, ?_, ?_⟩
      · rw [if_pos hnil]
        exact List.mem_singleton.mpr rfl
      · simp [hbefore, hroom]
    · right
      exact ⟨hnil, hall⟩
  · left
    push_neg at hall
    obtain ⟨meta, hmeta, hid, huser, hread⟩ := hall
    simp only [SQLRoomRepository.sinceRows, List.mem_flatMap]
    have hmem : meta ∈ db.roomMessageMeta.filter fun meta =>
        m.id = meta.messageId ∧ meta.userId = userId := by
      simp [List.mem_filter, hmeta, hid, huser]
    have hne : (db.roomMessageMeta.filter fun meta =>
        m.id = meta.messageId ∧ meta.userId = userId) ≠ [] := List.ne_nil_of_mem hmem
    refine ⟨m, hm, some meta, ?_, ?_⟩
    · rw [if_neg hne]
      exact List.mem_map_of_mem _ hmem
    · have : meta.readAt.isNone = true := by
        cases h : meta.readAt with
        | none => rfl
        | some v => simp [h] at hread
      simp [hbefore, hroom, this]

/-- After the writes of `MarkMessagesAsRead` every id of the expanded list is
read by the user, and what was read stays read. -/
theorem SQLRoomRepository.markWrites_read (metas : List SqlMessageMetaRow) (now : Nat)
    (userId : Int) (messageIds : List String) (id : String)
    (h : id ∈ messageIds ∨
      ∃ meta ∈ metas, meta.messageId = id ∧ meta.userId = userId ∧ meta.readAt.isSome = true) :
    (SQLRoomRepository.markWrites metas now userId messageIds).1.any (fun meta =>
      meta.messageId = id ∧ meta.userId = userId ∧ meta.readAt.isSome) = true := by
  let existing : List SqlMessageMetaRow :=
    metas.filter fun meta => meta.userId = userId ∧ meta.messageId ∈ messageIds
  let messagesToUpdate : List String :=
    (existing.filter fun meta => meta.readAt = none).map fun meta => meta.messageId
  let messagesToCreate : List String := messageIds.filter fun messageId =>
    ¬ existing.any fun meta => meta.messageId = messageId
  let g : SqlMessageMetaRow → SqlMessageMetaRow := fun meta =>
    if meta.userId = userId ∧ meta.messageId ∈ messagesToUpdate ∧ meta.readAt = none then
      { meta with readAt := some now }
    else meta
  let updated : List SqlMessageMetaRow := if messagesToUpdate.length > 0 then metas.map g else metas
  let created : List SqlMessageMetaRow := messagesToCreate.map fun messageId =>
    { messageId := messageId, userId := userId, readAt := some now }
  show (updated ++ created).any (fun meta =>
      meta.messageId = id ∧ meta.userId = userId ∧ meta.readAt.isSome) = true
  simp only [List.any_append, Bool.or_eq_true, List.any_eq_true, decide_eq_true_eq,
    Bool.and_eq_true]
  -- a meta of the user on the id that is in the store
  by_cases hex : ∃ meta ∈ metas, meta.messageId = id ∧ meta.userId = userId
  · left
    obtain ⟨meta, hmeta, hid, huser⟩ := hex
    -- either some meta is read already, or the one at hand is updated
    by_cases hread : ∃ meta ∈ metas, meta.messageId = id ∧ meta.userId = userId ∧
        meta.readAt.isSome = true
    · obtain ⟨meta', hmeta', hid', huser', hread'⟩ := hread
      by_cases hlen : messagesToUpdate.length > 0
      · refine ⟨g meta', ?_, ?_⟩
        · show _ ∈ updated
          simp only [updated, if_pos hlen]
          exact List.mem_map_of_mem g hmeta'
        · have hnone : meta'.readAt ≠ none := by
            intro h; simp [h] at hread'
          simp [g, hnone, hid', huser', hread']
      · refine ⟨meta', ?_, hid', huser', hread'⟩
        show _ ∈ updated
        simp only [updated, if_neg hlen]
        exact hmeta'
    · -- no meta of the user on the id is read: the id must be listed
      have hin : id ∈ messageIds := by
        rcases h with h | h
        · exact h
        · exact absurd h hread
      have hnone : meta.readAt = none := by
        cases hr : meta.readAt with
        | none => rfl
        | some v => exact absurd ⟨meta, hmeta, hid, huser, by simp [hr]⟩ hread
      have hexisting : meta ∈ existing := by
        simp [existing, List.mem_filter, hmeta, huser, hid, hin]
      have hupd : id ∈ messagesToUpdate := by
        simp only [messagesToUpdate, List.mem_map, List.mem_filter, decide_eq_true_eq]
        exact ⟨meta, ⟨hexisting, hnone⟩, hid⟩
      have hlen : messagesToUpdate.length > 0 := List.length_pos_of_mem hupd
      refine ⟨g meta, ?_, ?_⟩
      · show _ ∈ updated
        simp only [updated, if_pos hlen]
        exact List.mem_map_of_mem g hmeta
      · simp [g, huser, hid, hupd, hnone]
  · right
    have hin : id ∈ messageIds := by
      rcases h with h | ⟨meta, hmeta, hid, huser, _⟩
      · exact h
      · exact absurd ⟨meta, hmeta, hid, huser⟩ hex
    refine ⟨{ messageId := id, userId := userId, readAt := some now }, ?_, rfl, rfl, rfl⟩
    simp only [created, List.mem_map]
    refine ⟨id, ?_, rfl⟩
    simp only [messagesToCreate, List.mem_filter, hin, true_and, decide_eq_true_eq,
      List.any_eq_true, not_exists, not_and, decide_not, Bool.not_eq_true',
      decide_eq_false_iff_not]
    intro meta hmeta hid
    simp only [existing, List.mem_filter, decide_eq_true_eq] at hmeta
    exact hex ⟨meta, hmeta.1, hid, hmeta.2.1⟩

/-- C12 (amended): in the relational repository a `MarkMessagesAsRead` by a user
with a non-empty id list and a `since` that the store reads as the time `t`
succeeds, and afterwards the user has read every listed message and every
message of the room created strictly before `t`. (The handler passes as `since`
the creation time of the first listed message only.) -/
theorem SQLRoomRepository_MarkMessagesAsRead_since (env : SqlEnv) (db : SqlDb) (now : Nat)
    (userId : Int) (roomId : String) (messageIds : List String) (since : String) (t : Nat)
    (hids : messageIds ≠ []) (hsince : since ≠ "") (hparse : env.parseTimestamp since = some t) :
    (∃ n, (SQLRoomRepository.MarkMessagesAsRead env db now userId roomId messageIds since).2
      = .ok n) ∧
    (∀ id ∈ messageIds,
      (SQLRoomRepository.MarkMessagesAsRead env db now userId roomId messageIds since).1.readBy
        userId id = true) ∧
    (∀ m ∈ db.roomMessage, m.roomId = roomId → m.createdAt < t →
      (SQLRoomRepository.MarkMessagesAsRead env db now userId roomId messageIds since).1.readBy
        userId m.id = true) := by
  have hlen : ¬ messageIds.length = 0 := by
    intro h; exact hids (List.length_eq_zero.mp h)
  simp only [SQLRoomRepository.MarkMessagesAsRead, if_neg hlen, hsince, ne_eq, not_false_eq_true,
    if_true, hparse, SqlDb.readBy]
  refine ⟨⟨_, rfl⟩, ?_, ?_⟩
  · intro id hid
    exact SQLRoomRepository.markWrites_read _ _ _ _ _ (Or.inl (List.mem_append_left _ hid))
  · intro m hm hroom hbefore
    rcases SQLRoomRepository.sinceRows_or_read db userId roomId t m hm hroom hbefore with h | h
    · exact SQLRoomRepository.markWrites_read _ _ _ _ _ (Or.inl (List.mem_append_right _ h))
    · obtain ⟨hne, hall⟩ := h
      obtain ⟨meta, hmeta⟩ := List.exists_mem_of_ne_nil _ hne
      simp only [List.mem_filter, decide_eq_true_eq] at hmeta
      exact SQLRoomRepository.markWrites_read _ _ _ _ _
        (Or.inr ⟨meta, hmeta.1, hmeta.2.1.symm, hmeta.2.2,
          hall meta hmeta.1 hmeta.2.1.symm hmeta.2.2⟩)

/-- Witness for C12: user 3 marks `m3` as read with the creation time of `m3` as
`since`; afterwards user 3 has read `m3` and the earlier `m2`. -/
theorem SQLRoomRepository_MarkMessagesAsRead_since_witness :
    demoSqlEnv.parseTimestamp "t3" = some 3 ∧
    (SQLRoomRepository.MarkMessagesAsRead demoSqlEnv sqlThreeMessages 5 3 "room-1" ["m3"]
        "t3").1.readBy 3 "m3" = true ∧
    (SQLRoomRepository.MarkMessagesAsRead demoSqlEnv sqlThreeMessages 5 3 "room-1" ["m3"]
        "t3").1.readBy 3 "m2" = true :=
  ⟨by decide,
   (SQLRoomRepository_MarkMessagesAsRead_since demoSqlEnv sqlThreeMessages 5 3 "room-1" ["m3"]
      "t3" 3 (by decide) (by decide) (by decide)).2.1 "m3" (by decide),
   (SQLRoomRepository_MarkMessagesAsRead_since demoSqlEnv sqlThreeMessages 5 3 "room-1" ["m3"]
      "t3" 3 (by decide) (by decide) (by decide)).2.2
      { id := "m2", roomId := "room-1", senderId := 7, content := "c2", status := .SENT,
        createdAt := 2, updatedAt := 2, type := "user_message" }
      (by decide) rfl (by decide)⟩

/-- Counterexample to C12: the room holds `m1`, `m2` and `m3`, created in this
order, none read by user 3. User 3 asks the service to mark `m1` and `m3` as
read. The handler succeeds with a count of 2 and publishes the two status
updates; afterwards `m1` and `m3` are read by user 3, and `m2`, created strictly
before the listed `m3`, is not. -/
theorem handlerImpl_MarkMessagesAsRead_counterexample :
    (handlerImpl.MarkMessagesAsRead (sqlRoomsRepository demoSqlEnv { now := 5 })
      { repo := sqlThreeMessages }
      (demoRequestOf 3 { roomId := "room-1", messageIds := ["m1", "m3"] })).2 = .ok 2 ∧
    (sqlThreeMessages.roomMessage.map fun m => (m.id, m.roomId, m.createdAt))
      = [("m1", "room-1", 1), ("m2", "room-1", 2), ("m3", "room-1", 3)] ∧
    (handlerImpl.MarkMessagesAsRead (sqlRoomsRepository demoSqlEnv { now := 5 })
      { repo := sqlThreeMessages }
      (demoRequestOf 3 { roomId := "room-1", messageIds := ["m1", "m3"] })).1.repo.readBy 3 "m1"
        = true ∧
    (handlerImpl.MarkMessagesAsRead (sqlRoomsRepository demoSqlEnv { now := 5 })
      { repo := sqlThreeMessages }
      (demoRequestOf 3 { roomId := "room-1", messageIds := ["m1", "m3"] })).1.repo.readBy 3 "m3"
        = true ∧
    (handlerImpl.MarkMessagesAsRead (sqlRoomsRepository demoSqlEnv { now := 5 })
      { repo := sqlThreeMessages }
      (demoRequestOf 3 { roomId := "room-1", messageIds := ["m1", "m3"] })).1.repo.readBy 3 "m2"
        = false := by
  decide

/-- With an empty id list the relational `MarkMessagesAsRead` answers 0 and
changes nothing. -/
theorem SQLRoomRepository.MarkMessagesAsRead_nil (env : SqlEnv) (db : SqlDb) (now : Nat)
    (userId : Int) (roomId since : String) :
    SQLRoomRepository.MarkMessagesAsRead env db now userId roomId [] since = (db, .ok 0) := by
  simp [SQLRoomRepository.MarkMessagesAsRead]

/-- C13: the relational `MarkMessagesAsRead` counts an id once for each time it is
listed. From the store where user 3 has read none of `m1`, `m2`, `m3`: with the
ids `m1`, `m1` and no `since` it answers 2 although one message became read (it
inserted two metas for it); with the ids `m3`, `m1` and the creation time of
`m3` as `since`, as the handler passes it, it answers 4 although three messages
became read (`m1` is listed and is found again by the `since` query). -/
theorem SQLRoomRepository_MarkMessagesAsRead_repeated_ids :
    (SQLRoomRepository.MarkMessagesAsRead demoSqlEnv sqlThreeMessages 5 3 "room-1" ["m1", "m1"]
      "").2 = .ok 2 ∧
    sqlThreeMessages.newlyRead
      (SQLRoomRepository.MarkMessagesAsRead demoSqlEnv sqlThreeMessages 5 3 "room-1" ["m1", "m1"]
        "").1 3 = ["m1"] ∧
    ((SQLRoomRepository.MarkMessagesAsRead demoSqlEnv sqlThreeMessages 5 3 "room-1" ["m1", "m1"]
      "").1.roomMessageMeta.filter fun meta => meta.userId = 3)
      = [{ messageId := "m1", userId := 3, readAt := some 5 },
         { messageId := "m1", userId := 3, readAt := some 5 }] ∧
    (SQLRoomRepository.MarkMessagesAsRead demoSqlEnv sqlThreeMessages 5 3 "room-1" ["m3", "m1"]
      "t3").2 = .ok 4 ∧
    sqlThreeMessages.newlyRead
      (SQLRoomRepository.MarkMessagesAsRead demoSqlEnv sqlThreeMessages 5 3 "room-1" ["m3", "m1"]
        "t3").1 3 = ["m1", "m2", "m3"] := by
  decide

/-! ## Sending a message -/

/-- The function `FormatRoom` leaves the type, the role and the permission flags
of the room as they are. -/
theorem FormatRoom_fields (room : Room) :
    (FormatRoom room).type = room.type ∧ (FormatRoom room).role = room.role ∧
    (FormatRoom room).sendMessage = room.sendMessage ∧
    (FormatRoom room).isPartnerBlocked = room.isPartnerBlocked ∧
    (FormatRoom room).id = room.id := by
  unfold FormatRoom
  cases room.partner with
  | none => simp only []; split <;> exact ⟨rfl, rfl, rfl, rfl, rfl⟩
  | some partner =>
    simp only []
    by_cases hp : room.type = "p2p"
    · simp only [hp, if_true]; split <;> exact ⟨rfl, rfl, rfl, rfl, rfl⟩
    · simp only [hp, if_false]; split <;> exact ⟨rfl, rfl, rfl, rfl, rfl⟩

/-- C14: for a request with general parameters, a valid session and a room id,
`SendMessage` answers InvalidRequestData when the caller's view of the room is a
group in which the caller is MEMBER and `sendMessage` is false, or a p2p room
with `isPartnerBlocked`, and answers NotFound when the repository gives no room
view. In each case the handler stops after `GetRoom`: the store is the one
`GetRoom` left, `SaveMessage` is not called, and nothing is handed to the
dispatcher or asked of the notifications client. -/
theorem handlerImpl_SendMessage_rejects {σ : Type} (env : HandlerEnv) (repo : RoomsRepository σ)
    (st : HandlerState σ) (req : Request SendMessageRequest) (generalParams : GeneralParams)
    (userID : Int) (hparams : req.generalParams = some generalParams)
    (hsession : req.session = some userID) (hroom : req.msg.roomId ≠ "") :
    (∀ room : Room,
      (repo.GetRoom st.repo userID req.msg.roomId false true).2 = .ok (some room) →
      ((room.type = "group" ∧ room.role = "MEMBER" ∧ room.sendMessage = false) ∨
        (room.type = "p2p" ∧ room.isPartnerBlocked = true)) →
      handlerImpl.SendMessage env repo st req
        = ({ st with repo := (repo.GetRoom st.repo userID req.msg.roomId false true).1 },
            .error (.code .InvalidRequestData))) ∧
    ((repo.GetRoom st.repo userID req.msg.roomId false true).2 = .ok none →
      handlerImpl.SendMessage env repo st req
        = ({ st with repo := (repo.GetRoom st.repo userID req.msg.roomId false true).1 },
            .error (.code .NotFound))) := by
  constructor
  · intro room hget hcase
    obtain ⟨htype, hrole, hsend, hblocked, -⟩ := FormatRoom_fields room
    simp only [handlerImpl.SendMessage, hparams, ValidateAuthToken, hsession, hroom, if_false,
      hget, htype, hrole, hsend, hblocked]
    rcases hcase with ⟨h1, h2, h3⟩ | ⟨h1, h2⟩
    · simp [h1, h2, h3]
    · simp [h1, h2]
  · intro hget
    simp only [handlerImpl.SendMessage, hparams, ValidateAuthToken, hsession, hroom, if_false,
      hget]

/-- Witness for C14: in the group `room-2` members may not send; the member 7
gets InvalidRequestData, no message is stored and nothing is dispatched. -/
theorem handlerImpl_SendMessage_rejects_witness :
    (handlerImpl.SendMessage demoHandlerEnv (sqlRoomsRepository demoSqlEnv { newMessageId := "m9" })
      { repo := sqlGroupRoom } (demoRequestOf 7 { roomId := "room-2", content := "x" })).2
        = .error (.code .InvalidRequestData) ∧
    (handlerImpl.SendMessage demoHandlerEnv (sqlRoomsRepository demoSqlEnv { newMessageId := "m9" })
      { repo := sqlGroupRoom }
      (demoRequestOf 7 { roomId := "room-2", content := "x" })).1.repo.roomMessage = [] ∧
    (handlerImpl.SendMessage demoHandlerEnv (sqlRoomsRepository demoSqlEnv { newMessageId := "m9" })
      { repo := sqlGroupRoom }
      (demoRequestOf 7 { roomId := "room-2", content := "x" })).1.dispatched = [] := by
  have h := (handlerImpl_SendMessage_rejects demoHandlerEnv
    (sqlRoomsRepository demoSqlEnv { newMessageId := "m9" }) { repo := sqlGroupRoom }
    (demoRequestOf 7 { roomId := "room-2", content := "x" }) { sessionUserID := 7 } 7 rfl rfl
    (by decide)).1
    { id := "room-2", type := "group", name := "G", encryptionData := "key-2", role := "MEMBER" }
    (by decide) (Or.inl ⟨rfl, rfl, rfl⟩)
  rw [h]
  exact ⟨rfl, by decide, rfl⟩

/-- The relational `GetRoom` writes to the room cache only. -/
theorem SQLRoomRepository.GetRoom_tables (db : SqlDb) (userId : Int) (roomId : String)
    (allData cache : Bool) :
    (SQLRoomRepository.GetRoom db userId roomId allData cache).1.roomMessage = db.roomMessage ∧
    (SQLRoomRepository.GetRoom db userId roomId allData cache).1.roomMessageMeta
      = db.roomMessageMeta ∧
    (SQLRoomRepository.GetRoom db userId roomId allData cache).1.roomMember = db.roomMember := by
  simp only [SQLRoomRepository.GetRoom]
  cases GetCachedRoom db.cache (roomCacheKey roomId userId allData) with
  | some d => exact ⟨rfl, rfl, rfl⟩
  | none =>
    cases SQLRoomRepository.getRoomRows db userId roomId with
    | nil => exact ⟨rfl, rfl, rfl⟩
    | cons row rest =>
      obtain ⟨mm, r, j⟩ := row
      exact ⟨rfl, rfl, rfl⟩

/-- The chat events after a `publishChatEvent`. -/
theorem chatEvents_publishChatEvent {σ : Type} (st : HandlerState σ)
    (generalParams : GeneralParams) (roomID : String) (event : MessageEvent) :
    chatEvents (handlerImpl.publishChatEvent st generalParams roomID event).dispatched
      = chatEvents st.dispatched ++ [handlerImpl.publishedEvent generalParams roomID event] := by
  simp only [handlerImpl.publishChatEvent, chatEvents, List.filterMap_append,
    List.filterMap_cons, List.filterMap_nil]

/-- The message that the wide-column `SaveMessage` answers has the status SENT. -/
theorem ScyllaRoomRepository.SaveMessage_status_wide (env : ScyllaEnv) (db : ScyllaDb)
    (messageID : UUID) (now : Nat) (userId : Int) (req : SendMessageRequest)
    (contentDecrypted : String) (msg : MessageData)
    (hok : (ScyllaRoomRepository.SaveMessage env db messageID now userId req
      contentDecrypted).2 = .ok msg) :
    msg.status = .SENT ∧ msg.id = env.uuidString messageID := by
  revert hok
  unfold ScyllaRoomRepository.SaveMessage
  split
  · intro h; cases h
  · simp only []
    split
    · intro h; cases h
    · intro h; cases h
    · split
      · intro h; cases h
      · split
        · intro h; cases h
        · intro h
          simp only [Outcome.ok.injEq] at h
          subst h
          exact ⟨rfl, rfl⟩

/-- The first row that `GetMessage` finds for an id carries that id. -/
theorem SQLRoomRepository.GetMessage_rows_id (db : SqlDb) (messageId : String)
    (m : SqlMessageRow) (sender : SqlUserRow)
    (rest : List (SqlMessageRow × SqlUserRow))
    (h : (db.roomMessage.flatMap fun m =>
      (db.user.filter fun sender => m.senderId = sender.id).flatMap fun sender =>
      if m.id = messageId then [(m, sender)] else []) = (m, sender) :: rest) :
    m ∈ db.roomMessage ∧ m.id = messageId := by
  have hmem : (m, sender) ∈ (db.roomMessage.flatMap fun m =>
      (db.user.filter fun sender => m.senderId = sender.id).flatMap fun sender =>
      if m.id = messageId then [(m, sender)] else []) := by
    rw [h]; exact List.mem_cons_self _ _
  simp only [List.mem_flatMap, List.mem_filter, decide_eq_true_eq] at hmem
  obtain ⟨m', hm', s', -, hrow⟩ := hmem
  split at hrow
  · rename_i hid
    simp only [List.mem_singleton, Prod.mk.injEq] at hrow
    obtain ⟨rfl, rfl⟩ := hrow
    exact ⟨hm', hid⟩
  · simp at hrow

/-- The message that the relational `SaveMessage` answers for a fresh id has the
status SENT. -/
theorem SQLRoomRepository.SaveMessage_status (env : SqlEnv) (db : SqlDb) (newId : String)
    (now : Nat) (userId : Int) (req : SendMessageRequest) (msg : MessageData)
    (hfresh : ∀ m ∈ db.roomMessage, m.id ≠ newId)
    (hok : (SQLRoomRepository.SaveMessage env db newId now userId req).2 = .ok (some msg)) :
    msg.status = .SENT ∧ msg.id = newId := by
  revert hok
  simp only [SQLRoomRepository.SaveMessage]
  split
  · rename_i message hget
    intro h
    simp only [Outcome.ok.injEq] at h
    subst h
    revert hget
    simp only [SQLRoomRepository.GetMessage]
    split
    · rename_i m sender rest hrows
      obtain ⟨hm, hid⟩ := SQLRoomRepository.GetMessage_rows_id
        (SQLRoomRepository.saveMessageWrites db newId now userId req) _ _ _ _ hrows
      simp only [SQLRoomRepository.saveMessageWrites, List.mem_append, List.mem_singleton] at hm
      rcases hm with hm | hm
      · exact absurd hid (hfresh m hm)
      · subst hm
        split
        · intro h
          simp only [Outcome.ok.injEq, Option.some.injEq] at h
          subst h
          exact ⟨rfl, rfl⟩
        · intro h; cases h
    · intro h; cases h
  · intro h; cases h
  · intro h; cases h

/-- A `SendMessage` that answers a message has handed the dispatcher one fan-out,
which carries that message and the session user. -/
theorem handlerImpl.SendMessage_dispatched {σ : Type} (env : HandlerEnv)
    (repo : RoomsRepository σ) (st st' : HandlerState σ) (req : Request SendMessageRequest)
    (msg : Option MessageData)
    (hok : handlerImpl.SendMessage env repo st req = (st', .ok msg)) :
    ∃ f : FanoutEvent, st'.dispatched = st.dispatched ++ [.fanout f] ∧ f.msg = msg ∧
      req.session = some f.userID ∧ req.generalParams = some f.generalParams := by
  revert hok
  unfold handlerImpl.SendMessage
  cases hgp : req.generalParams with
  | none => intro h; simp at h
  | some generalParams =>
    cases hs : req.session with
    | none => intro h; simp [ValidateAuthToken, hs] at h
    | some userID =>
      simp only [ValidateAuthToken, hs]
      split
      · intro h; simp at h
      · split
        · intro h; simp at h
        · intro h; simp at h
        · intro h; simp at h
        · split
          · intro h; simp at h
          · split
            · intro h; simp at h
            · split
              · intro h; simp at h
              · split
                · intro h; simp at h
                · intro h; simp at h
                · split
                  · intro h; simp at h
                  · intro h; simp at h
                  · intro h
                    simp only [Prod.mk.injEq, Reply.ok.injEq] at h
                    obtain ⟨hst, hmsg⟩ := h
                    subst hst hmsg
                    exact ⟨_, rfl, rfl, rfl, rfl⟩

/-- The fan-out of a message hands the dispatcher the status update of the sender
and then the message event, and no other chat event, unless the creation of the
metas panics. -/
theorem handlerImpl.SendMessage.OnFanount_chatEvents {σ : Type} (repo : RoomsRepository σ)
    (st : HandlerState σ) (f : FanoutEvent) (msg : MessageData) (hmsg : f.msg = some msg)
    (hmetas : (repo.CreateMessageMetaForParticipants st.repo f.room.id msg.id msg.senderId).2
      ≠ .panic) :
    chatEvents (handlerImpl.SendMessage.OnFanount repo st f).1.dispatched
      = chatEvents st.dispatched ++
        [handlerImpl.publishedEvent f.generalParams msg.roomId
          { roomId := f.room.id,
            event := .StatusUpdate msg.status msg.id (toInt32 f.userID) (toInt32 f.userID) },
         handlerImpl.publishedEvent f.generalParams msg.roomId
          { roomId := f.room.id, event := .Message msg.id }] := by
  unfold handlerImpl.SendMessage.OnFanount
  simp only [hmsg]
  cases hm : (repo.CreateMessageMetaForParticipants st.repo f.room.id msg.id msg.senderId).2 with
  | panic => exact absurd hm hmetas
  | ok v =>
    split
    · split
      · simp only [chatEvents_publishChatEvent, List.append_assoc, List.singleton_append]
      · split <;>
          simp only [chatEvents_publishChatEvent, List.append_assoc, List.singleton_append]
    · simp only [chatEvents_publishChatEvent, List.append_assoc, List.singleton_append]
  | error e =>
    split
    · split
      · simp only [chatEvents_publishChatEvent, List.append_assoc, List.singleton_append]
      · split <;>
          simp only [chatEvents_publishChatEvent, List.append_assoc, List.singleton_append]
    · simp only [chatEvents_publishChatEvent, List.append_assoc, List.singleton_append]

/-- C15: a `SendMessage` that answers a message has handed the dispatcher exactly
one fan-out for it, and that fan-out, whenever it runs, hands the dispatcher the
status update of the sender for the message and then the message event, each
once and no other chat event (the creation of the metas, which comes first, does
not panic in either repository). The status update carries the status of the
saved message, which is SENT in the wide-column repository and, for a fresh
message id, in the relational repository. -/
theorem handlerImpl_SendMessage_fanout_order {σ : Type} (env : HandlerEnv)
    (repo : RoomsRepository σ) (st st' : HandlerState σ) (req : Request SendMessageRequest)
    (msg : MessageData)
    (hok : handlerImpl.SendMessage env repo st req = (st', .ok (some msg))) :
    (∃ f : FanoutEvent, st'.dispatched = st.dispatched ++ [.fanout f] ∧ f.msg = some msg ∧
      ∀ st2 : HandlerState σ,
        (repo.CreateMessageMetaForParticipants st2.repo f.room.id msg.id msg.senderId).2
          ≠ .panic →
        chatEvents (handlerImpl.SendMessage.OnFanount repo st2 f).1.dispatched
          = chatEvents st2.dispatched ++
            [handlerImpl.publishedEvent f.generalParams msg.roomId
              { roomId := f.room.id,
                event := .StatusUpdate msg.status msg.id (toInt32 f.userID) (toInt32 f.userID) },
             handlerImpl.publishedEvent f.generalParams msg.roomId
              { roomId := f.room.id, event := .Message msg.id }]) ∧
    (∀ (senv : ScyllaEnv) (db : ScyllaDb) (messageID : UUID) (now : Nat) (userId : Int)
        (sreq : SendMessageRequest) (contentDecrypted : String) (saved : MessageData),
      (ScyllaRoomRepository.SaveMessage senv db messageID now userId sreq contentDecrypted).2
        = .ok saved → saved.status = .SENT) ∧
    (∀ (qenv : SqlEnv) (db : SqlDb) (newId : String) (now : Nat) (userId : Int)
        (sreq : SendMessageRequest) (saved : MessageData),
      (∀ m ∈ db.roomMessage, m.id ≠ newId) →
      (SQLRoomRepository.SaveMessage qenv db newId now userId sreq).2 = .ok (some saved) →
      saved.status = .SENT) := by
  refine ⟨?_, ?_, ?_⟩
  · obtain ⟨f, hd, hmsg, -, -⟩ :=
      handlerImpl.SendMessage_dispatched env repo st st' req (some msg) hok
    exact ⟨f, hd, hmsg, fun st2 hmetas =>
      handlerImpl.SendMessage.OnFanount_chatEvents repo st2 f msg hmsg hmetas⟩
  · intro senv db messageID now userId sreq contentDecrypted saved h
    exact (ScyllaRoomRepository.SaveMessage_status_wide senv db messageID now userId sreq
      contentDecrypted saved h).1
  · intro qenv db newId now userId sreq saved hfresh h
    exact (SQLRoomRepository.SaveMessage_status qenv db newId now userId sreq saved hfresh h).1

/-- Witness for C15: user 3 sends a message to the p2p room with user 7. The
handler hands the dispatcher one fan-out, and the fan-out hands it the status
update SENT of `m9` and then the message event of `m9`. -/
theorem handlerImpl_SendMessage_fanout_order_witness :
    (handlerImpl.SendMessage demoHandlerEnv
        (sqlRoomsRepository demoSqlEnv { newMessageId := "m9", now := 5 })
        { repo := sqlThreeMessages }
        (demoRequestOf 3 { roomId := "room-1", content := "x" })).1.dispatched
      = [.fanout demoFanout] ∧
    chatEvents (handlerImpl.SendMessage.OnFanount
        (sqlRoomsRepository demoSqlEnv { newMessageId := "m9", now := 5 })
        { repo := sqlThreeMessages } demoFanout).1.dispatched
      = [{ roomID := "room-1", userID := 3,
           event := { roomId := "room-1", event := .StatusUpdate .SENT "m9" 3 3 } },
         { roomID := "room-1", userID := 3,
           event := { roomId := "room-1", event := .Message "m9" } }] := by
  have hd0 : (handlerImpl.SendMessage demoHandlerEnv
        (sqlRoomsRepository demoSqlEnv { newMessageId := "m9", now := 5 })
        { repo := sqlThreeMessages }
        (demoRequestOf 3 { roomId := "room-1", content := "x" })).1.dispatched
      = [.fanout demoFanout] := by decide
  obtain ⟨f, hd, -, hev⟩ := (handlerImpl_SendMessage_fanout_order demoHandlerEnv
    (sqlRoomsRepository demoSqlEnv { newMessageId := "m9", now := 5 })
    { repo := sqlThreeMessages }
    (handlerImpl.SendMessage demoHandlerEnv
        (sqlRoomsRepository demoSqlEnv { newMessageId := "m9", now := 5 })
        { repo := sqlThreeMessages }
        (demoRequestOf 3 { roomId := "room-1", content := "x" })).1
    (demoRequestOf 3 { roomId := "room-1", content := "x" })
    { id := "m9", roomId := "room-1", senderId := 3, senderName := "Ana",
      senderAvatar := "a.png", content := "x", type := "user_message",
      status := .SENT, createdAt := "t5", updatedAt := "t5" } (Prod.ext rfl (by decide))).1
  have hf : f = demoFanout := by
    rw [hd0] at hd
    simpa using hd.symm
  subst hf
  refine ⟨hd0, ?_⟩
  rw [hev { repo := sqlThreeMessages } (by decide)]
  decide

/-! ## Creating rooms and roles -/

/-- C16 (amended): for a request with a valid session, `CreateRoom` answers
InvalidRequestData and leaves the store, the dispatcher and the notifications
client untouched (the repository is not called, no event is published) when the
participant list is empty, when the type is p2p and more than one participant is
given, and when the type is group and no name is given. -/
theorem handlerImpl_CreateRoom_invalid {σ : Type} (repo : RoomsRepository σ)
    (joinedAt : String) (st : HandlerState σ) (req : Request CreateRoomRequest) (userID : Int)
    (hsession : req.session = some userID)
    (hcase : req.msg.participants = [] ∨
      (req.msg.type = "p2p" ∧ req.msg.participants.length > 1) ∨
      (req.msg.type = "group" ∧ req.msg.name = none)) :
    handlerImpl.CreateRoom repo joinedAt st req = (st, .error (.code .InvalidRequestData)) := by
  simp only [handlerImpl.CreateRoom, ValidateAuthToken, hsession]
  rcases hcase with h | ⟨h1, h2⟩ | ⟨h1, h2⟩
  · simp [h]
  · simp [h1, h2]
  · simp [h1, h2]

/-- Witness for C16: a group without name is refused and nothing is stored or
published. -/
theorem handlerImpl_CreateRoom_invalid_witness :
    (handlerImpl.CreateRoom (sqlRoomsRepository demoSqlEnv { newRoomId := "room-3" }) "now"
      { repo := demoSqlUsers } (demoRequestOf 3 { type := "group", participants := [7, 9] })).2
      = .error (.code .InvalidRequestData) ∧
    (handlerImpl.CreateRoom (sqlRoomsRepository demoSqlEnv { newRoomId := "room-3" }) "now"
      { repo := demoSqlUsers }
      (demoRequestOf 3 { type := "group", participants := [7, 9] })).1.repo = demoSqlUsers ∧
    (handlerImpl.CreateRoom (sqlRoomsRepository demoSqlEnv { newRoomId := "room-3" }) "now"
      { repo := demoSqlUsers }
      (demoRequestOf 3 { type := "group", participants := [7, 9] })).1.dispatched = [] := by
  rw [handlerImpl_CreateRoom_invalid (sqlRoomsRepository demoSqlEnv { newRoomId := "room-3" })
    "now" { repo := demoSqlUsers } (demoRequestOf 3 { type := "group", participants := [7, 9] }) 3
    rfl (Or.inr (Or.inr ⟨rfl, rfl⟩))]
  exact ⟨rfl, rfl, rfl⟩

/-- Counterexample to C16: a channel without name is not refused. User 3 asks for
a channel with user 7 and no name: the handler calls the repository, which
stores the room `room-3` with the empty name, publishes the two join events and
answers the room. -/
theorem handlerImpl_CreateRoom_channel_counterexample :
    (handlerImpl.CreateRoom
      (sqlRoomsRepository demoSqlEnv { newRoomId := "room-3", encryptionData := "key-3" }) "now"
      { repo := demoSqlUsers } (demoRequestOf 3 { type := "channel", participants := [7] })).2
      = .ok { id := "room-3", type := "channel", encryptionData := "key-3", sendMessage := true,
              role := "OWNER" } ∧
    ((handlerImpl.CreateRoom
      (sqlRoomsRepository demoSqlEnv { newRoomId := "room-3", encryptionData := "key-3" }) "now"
      { repo := demoSqlUsers }
      (demoRequestOf 3 { type := "channel", participants := [7] })).1.repo.room.map
        fun r => (r.id, r.type, r.name)) = [("room-3", "channel", some "")] ∧
    ((chatEvents (handlerImpl.CreateRoom
      (sqlRoomsRepository demoSqlEnv { newRoomId := "room-3", encryptionData := "key-3" }) "now"
      { repo := demoSqlUsers }
      (demoRequestOf 3 { type := "channel", participants := [7] })).1.dispatched).map
        fun e => e.event.event) = [.RoomJoin 7 "now" 3, .RoomJoin 3 "now" 3] := by
  decide

/-- The owners of a room after `UpdateParticipantRoom`: the participant is an
owner exactly when an active membership of his got the role OWNER, and the
other users are owners as before. -/
theorem SQLRoomRepository.UpdateParticipantRoom_owners (db : SqlDb) (roomId : String)
    (participant : Int) (role : String) (user : Int) :
    user ∈ (SQLRoomRepository.UpdateParticipantRoom db roomId participant role).1.owners roomId ↔
      if user = participant then db.activeMember participant roomId = true ∧ role = "OWNER"
      else user ∈ db.owners roomId := by
  simp only [SQLRoomRepository.UpdateParticipantRoom, SqlDb.owners, List.mem_map,
    List.mem_filter, decide_eq_true_eq]
  constructor
  · rintro ⟨m, ⟨⟨m0, hm0, rfl⟩, hroom, hactive, hrole⟩, rfl⟩
    by_cases hk : m0.roomId = roomId ∧ m0.userId = participant
    · simp only [hk, and_self, if_true] at hroom hactive hrole ⊢
      simp only [Option.some.injEq] at hrole
      refine ⟨?_, hrole⟩
      simp only [SqlDb.activeMember, List.any_eq_true, decide_eq_true_eq, Bool.and_eq_true]
      exact ⟨m0, hm0, hk.1, hk.2, hactive⟩
    · simp only [hk, if_false] at hroom hactive hrole ⊢
      have hne : ¬ m0.userId = participant := fun h => hk ⟨hroom, h⟩
      simp only [hne, if_false]
      exact ⟨m0, ⟨hm0, hroom, hactive, hrole⟩, rfl⟩
  · intro h
    by_cases hu : user = participant
    · subst hu
      simp only [if_true] at h
      obtain ⟨hmember, hrole⟩ := h
      simp only [SqlDb.activeMember, List.any_eq_true, decide_eq_true_eq,
        Bool.and_eq_true] at hmember
      obtain ⟨m0, hm0, hroom, huser, hactive⟩ := hmember
      refine ⟨{ m0 with role := some role }, ⟨⟨m0, hm0, ?_⟩, hroom, hactive, ?_⟩, huser⟩
      · simp [hroom, huser]
      · simp [hrole]
    · simp only [hu, if_false] at h
      obtain ⟨m0, ⟨hm0, hroom, hactive, hrole⟩, huser⟩ := h
      have hne : ¬ (m0.roomId = roomId ∧ m0.userId = participant) := by
        rintro ⟨-, h2⟩; exact hu (huser.symm.trans h2)
      refine ⟨m0, ⟨⟨m0, hm0, ?_⟩, hroom, hactive, hrole⟩, huser⟩
      simp [hne]

/-- C17 (amended): in the relational repository, right after `CreateRoom` has
created a room of a type other than p2p under a fresh id, the creator is the one
user with an active OWNER membership in it. The invariant is not kept
afterwards: `UpdateParticipantRoom` writes the role it is given, so a user with
an active membership becomes an owner when the role OWNER is written on him,
stops being one when another role is written, and the owners other than him
stay as they were. -/
theorem SQLRoomRepository_CreateRoom_owner (db db' : SqlDb) (newId encryptionData : String)
    (userId : Int) (req : CreateRoomRequest) (room : Room) (htype : req.type ≠ "p2p")
    (hfresh : ∀ m ∈ db.roomMember, m.roomId ≠ newId)
    (hok : SQLRoomRepository.CreateRoom db newId encryptionData userId req = (db', .ok room)) :
    db'.owners newId = [userId] ∧
    (∀ (store : SqlDb) (roomId : String) (participant : Int) (role : String) (user : Int),
      user ∈ (SQLRoomRepository.UpdateParticipantRoom store roomId participant role).1.owners
          roomId ↔
        if user = participant then store.activeMember participant roomId = true ∧ role = "OWNER"
        else user ∈ store.owners roomId) := by
  refine ⟨?_, SQLRoomRepository.UpdateParticipantRoom_owners⟩
  revert hok
  simp only [SQLRoomRepository.CreateRoom, htype, if_false]
  split
  · intro h; simp at h
  · intro h
    simp only [Prod.mk.injEq] at h
    obtain ⟨hdb, -⟩ := h
    subst hdb
    have hold : (db.roomMember.filter fun m =>
        m.roomId = newId ∧ m.active = true ∧ m.role = some "OWNER") = [] := by
      rw [List.filter_eq_nil_iff]
      intro m hm
      simp [hfresh m hm]
    have hmembers : ((List.map (fun participant =>
          ({ roomId := newId, userId := participant, role := some "MEMBER" } : SqlRoomMemberRow))
          (req.participants.filter fun participant => participant ≠ toInt32 userId)).filter
        fun m => m.roomId = newId ∧ m.active = true ∧ m.role = some "OWNER") = [] := by
      rw [List.filter_eq_nil_iff]
      intro m hm
      simp only [List.mem_map] at hm
      obtain ⟨p, -, rfl⟩ := hm
      simp
    simp only [SqlDb.owners, List.filter_append, hold, hmembers, List.append_nil, List.nil_append]
    simp [SqlRoomMemberRow.active]

/-- Witness for C17: after user 3 created the group `room-2` with the users 7 and
9, user 3 is its only owner. -/
theorem SQLRoomRepository_CreateRoom_owner_witness :
    sqlGroupRoom.owners "room-2" = [3] :=
  (SQLRoomRepository_CreateRoom_owner demoSqlUsers sqlGroupRoom "room-2" "key-2" 3
    { type := "group", participants := [7, 9], name := some "G", sendMessage := some false }
    { id := "room-2", name := "G", sendMessage := false, encryptionData := "key-2",
      type := "group", role := "OWNER" }
    (by decide) (by decide) (Prod.ext rfl (by decide))).1

/-- Counterexample to C17: in the group `room-2`, created by user 3 with the users
7 and 9, the owner asks the service to give user 7 the role OWNER. The handler
succeeds, and the group then has two active owners, 3 and 7. -/
theorem handlerImpl_UpdateParticipantRoom_counterexample :
    sqlGroupRoom.owners "room-2" = [3] ∧
    (handlerImpl.UpdateParticipantRoom (sqlRoomsRepository demoSqlEnv {})
      { repo := sqlGroupRoom }
      (demoRequestOf 3 { id := "room-2", participant := 7, role := "OWNER" })).2 = .ok () ∧
    (handlerImpl.UpdateParticipantRoom (sqlRoomsRepository demoSqlEnv {})
      { repo := sqlGroupRoom }
      (demoRequestOf 3 { id := "room-2", participant := 7, role := "OWNER" })).1.repo.owners
        "room-2" = [3, 7] := by
  decide

/-! ## Reactions -/

/-- When at most one element passes a filter, the filtered list is the element
found first. -/
theorem filter_eq_singleton_of_find {α : Type} (p : α → Bool) (l : List α) (x : α)
    (hfind : l.find? p = some x) (hlen : (l.filter p).length ≤ 1) : l.filter p = [x] := by
  have hhead : (l.filter p).head? = some x := by rw [List.filter_head?, hfind]
  match hl : l.filter p, hhead, hlen with
  | [], hhead, _ => simp at hhead
  | [y], hhead, _ => simpa using hhead
  | _ :: _ :: _, _, hlen => simp at hlen

/-- When nothing is found, nothing passes the filter. -/
theorem filter_eq_nil_of_find {α : Type} (p : α → Bool) (l : List α)
    (hfind : l.find? p = none) : l.filter p = [] := by
  rw [List.filter_eq_nil_iff]
  rw [List.find?_eq_none] at hfind
  exact hfind

/-- The relational `ReactToMessage` with a non-empty reaction, on a store where
the user has at most one reaction on the message: afterwards the user has
exactly one, with the value given. -/
theorem SQLRoomRepository.ReactToMessage_value (db : SqlDb) (newId : String) (now : Nat)
    (userId : Int) (messageId reaction : String) (hreaction : reaction ≠ "")
    (hone : (db.reactionsOf userId messageId).length ≤ 1) :
    ((SQLRoomRepository.ReactToMessage db newId now userId messageId reaction).1.reactionsOf
      userId messageId).map (fun r => r.reaction) = [reaction] := by
  simp only [SQLRoomRepository.ReactToMessage, SqlDb.reactionsOf, if_neg hreaction]
  cases hfind : db.roomMessageReaction.find? (fun r =>
      r.messageId = messageId ∧ r.reactedById = userId ∧ r.deleted = false) with
  | none =>
    simp only []
    rw [List.filter_append, filter_eq_nil_of_find _ _ hfind]
    simp
  | some existing =>
    simp only []
    have heq := filter_eq_singleton_of_find _ _ _ hfind hone
    rw [List.filter_map]
    have hcomp : ((fun r : SqlReactionRow =>
          decide (r.messageId = messageId ∧ r.reactedById = userId ∧ r.deleted = false)) ∘
        fun r => if r.id = existing.id then { r with reaction := reaction } else r)
        = fun r => decide (r.messageId = messageId ∧ r.reactedById = userId ∧ r.deleted = false) := by
      funext r
      simp only [Function.comp]
      split <;> rfl
    rw [hcomp, heq]
    simp

/-- The relational `ReactToMessage` with the empty reaction, on a store where the
user has one reaction on the message: afterwards the user has none. -/
theorem SQLRoomRepository.ReactToMessage_empty (db : SqlDb) (newId : String) (now : Nat)
    (userId : Int) (messageId : String)
    (hone : (db.reactionsOf userId messageId).length = 1) :
    (SQLRoomRepository.ReactToMessage db newId now userId messageId "").1.reactionsOf
      userId messageId = [] := by
  simp only [SQLRoomRepository.ReactToMessage, SqlDb.reactionsOf, if_true]
  cases hfind : db.roomMessageReaction.find? (fun r =>
      r.messageId = messageId ∧ r.reactedById = userId ∧ r.deleted = false) with
  | none =>
    exfalso
    have hnil := filter_eq_nil_of_find _ _ hfind
    simp only [SqlDb.reactionsOf] at hone
    rw [hnil] at hone
    simp at hone
  | some existing =>
    simp only []
    have heq := filter_eq_singleton_of_find _ _ _ hfind (by
      simp only [SqlDb.reactionsOf] at hone; omega)
    rw [List.filter_eq_nil_iff]
    intro r hr
    simp only [List.mem_map] at hr
    obtain ⟨r0, hr0, rfl⟩ := hr
    by_cases hid : r0.id = existing.id
    · simp [hid]
    · rw [if_neg hid]
      intro hk
      have : r0 ∈ db.roomMessageReaction.filter fun r =>
          r.messageId = messageId ∧ r.reactedById = userId ∧ r.deleted = false :=
        List.mem_filter.mpr ⟨hr0, hk⟩
      rw [heq] at this
      simp only [List.mem_singleton] at this
      exact hid (by rw [this])

/-- The wide-column `ReactToMessage` with a non-empty reaction: afterwards the
user has exactly one reaction on the message, with the value given. -/
theorem ScyllaRoomRepository.ReactToMessage_value_wide (env : ScyllaEnv) (db : ScyllaDb) (now : Nat)
    (userId : Int) (messageId reaction : String) (messageUUID : UUID)
    (hparse : env.parseUUID messageId = some messageUUID) (hreaction : reaction ≠ "") :
    ((ScyllaRoomRepository.ReactToMessage env db now userId messageId reaction).1.reactionsOf
      userId messageUUID).map (fun r => r.reaction) = [reaction] := by
  simp only [ScyllaRoomRepository.ReactToMessage, hparse, if_neg hreaction, ScyllaDb.reactionsOf]
  have hnil : ((db.reactionsByMessage.filter fun row =>
        ¬ (row.messageId = messageUUID ∧ row.userId = userId)).filter fun row =>
      row.messageId = messageUUID ∧ row.userId = userId) = [] := by
    rw [List.filter_eq_nil_iff]
    intro r hr
    simp only [List.mem_filter, decide_eq_true_eq, decide_not, Bool.not_eq_true',
      decide_eq_false_iff_not] at hr
    simpa using hr.2
  rw [List.filter_cons, hnil]
  simp

/-- The wide-column `ReactToMessage` with the empty reaction: afterwards the user
has no reaction on the message. -/
theorem ScyllaRoomRepository.ReactToMessage_empty_wide (env : ScyllaEnv) (db : ScyllaDb) (now : Nat)
    (userId : Int) (messageId : String) (messageUUID : UUID)
    (hparse : env.parseUUID messageId = some messageUUID) :
    (ScyllaRoomRepository.ReactToMessage env db now userId messageId "").1.reactionsOf
      userId messageUUID = [] := by
  simp only [ScyllaRoomRepository.ReactToMessage, hparse, if_true, ScyllaDb.reactionsOf]
  rw [List.filter_eq_nil_iff]
  intro r hr
  simp only [List.mem_filter, decide_eq_true_eq, decide_not, Bool.not_eq_true',
    decide_eq_false_iff_not] at hr
  simpa using hr.2

/-- In both repositories, after two `ReactToMessage` calls of a user on a message
with the non-empty values `v` and then `w`, the user has exactly one active
reaction on the message, and it carries `w`, whether `w` differs from `v` or
equals it; only the empty value removes the reaction. (For the
relational repository the user is taken to have at most one active reaction on
the message before the calls, which the calls preserve.) -/
theorem ReactToMessage_twice (db : SqlDb) (id1 id2 : String) (t1 t2 : Nat) (userId : Int)
    (messageId v w : String) (hv : v ≠ "") (hw : w ≠ "")
    (hone : (db.reactionsOf userId messageId).length ≤ 1) :
    (((SQLRoomRepository.ReactToMessage
        (SQLRoomRepository.ReactToMessage db id1 t1 userId messageId v).1
        id2 t2 userId messageId w).1.reactionsOf userId messageId).map fun r => r.reaction)
      = [w] ∧
    (SQLRoomRepository.ReactToMessage
        (SQLRoomRepository.ReactToMessage db id1 t1 userId messageId v).1
        id2 t2 userId messageId "").1.reactionsOf userId messageId = [] ∧
    (∀ (env : ScyllaEnv) (store : ScyllaDb) (messageUUID : UUID),
      env.parseUUID messageId = some messageUUID →
      (((ScyllaRoomRepository.ReactToMessage env
          (ScyllaRoomRepository.ReactToMessage env store t1 userId messageId v).1
          t2 userId messageId w).1.reactionsOf userId messageUUID).map fun r => r.reaction)
        = [w] ∧
      (ScyllaRoomRepository.ReactToMessage env
          (ScyllaRoomRepository.ReactToMessage env store t1 userId messageId v).1
          t2 userId messageId "").1.reactionsOf userId messageUUID = []) := by
  have h1 := SQLRoomRepository.ReactToMessage_value db id1 t1 userId messageId v hv hone
  have hlen : ((SQLRoomRepository.ReactToMessage db id1 t1 userId messageId v).1.reactionsOf
      userId messageId).length = 1 := by
    have := congrArg List.length h1
    simpa using this
  refine ⟨?_, ?_, ?_⟩
  · exact SQLRoomRepository.ReactToMessage_value _ id2 t2 userId messageId w hw (by omega)
  · exact SQLRoomRepository.ReactToMessage_empty _ id2 t2 userId messageId hlen
  · intro env store messageUUID hparse
    exact ⟨ScyllaRoomRepository.ReactToMessage_value_wide env _ t2 userId messageId w messageUUID
        hparse hw,
      ScyllaRoomRepository.ReactToMessage_empty_wide env _ t2 userId messageId messageUUID hparse⟩

/-- User 3 reacts to `m1` with `like` and then with `wow`; the one active
reaction of user 3 on `m1` is `wow`. -/
theorem ReactToMessage_twice_witness :
    (sqlThreeMessages.reactionsOf 3 "m1").length ≤ 1 ∧
    (((SQLRoomRepository.ReactToMessage
        (SQLRoomRepository.ReactToMessage sqlThreeMessages "r1" 6 3 "m1" "like").1
        "r2" 7 3 "m1" "wow").1.reactionsOf 3 "m1").map fun r => r.reaction) = ["wow"] :=
  ⟨by decide,
   (ReactToMessage_twice sqlThreeMessages "r1" "r2" 6 7 3 "m1" "like" "wow" (by decide)
      (by decide) (by decide)).1⟩

/-- C18: a reaction repeated with the same value is not removed. User 3 reacts to
a message with `like` twice in succession. In the relational repository the second call finds the reaction of
the first and writes `like` over it; in the wide-column repository it inserts
the same row again. Either way the user still has the active reaction `like`
on the message. -/
theorem ReactToMessage_same_value_counterexample :
    sqlThreeMessages.reactionsOf 3 "m1" = [] ∧
    (SQLRoomRepository.ReactToMessage
        (SQLRoomRepository.ReactToMessage sqlThreeMessages "r1" 6 3 "m1" "like").1
        "r2" 7 3 "m1" "like").1.reactionsOf 3 "m1"
      = [{ id := "r1", messageId := "m1", reactedById := 3, reaction := "like" }] ∧
    scyllaTwoMessages.reactionsOf 3 11 = [] ∧
    (ScyllaRoomRepository.ReactToMessage demoScyllaEnv
        (ScyllaRoomRepository.ReactToMessage demoScyllaEnv scyllaTwoMessages 6 3 "msg-1"
          "like").1
        7 3 "msg-1" "like").1.reactionsOf 3 11
      = [{ messageId := 11, userId := 3, reaction := "like", createdAt := 7 }] := by
  decide

/-! ## Deleting messages -/

/-- No row of the query of `GetMessagesFromRoom` is a message marked deleted. -/
theorem SQLRoomRepository.messageRows_not_deleted (db : SqlDb) (userId : Int)
    (row : SqlMessageRow × SqlUserRow × Option SqlMessageMetaRow)
    (h : row ∈ SQLRoomRepository.messageRows db userId) :
    row.1 ∈ db.roomMessage ∧ row.1.deleted = false := by
  simp only [SQLRoomRepository.messageRows, List.mem_flatMap, List.mem_filter,
    decide_eq_true_eq] at h
  obtain ⟨msg, hmsg, sender, -, member, -, meta, -, hrow⟩ := h
  split at hrow
  · rename_i hc
    simp only [List.mem_singleton] at hrow
    subst hrow
    exact ⟨hmsg, hc.2.1⟩
  · simp at hrow

/-- The rows kept by the filter `rn <= n` are among the rows given, in their
order. -/
theorem SQLRoomRepository.firstPerRoom_sublist (n : Nat)
    (seen rows : List (SqlMessageRow × SqlUserRow × Option SqlMessageMetaRow)) :
    (SQLRoomRepository.firstPerRoom n seen rows).Sublist rows := by
  induction rows generalizing seen with
  | nil => exact List.Sublist.slnil
  | cons row rest ih =>
    unfold SQLRoomRepository.firstPerRoom
    split
    · exact (ih _).cons₂ _
    · exact (ih _).cons _

/-- In the relational repository, after `DeleteMessage` with a list of ids,
`GetMessagesFromRoom` returns no message whose id is listed, whatever the
request and the caller. -/
theorem SQLRoomRepository.GetMessagesFromRoom_after_delete (env : SqlEnv) (db : SqlDb)
    (now : Nat) (ids : List String) (userId : Int) (req : GetMessageHistoryRequest)
    (messages : List MessageData)
    (h : SQLRoomRepository.GetMessagesFromRoom env
      (SQLRoomRepository.DeleteMessage db now ids).1 userId req = .ok messages) :
    ∀ msg ∈ messages, msg.id ∉ ids := by
  intro msg hmsg hid
  revert h
  simp only [SQLRoomRepository.GetMessagesFromRoom, Outcome.bind]
  split
  · split
    · intro h
      simp only [Outcome.ok.injEq] at h
      subst h
      simp only [List.mem_map] at hmsg
      obtain ⟨row, hrow, rfl⟩ := hmsg
      have hrow' : row ∈ SQLRoomRepository.messageRows
          (SQLRoomRepository.DeleteMessage db now ids).1 userId := by
        have key : ∀ l : List (SqlMessageRow × SqlUserRow × Option SqlMessageMetaRow),
            row ∈ (if req.messagesPerRoom > 0 then
              SQLRoomRepository.firstPerRoom req.messagesPerRoom [] l else l) → row ∈ l := by
          intro l hl
          split at hl
          · exact (SQLRoomRepository.firstPerRoom_sublist _ _ _).subset hl
          · exact hl
        have hrow := key _ hrow
        split at hrow
        · have h1 := List.mem_of_mem_drop (List.mem_of_mem_take hrow)
          rw [(List.perm_insertionSort _ _).mem_iff] at h1
          exact (List.mem_filter.mp h1).1
        · rw [(List.perm_insertionSort _ _).mem_iff] at hrow
          exact (List.mem_filter.mp hrow).1
      obtain ⟨hm, hdel⟩ := SQLRoomRepository.messageRows_not_deleted _ _ _ hrow'
      simp only [SQLRoomRepository.DeleteMessage, List.mem_map] at hm
      obtain ⟨m0, -, hm0⟩ := hm
      by_cases hin : m0.id ∈ ids
      · rw [if_pos hin] at hm0
        rw [← hm0] at hdel
        simp at hdel
      · rw [if_neg hin] at hm0
        rw [← hm0] at hid
        exact hin hid
    · intro h; cases h
    · intro h; cases h
  · intro h; cases h
  · intro h; cases h

/-- In the relational repository, a message that `GetMessage` returns is returned
after `DeleteMessage` of its id with `isDeleted` set, and the time of the
deletion as its time of update. -/
theorem SQLRoomRepository.GetMessage_after_delete (env : SqlEnv) (db : SqlDb) (now : Nat)
    (ids : List String) (messageId : String) (message : MessageData) (hid : messageId ∈ ids)
    (h : SQLRoomRepository.GetMessage env db messageId = .ok (some message)) :
    SQLRoomRepository.GetMessage env (SQLRoomRepository.DeleteMessage db now ids).1 messageId
      = .ok (some { message with isDeleted := true, updatedAt := env.timestampText now }) := by
  have hrows : ((SQLRoomRepository.DeleteMessage db now ids).1.roomMessage.flatMap fun m =>
      ((SQLRoomRepository.DeleteMessage db now ids).1.user.filter
        fun sender => m.senderId = sender.id).flatMap fun sender =>
      if m.id = messageId then [(m, sender)] else [])
      = (db.roomMessage.flatMap fun m =>
          (db.user.filter fun sender => m.senderId = sender.id).flatMap fun sender =>
          if m.id = messageId then [(m, sender)] else []).map fun row =>
            ({ row.1 with deleted := true, updatedAt := now, isDeleted := true }, row.2) := by
    simp only [SQLRoomRepository.DeleteMessage, List.flatMap_map, List.map_flatMap]
    congr 1
    funext m
    by_cases hm : m.id = messageId
    · subst hm
      simp [hid, List.map_flatMap]
    · have hg : (if m.id ∈ ids then
          ({ m with deleted := true, updatedAt := now, isDeleted := true } : SqlMessageRow)
          else m).id = m.id := by split <;> rfl
      have hs : (if m.id ∈ ids then
          ({ m with deleted := true, updatedAt := now, isDeleted := true } : SqlMessageRow)
          else m).senderId = m.senderId := by split <;> rfl
      simp [hg, hs, hm]
  revert h
  simp only [SQLRoomRepository.GetMessage]
  rw [hrows]
  cases (db.roomMessage.flatMap fun m =>
      (db.user.filter fun sender => m.senderId = sender.id).flatMap fun sender =>
      if m.id = messageId then [(m, sender)] else []) with
  | nil => intro h; simp at h
  | cons row rest =>
    obtain ⟨m, sender⟩ := row
    simp only [List.map_cons]
    split
    · intro h
      simp only [Outcome.ok.injEq, Option.some.injEq] at h
      subst h
      rfl
    · intro h; cases h

/-- The wide-column `GetMessage` never answers a message with `isDeleted` set. -/
theorem ScyllaRoomRepository.GetMessage_isDeleted (env : ScyllaEnv) (db : ScyllaDb)
    (userId : Int) (messageId : String) (message : MessageData)
    (h : ScyllaRoomRepository.GetMessage env db userId messageId = .ok (some message)) :
    message.isDeleted = false := by
  revert h
  unfold ScyllaRoomRepository.GetMessage
  split
  · intro h; cases h
  · split
    · intro h; simp at h
    · split
      · intro h; simp at h
      · split
        · intro h; cases h
        · intro h
          simp only [Outcome.ok.injEq, Option.some.injEq] at h
          subst h
          rfl

/-- C19: in the wide-column repository a deleted message is not surfaced as
deleted. After `DeleteMessage` of `msg-1` in the room of users 3 and 7 the row
of the message carries `is_deleted`, but `GetMessage` answers the message with
`isDeleted` false and its content, and `getMessagesFromSingleRoom` still lists
it with its content. -/
theorem ScyllaRoomRepository_DeleteMessage_not_surfaced :
    (ScyllaRoomRepository.DeleteMessage demoScyllaEnv scyllaTwoMessages ["msg-1"]).2 = .ok () ∧
    ((ScyllaRoomRepository.DeleteMessage demoScyllaEnv scyllaTwoMessages
        ["msg-1"]).1.messagesByRoom.map fun row => (row.messageId, row.isDeleted))
      = [(12, false), (11, true)] ∧
    ScyllaRoomRepository.GetMessage demoScyllaEnv
        (ScyllaRoomRepository.DeleteMessage demoScyllaEnv scyllaTwoMessages ["msg-1"]).1 3 "msg-1"
      = .ok (some { id := "msg-1", roomId := "room-1", senderId := 7, senderName := "Bo",
                    content := "c1", type := "user_message", status := .DELIVERED,
                    createdAt := "t1", isDeleted := false }) ∧
    ((ScyllaRoomRepository.getMessagesFromSingleRoom demoScyllaEnv
        (ScyllaRoomRepository.DeleteMessage demoScyllaEnv scyllaTwoMessages ["msg-1"]).1 3
        { id := "room-1" }).bind fun messages =>
          .ok (messages.map fun msg => (msg.id, msg.content, msg.isDeleted)))
      = .ok [("msg-2", "c2", false), ("msg-1", "c1", false)] := by
  decide

/-- The events published for the listed ids leave the store alone. -/
theorem handlerImpl.publish_foldl_repo {σ α : Type} (generalParams : GeneralParams)
    (roomID : String) (event : α → MessageEvent) (items : List α) (st : HandlerState σ) :
    (items.foldl (fun st item =>
      handlerImpl.publishChatEvent st generalParams roomID (event item)) st).repo = st.repo := by
  induction items generalizing st with
  | nil => rfl
  | cons item rest ih =>
    simp only [List.foldl_cons]
    rw [ih]
    rfl

/-- With the relational repository, `DeleteMessage` of the service marks every
listed message deleted as soon as the caller has a view of the room named in
the request: the room of the message plays no part. -/
theorem handlerImpl.DeleteMessage_any_room (env : SqlEnv) (supply : SqlSupply)
    (st : HandlerState SqlDb) (req : Request DeleteMessageRequest)
    (generalParams : GeneralParams) (userID : Int) (room : Room)
    (hparams : req.generalParams = some generalParams) (hsession : req.session = some userID)
    (hget : (SQLRoomRepository.GetRoom st.repo userID req.msg.roomId false true).2
      = .ok (some room))
    (m : SqlMessageRow) (hm : m ∈ st.repo.roomMessage) (hid : m.id ∈ req.msg.messageIds) :
    (handlerImpl.DeleteMessage (sqlRoomsRepository env supply) st req).2 = .ok () ∧
    ({ m with deleted := true, updatedAt := supply.now, isDeleted := true } : SqlMessageRow) ∈
      (handlerImpl.DeleteMessage (sqlRoomsRepository env supply) st req).1.repo.roomMessage := by
  have htables := (SQLRoomRepository.GetRoom_tables st.repo userID req.msg.roomId false true).1
  simp only [handlerImpl.DeleteMessage, hparams, ValidateAuthToken, hsession, sqlRoomsRepository,
    hget, SQLRoomRepository.DeleteMessage, handlerImpl.publish_foldl_repo, htables, true_and]
  simp only [List.mem_map]
  exact ⟨m, hm, by rw [if_pos hid]⟩

/-- C20: the service deletes messages of rooms the caller is not in. User 9 is in
the p2p room `room-2` with user 7 and has no membership in `room-1`, the room of
users 3 and 7 that holds `m1`. User 9 asks to delete `m1` and names `room-2`:
the handler checks the caller's view of `room-2`, deletes `m1` and publishes
the delete event on `room-2`. -/
theorem handlerImpl_DeleteMessage_other_room :
    sqlTwoRooms.activeMember 9 "room-1" = false ∧
    (sqlTwoRooms.roomMessage.map fun m => (m.id, m.roomId, m.deleted, m.isDeleted))
      = [("m1", "room-1", false, false), ("m2", "room-1", false, false),
         ("m3", "room-1", false, false)] ∧
    (handlerImpl.DeleteMessage (sqlRoomsRepository demoSqlEnv { now := 5 })
      { repo := sqlTwoRooms }
      (demoRequestOf 9 { roomId := "room-2", messageIds := ["m1"] })).2 = .ok () ∧
    ((handlerImpl.DeleteMessage (sqlRoomsRepository demoSqlEnv { now := 5 })
      { repo := sqlTwoRooms }
      (demoRequestOf 9 { roomId := "room-2", messageIds := ["m1"] })).1.repo.roomMessage.map
        fun m => (m.id, m.roomId, m.deleted, m.isDeleted))
      = [("m1", "room-1", true, true), ("m2", "room-1", false, false),
         ("m3", "room-1", false, false)] ∧
    chatEvents (handlerImpl.DeleteMessage (sqlRoomsRepository demoSqlEnv { now := 5 })
      { repo := sqlTwoRooms }
      (demoRequestOf 9 { roomId := "room-2", messageIds := ["m1"] })).1.dispatched
      = [{ roomID := "room-2", userID := 9,
           event := { roomId := "room-2", event := .DeleteMessage "m1" } }] := by
  decide

/-! ## Leaving a room -/

/-- The relational `LeaveRoom` of one user without `leaveAll` ends the active
memberships of that user in the room and of nobody else. -/
theorem SQLRoomRepository.LeaveRoom_one (db : SqlDb) (roomId : String) (u v : Int) :
    (SQLRoomRepository.LeaveRoom db roomId [u] false).1.activeMember v roomId
      = (db.activeMember v roomId && decide (v ≠ u)) := by
  simp only [SQLRoomRepository.LeaveRoom, Bool.false_eq_true, if_false, slices.Compact,
    SqlDb.activeMember, List.any_map, List.mem_singleton]
  by_cases hv : v = u
  · subst hv
    simp only [ne_eq, not_true_eq_false, decide_False, Bool.and_false]
    rw [List.any_eq_false]
    intro m _
    simp only [Function.comp]
    by_cases hm : m.roomId = roomId ∧ m.userId = v ∧ m.removed = false
    · simp only [if_pos hm]
      simp [SqlRoomMemberRow.active]
    · simp only [if_neg hm]
      simp only [SqlRoomMemberRow.active, Bool.and_eq_true, Bool.not_eq_true',
        decide_eq_true_eq, not_and]
      intro h1 h2 h3
      exact absurd ⟨h1, h2, h3⟩ hm
  · simp only [ne_eq, hv, not_false_eq_true, decide_True, Bool.and_true]
    congr 1
    funext m
    simp only [Function.comp]
    by_cases hm : m.roomId = roomId ∧ m.userId = u ∧ m.removed = false
    · simp only [if_pos hm]
      have : m.userId ≠ v := by rw [hm.2.1]; exact fun h => hv h.symm
      simp [this]
    · simp only [if_neg hm]

/-- C21 (amended): for a caller whose view of the room is a group in which the
caller's role is MEMBER, `LeaveRoom` answers InvalidRequestData, with the store
as `GetRoom` left it and nothing dispatched or asked of the notifications
client, when the request names any participant (the caller included) or sets
`leaveAll`; when it names no participant and does not set `leaveAll`, the
removal runs for the caller alone, which in the relational repository ends the
active memberships of the caller in the room and of nobody else. -/
theorem handlerImpl_LeaveRoom_member {σ : Type} (repo : RoomsRepository σ)
    (st : HandlerState σ) (req : Request LeaveRoomRequest) (userID : Int) (room : Room)
    (hsession : req.session = some userID)
    (hroom : (repo.GetRoom st.repo userID req.msg.id true true).2 = .ok (some room))
    (hgroup : room.type = "group") (hrole : room.role = "MEMBER") :
    ((req.msg.participants ≠ [] ∨ req.msg.leaveAll = true) →
      handlerImpl.LeaveRoom repo st req
        = ({ st with repo := (repo.GetRoom st.repo userID req.msg.id true true).1 },
            .error (.code .InvalidRequestData))) ∧
    (req.msg.participants = [] → req.msg.leaveAll = false →
      handlerImpl.LeaveRoom repo st req
        = handlerImpl.LeaveRoom.remove repo
            { st with repo := (repo.GetRoom st.repo userID req.msg.id true true).1 }
            (req.generalParams.getD {}) userID room req.msg.id [toInt32 userID] false) ∧
    (∀ (db : SqlDb) (roomId : String) (u v : Int),
      (SQLRoomRepository.LeaveRoom db roomId [u] false).1.activeMember v roomId
        = (db.activeMember v roomId && decide (v ≠ u))) := by
  have hp2p : ¬ room.type = "p2p" := by rw [hgroup]; decide
  refine ⟨?_, ?_, SQLRoomRepository.LeaveRoom_one⟩
  · intro h
    simp only [handlerImpl.LeaveRoom, ValidateAuthToken, hsession, hroom, if_neg hp2p, hgroup,
      if_true, hrole, true_and, and_true]
    by_cases hn : req.msg.participants = []
    · have hl : req.msg.leaveAll = true := by
        rcases h with h | h
        · exact absurd hn h
        · exact h
      simp [hn, hl]
    · have : req.msg.participants.length > 0 := List.length_pos.mpr hn
      simp [this]
  · intro hn hl
    simp only [handlerImpl.LeaveRoom, ValidateAuthToken, hsession, hroom, hgroup,
      if_true, hrole, true_and, and_true, hn, hl, List.length_nil, gt_iff_lt, Nat.lt_irrefl,
      if_false, Bool.false_eq_true]
    rw [if_neg (by decide)]

/-- Witness for C21: the member 7 of the group `room-2` leaves with a request
that names no participant: the handler succeeds and the active members are then
3 and 9. -/
theorem handlerImpl_LeaveRoom_member_witness :
    (handlerImpl.LeaveRoom (sqlRoomsRepository demoSqlEnv { newMessageId := "m9", now := 5 })
      { repo := sqlGroupRoom } (demoRequestOf 7 { id := "room-2" })).2 = .ok () ∧
    (handlerImpl.LeaveRoom (sqlRoomsRepository demoSqlEnv { newMessageId := "m9", now := 5 })
      { repo := sqlGroupRoom } (demoRequestOf 7 { id := "room-2" })).1.repo.activeMembers "room-2"
      = [3, 9] := by
  have h := (handlerImpl_LeaveRoom_member
    (sqlRoomsRepository demoSqlEnv { newMessageId := "m9", now := 5 })
    { repo := sqlGroupRoom } (demoRequestOf 7 { id := "room-2" }) 7
    { id := "room-2", type := "group", name := "G", encryptionData := "key-2", role := "MEMBER" }
    rfl (by decide) rfl rfl).2.1 rfl rfl
  rw [h]
  decide

/-- Counterexample to C21: a MEMBER who names only themselves is refused, and in
a channel no role is checked. The member 7 of the group `room-2` asks to leave
with the participant list 7: the handler answers InvalidRequestData and user 7
is still a member. The member 7 of the channel `room-4` names user 9: the
handler succeeds and user 9 is removed. The same member names nobody: the
handler succeeds, nobody is removed, and the `RoomLeave` event lists nobody. -/
theorem handlerImpl_LeaveRoom_counterexample :
    sqlGroupRoom.activeMembers "room-2" = [3, 7, 9] ∧
    (handlerImpl.LeaveRoom (sqlRoomsRepository demoSqlEnv { newMessageId := "m9", now := 5 })
      { repo := sqlGroupRoom } (demoRequestOf 7 { id := "room-2", participants := [7] })).2
      = .error (.code .InvalidRequestData) ∧
    (handlerImpl.LeaveRoom (sqlRoomsRepository demoSqlEnv { newMessageId := "m9", now := 5 })
      { repo := sqlGroupRoom }
      (demoRequestOf 7 { id := "room-2", participants := [7] })).1.repo.activeMembers "room-2"
      = [3, 7, 9] ∧
    sqlChannelRoom.activeMembers "room-4" = [3, 7, 9] ∧
    (handlerImpl.LeaveRoom (sqlRoomsRepository demoSqlEnv { newMessageId := "m9", now := 5 })
      { repo := sqlChannelRoom } (demoRequestOf 7 { id := "room-4", participants := [9] })).2
      = .ok () ∧
    (handlerImpl.LeaveRoom (sqlRoomsRepository demoSqlEnv { newMessageId := "m9", now := 5 })
      { repo := sqlChannelRoom }
      (demoRequestOf 7 { id := "room-4", participants := [9] })).1.repo.activeMembers "room-4"
      = [3, 7] ∧
    (handlerImpl.LeaveRoom (sqlRoomsRepository demoSqlEnv { newMessageId := "m9", now := 5 })
      { repo := sqlChannelRoom } (demoRequestOf 7 { id := "room-4" })).2 = .ok () ∧
    (handlerImpl.LeaveRoom (sqlRoomsRepository demoSqlEnv { newMessageId := "m9", now := 5 })
      { repo := sqlChannelRoom } (demoRequestOf 7 { id := "room-4" })).1.repo.activeMembers
        "room-4" = [3, 7, 9] ∧
    ((chatEvents (handlerImpl.LeaveRoom
      (sqlRoomsRepository demoSqlEnv { newMessageId := "m9", now := 5 })
      { repo := sqlChannelRoom } (demoRequestOf 7 { id := "room-4" })).1.dispatched).map
        fun e => e.event.event) = [.RoomLeave []] := by
  decide

/-- The relational `GetUsersByID` returns at most one user, whatever the number
of ids. -/
theorem SQLRoomRepository.GetUsersByID_length (db : SqlDb) (ids : List Int) (users : List User)
    (h : SQLRoomRepository.GetUsersByID db ids = .ok users) : users.length ≤ 1 := by
  revert h
  simp only [SQLRoomRepository.GetUsersByID]
  cases hrows : List.filter (fun u => decide (u.id ∈ ids ∧ u.deleted = false)) db.user with
  | nil =>
    simp only [List.take_nil, List.foldl_nil]
    intro h
    simp only [Outcome.ok.injEq] at h
    subst h
    simp
  | cons u rest =>
    simp only [List.take_succ_cons, List.take_zero, List.foldl_cons, List.foldl_nil, Outcome.bind]
    split
    · intro h
      simp only [List.nil_append, Outcome.ok.injEq] at h
      subst h
      simp
    · intro h; cases h

/-- C22: the relational `LeaveRoom` returns at most one of the users it removed
(the query of `GetUsersByID` ends in `LIMIT 1`), so at most one system message
is saved and published, and the list of the `RoomLeave` event is only compacted.
The owner 3 of the group `room-2` removes the users 7 and 9: both memberships
end, one `remove_member` message is saved (with the phone of user 7) and
published, and the `RoomLeave` event lists 7 and 9. With the participant list 7,
9, 7 the `RoomLeave` event lists user 7 twice. -/
theorem handlerImpl_LeaveRoom_one_notice :
    sqlGroupRoom.activeMembers "room-2" = [3, 7, 9] ∧
    (handlerImpl.LeaveRoom (sqlRoomsRepository demoSqlEnv { newMessageId := "m9", now := 5 })
      { repo := sqlGroupRoom } (demoRequestOf 3 { id := "room-2", participants := [7, 9] })).2
      = .ok () ∧
    (handlerImpl.LeaveRoom (sqlRoomsRepository demoSqlEnv { newMessageId := "m9", now := 5 })
      { repo := sqlGroupRoom }
      (demoRequestOf 3 { id := "room-2", participants := [7, 9] })).1.repo.activeMembers "room-2"
      = [3] ∧
    (handlerImpl.LeaveRoom (sqlRoomsRepository demoSqlEnv { newMessageId := "m9", now := 5 })
      { repo := sqlGroupRoom }
      (demoRequestOf 3 { id := "room-2", participants := [7, 9] })).1.repo.removeNotices "room-2"
      = ["07"] ∧
    ((chatEvents (handlerImpl.LeaveRoom
      (sqlRoomsRepository demoSqlEnv { newMessageId := "m9", now := 5 })
      { repo := sqlGroupRoom }
      (demoRequestOf 3 { id := "room-2", participants := [7, 9] })).1.dispatched).map
        fun e => e.event.event) = [.Message "m9", .RoomLeave [7, 9]] ∧
    ((chatEvents (handlerImpl.LeaveRoom
      (sqlRoomsRepository demoSqlEnv { newMessageId := "m9", now := 5 })
      { repo := sqlGroupRoom }
      (demoRequestOf 3 { id := "room-2", participants := [7, 9, 7] })).1.dispatched).map
        fun e => e.event.event) = [.Message "m9", .RoomLeave [7, 9, 7]] := by
  decide

/-! ## Room cache -/

/-- A lookup after a filter on the keys. -/
theorem lookup_filter_keys {β : Type} (q : String → Bool) (l : List (String × β)) (k : String) :
    List.lookup k (l.filter fun kv => q kv.1) = if q k = true then List.lookup k l else none := by
  induction l with
  | nil => simp
  | cons kv rest ih =>
    obtain ⟨a, b⟩ := kv
    by_cases hq : q a = true
    · rw [List.filter_cons_of_pos (by simpa using hq)]
      by_cases hk : k = a
      · subst hk
        simp [List.lookup_cons, hq]
      · have hb : (k == a) = false := by simpa using hk
        simp only [List.lookup_cons, hb, ih]
    · rw [List.filter_cons_of_neg (by simpa using hq)]
      by_cases hk : k = a
      · subst hk
        simp [ih, hq]
      · have hb : (k == a) = false := by simpa using hk
        simp only [List.lookup_cons, hb, ih]

/-- What a key holds after `cache.Set`. -/
theorem RoomCache.lookup_Set (cache : RoomCache) (key : String) (data : Room) (k : String) :
    List.lookup k (RoomCache.Set cache key data)
      = if k = key then some (.room data) else List.lookup k cache := by
  unfold RoomCache.Set
  by_cases hk : k = key
  · subst hk
    simp [List.lookup_cons]
  · have hb : (k == key) = false := by simpa using hk
    rw [List.lookup_cons, hb, if_neg hk]
    have := lookup_filter_keys (fun a => decide (a ≠ key)) cache k
    simp only [ne_eq, decide_not, Bool.not_eq_true', decide_eq_false_iff_not, hk,
      not_false_eq_true, if_true] at this
    simpa using this

/-- What a key holds after `cache.Del`. -/
theorem RoomCache.lookup_Del (cache : RoomCache) (keys : List String) (k : String) :
    List.lookup k (RoomCache.Del cache keys) = if k ∈ keys then none else List.lookup k cache := by
  unfold RoomCache.Del
  have := lookup_filter_keys (fun a => decide (a ∉ keys)) cache k
  by_cases hk : k ∈ keys
  · simp only [hk, not_true_eq_false, decide_False, Bool.false_eq_true, if_false] at this
    rw [if_pos hk]
    simpa using this
  · simp only [hk, not_false_eq_true, decide_True, if_true] at this
    rw [if_neg hk]
    simpa using this

/-- What a key holds after `cache.SAdd`. -/
theorem RoomCache.lookup_SAdd (cache : RoomCache) (key member k : String) :
    List.lookup k (RoomCache.SAdd cache key member)
      = if k = key then
          (match List.lookup key cache with
            | some (.members keys) =>
              if member ∈ keys then some (.members keys) else some (.members (keys ++ [member]))
            | some (.room data) => some (.room data)
            | none => some (.members [member]))
        else List.lookup k cache := by
  unfold RoomCache.SAdd
  cases hl : List.lookup key cache with
  | none =>
    simp only []
    by_cases hk : k = key
    · subst hk
      simp [List.lookup_cons]
    · have hb : (k == key) = false := by simpa using hk
      rw [List.lookup_cons, hb, if_neg hk]
  | some entry =>
    cases entry with
    | room data =>
      simp only []
      by_cases hk : k = key
      · subst hk
        rw [if_pos rfl, hl]
      · rw [if_neg hk]
    | members keys =>
      simp only []
      by_cases hm : member ∈ keys
      · rw [if_pos hm]
        by_cases hk : k = key
        · subst hk
          rw [if_pos rfl, hl, if_pos hm]
        · rw [if_neg hk]
      · rw [if_neg hm]
        by_cases hk : k = key
        · subst hk
          simp [List.lookup_cons, hm]
        · have hb : (k == key) = false := by simpa using hk
          rw [List.lookup_cons, hb, if_neg hk]
          have := lookup_filter_keys (fun a => decide (a ≠ key)) cache k
          simp only [ne_eq, decide_not, Bool.not_eq_true', decide_eq_false_iff_not, hk,
            not_false_eq_true, if_true] at this
          simpa using this

/-- What a key holds after `SetCachedRoom`. -/
theorem lookup_SetCachedRoom (cache : RoomCache) (roomId cacheKey : String) (data : Room)
    (k : String) :
    List.lookup k (SetCachedRoom cache roomId cacheKey data)
      = if k = roomMembersKey roomId then
          (match (if roomMembersKey roomId = cacheKey then some (CacheEntry.room data)
                  else List.lookup (roomMembersKey roomId) cache) with
            | some (.members keys) =>
              if cacheKey ∈ keys then some (.members keys)
              else some (.members (keys ++ [cacheKey]))
            | some (.room d) => some (.room d)
            | none => some (.members [cacheKey]))
        else if k = cacheKey then some (.room data) else List.lookup k cache := by
  unfold SetCachedRoom
  simp only []
  rw [RoomCache.lookup_SAdd, RoomCache.lookup_Set, RoomCache.lookup_Set]

/-- The names of the members sets of two rooms differ. -/
theorem roomMembersKey_injective (a b : String) (h : roomMembersKey a = roomMembersKey b) :
    a = b := by
  have := congrArg String.data h
  simp [roomMembersKey, String.data_append] at this
  exact String.ext this

/-- After `SetCachedRoom` the key is listed for the room. -/
theorem RoomCache.Listed_SetCachedRoom (cache : RoomCache) (roomId key : String) (data : Room) :
    RoomCache.Listed (SetCachedRoom cache roomId key data) roomId key := by
  unfold RoomCache.Listed
  rw [lookup_SetCachedRoom, if_pos rfl]
  split
  · rename_i keys _
    right
    by_cases hm : key ∈ keys
    · exact ⟨keys, by rw [if_pos hm], hm⟩
    · exact ⟨keys ++ [key], by rw [if_neg hm], by simp⟩
  · rename_i d _
    exact Or.inl ⟨d, rfl⟩
  · exact Or.inr ⟨[key], rfl, by simp⟩

/-- A later `SetCachedRoom` keeps a key listed. -/
theorem RoomCache.Listed_of_SetCachedRoom (cache : RoomCache) (roomId key : String)
    (roomId' key' : String) (data : Room) (h : RoomCache.Listed cache roomId key) :
    RoomCache.Listed (SetCachedRoom cache roomId' key' data) roomId key := by
  unfold RoomCache.Listed at h ⊢
  rw [lookup_SetCachedRoom]
  by_cases hk : roomMembersKey roomId = roomMembersKey roomId'
  · rw [if_pos hk]
    by_cases hc : roomMembersKey roomId' = key'
    · rw [if_pos hc]
      exact Or.inl ⟨data, rfl⟩
    · rw [if_neg hc, ← hk]
      rcases h with ⟨d, hd⟩ | ⟨keys, hkeys, hmem⟩
      · rw [hd]
        exact Or.inl ⟨d, rfl⟩
      · rw [hkeys]
        right
        by_cases hm : key' ∈ keys
        · exact ⟨keys, by simp only [if_pos hm], hmem⟩
        · exact ⟨keys ++ [key'], by simp only [if_neg hm], by simp [hmem]⟩
  · rw [if_neg hk]
    by_cases hc : roomMembersKey roomId = key'
    · rw [if_pos hc]
      exact Or.inl ⟨data, rfl⟩
    · rw [if_neg hc]
      exact h

/-- The loop of `UpdateRoomCacheWithNewMessage` keeps a key listed. -/
theorem RoomCache.Listed_of_update_loop (message : MessageData) (roomId key : String)
    (cacheKeys : List String) (cache : RoomCache) (h : RoomCache.Listed cache roomId key) :
    RoomCache.Listed (cacheKeys.foldl (fun cache key =>
      match GetCachedRoom cache key with
      | some cachedRoom =>
        SetCachedRoom cache message.roomId key
          { cachedRoom with lastMessage := some message, lastMessageAt := message.createdAt }
      | none => cache) cache) roomId key := by
  induction cacheKeys generalizing cache with
  | nil => exact h
  | cons k rest ih =>
    simp only [List.foldl_cons]
    apply ih
    cases GetCachedRoom cache k with
    | none => exact h
    | some cachedRoom => exact RoomCache.Listed_of_SetCachedRoom _ _ _ _ _ _ h

/-- A call that writes to the cache keeps a key listed. -/
theorem RoomCache.Listed_of_apply (cache : RoomCache) (roomId key : String) (op : CacheOp)
    (h : RoomCache.Listed cache roomId key) : RoomCache.Listed (op.apply cache) roomId key := by
  cases op with
  | SetCachedRoom roomId' key' data => exact RoomCache.Listed_of_SetCachedRoom _ _ _ _ _ _ h
  | UpdateRoomCacheWithNewMessage message =>
    simp only [CacheOp.apply, UpdateRoomCacheWithNewMessage]
    cases message with
    | none => exact h
    | some message =>
      simp only []
      split
      · exact h
      · split
        · exact h
        · exact RoomCache.Listed_of_update_loop _ _ _ _ _ h

/-- After a sequence of calls, a key that one of them stored under the room is
listed for the room. -/
theorem RoomCache.Listed_of_run (ops : List CacheOp) (cache : RoomCache) (roomId key : String) :
    (RoomCache.Listed cache roomId key ∨ ∃ data, CacheOp.SetCachedRoom roomId key data ∈ ops) →
    RoomCache.Listed (runCacheOps ops cache) roomId key := by
  induction ops generalizing cache with
  | nil =>
    rintro (h | ⟨data, hd⟩)
    · exact h
    · cases hd
  | cons op rest ih =>
    intro h
    simp only [runCacheOps, List.foldl_cons]
    apply ih
    rcases h with h | ⟨data, hd⟩
    · exact Or.inl (RoomCache.Listed_of_apply _ _ _ _ h)
    · rcases List.mem_cons.mp hd with rfl | hd
      · exact Or.inl (RoomCache.Listed_SetCachedRoom _ _ _ _)
      · exact Or.inr ⟨data, hd⟩

/-- `SetCachedRoom` lists nothing but its key, under its room. -/
theorem RoomCache.MembersIn_SetCachedRoom (cache : RoomCache) (P : String → String → Prop)
    (roomId' key' : String) (data : Room) (h : RoomCache.MembersIn cache P)
    (hP : P roomId' key') : RoomCache.MembersIn (SetCachedRoom cache roomId' key' data) P := by
  intro roomId keys hl key hkey
  rw [lookup_SetCachedRoom] at hl
  by_cases hk : roomMembersKey roomId = roomMembersKey roomId'
  · have hr := roomMembersKey_injective _ _ hk
    subst hr
    rw [if_pos rfl] at hl
    by_cases hc : roomMembersKey roomId = key'
    · rw [if_pos hc] at hl
      cases hl
    · rw [if_neg hc] at hl
      cases hold : List.lookup (roomMembersKey roomId) cache with
      | none =>
        rw [hold] at hl
        simp only [Option.some.injEq, CacheEntry.members.injEq] at hl
        subst hl
        simp only [List.mem_singleton] at hkey
        subst hkey
        exact hP
      | some entry =>
        rw [hold] at hl
        cases entry with
        | room d => cases hl
        | members old =>
          simp only at hl
          by_cases hm : key' ∈ old
          · rw [if_pos hm] at hl
            simp only [Option.some.injEq, CacheEntry.members.injEq] at hl
            subst hl
            exact h roomId old hold key hkey
          · rw [if_neg hm] at hl
            simp only [Option.some.injEq, CacheEntry.members.injEq] at hl
            subst hl
            rcases List.mem_append.mp hkey with hin | hin
            · exact h roomId old hold key hin
            · simp only [List.mem_singleton] at hin
              subst hin
              exact hP
  · rw [if_neg hk] at hl
    by_cases hc : roomMembersKey roomId = key'
    · rw [if_pos hc] at hl
      cases hl
    · rw [if_neg hc] at hl
      exact h roomId keys hl key hkey

/-- The loop of `UpdateRoomCacheWithNewMessage` lists nothing new. -/
theorem RoomCache.MembersIn_update_loop (message : MessageData) (P : String → String → Prop)
    (cacheKeys : List String) (cache : RoomCache) (h : RoomCache.MembersIn cache P)
    (hP : ∀ key ∈ cacheKeys, P message.roomId key) :
    RoomCache.MembersIn (cacheKeys.foldl (fun cache key =>
      match GetCachedRoom cache key with
      | some cachedRoom =>
        SetCachedRoom cache message.roomId key
          { cachedRoom with lastMessage := some message, lastMessageAt := message.createdAt }
      | none => cache) cache) P := by
  induction cacheKeys generalizing cache with
  | nil => exact h
  | cons k rest ih =>
    simp only [List.foldl_cons]
    apply ih
    · cases GetCachedRoom cache k with
      | none => exact h
      | some cachedRoom =>
        exact RoomCache.MembersIn_SetCachedRoom _ _ _ _ _ h (hP k (List.mem_cons_self _ _))
    · intro key hkey
      exact hP key (List.mem_cons_of_mem _ hkey)

/-- `UpdateRoomCacheWithNewMessage` lists nothing new. -/
theorem RoomCache.MembersIn_update (cache : RoomCache) (P : String → String → Prop)
    (message : Option MessageData) (h : RoomCache.MembersIn cache P) :
    RoomCache.MembersIn (UpdateRoomCacheWithNewMessage cache message) P := by
  unfold UpdateRoomCacheWithNewMessage
  cases message with
  | none => exact h
  | some message =>
    simp only []
    split
    · exact h
    · cases hs : RoomCache.SMembers cache (roomMembersKey message.roomId) with
      | none => exact h
      | some cacheKeys =>
        simp only []
        apply RoomCache.MembersIn_update_loop _ _ _ _ h
        intro key hkey
        unfold RoomCache.SMembers at hs
        cases hl : List.lookup (roomMembersKey message.roomId) cache with
        | none =>
          rw [hl] at hs
          simp only [Option.some.injEq] at hs
          subst hs
          cases hkey
        | some entry =>
          rw [hl] at hs
          cases entry with
          | room d => cases hs
          | members keys =>
            simp only [Option.some.injEq] at hs
            subst hs
            exact h _ _ hl key hkey

/-- After a sequence of calls, the keys listed in the members set of a room were
listed before or stored under the room by one of the calls. -/
theorem RoomCache.MembersIn_run (ops : List CacheOp) (cache : RoomCache)
    (P : String → String → Prop) (h : RoomCache.MembersIn cache P) :
    RoomCache.MembersIn (runCacheOps ops cache)
      (fun roomId key => P roomId key ∨ ∃ data, CacheOp.SetCachedRoom roomId key data ∈ ops) := by
  induction ops generalizing cache P with
  | nil =>
    intro roomId keys hl key hkey
    exact Or.inl (h roomId keys hl key hkey)
  | cons op rest ih =>
    simp only [runCacheOps, List.foldl_cons]
    have hstep : RoomCache.MembersIn (op.apply cache)
        (fun roomId key => P roomId key ∨ ∃ data, CacheOp.SetCachedRoom roomId key data = op) := by
      have hw : RoomCache.MembersIn cache
          (fun roomId key => P roomId key ∨
            ∃ data, CacheOp.SetCachedRoom roomId key data = op) :=
        fun roomId keys hl key hkey => Or.inl (h roomId keys hl key hkey)
      cases op with
      | SetCachedRoom roomId' key' data =>
        exact RoomCache.MembersIn_SetCachedRoom _ _ _ _ _ hw (Or.inr ⟨data, rfl⟩)
      | UpdateRoomCacheWithNewMessage message => exact RoomCache.MembersIn_update _ _ _ hw
    intro roomId keys hl key hkey
    rcases ih _ _ hstep roomId keys hl key hkey with (hp | ⟨data, hd⟩) | ⟨data, hd⟩
    · exact Or.inl hp
    · exact Or.inr ⟨data, by rw [hd]; exact List.mem_cons_self _ _⟩
    · exact Or.inr ⟨data, List.mem_cons_of_mem _ hd⟩

/-- What a key holds after `DeleteRoomCacheByRoomID`, when the members set of the
room can be read. -/
theorem lookup_DeleteRoomCacheByRoomID (cache : RoomCache) (roomId : String)
    (keys : List String) (h : RoomCache.SMembers cache (roomMembersKey roomId) = some keys)
    (k : String) :
    List.lookup k (DeleteRoomCacheByRoomID cache roomId)
      = if k = roomMembersKey roomId ∨ k ∈ keys then none else List.lookup k cache := by
  unfold DeleteRoomCacheByRoomID
  simp only [h]
  rw [RoomCache.lookup_Del]
  by_cases hk : k = roomMembersKey roomId
  · simp [hk]
  · simp only [List.mem_singleton, hk, if_false, false_or]
    by_cases hl : keys.length > 0
    · rw [if_pos hl, RoomCache.lookup_Del]
    · rw [if_neg hl]
      have : keys = [] := List.length_eq_zero.mp (by omega)
      simp [this]

/-- C23: after any sequence of `SetCachedRoom` and
`UpdateRoomCacheWithNewMessage` calls on a cache, when `DeleteRoomCacheByRoomID`
of a room can read the members set of the room (no value was written under the
name of the set), it leaves a miss for every key that a call of the sequence
stored under the room and for every key listed in the set, it removes the set,
and it leaves every other key with what it holds, cached rooms and members sets
alike; from the empty cache, the keys listed in the set are exactly those that a
call of the sequence stored under the room. -/
theorem DeleteRoomCacheByRoomID_clears_room (ops : List CacheOp) (cache : RoomCache)
    (roomId : String) (keys : List String)
    (hread : RoomCache.SMembers (runCacheOps ops cache) (roomMembersKey roomId) = some keys) :
    (∀ cacheKey data, CacheOp.SetCachedRoom roomId cacheKey data ∈ ops →
      cacheKey ∈ keys ∧
      GetCachedRoom (DeleteRoomCacheByRoomID (runCacheOps ops cache) roomId) cacheKey = none) ∧
    (∀ cacheKey ∈ keys,
      GetCachedRoom (DeleteRoomCacheByRoomID (runCacheOps ops cache) roomId) cacheKey = none) ∧
    List.lookup (roomMembersKey roomId) (DeleteRoomCacheByRoomID (runCacheOps ops cache) roomId)
      = none ∧
    (∀ key, key ∉ keys → key ≠ roomMembersKey roomId →
      List.lookup key (DeleteRoomCacheByRoomID (runCacheOps ops cache) roomId)
        = List.lookup key (runCacheOps ops cache)) ∧
    (cache = [] → ∀ cacheKey ∈ keys, ∃ data, CacheOp.SetCachedRoom roomId cacheKey data ∈ ops) := by
  have hmiss : ∀ cacheKey ∈ keys,
      GetCachedRoom (DeleteRoomCacheByRoomID (runCacheOps ops cache) roomId) cacheKey = none := by
    intro cacheKey hk
    unfold GetCachedRoom RoomCache.Get
    rw [lookup_DeleteRoomCacheByRoomID _ _ _ hread, if_pos (Or.inr hk)]
  have hentry : List.lookup (roomMembersKey roomId) (runCacheOps ops cache) = some (.members keys)
      ∨ (List.lookup (roomMembersKey roomId) (runCacheOps ops cache) = none ∧ keys = []) := by
    unfold RoomCache.SMembers at hread
    cases hl : List.lookup (roomMembersKey roomId) (runCacheOps ops cache) with
    | none =>
      rw [hl] at hread
      simp only [Option.some.injEq] at hread
      exact Or.inr ⟨rfl, hread.symm⟩
    | some entry =>
      rw [hl] at hread
      cases entry with
      | room d => cases hread
      | members ks =>
        simp only [Option.some.injEq] at hread
        subst hread
        exact Or.inl rfl
  refine ⟨?_, hmiss, ?_, ?_, ?_⟩
  · intro cacheKey data hop
    have hlisted := RoomCache.Listed_of_run ops cache roomId cacheKey (Or.inr ⟨data, hop⟩)
    have hin : cacheKey ∈ keys := by
      rcases hlisted with ⟨d, hd⟩ | ⟨ks, hks, hmem⟩
      · rcases hentry with he | ⟨he, -⟩
        · rw [hd] at he; cases he
        · rw [hd] at he; cases he
      · rcases hentry with he | ⟨he, -⟩
        · rw [hks] at he
          simp only [Option.some.injEq, CacheEntry.members.injEq] at he
          subst he
          exact hmem
        · rw [hks] at he; cases he
    exact ⟨hin, hmiss cacheKey hin⟩
  · rw [lookup_DeleteRoomCacheByRoomID _ _ _ hread, if_pos (Or.inl rfl)]
  · intro key hk hne
    rw [lookup_DeleteRoomCacheByRoomID _ _ _ hread, if_neg (by simp [hk, hne])]
  · intro hempty cacheKey hk
    subst hempty
    have hin := RoomCache.MembersIn_run ops [] (fun _ _ => False)
      (fun roomId keys hl => by simp at hl)
    rcases hentry with he | ⟨-, he⟩
    · rcases hin roomId keys he cacheKey hk with hf | hd
      · exact hf.elim
      · exact hd
    · subst he
      cases hk

/-- Witness for C23: the views of `room-1` for the users 3 and 7 and the view of
`room-2` for user 3 are cached, and a message of `room-1` updates its views.
`DeleteRoomCacheByRoomID` of `room-1` then leaves a miss for both keys of
`room-1`, and what is left are the view of `room-2` and its members set. -/
theorem DeleteRoomCacheByRoomID_clears_room_witness :
    RoomCache.SMembers (runCacheOps demoCacheOps []) (roomMembersKey "room-1")
      = some [roomCacheKey "room-1" 3 true, roomCacheKey "room-1" 7 false] ∧
    GetCachedRoom (DeleteRoomCacheByRoomID (runCacheOps demoCacheOps []) "room-1")
      (roomCacheKey "room-1" 3 true) = none ∧
    GetCachedRoom (DeleteRoomCacheByRoomID (runCacheOps demoCacheOps []) "room-1")
      (roomCacheKey "room-1" 7 false) = none ∧
    ((DeleteRoomCacheByRoomID (runCacheOps demoCacheOps []) "room-1").map fun kv => kv.1)
      = [roomMembersKey "room-2", roomCacheKey "room-2" 3 true] := by
  have h := DeleteRoomCacheByRoomID_clears_room demoCacheOps [] "room-1"
    [roomCacheKey "room-1" 3 true, roomCacheKey "room-1" 7 false] (by decide)
  exact ⟨by decide,
    (h.1 (roomCacheKey "room-1" 3 true) { id := "room-1", type := "p2p" } (by decide)).2,
    (h.1 (roomCacheKey "room-1" 7 false) { id := "room-1", type := "p2p" } (by decide)).2,
    by decide⟩

/-! ## Room lists, mute flags and the cache flag -/

/-- While `(page - 1) * limit + limit` stays below `2^32` (after the reduction of
the product) and the list is shorter than `2^32`, the pagination of
`GetRoomList` does not panic and returns the rooms from the offset on, at most
`limit` of them. -/
theorem ScyllaRoomRepository.GetRoomList.paginate_in_range (rooms : List Room)
    (page limit : Nat) (hpage : 0 < page) (hlimit : 0 < limit)
    (hlen : rooms.length < 4294967296)
    (hsum : ((page - 1) * limit) % 4294967296 + limit < 4294967296) :
    ScyllaRoomRepository.GetRoomList.paginate rooms page limit
      = .ok ((rooms.drop (((page - 1) * limit) % 4294967296)).take limit) := by
  simp only [ScyllaRoomRepository.GetRoomList.paginate, hpage, hlimit, and_self, if_true,
    gt_iff_lt, Nat.mod_eq_of_lt hlen, Nat.mod_eq_of_lt hsum]
  generalize ((page - 1) * limit) % 4294967296 = start at hsum
  by_cases h1 : rooms.length < start
  · rw [if_pos h1, List.drop_eq_nil_of_le (Nat.le_of_lt h1), List.take_nil]
  · rw [if_neg h1]
    by_cases h2 : rooms.length < start + limit
    · rw [if_pos h2, if_pos (Nat.le_of_not_lt h1)]
      congr 1
      rw [List.take_of_length_le (by simp), List.take_of_length_le (by simp; omega)]
    · rw [if_neg h2, if_pos (Nat.le_add_right _ _), Nat.add_sub_cancel_left]

/-- C29: the pagination of the wide-column `GetRoomList` slices out of range when
`start + limit` wraps around. Both products are taken modulo `2^32`: with page
4294967295 and limit 4294967295, `start` is 2 and `end` is 1, and for a user with
two rooms neither is above the length, so the slice `[2:1]` panics. The same
list is paged without panic by page 1 and page 2 of limit 1. -/
theorem ScyllaRoomRepository_GetRoomList_page_overflow :
    (((ScyllaRoomRepository.GetRoomList demoScyllaEnv scyllaTwoRooms 3 {}).bind fun r =>
        .ok (r.1.map fun room => room.id, r.2)) : Outcome (List String × PaginationMeta))
      = .ok (["room-2", "room-1"], { totalItems := 2, itemCount := 2 }) ∧
    (((ScyllaRoomRepository.GetRoomList demoScyllaEnv scyllaTwoRooms 3
        { page := 2, limit := 1 }).bind fun r =>
        .ok (r.1.map fun room => room.id, r.2)) : Outcome (List String × PaginationMeta))
      = .ok (["room-1"], { totalItems := 2, itemCount := 1 }) ∧
    ((4294967295 - 1) * 4294967295) % 4294967296 = 2 ∧
    (2 + 4294967295) % 4294967296 = 1 ∧
    ScyllaRoomRepository.GetRoomList demoScyllaEnv scyllaTwoRooms 3
      { page := 4294967295, limit := 4294967295 } = .panic := by
  decide

/-- The relational `IsPartnerMuted` answers the mute flag of the first membership
of the user given in the room that is not deleted (false without one). -/
theorem SQLRoomRepository.IsPartnerMuted_own (db : SqlDb) (userId : Int) (roomId : String) :
    SQLRoomRepository.IsPartnerMuted db userId roomId
      = .ok (((db.roomMember.find? fun m =>
          m.roomId = roomId ∧ m.userId = userId ∧ m.deleted = false).map fun m =>
            m.isMuted.getD false).getD false) := by
  unfold SQLRoomRepository.IsPartnerMuted
  cases db.roomMember.find? (fun m =>
    decide (m.roomId = roomId ∧ m.userId = userId ∧ m.deleted = false)) <;> rfl

/-- C28: `IsPartnerMuted`, called with the id of the recipient as the send fan-out
calls it, answers the recipient's own flag in the relational repository and the
flag of the other member, the sender, in the wide-column repository. In the p2p
room of users 3 and 7, for a message of user 3: after user 7 muted the room the
relational repository answers true and the wide-column repository false (user 7
is still notified), and after user 3 muted it the relational repository answers
false and the wide-column repository true (user 7 is not notified). -/
theorem IsPartnerMuted_recipient_flag :
    SQLRoomRepository.IsPartnerMuted (SQLRoomRepository.MuteRoom sqlAfterCreate 7 "room-1" true).1
      7 "room-1" = .ok true ∧
    (ScyllaRoomRepository.MuteRoom demoScyllaEnv scyllaAfterCreate 7 "room-1" true).2 = .ok () ∧
    ScyllaRoomRepository.IsPartnerMuted demoScyllaEnv
      (ScyllaRoomRepository.MuteRoom demoScyllaEnv scyllaAfterCreate 7 "room-1" true).1
      7 "room-1" = .ok false ∧
    SQLRoomRepository.IsPartnerMuted (SQLRoomRepository.MuteRoom sqlAfterCreate 3 "room-1" true).1
      7 "room-1" = .ok false ∧
    ScyllaRoomRepository.IsPartnerMuted demoScyllaEnv
      (ScyllaRoomRepository.MuteRoom demoScyllaEnv scyllaAfterCreate 3 "room-1" true).1
      7 "room-1" = .ok true := by
  decide

/-- The relational `GetRoom` answers the cached view of the key, whatever its
`cache` argument and whatever the tables hold. -/
theorem SQLRoomRepository.GetRoom_cached (db : SqlDb) (userId : Int) (roomId : String)
    (allData useCache : Bool) (view : Room)
    (h : GetCachedRoom db.cache (roomCacheKey roomId userId allData) = some view) :
    SQLRoomRepository.GetRoom db userId roomId allData useCache = (db, .ok (some view)) := by
  simp only [SQLRoomRepository.GetRoom, h]

/-- The wide-column `GetRoom`, called without the cache, leaves the store as it
is and answers the same whatever the cache holds. -/
theorem ScyllaRoomRepository.GetRoom_without_cache (env : ScyllaEnv) (db : ScyllaDb)
    (userId : Int) (roomId : String) (allData : Bool) (cache : RoomCache) :
    (ScyllaRoomRepository.GetRoom env db userId roomId allData false).1 = db ∧
    (ScyllaRoomRepository.GetRoom env { db with cache := cache } userId roomId allData false).2
      = (ScyllaRoomRepository.GetRoom env db userId roomId allData false).2 := by
  have hp : ScyllaRoomRepository.GetRoomParticipants env { db with cache := cache } roomId 0
      = ScyllaRoomRepository.GetRoomParticipants env db roomId 0 :=
    ScyllaRoomRepository.GetRoomParticipants_congr env db { db with cache := cache } roomId 0 rfl
  constructor
  · simp only [ScyllaRoomRepository.GetRoom, Bool.false_eq_true, if_false]
    split
    · rfl
    · split
      · rfl
      · split <;> rfl
  · simp only [ScyllaRoomRepository.GetRoom, Bool.false_eq_true, if_false, hp]
    split
    · rfl
    · split
      · rfl
      · split <;> rfl

/-- C24: the relational `GetRoom` consults and fills the cache when it is called
with `cache = false`. User 3 reads the p2p room with user 7 through the cache,
and user 7 is then renamed Bob. `GetRoom` with `cache = false`, the call of the
`GetRoom` handler, still answers the cached view, named Bo, where the tables
give the name Bob; and on a store with an empty cache the same call leaves the
view in the cache. The wide-column `GetRoom` with `useCache = false` does
neither. -/
theorem SQLRoomRepository_GetRoom_ignores_cache_flag :
    ((SQLRoomRepository.GetRoom sqlCachedThenRenamed 3 "room-1" true false).2.bind fun room =>
        .ok (room.map fun r => (r.name, r.partner.map fun p => p.name)))
      = .ok (some ("Bo", some "Bo")) ∧
    ((SQLRoomRepository.GetRoom { sqlCachedThenRenamed with cache := [] } 3 "room-1" true
        false).2.bind fun room =>
        .ok (room.map fun r => (r.name, r.partner.map fun p => p.name)))
      = .ok (some ("Bob", some "Bob")) ∧
    sqlAfterCreate.cache = [] ∧
    ((SQLRoomRepository.GetRoom sqlAfterCreate 3 "room-1" true false).1.cache.map fun kv => kv.1)
      = ["endpoint:chat:room:\x7broom-1\x7d:members", "endpoint:chat:room:\x7broom-1\x7d:user:3"] ∧
    (ScyllaRoomRepository.GetRoom demoScyllaEnv scyllaAfterCreate 3 "room-1" true false).1.cache
      = [] := by
  decide

/-! ## Initial sync -/

/-- The filter `rn <= n` keeps at most `n` rows of a room, the rows seen before
counted in. -/
theorem SQLRoomRepository.firstPerRoom_count (n : Nat) (roomId : String)
    (seen rows : List (SqlMessageRow × SqlUserRow × Option SqlMessageMetaRow)) :
    ((SQLRoomRepository.firstPerRoom n seen rows).filter fun r => r.1.roomId = roomId).length
      ≤ n - (seen.filter fun s => s.1.roomId = roomId).length := by
  induction rows generalizing seen with
  | nil => simp [SQLRoomRepository.firstPerRoom]
  | cons row rest ih =>
    unfold SQLRoomRepository.firstPerRoom
    have h := ih (row :: seen)
    by_cases hroom : row.1.roomId = roomId
    · have hseen : ((row :: seen).filter fun s => s.1.roomId = roomId).length
          = (seen.filter fun s => s.1.roomId = roomId).length + 1 := by
        rw [List.filter_cons_of_pos (by simpa using hroom), List.length_cons]
      rw [hseen] at h
      split
      · rename_i hle
        rw [hroom] at hle
        rw [List.filter_cons_of_pos (by simpa using hroom), List.length_cons]
        omega
      · omega
    · have hseen : ((row :: seen).filter fun s => s.1.roomId = roomId).length
          = (seen.filter fun s => s.1.roomId = roomId).length := by
        rw [List.filter_cons_of_neg (by simpa using hroom)]
      rw [hseen] at h
      split
      · rw [List.filter_cons_of_neg (by simpa using hroom)]
        exact h
      · exact h

/-- In the relational repository, the request that `InitialSync` makes, with a
timestamp `T` that the store reads as `t` and `messagesPerRoom = N > 0`, is
answered with messages that were updated after `t`, at most `N` of each room. -/
theorem SQLRoomRepository.GetMessagesFromRoom_sync (env : SqlEnv) (db : SqlDb) (userId : Int)
    (T : String) (t N : Nat) (hT : T ≠ "") (hparse : env.parseTimestamp T = some t)
    (hN : N > 0) :
    ∃ messages,
      SQLRoomRepository.GetMessagesFromRoom env db userId
        { afterDate := some T, messagesPerRoom := N } = .ok messages ∧
      (∀ m ∈ messages, ∃ u, u > t ∧ m.updatedAt = env.timestampText u) ∧
      (∀ roomId, (messages.filter fun m => m.roomId = roomId).length ≤ N) := by
  have hN0 : ¬ N = 0 := by omega
  simp only [SQLRoomRepository.GetMessagesFromRoom, Outcome.bind, hT, hparse, ne_eq,
    not_false_eq_true, if_true, hN, hN0, and_false, if_false]
  refine ⟨_, rfl, ?_, ?_⟩
  · intro m hm
    simp only [List.mem_map] at hm
    obtain ⟨row, hrow, rfl⟩ := hm
    have h1 := (SQLRoomRepository.firstPerRoom_sublist _ _ _).subset hrow
    rw [(List.perm_insertionSort _ _).mem_iff] at h1
    have h2 := (List.mem_filter.mp h1).2
    simp only [Bool.and_eq_true, decide_eq_true_eq] at h2
    exact ⟨row.1.updatedAt, h2.1.2, rfl⟩
  · intro roomId
    have h := SQLRoomRepository.firstPerRoom_count N roomId []
      (((SQLRoomRepository.messageRows db userId).filter fun row =>
        decide (("" : String) = "" ∨ row.1.roomId = "") && true && true &&
          decide (row.1.updatedAt > t) && true).insertionSort
            fun a b => a.1.createdAt ≥ b.1.createdAt)
    simp only [List.filter_nil, List.length_nil, Nat.sub_zero] at h
    rw [List.filter_map, List.length_map]
    exact h

/-- A reply of `InitialSync` holds the three lists that the repository gave and,
as counts, their lengths as `int32`, which are the lengths when these are
below 2^31. -/
theorem handlerImpl.InitialSync_summary {σ : Type} (repo : SyncRepository σ)
    (nowString : String) (st : HandlerState σ) (req : Request InitialSyncRequest)
    (resp : InitialSyncResponse)
    (h : (handlerImpl.InitialSync repo nowString st req).2 = .ok resp) :
    resp.summary.roomsSynced = toInt32 resp.rooms.length ∧
    resp.summary.roomsDeleted = toInt32 resp.roomsDeleted.length ∧
    resp.summary.messagesSynced = toInt32 resp.messages.length ∧
    (resp.rooms.length < 2147483648 → resp.summary.roomsSynced = resp.rooms.length) ∧
    (resp.roomsDeleted.length < 2147483648 →
      resp.summary.roomsDeleted = resp.roomsDeleted.length) ∧
    (resp.messages.length < 2147483648 → resp.summary.messagesSynced = resp.messages.length) := by
  have key : resp.summary.roomsSynced = toInt32 resp.rooms.length ∧
      resp.summary.roomsDeleted = toInt32 resp.roomsDeleted.length ∧
      resp.summary.messagesSynced = toInt32 resp.messages.length := by
    revert h
    unfold handlerImpl.InitialSync
    split
    · intro h; cases h
    · simp only []
      split
      · intro h; cases h
      · intro h; cases h
      · split
        · intro h; cases h
        · intro h; cases h
        · split
          · intro h; cases h
          · intro h; cases h
          · intro h
            simp only [Reply.ok.injEq] at h
            subst h
            exact ⟨rfl, rfl, rfl⟩
  have small : ∀ n : Nat, n < 2147483648 → toInt32 (n : Int) = n := by
    intro n hn
    unfold toInt32
    omega
  obtain ⟨h1, h2, h3⟩ := key
  exact ⟨h1, h2, h3, fun hl => by rw [h1, small _ hl], fun hl => by rw [h2, small _ hl],
    fun hl => by rw [h3, small _ hl]⟩

/-- In the wide-column repository, a request for the messages of all rooms is
answered the same with and without a date. -/
theorem ScyllaRoomRepository.GetMessagesFromRoom_dates (env : ScyllaEnv) (db : ScyllaDb)
    (userId : Int) (afterDate beforeDate : Option String) (N limit : Nat) :
    ScyllaRoomRepository.GetMessagesFromRoom env db userId
        { afterDate := afterDate, beforeDate := beforeDate, messagesPerRoom := N,
          limit := limit }
      = ScyllaRoomRepository.GetMessagesFromRoom env db userId
          { messagesPerRoom := N, limit := limit } := rfl

/-- C25: over the wide-column repository, `InitialSync` does not keep to the
timestamp. User 7 sent `msg-1` at time 1 to the p2p room with user 3 and nothing
happened since. `InitialSync` of user 3 with `lastSyncTimestamp` the time 5 and
`messagesPerRoom = 20` returns the message, with its time of creation 1 and an
empty `updatedAt`; the counts of the summary are the lengths of the lists. The
relational `GetMessagesFromRoom` answers the same request on a store with three
messages sent at the times 1, 2 and 3 with no message. -/
theorem handlerImpl_InitialSync_wide_ignores_timestamp :
    (handlerImpl.InitialSync (scyllaSyncRepository demoScyllaEnv demoScyllaEnv.parseRFC3339Nano)
        "t9" { repo := scyllaOneMessage }
        (demoRequestOf 3 { lastSyncTimestamp := "t5", messagesPerRoom := 20 })).2
      = .ok
        { rooms := [{ id := "room-1", type := "p2p", role := "OWNER", lastMessageAt := "t1" }],
          roomsDeleted := [],
          messages :=
            [{ id := "msg-1", senderId := 7, senderName := "Bo", content := "c1",
               type := "user_message", status := .DELIVERED, createdAt := "t1",
               updatedAt := "" }],
          syncTimestamp := "t9",
          summary := { roomsSynced := 1, roomsDeleted := 0, messagesSynced := 1 } } ∧
    demoScyllaEnv.parseRFC3339Nano "t5" = some 5 ∧
    (scyllaOneMessage.messagesByRoom.map fun m => m.createdAt) = [1] ∧
    SQLRoomRepository.GetMessagesFromRoom demoSqlEnv sqlThreeMessages 3
      { afterDate := some "t5", messagesPerRoom := toUint32 20 } = .ok [] := by
  decide

/-! ## Events of a new room -/

/-- The events published for the listed items leave the notifications alone. -/
theorem handlerImpl.publish_foldl_notifications {σ α : Type} (generalParams : GeneralParams)
    (roomID : String) (event : α → MessageEvent) (items : List α) (st : HandlerState σ) :
    (items.foldl (fun st item =>
      handlerImpl.publishChatEvent st generalParams roomID (event item)) st).notifications
      = st.notifications := by
  induction items generalizing st with
  | nil => rfl
  | cons item rest ih =>
    simp only [List.foldl_cons]
    rw [ih]
    rfl

/-- The chat events after the events published for the listed items. -/
theorem handlerImpl.publish_foldl_chatEvents {σ α : Type} (generalParams : GeneralParams)
    (roomID : String) (event : α → MessageEvent) (items : List α) (st : HandlerState σ) :
    chatEvents (items.foldl (fun st item =>
      handlerImpl.publishChatEvent st generalParams roomID (event item)) st).dispatched
      = chatEvents st.dispatched ++
        items.map fun item => handlerImpl.publishedEvent generalParams roomID (event item) := by
  induction items generalizing st with
  | nil => simp
  | cons item rest ih =>
    simp only [List.foldl_cons, List.map_cons]
    rw [ih, chatEvents_publishChatEvent, List.append_assoc]
    rfl

/-- Every successful `CreateRoom` publishes one `RoomJoin` event for each entry of
the request's participant list, in order, and then one for the caller; for a
group it asks for the topic subscription of the request's participants followed
by the caller twice. -/
theorem handlerImpl.CreateRoom_events {σ : Type} (repo : RoomsRepository σ)
    (joinedAt : String) (st st' : HandlerState σ) (req : Request CreateRoomRequest)
    (userID : Int) (room : Room) (hsession : req.session = some userID)
    (hok : handlerImpl.CreateRoom repo joinedAt st req = (st', .ok room)) :
    ((chatEvents st'.dispatched).map fun e => e.event.event)
      = ((chatEvents st.dispatched).map fun e => e.event.event) ++
        ((req.msg.participants ++ [toInt32 userID]).map fun id =>
          EventDetail.RoomJoin id joinedAt (toInt32 userID)) ∧
    (room.type = "group" →
      st'.notifications = st.notifications ++
        [.SubscribeToTopic ("room-" ++ room.id)
          (req.msg.participants ++ [toInt32 userID, toInt32 userID])]) := by
  revert hok
  simp only [handlerImpl.CreateRoom, ValidateAuthToken, hsession]
  split
  · intro h; cases h
  split
  · intro h; cases h
  split
  · intro h; cases h
  split
  · intro h; cases h
  · intro h; cases h
  · intro h; cases h
  · rename_i created hc
    intro h
    simp only [Prod.mk.injEq, Reply.ok.injEq] at h
    obtain ⟨hst, hroom⟩ := h
    subst hst
    constructor
    · split
      · simp only []
        rw [handlerImpl.publish_foldl_chatEvents]
        simp [List.map_append, handlerImpl.publishedEvent]
      · rw [handlerImpl.publish_foldl_chatEvents]
        simp [List.map_append, handlerImpl.publishedEvent]
    · intro hg
      have hty : (FormatRoom created).type = "group" := by rw [← hroom] at hg; exact hg
      have hid : room.id = (FormatRoom created).id := by rw [← hroom]
      rw [if_pos hty]
      simp only []
      rw [handlerImpl.publish_foldl_notifications, hid]
      simp

/-- C26: the subscription request of a new group lists the creator twice, and a
participant list that names a user twice, or names the creator, gets the user
more than one `RoomJoin` event. User 3 creates the group `room-5` with the users
7 and 9: the three join events go out on the three direct subjects, and the
topic `room-room-5` is asked for the users 7, 9, 3, 3. User 3 creates it with
the participant list 7, 3: the room has the members 3 and 7, and the join
events are for 7, 3 and 3. -/
theorem handlerImpl_CreateRoom_duplicate_ids :
    ((chatEvents (handlerImpl.CreateRoom
      (sqlRoomsRepository demoSqlEnv { newRoomId := "room-5", encryptionData := "key-5" }) "now"
      { repo := demoSqlUsers }
      (demoRequestOf 3 { type := "group", participants := [7, 9],
                         name := some "G" })).1.dispatched).map
        fun e => (e.Subject, e.event.event))
      = [("CHAT_DIRECT_EVENTS.7", .RoomJoin 7 "now" 3),
         ("CHAT_DIRECT_EVENTS.9", .RoomJoin 9 "now" 3),
         ("CHAT_DIRECT_EVENTS.3", .RoomJoin 3 "now" 3)] ∧
    (handlerImpl.CreateRoom
      (sqlRoomsRepository demoSqlEnv { newRoomId := "room-5", encryptionData := "key-5" }) "now"
      { repo := demoSqlUsers }
      (demoRequestOf 3 { type := "group", participants := [7, 9],
                         name := some "G" })).1.notifications
      = [.SubscribeToTopic "room-room-5" [7, 9, 3, 3]] ∧
    (handlerImpl.CreateRoom
      (sqlRoomsRepository demoSqlEnv { newRoomId := "room-5", encryptionData := "key-5" }) "now"
      { repo := demoSqlUsers }
      (demoRequestOf 3 { type := "group", participants := [7, 3],
                         name := some "G" })).1.repo.activeMembers "room-5" = [3, 7] ∧
    ((chatEvents (handlerImpl.CreateRoom
      (sqlRoomsRepository demoSqlEnv { newRoomId := "room-5", encryptionData := "key-5" }) "now"
      { repo := demoSqlUsers }
      (demoRequestOf 3 { type := "group", participants := [7, 3],
                         name := some "G" })).1.dispatched).map
        fun e => (e.Subject, e.event.event))
      = [("CHAT_DIRECT_EVENTS.7", .RoomJoin 7 "now" 3),
         ("CHAT_DIRECT_EVENTS.3", .RoomJoin 3 "now" 3),
         ("CHAT_DIRECT_EVENTS.3", .RoomJoin 3 "now" 3)] := by
  decide

/-! ## Metas of a new message -/

/-- With fuel for the values left, the batches of the loop from index `i` on make
up the values from `i` on, each batch holds between 1 and 100 values, and more
fuel changes nothing. -/
theorem SQLRoomRepository.metaBatchesFrom_spec (values : List MetaValue) :
    ∀ (fuel i : Nat), values.length - i ≤ fuel →
      (SQLRoomRepository.metaBatchesFrom fuel values i).flatten = values.drop i ∧
      (∀ batch ∈ SQLRoomRepository.metaBatchesFrom fuel values i,
        0 < batch.length ∧ batch.length ≤ 100) ∧
      (∀ more, SQLRoomRepository.metaBatchesFrom (fuel + more) values i
        = SQLRoomRepository.metaBatchesFrom fuel values i) := by
  intro fuel
  induction fuel with
  | zero =>
    intro i h
    have hle : values.length ≤ i := by omega
    refine ⟨?_, ?_, ?_⟩
    · simp [SQLRoomRepository.metaBatchesFrom, List.drop_eq_nil_of_le hle]
    · intro batch hb
      simp [SQLRoomRepository.metaBatchesFrom] at hb
    · intro more
      cases more with
      | zero => rfl
      | succ more =>
        simp only [Nat.zero_add, SQLRoomRepository.metaBatchesFrom, if_neg (Nat.not_lt.mpr hle)]
  | succ fuel ih =>
    intro i h
    by_cases hi : i < values.length
    · obtain ⟨h1, h2, h3⟩ := ih (i + 100) (by omega)
      have hk : min (i + 100) values.length - i = min 100 (values.length - i) := by omega
      refine ⟨?_, ?_, ?_⟩
      · simp only [SQLRoomRepository.metaBatchesFrom, if_pos hi, List.flatten_cons, h1, hk]
        have hd : List.drop (i + 100) values = List.drop 100 (List.drop i values) := by
          rw [List.drop_drop, Nat.add_comm]
        rw [hd]
        have ht : List.take (min 100 (values.length - i)) (List.drop i values)
            = List.take 100 (List.drop i values) := by
          rw [← List.length_drop]
          rcases Nat.le_total 100 (List.drop i values).length with hl | hl
          · rw [Nat.min_eq_left hl]
          · rw [Nat.min_eq_right hl, List.take_length, List.take_of_length_le hl]
        rw [ht, List.take_append_drop]
      · intro batch hb
        simp only [SQLRoomRepository.metaBatchesFrom, if_pos hi, List.mem_cons] at hb
        rcases hb with rfl | hb
        · rw [hk, List.length_take, List.length_drop]
          omega
        · exact h2 batch hb
      · intro more
        have : fuel + 1 + more = (fuel + more) + 1 := by omega
        rw [this]
        simp only [SQLRoomRepository.metaBatchesFrom, if_pos hi, h3 more]
    · refine ⟨?_, ?_, ?_⟩
      · simp [SQLRoomRepository.metaBatchesFrom, if_neg hi,
          List.drop_eq_nil_of_le (Nat.not_lt.mp hi)]
      · intro batch hb
        simp [SQLRoomRepository.metaBatchesFrom, if_neg hi] at hb
      · intro more
        have : fuel + 1 + more = (fuel + more) + 1 := by omega
        rw [this]
        simp only [SQLRoomRepository.metaBatchesFrom, if_neg hi]

/-- The inserts of the batches, one after the other, add the metas of all their
values, in order, and touch no other table. -/
theorem SQLRoomRepository.insertMetaBatch_foldl (batches : List (List MetaValue)) (db : SqlDb) :
    (batches.foldl SQLRoomRepository.insertMetaBatch db)
      = { db with
          roomMessageMeta := db.roomMessageMeta ++
            batches.flatten.map fun v =>
              { messageId := v.messageID, userId := v.userID, readAt := none, isDeleted := false,
                isSenderBlocked := v.isBlocked } } := by
  induction batches generalizing db with
  | nil => simp
  | cons batch rest ih =>
    simp only [List.foldl_cons, ih, SQLRoomRepository.insertMetaBatch, List.flatten_cons,
      List.map_append, List.append_assoc]

/-- The scan loop of `GetRoomParticipants` on rows that all carry a role. -/
theorem SQLRoomRepository.scan_foldl (rows : List (SqlRoomMemberRow × SqlUserRow))
    (hrole : ∀ row ∈ rows, row.1.role ≠ none) (data : List RoomParticipant) :
    ∃ items : List RoomParticipant,
      rows.foldl (fun (acc : Outcome (List RoomParticipant)) row =>
        acc.bind fun data =>
          (SQLRoomRepository.scanParticipant row).bind fun item => .ok (data ++ [item]))
        (.ok data) = .ok (data ++ items) ∧
      items.map (fun p => p.id) = rows.map fun row => row.1.userId := by
  induction rows generalizing data with
  | nil => exact ⟨[], by simp, rfl⟩
  | cons row rest ih =>
    have hr := hrole row (List.mem_cons_self _ _)
    cases hrow : row.1.role with
    | none => exact absurd hrow hr
    | some role =>
      obtain ⟨items, h1, h2⟩ := ih (fun r hmem => hrole r (List.mem_cons_of_mem _ hmem))
        (data ++ [{ id := row.1.userId, role := role, name := row.2.name.getD "",
                    phone := row.2.phone.getD "", avatar := row.2.avatar.getD "" }])
      refine ⟨({ id := row.1.userId, role := role, name := row.2.name.getD "",
                 phone := row.2.phone.getD "", avatar := row.2.avatar.getD "" } :
                 RoomParticipant) :: items, ?_, ?_⟩
      · have hstep : ((Outcome.ok data : Outcome (List RoomParticipant)).bind fun d =>
            (SQLRoomRepository.scanParticipant row).bind fun item => Outcome.ok (d ++ [item]))
            = .ok (data ++ [{ id := row.1.userId, role := role, name := row.2.name.getD "",
                              phone := row.2.phone.getD "", avatar := row.2.avatar.getD "" }]) := by
          simp only [Outcome.bind, SQLRoomRepository.scanParticipant, hrow]
        simp only [List.foldl_cons]
        rw [hstep, h1, List.append_assoc]
        rfl
      · simp only [List.map_cons, h2]

/-- With one user row per id, the join of a membership with the users gives the
membership once when its user exists and is not removed, and not at all
otherwise. -/
theorem SQLRoomRepository.join_user_ids (users : List SqlUserRow) (m : SqlRoomMemberRow)
    (c : Prop) [Decidable c] (hkey : (users.map fun u => u.id).Nodup) :
    (((users.filter fun uu => m.userId = uu.id).flatMap fun uu =>
        if c ∧ uu.removed = false then [(m, uu)] else []).map fun row => row.1.userId)
      = if c ∧ users.any (fun uu => uu.id = m.userId ∧ uu.removed = false) = true
        then [m.userId] else [] := by
  induction users with
  | nil => simp
  | cons u rest ih =>
    simp only [List.map_cons, List.nodup_cons] at hkey
    obtain ⟨hnot, hrest⟩ := hkey
    by_cases hu : m.userId = u.id
    · have hnone : rest.filter (fun uu => m.userId = uu.id) = [] := by
        rw [List.filter_eq_nil_iff]
        intro uu huu h
        simp only [decide_eq_true_eq] at h
        exact hnot (List.mem_map.mpr ⟨uu, huu, by rw [← h, hu]⟩)
      have hany : rest.any (fun uu => uu.id = m.userId ∧ uu.removed = false) = false := by
        rw [List.any_eq_false]
        intro uu huu h
        simp only [decide_eq_true_eq] at h
        exact hnot (List.mem_map.mpr ⟨uu, huu, by rw [h.1, hu]⟩)
      rw [List.filter_cons_of_pos (by simpa using hu), hnone]
      simp only [List.flatMap_cons, List.flatMap_nil, List.append_nil, List.any_cons, hany,
        Bool.or_false, decide_eq_true_eq]
      by_cases hc : c ∧ u.removed = false
      · rw [if_pos hc, if_pos ⟨hc.1, hu.symm, hc.2⟩]
        rfl
      · rw [if_neg hc, if_neg (fun h => hc ⟨h.1, h.2.2⟩)]
        rfl
    · rw [List.filter_cons_of_neg (by simpa using hu), ih hrest]
      have : ¬ (u.id = m.userId ∧ u.removed = false) := fun h => hu h.1.symm
      simp only [List.any_cons, this, decide_False, Bool.false_or]

/-- With one user row per id, the rows of the query of `GetRoomParticipants` are
one per participant of the room, in the order of the memberships. -/
theorem SQLRoomRepository.participantRows_ids (db : SqlDb) (roomId : String)
    (hkey : (db.user.map fun u => u.id).Nodup) :
    (SQLRoomRepository.participantRows db roomId).map (fun row => row.1.userId)
      = db.participantIds roomId := by
  unfold SQLRoomRepository.participantRows SqlDb.participantIds
  rw [List.map_flatMap]
  have hstep : ∀ m : SqlRoomMemberRow,
      (((db.user.filter fun uu => m.userId = uu.id).flatMap fun uu =>
        if m.roomId = roomId ∧ m.removed = false ∧ uu.removed = false then [(m, uu)]
        else []).map fun row => row.1.userId)
      = if (m.roomId = roomId ∧ m.removed = false) ∧
          db.user.any (fun uu => uu.id = m.userId ∧ uu.removed = false) = true
        then [m.userId] else [] := by
    intro m
    rw [← SQLRoomRepository.join_user_ids db.user m (m.roomId = roomId ∧ m.removed = false) hkey]
    congr 2
    funext uu
    simp only [and_assoc]
  simp only [hstep]
  generalize db.roomMember = members
  induction members with
  | nil => rfl
  | cons m rest ih =>
    simp only [List.flatMap_cons, ih]
    by_cases hm : (m.roomId = roomId ∧ m.removed = false) ∧
        db.user.any (fun uu => uu.id = m.userId ∧ uu.removed = false) = true
    · rw [if_pos hm, List.filter_cons_of_pos (by simpa [and_assoc] using hm)]
      rfl
    · rw [if_neg hm, List.filter_cons_of_neg (by simpa [and_assoc] using hm)]
      rfl

/-- A row of the query of `GetRoomParticipants` is a membership of the room that
is not removed. -/
theorem SQLRoomRepository.participantRows_mem (db : SqlDb) (roomId : String)
    (row : SqlRoomMemberRow × SqlUserRow)
    (h : row ∈ SQLRoomRepository.participantRows db roomId) :
    row.1 ∈ db.roomMember ∧ row.1.roomId = roomId ∧ row.1.removed = false := by
  unfold SQLRoomRepository.participantRows at h
  simp only [List.mem_flatMap, List.mem_filter] at h
  obtain ⟨m, hm, uu, -, hrow⟩ := h
  split at hrow
  · rename_i hc
    simp only [List.mem_singleton] at hrow
    subst hrow
    exact ⟨hm, hc.1, hc.2.1⟩
  · cases hrow

/-- C27: in a store with one user row per id, in which the memberships of the
room that are not removed carry a role, the relational
`CreateMessageMetaForParticipants` reads as participants exactly the
participants that the tables give for the room, builds one value for each of
them other than the sender, and succeeds; its batches, put end to end, are
exactly these values, and each batch holds between 1 and 100 of them; the loop
ends by its own test within as many rounds as there are values (more fuel gives
the same batches); and the store gains one meta without `read_at` for each
participant other than the sender, nothing else being written. -/
theorem SQLRoomRepository_CreateMessageMetaForParticipants_members (db : SqlDb)
    (roomID messageID : String) (senderID : Int)
    (hkey : (db.user.map fun u => u.id).Nodup)
    (hrole : ∀ m ∈ db.roomMember, m.roomId = roomID → m.removed = false → m.role ≠ none) :
    ∃ participants : List RoomParticipant,
      SQLRoomRepository.GetRoomParticipants db roomID = .ok participants ∧
      participants.map (fun p => p.id) = db.participantIds roomID ∧
      SQLRoomRepository.metaValues participants messageID senderID
        = (((db.participantIds roomID).filter fun u => u ≠ senderID).map fun u =>
            { messageID := messageID, userID := u, isBlocked := false }) ∧
      (SQLRoomRepository.metaBatches
          (SQLRoomRepository.metaValues participants messageID senderID)).flatten
        = SQLRoomRepository.metaValues participants messageID senderID ∧
      (∀ batch ∈ SQLRoomRepository.metaBatches
          (SQLRoomRepository.metaValues participants messageID senderID),
        0 < batch.length ∧ batch.length ≤ 100) ∧
      (∀ more : Nat,
        SQLRoomRepository.metaBatchesFrom
            ((SQLRoomRepository.metaValues participants messageID senderID).length + more)
            (SQLRoomRepository.metaValues participants messageID senderID) 0
          = SQLRoomRepository.metaBatches
            (SQLRoomRepository.metaValues participants messageID senderID)) ∧
      SQLRoomRepository.CreateMessageMetaForParticipants db roomID messageID senderID
        = ({ db with
              roomMessageMeta := db.roomMessageMeta ++
                ((db.participantIds roomID).filter fun u => u ≠ senderID).map fun u =>
                  { messageId := messageID, userId := u, readAt := none } },
            .ok ()) := by
  obtain ⟨participants, hscan, hids⟩ := SQLRoomRepository.scan_foldl
    (SQLRoomRepository.participantRows db roomID)
    (fun row hrow => by
      obtain ⟨hm, hr, hrem⟩ := SQLRoomRepository.participantRows_mem db roomID row hrow
      exact hrole row.1 hm hr hrem) []
  rw [List.nil_append] at hscan
  rw [SQLRoomRepository.participantRows_ids db roomID hkey] at hids
  have hget : SQLRoomRepository.GetRoomParticipants db roomID = .ok participants := hscan
  have hvalues : SQLRoomRepository.metaValues participants messageID senderID
      = (((db.participantIds roomID).filter fun u => u ≠ senderID).map fun u =>
          ({ messageID := messageID, userID := u, isBlocked := false } : MetaValue)) := by
    rw [← hids, List.filter_map, List.map_map]
    rfl
  obtain ⟨h1, h2, h3⟩ := SQLRoomRepository.metaBatchesFrom_spec
    (SQLRoomRepository.metaValues participants messageID senderID)
    (SQLRoomRepository.metaValues participants messageID senderID).length 0 (by omega)
  rw [List.drop_zero] at h1
  refine ⟨participants, hget, hids, hvalues, h1, h2, h3, ?_⟩
  have hmap : ((SQLRoomRepository.metaValues participants messageID senderID).map fun v =>
        ({ messageId := v.messageID, userId := v.userID, readAt := none, isDeleted := false,
           isSenderBlocked := v.isBlocked } : SqlMessageMetaRow))
      = ((db.participantIds roomID).filter fun u => u ≠ senderID).map fun u =>
          { messageId := messageID, userId := u, readAt := none } := by
    rw [hvalues, List.map_map]
    rfl
  unfold SQLRoomRepository.CreateMessageMetaForParticipants
  rw [hget]
  simp only []
  split
  · rename_i hz
    have hnil : participants = [] := List.length_eq_zero.mp hz
    rw [← hids, hnil]
    simp
  · split
    · rename_i hz
      rw [← hmap, List.length_eq_zero.mp hz]
      simp
    · rw [SQLRoomRepository.insertMetaBatch_foldl]
      unfold SQLRoomRepository.metaBatches
      rw [h1, hmap]

/-- Witness for C27: in the group `room-2` of the users 3, 7 and 9, the metas of
the message `m1` of user 3 are one for user 7 and one for user 9. -/
theorem SQLRoomRepository_CreateMessageMetaForParticipants_members_witness :
    sqlGroupRoom.participantIds "room-2" = [3, 7, 9] ∧
    sqlGroupRoom.roomMessageMeta = [] ∧
    SQLRoomRepository.CreateMessageMetaForParticipants sqlGroupRoom "room-2" "m1" 3
      = ({ sqlGroupRoom with
            roomMessageMeta :=
              [{ messageId := "m1", userId := 7, readAt := none },
               { messageId := "m1", userId := 9, readAt := none }] },
          .ok ()) := by
  obtain ⟨participants, -, -, -, -, -, -, h⟩ :=
    SQLRoomRepository_CreateMessageMetaForParticipants_members sqlGroupRoom "room-2" "m1" 3
      (by decide) (by decide)
  refine ⟨by decide, by decide, ?_⟩
  rw [h]
  decide

/-- In a room of 102 members, the 101 values for a message of user 0 go out in
a batch of 100 and a batch of 1, and every member but the sender gets one meta
without `read_at`. -/
theorem SQLRoomRepository.CreateMessageMetaForParticipants_big_room :
    ((SQLRoomRepository.metaBatches
        ((List.range 101).map fun n =>
          { messageID := "m1", userID := (n : Int) + 1 })).map List.length) = [100, 1] ∧
    (SQLRoomRepository.CreateMessageMetaForParticipants sqlBigRoom "room-9" "m1" 0).2 = .ok () ∧
    ((SQLRoomRepository.CreateMessageMetaForParticipants sqlBigRoom "room-9" "m1"
        0).1.roomMessageMeta.map fun meta => (meta.messageId, meta.userId, meta.readAt))
      = (List.range 101).map fun n => ("m1", (n : Int) + 1, none) := by
  decide

/-! ## Published events -/

/-- C30: for an event passed to `publishChatEvent` with a non-empty `roomID`
argument, the event handed to the dispatcher has a non-empty room id: the
event's own room id when it is set, else the id of the attached room when there
is one with a non-empty id, else the `roomID` argument; it is handed over once,
after what was dispatched before. The session handler therefore does not stop at
its empty-room-id guard for it: a message, update, delete or room-leave event
published this way is forwarded to the client. -/
theorem handlerImpl_publishChatEvent_roomId (generalParams : GeneralParams) (roomID : String)
    (event : MessageEvent) (hroom : roomID ≠ "") :
    (handlerImpl.publishedEvent generalParams roomID event).event.roomId ≠ "" ∧
    (handlerImpl.publishedEvent generalParams roomID event).event.roomId
      = (if event.roomId ≠ "" then event.roomId
         else
           match event.room with
           | some room => if room.id ≠ "" then room.id else roomID
           | none => roomID) ∧
    (∀ (σ : Type) (st : HandlerState σ),
      (handlerImpl.publishChatEvent st generalParams roomID event).dispatched
        = st.dispatched ++ [.chat (handlerImpl.publishedEvent generalParams roomID event)]) ∧
    (∀ (env : SessionEnv) (client : Client) (s : SessionState) (subject : String),
      ((∃ id, event.event = .Message id) ∨ (∃ id, event.event = .UpdateMessage id) ∨
        (∃ id, event.event = .DeleteMessage id) ∨ (∃ users, event.event = .RoomLeave users)) →
      (handleJetStreamMessage env client s
        (decodedMsg subject (handlerImpl.publishedEvent generalParams roomID event).userID
          (handlerImpl.publishedEvent generalParams roomID event).event)).sent
        = s.sent ++ [(handlerImpl.publishedEvent generalParams roomID event).event]) := by
  have hval : (handlerImpl.publishedEvent generalParams roomID event).event.roomId
      = (if event.roomId ≠ "" then event.roomId
         else
           match event.room with
           | some room => if room.id ≠ "" then room.id else roomID
           | none => roomID) := by
    simp only [handlerImpl.publishedEvent]
    cases hr : event.room with
    | none =>
      simp only []
      by_cases h : event.roomId = ""
      · simp [h]
      · simp [h]
    | some room =>
      simp only []
      by_cases h : event.roomId = ""
      · simp only [h, if_true, ne_eq, not_true_eq_false, if_false]
        by_cases h2 : room.id = ""
        · simp [h2]
        · simp [h2]
      · simp [h]
  have hne : (handlerImpl.publishedEvent generalParams roomID event).event.roomId ≠ "" := by
    rw [hval]
    by_cases h : event.roomId = ""
    · simp only [h, ne_eq, not_true_eq_false, if_false]
      cases event.room with
      | none => exact hroom
      | some room =>
        simp only []
        by_cases h2 : room.id = ""
        · simpa [h2] using hroom
        · simp [h2]
    · simp [h]
  refine ⟨hne, hval, fun σ st => rfl, ?_⟩
  intro env client s subject hkind
  have hev : (handlerImpl.publishedEvent generalParams roomID event).event.event = event.event :=
    rfl
  generalize handlerImpl.publishedEvent generalParams roomID event = e at hne hev
  obtain ⟨roomID', userID', ev⟩ := e
  obtain ⟨eventId, roomId, room, detail⟩ := ev
  simp only at hne hev
  subst hev
  rcases hkind with ⟨id, h⟩ | ⟨id, h⟩ | ⟨id, h⟩ | ⟨users, h⟩
  · simp only [handleJetStreamMessage, decodedMsg, h, if_neg hne, sendEvent]
  · simp only [handleJetStreamMessage, decodedMsg, h, if_neg hne, sendEvent]
  · simp only [handleJetStreamMessage, decodedMsg, h, if_neg hne, sendEvent]
  · simp only [handleJetStreamMessage, decodedMsg, h, if_neg hne, sendEvent]
    split
    · split <;> rfl
    · rfl

/-- Witness for C30: the delete event that `DeleteMessage` builds carries no room
id; published for `room-2` it is dispatched with the room id `room-2`, and a
session forwards it. -/
theorem handlerImpl_publishChatEvent_roomId_witness :
    (handlerImpl.publishedEvent { sessionUserID := 9 } "room-2"
      { event := .DeleteMessage "m1" }).event.roomId = "room-2" ∧
    (handleJetStreamMessage demoSessionEnv demoClient {}
      (decodedMsg "CHAT_EVENTS.room-2" 9
        (handlerImpl.publishedEvent { sessionUserID := 9 } "room-2"
          { event := .DeleteMessage "m1" }).event)).sent
      = [{ roomId := "room-2", event := .DeleteMessage "m1" }] := by
  have h := handlerImpl_publishChatEvent_roomId { sessionUserID := 9 } "room-2"
    { event := .DeleteMessage "m1" } (by decide)
  refine ⟨by decide, ?_⟩
  have h4 := h.2.2.2 demoSessionEnv demoClient {} "CHAT_EVENTS.room-2"
    (Or.inr (Or.inr (Or.inl ⟨"m1", rfl⟩)))
  exact h4

end Chat
